import Mathlib

/-!
# Ultrasonic anemometer: echo time-of-flight extractor

A shallow embedding of the leaf routines of `anemometer_shapematch.c`
(zero-crossing interpolation, turning-point and peak capture, shape matching,
normalisation, band-pass filter, history ring), of the calibration
(`calibration2`, `get_pulse_offset`) and of the measurement cycle of
`thread_anemometer`, together with theorems about them.

Conventions of the embedding.

* A C `float` holding a finite value is an exact rational `ℚ`.  The routines are
  given in exact arithmetic; where a statement depends on the rounding of the
  `float` operations the routine is given a second time with every operation
  rounded to binary32 or binary64 (suffix `_f32`, rounding `f32` and `f64`).
  Overflow of the formats is not modelled.  A `float` that may be the
  result of a division by zero (`0/0` is NaN, `x/0` is infinite) is an
  `Option ℚ`, `none` standing for a non-finite value.
* A `float*` argument is the function from offsets (relative to the pointer) to
  the values stored there.  Offsets are `Int` where the C code indexes with a
  signed `int` (and may reach before the pointer), `Nat` where it indexes with
  a `uint32_t`.  A write is `Function.update`.
* `int` arithmetic is arithmetic on `Int` (signed overflow is undefined in C);
  conversions between `int` and `uint32_t` are explicit (`toU32`, `toI32`).
* A `for` loop is a structurally recursive function on the number of iterations
  left, carrying the loop variables; `break` and `return` end the recursion.
* The library functions `sqrtf` and `atan2f` are parameters of the cycle; what
  a theorem needs of them is a hypothesis of the theorem.
* A bound on the indices a routine touches is stated on a copy of the routine
  (`match_shape_log`, `capture_peaks_log`) that returns, next to the result, the
  indices it reads and writes, one entry per access of the source in program
  order; the copy is proved to compute what the routine computes.
-/

namespace Anemometer

/-! ## Machine integers -/

/-- Conversion of an `int` to `uint32_t`: reduction modulo `2^32`. -/
def toU32 (x : Int) : Nat := (x % 4294967296).toNat

/-- Conversion of a `uint32_t` to `int` (two's complement). -/
def toI32 (n : Nat) : Int :=
  if n % 4294967296 < 2147483648 then ((n % 4294967296 : Nat) : Int)
  else ((n % 4294967296 : Nat) : Int) - 4294967296

/-! ## Constants (lines 79-92 of the source) -/

def ZEROCROSS_LEN : Nat := 6
def PEAK_LEFT : Int := 8
def PEAK_MAIN : Int := PEAK_LEFT
def PEAK_RIGHT : Int := 8
def PEAK_LEN : Int := PEAK_LEFT + PEAK_RIGHT + 1
def PEAK_ZC : Int := 5
def MINI_PEAK_DISTANCE : Int := 5
def MSE_RANGE : Int := 9

/-- The macro `IS_SIGN_DIFF(a, b) = !(signbit(a) == signbit(b))`; the sign bit of
a rational is set exactly when it is negative. -/
def IS_SIGN_DIFF (a b : ℚ) : Bool := !(decide (a < 0) == decide (b < 0))

/-- The local macro `IS_SIGN_DIFF_NO_ZERO(a, b) = (a*b < 0)`. -/
def IS_SIGN_DIFF_NO_ZERO (a b : ℚ) : Bool := decide (a * b < 0)

/-- Modelled from the spec: the macro `MAX` is not defined in the source file (it
comes from a system header); the spec reads it as the maximum of two values,
`((a) > (b) ? (a) : (b))`. -/
def MAX (a b : ℚ) : ℚ := if a > b then a else b

/-- Float division `a / b`: a finite quotient when `b ≠ 0`, otherwise a
non-finite value (NaN for `0/0`, an infinity for `x/0`). -/
def fdiv (a b : ℚ) : Option ℚ := if b = 0 then none else some (a / b)

/-- Float comparison `a < b`, false as soon as one side is NaN. -/
def flt (a b : Option ℚ) : Bool :=
  match a, b with
  | some x, some y => decide (x < y)
  | _, _ => false

/-! ## `argmaxf`, `arg_minf` (lines 138-173) -/

/-- Loop of `argmaxf`: `n` iterations left, index `i`, running `max` and `arg`. -/
def argmaxf_loop (sig : Int → ℚ) : Nat → Nat → ℚ → Nat → Nat
  | 0, _, _, arg => arg
  | n + 1, i, max, arg =>
    if sig (i : Int) > max then argmaxf_loop sig n (i + 1) (sig (i : Int)) i
    else argmaxf_loop sig n (i + 1) max arg

/-- The function `argmaxf(sig, len)`: the loop index is a `uint32_t`, so `len` is
compared as an unsigned number, and the `uint32_t` result is returned as
`int32_t`. -/
def argmaxf (sig : Int → ℚ) (len : Int) : Int :=
  toI32 (argmaxf_loop sig (toU32 len) 0 (sig 0) 0)

/-- Loop of `arg_minf`: `n` iterations left, index `i`, running `min` and `arg`. -/
def arg_minf_loop (sig : Int → Option ℚ) : Nat → Nat → Option ℚ → Nat → Nat
  | 0, _, _, arg => arg
  | n + 1, i, min, arg =>
    if flt (sig (i : Int)) min then arg_minf_loop sig n (i + 1) (sig (i : Int)) i
    else arg_minf_loop sig n (i + 1) min arg

/-- The function `arg_minf(sig, len)` on an array that may hold NaN. -/
def arg_minf (sig : Int → Option ℚ) (len : Int) : Int :=
  toI32 (arg_minf_loop sig (toU32 len) 0 (sig 0) 0)

/-! ## `normalize` (lines 175-183) -/

/-- Conversion of a `float` to `int`: truncation toward zero. -/
def truncToInt (x : ℚ) : Int := Int.tdiv x.num (x.den : Int)

/-- The C library function `int abs(int)`, the only `abs` declared by
`stdlib.h`; applied to a `float` the argument is first converted to `int`. -/
def c_abs (n : Int) : Int := if n < 0 then -n else n

/-- First loop of `normalize`: `max = MAX(abs(pattern[i]), max)`, `n` iterations
left, index `i`. -/
def normalize_max (pattern : Nat → ℚ) : Nat → Nat → ℚ → ℚ
  | 0, _, max => max
  | n + 1, i, max =>
    normalize_max pattern n (i + 1) (MAX ((c_abs (truncToInt (pattern i)) : Int) : ℚ) max)

/-- Second loop of `normalize`: `pattern[i] = pattern[i] / max`. -/
def normalize_div (max : ℚ) : Nat → Nat → (Nat → Option ℚ) → (Nat → Option ℚ)
  | 0, _, pattern => pattern
  | n + 1, i, pattern =>
    normalize_div max n (i + 1)
      (Function.update pattern i ((pattern i).bind (fun x => fdiv x max)))

/-- The function `normalize(pattern, len)`, on a buffer of finite samples; a
sample of the result is `none` when the division gave a non-finite value. -/
def normalize (pattern : Nat → ℚ) (len : Nat) : Nat → Option ℚ :=
  let max := normalize_max pattern len 0 0
  normalize_div max len 0 (fun i => some (pattern i))

/-! ## `linear_interpolation_zerocrossing` (lines 201-224) -/

/-- Loop of `linear_interpolation_zerocrossing`: `n` iterations left before `i`
reaches `sig_len - 1`, scan index `i`, crossings found `cross`, output `out`. -/
def zcLoop (sig : Nat → ℚ) (num_zero_cross : Nat) :
    Nat → Nat → Nat → (Nat → ℚ) → (Nat → ℚ) × Nat
  | 0, _, cross, out => (out, cross)
  | n + 1, i, cross, out =>
    if cross < num_zero_cross then
      if sig i = 0 then
        zcLoop sig num_zero_cross n (i + 1) (cross + 1) (Function.update out cross (i : ℚ))
      else if IS_SIGN_DIFF_NO_ZERO (sig i) (sig (i + 1)) then
        let a := sig (i + 1) - sig i
        let b := sig i
        let x := -b / a
        zcLoop sig num_zero_cross n (i + 1) (cross + 1)
          (Function.update out cross (x + (i : ℚ)))
      else
        zcLoop sig num_zero_cross n (i + 1) cross out
    else (out, cross)

/-- The function `linear_interpolation_zerocrossing(sig, sig_len, out,
num_zero_cross)`: the bound `sig_len - 1` is computed on `uint32_t`, the count is
returned as `int`.  Returns the output buffer and the count. -/
def linear_interpolation_zerocrossing (sig : Nat → ℚ) (sig_len : Nat) (out : Nat → ℚ)
    (num_zero_cross : Nat) : (Nat → ℚ) × Int :=
  let r := zcLoop sig num_zero_cross (toU32 ((sig_len : Int) - 1)) 0 0 out
  (r.1, toI32 r.2)

/-! ## Turning points (lines 235-262) -/

/-- Loop of `find_next_turning`: `n` iterations left, index `i`, `pre_dt`. -/
def find_next_turning_loop (sig : Int → ℚ) : Nat → Int → ℚ → Int
  | 0, _, _ => 0
  | n + 1, i, pre_dt =>
    let dt := sig (i + 1) - sig i
    if IS_SIGN_DIFF pre_dt dt then i
    else find_next_turning_loop sig n (i + 1) dt

/-- The function `find_next_turning(sig, len)`. -/
def find_next_turning (sig : Int → ℚ) (len : Int) : Int :=
  find_next_turning_loop sig (len - 1 - 3).toNat 3 (sig 3 - sig 2)

/-- Loop of `find_prev_turning`: `n` iterations left, index `i`, `pre_dt`. -/
def find_prev_turning_loop (p : Int → ℚ) : Nat → Int → ℚ → Int
  | 0, _, _ => 0
  | n + 1, i, pre_dt =>
    let dt := p (-i) - p (-i - 1)
    if IS_SIGN_DIFF pre_dt dt then -i
    else find_prev_turning_loop p n (i + 1) dt

/-- The function `find_prev_turning(sig, len)`; it reads before the pointer. -/
def find_prev_turning (sig : Int → ℚ) (len : Int) : Int :=
  find_prev_turning_loop sig (len - 1 - 3).toNat 3 (sig (-2) - sig (-3))

/-! ## `capture_peaks` (lines 298-359) -/

/-- A peak record `peaks[k]`: `(peaks[k][0], peaks[k][1])` = (position, amplitude). -/
abbrev Peak := ℚ × ℚ

/-- Local variables of `capture_peaks` that the two walks carry. -/
structure Walk where
  sig_idx : Int
  peak_idx : Int
  prev_peak : Int
  peak_detected_len : Int
  peaks : Int → Peak

/-- The address `&sig[k]` as a pointer of its own. -/
def shift (sig : Int → ℚ) (k : Int) : Int → ℚ := fun j => sig (k + j)

/-- The loop that scans for the peaks after the maximum (right), `n` iterations
left. -/
def walk_right (sig : Int → ℚ) (sig_len max_idx max_distance_right : Int) (threshold : ℚ) :
    Nat → Walk → Walk
  | 0, s => s
  | n + 1, s =>
    let turning_idx := find_next_turning (shift sig s.sig_idx) (sig_len - s.sig_idx)
    if turning_idx = 0 then s
    else
      let sig_idx := s.sig_idx + turning_idx
      if sig_idx > sig_len ∨ sig_idx - max_idx > max_distance_right then
        { s with sig_idx := sig_idx }
      else if |sig sig_idx| ≥ threshold ∧
          |((s.prev_peak - sig_idx : Int) : ℚ)| ≥ (MINI_PEAK_DISTANCE : ℚ) then
        walk_right sig sig_len max_idx max_distance_right threshold n
          { sig_idx := sig_idx
            peak_idx := s.peak_idx + 1
            prev_peak := sig_idx
            peak_detected_len := s.peak_detected_len + 1
            peaks := Function.update s.peaks s.peak_idx ((sig_idx : ℚ), sig sig_idx) }
      else
        walk_right sig sig_len max_idx max_distance_right threshold n
          { s with sig_idx := sig_idx }

/-- The loop that scans for the peaks before the maximum (left); the loop
variable `i` counts down from `peak_left_len - 1`, the argument is `i + 1`. -/
def walk_left (sig : Int → ℚ) (max_idx max_distance_left : Int) (threshold : ℚ) :
    Nat → Walk → Walk
  | 0, s => s
  | n + 1, s =>
    if s.peak_idx < 0 then s
    else
      let turning_idx := find_prev_turning (shift sig s.sig_idx) s.sig_idx
      if turning_idx = 0 then s
      else
        let sig_idx := s.sig_idx + turning_idx
        if max_idx - sig_idx > max_distance_left then
          { s with sig_idx := sig_idx }
        else if |sig sig_idx| ≥ threshold ∧
            |((s.prev_peak - sig_idx : Int) : ℚ)| ≥ (MINI_PEAK_DISTANCE : ℚ) then
          walk_left sig max_idx max_distance_left threshold n
            { sig_idx := sig_idx
              peak_idx := s.peak_idx - 1
              prev_peak := s.peak_idx - 1
              peak_detected_len := s.peak_detected_len + 1
              peaks := Function.update s.peaks s.peak_idx ((sig_idx : ℚ), sig sig_idx) }
        else
          walk_left sig max_idx max_distance_left threshold n
            { s with sig_idx := sig_idx }

/-- State of `capture_peaks` after the main peak is stored and the right walk is
set up (lines 300-317). -/
def capture_init (sig : Int → ℚ) (sig_len : Int) (peaks : Int → Peak)
    (peak_left_len : Int) : Walk :=
  let max_idx := argmaxf sig sig_len
  { sig_idx := max_idx
    peak_idx := peak_left_len + 1
    prev_peak := 0
    peak_detected_len := 1
    peaks := Function.update peaks peak_left_len ((max_idx : ℚ), sig max_idx) }

/-- State of `capture_peaks` after the right walk (line 335). -/
def capture_right (sig : Int → ℚ) (sig_len : Int) (peaks : Int → Peak)
    (peak_left_len peak_right_len : Int) (threshold : ℚ) : Walk :=
  let max_idx := argmaxf sig sig_len
  let max_distance_right := 25 * (peak_right_len + 2)
  let threshold := sig max_idx * threshold
  walk_right sig sig_len max_idx max_distance_right threshold peak_right_len.toNat
    (capture_init sig sig_len peaks peak_left_len)

/-- State of `capture_peaks` when it returns. -/
def capture_final (sig : Int → ℚ) (sig_len : Int) (peaks : Int → Peak)
    (peak_left_len peak_right_len : Int) (threshold : ℚ) : Walk :=
  let max_idx := argmaxf sig sig_len
  let max_distance_left := 25 * (peak_left_len + 2)
  let s := capture_right sig sig_len peaks peak_left_len peak_right_len threshold
  let threshold := sig max_idx * threshold
  walk_left sig max_idx max_distance_left threshold peak_left_len.toNat
    { s with sig_idx := max_idx, peak_idx := peak_left_len - 1 }

/-- The function `capture_peaks(sig, sig_len, peaks, peak_left_len,
peak_right_len, threshold)`: the buffer `peaks` after the call and the returned
number of detected peaks. -/
def capture_peaks (sig : Int → ℚ) (sig_len : Int) (peaks : Int → Peak)
    (peak_left_len peak_right_len : Int) (threshold : ℚ) : (Int → Peak) × Int :=
  let s := capture_final sig sig_len peaks peak_left_len peak_right_len threshold
  (s.peaks, s.peak_detected_len)

/-! ## `match_shape` (lines 432-455) -/

/-- Inner loop of `match_shape` for one offset: `n` iterations left, index `i`,
running `sum` and `count`. -/
def match_shape_inner (peaks1 peaks2 : Int → Peak) (off : Int) :
    Nat → Int → ℚ → ℚ → ℚ × ℚ
  | 0, _, sum, count => (sum, count)
  | n + 1, i, sum, count =>
    if (peaks1 i).1 ≠ 0 ∧ (peaks2 i).1 ≠ 0 then
      let v := (peaks1 i).2 - (peaks2 (i + off)).2
      match_shape_inner peaks1 peaks2 off n (i + 1) (sum + v * v) (count + 1)
    else
      match_shape_inner peaks1 peaks2 off n (i + 1) sum count

/-- Body of the outer loop of `match_shape`: the value stored for offset `off`. -/
def match_shape_entry (peaks1 peaks2 : Int → Peak) (len off : Int) : Option ℚ :=
  let start_idx := -off
  let stop_idx := len + off
  let start_idx := if start_idx < 0 then 0 else start_idx
  let stop_idx := if stop_idx > len then len - off else stop_idx
  let r := match_shape_inner peaks1 peaks2 off (stop_idx - start_idx).toNat start_idx 0 0
  fdiv r.1 r.2

/-- Outer loop of `match_shape`: `n` offsets left, current offset `off`. -/
def match_shape_outer (peaks1 peaks2 : Int → Peak) (len search_range : Int) :
    Nat → Int → (Int → Option ℚ) → (Int → Option ℚ)
  | 0, _, mse => mse
  | n + 1, off, mse =>
    match_shape_outer peaks1 peaks2 len search_range n (off + 1)
      (Function.update mse (off + Int.tdiv search_range 2)
        (match_shape_entry peaks1 peaks2 len off))

/-- The call `memset(mse, 0, sizeof(float)*n)`. -/
def memset_zero (mse : Int → Option ℚ) (n : Int) : Int → Option ℚ :=
  fun k => if 0 ≤ k ∧ k < n then some 0 else mse k

/-- The function `match_shape(peaks1, peaks2, len, mse, search_range)`: the buffer
`mse` after the call and the returned index.  C division of `int` truncates. -/
def match_shape (peaks1 peaks2 : Int → Peak) (len : Int) (mse : Int → Option ℚ)
    (search_range : Int) : (Int → Option ℚ) × Int :=
  let lo := Int.tdiv (-search_range) 2
  let hi := Int.tdiv search_range 2
  let mse := match_shape_outer peaks1 peaks2 len search_range (hi - lo + 1).toNat lo
    (memset_zero mse search_range)
  (mse, arg_minf mse search_range)

/-! ## Specification-side definitions -/

/-- Scan index `i` qualifies: `x[i] == 0` or `x[i]*x[i+1] < 0`. -/
def zc_qualifies (sig : Nat → ℚ) (i : Nat) : Bool :=
  decide (sig i = 0) || decide (sig i * sig (i + 1) < 0)

/-- The value emitted for a qualifying index `i`. -/
def zc_emission (sig : Nat → ℚ) (i : Nat) : ℚ :=
  if sig i = 0 then (i : ℚ) else (i : ℚ) + (-sig i) / (sig (i + 1) - sig i)

/-- The qualifying indices among `0, ..., sig_len - 2`, in scan order. -/
def zc_qualifying (sig : Nat → ℚ) (sig_len : Nat) : List Nat :=
  (List.range (sig_len - 1)).filter (zc_qualifies sig)

/-- The mean named by the contract of the shape matcher, for offset `Δ`: the mean
of `(R[i].amplitude - C[i+Δ].amplitude)^2` over the `i` with `0 ≤ i < P`,
`0 ≤ i+Δ < P`, `R[i].position ≠ 0` and `C[i+Δ].position ≠ 0` (NaN when there is
no such `i`). -/
def spec_pair_mse (R C : Int → Peak) (P Δ : Int) : Option ℚ :=
  let idx := (List.range P.toNat).filter (fun i =>
    decide (0 ≤ (i : Int) + Δ ∧ (i : Int) + Δ < P ∧ (R (i : Int)).1 ≠ 0 ∧ (C ((i : Int) + Δ)).1 ≠ 0))
  fdiv ((idx.map (fun i => ((R (i : Int)).2 - (C ((i : Int) + Δ)).2) ^ 2)).sum) (idx.length : ℚ)

/-- What a slot to the right of the main peak holds once the right walk wrote
it: a position `pos` at least 3 and at most `maxR` samples after `M`, not beyond
`sig_len - 2`, with the sample found there. -/
def RightSlot (sig : Int → ℚ) (sig_len M maxR L k : Int) (p : Peak) : Prop :=
  L < k ∧ ∃ pos : Int, p = ((pos : ℚ), sig pos) ∧ M + 3 ≤ pos ∧ pos ≤ sig_len - 2 ∧
    pos - M ≤ maxR

/-- What a slot to the left of the main peak holds once the left walk wrote it. -/
def LeftSlot (sig : Int → ℚ) (M maxL L k : Int) (p : Peak) : Prop :=
  k < L ∧ 0 ≤ k ∧ ∃ pos : Int, p = ((pos : ℚ), sig pos) ∧ 2 ≤ pos ∧ pos ≤ M - 3 ∧
    M - pos ≤ maxL

/-! ## Concrete inputs -/

/-- A signal buffer given by the list of its samples (zero elsewhere). -/
def sigOfList (l : List ℚ) : Int → ℚ := fun i => if i < 0 then 0 else l.getD i.toNat 0

/-- A peak buffer given by the list of its records (zero elsewhere). -/
def peaksOfList (l : List Peak) : Int → Peak :=
  fun i => if i < 0 then (0, 0) else l.getD i.toNat (0, 0)

/-- A zeroed peak buffer, as after `memset(shape, 0, sizeof(shape))`. -/
def zeroPeaks : Int → Peak := fun _ => (0, 0)

/-- A reference constellation with all 17 peaks present: positions `100 + 12 i`,
amplitudes of alternating sign under a triangular envelope. -/
def refShape : Int → Peak := peaksOfList
  [(100, 1/10), (112, -2/10), (124, 3/10), (136, -4/10), (148, 5/10), (160, -6/10),
   (172, 7/10), (184, -8/10), (196, 1), (208, -8/10), (220, 7/10), (232, -6/10),
   (244, 5/10), (256, -4/10), (268, 3/10), (280, -2/10), (292, 1/10)]

/-- The same constellation as `refShape` with the leftmost peak not detected
(slot 0 left zeroed). -/
def curShape : Int → Peak := peaksOfList
  [(0, 0), (112, -2/10), (124, 3/10), (136, -4/10), (148, 5/10), (160, -6/10),
   (172, 7/10), (184, -8/10), (196, 1), (208, -8/10), (220, 7/10), (232, -6/10),
   (244, 5/10), (256, -4/10), (268, 3/10), (280, -2/10), (292, 1/10)]

/-- A constellation of 17 peaks of constant magnitude and alternating sign. -/
def altShape : Int → Peak := fun i => (((100 + 12 * i : Int) : ℚ), (-1) ^ i.toNat)

/-- An uninitialised `mse` buffer. -/
def mseInit : Int → Option ℚ := fun _ => none

/-- A `uint32_t`-indexed signal buffer given by the list of its samples. -/
def natSigOfList (l : List ℚ) : Nat → ℚ := fun i => l.getD i 0

/-- A short signal with a sign change, an exact zero and a second sign change. -/
def zcSig : Nat → ℚ := natSigOfList [1, -1, 0, 2, -6]

/-- A zeroed output buffer, as `float zero_cross[ZEROCROSS_LEN] = {0}`. -/
def zcOut : Nat → ℚ := fun _ => 0

/-- A signal of 28 samples whose maximum 10 is at index 20, with extrema of
magnitude 5 every 3 samples on both sides of it (at 23 and at 17, 14, 11). -/
def closePeaksSig : Int → ℚ := sigOfList
  [6, 5, 4, 3, 2, 1, 0, -1, -2, -3, -4, -5, 0, 3, 5, 3, 0, -5, 0, 5, 10, 5, 0, -5, -4, -3, -2, -1]

/-- A signal of three samples whose largest magnitude 2.5 is not an integer. -/
def fracSig : Nat → ℚ := natSigOfList [5/2, -1, 1/2]

/-- A signal of two samples of magnitude below 1. -/
def smallSig : Nat → ℚ := natSigOfList [1/2, -1/4]

/-! ## `filter` (lines 504-515) -/

/-- The call `memset(y, 0, sizeof(float)*n)` on a buffer of finite samples. -/
def memset_zero_f (y : Int → ℚ) (n : Int) : Int → ℚ :=
  fun k => if 0 ≤ k ∧ k < n then 0 else y k

/-- Inner loop of `filter` for the output index `i`: `n` iterations left,
coefficient index `c`; the statement is
`y[i] += ba[c][0] + x[i-c] - ba[c][1] * y[i-c]`. -/
def filter_inner (x : Int → ℚ) (ba : Int → ℚ × ℚ) (i : Int) :
    Nat → Int → (Int → ℚ) → (Int → ℚ)
  | 0, _, y => y
  | n + 1, c, y =>
    filter_inner x ba i n (c + 1)
      (Function.update y i (y i + ((ba c).1 + x (i - c) - (ba c).2 * y (i - c))))

/-- Outer loop of `filter`: `n` iterations left, output index `i`; `k` is the
value of `orders*2+1`. -/
def filter_outer (x : Int → ℚ) (ba : Int → ℚ × ℚ) (k : Nat) :
    Nat → Int → (Int → ℚ) → (Int → ℚ)
  | 0, _, y => y
  | n + 1, i, y =>
    filter_outer x ba k n (i + 1) (filter_inner x ba i k 0 (Function.update y i 0))

/-- The function `filter(x, y, signal_len, ba, orders)`: the buffer `y` after the
call.  `orders*2+1` is computed on `uint32_t`. -/
def filter (x y : Int → ℚ) (signal_len : Nat) (ba : Int → ℚ × ℚ) (orders : Nat) : Int → ℚ :=
  let k := (orders * 2 + 1) % 4294967296
  filter_outer x ba k (signal_len - k) (k : Int) (memset_zero_f y (k : Int))

/-- The table `bp_coeff = COEFF_40K_10K_BP_1ORDER` (lines 99, 103); row `c` is
`(b[c], a[c])`. -/
def bp_coeff : Int → ℚ × ℚ := fun c =>
  if c = 0 then (304687 / 10000000, 1)
  else if c = 1 then (0, -18790705 / 10000000)
  else if c = 2 then (-304687 / 10000000, 9390625 / 10000000)
  else (0, 0)

/-- The constant `bp_coeff_order` (line 104): 3 rows of 2 floats, so
`sizeof(bp_coeff)/2/sizeof(float)/2 = 24/2/4/2 = 1`. -/
def bp_coeff_order : Nat := 1

/-! ## `speed_of_sound_from_T`, `average` (lines 542-553) -/

/-- The function `speed_of_sound_from_T(temperature)`; the library function
`sqrtf` is a parameter. -/
def speed_of_sound_from_T (sqrtf : ℚ → ℚ) (temperature : ℚ) : ℚ :=
  (2005 / 100) * sqrtf (temperature + 27315 / 100)

/-- Loop of `average`: `n` iterations left, index `i`, running `sum`. -/
def average_loop (sig : Int → ℚ) : Nat → Int → ℚ → ℚ
  | 0, _, sum => sum
  | n + 1, i, sum => average_loop sig n (i + 1) (sum + sig i)

/-- The function `average(sig, num)`; it is only called with `num = NUM_ZC_AVG`,
and the quotient is meant for `num ≠ 0`. -/
def average (sig : Int → ℚ) (num : Int) : ℚ :=
  average_loop sig num.toNat 0 0 / (num : ℚ)

/-! ## The history ring (lines 817-847) -/

/-- The type `ringbuffer_t`. -/
structure RingBuffer where
  buf : Int → ℚ
  idx : Int
  size : Int

/-- The function `ringbuffer_add(data, new)`: the ring after the call. -/
def ringbuffer_add (data : RingBuffer) (new : ℚ) : RingBuffer :=
  let buf := Function.update data.buf data.idx new
  let idx := data.idx + 1
  if idx ≥ data.size then { buf := buf, idx := 0, size := data.size }
  else { buf := buf, idx := idx, size := data.size }

/-- Loop of `ringbuffer_average`: `n` iterations left, index `i`, running `avg`. -/
def ringbuffer_sum (buf : Int → ℚ) : Nat → Int → ℚ → ℚ
  | 0, _, avg => avg
  | n + 1, i, avg => ringbuffer_sum buf n (i + 1) (avg + buf i)

/-- The function `ringbuffer_average(data)`; NaN (`none`) for `size = 0`. -/
def ringbuffer_average (data : RingBuffer) : Option ℚ :=
  fdiv (ringbuffer_sum data.buf data.size.toNat 0 0) (data.size : ℚ)

/-- Loop of `ringbuffer_max`: `n` iterations left, index `i`, running `max`. -/
def ringbuffer_max_loop (buf : Int → ℚ) : Nat → Int → ℚ → ℚ
  | 0, _, max => max
  | n + 1, i, max => ringbuffer_max_loop buf n (i + 1) (MAX max (buf i))

/-- The function `ringbuffer_max(data)`. -/
def ringbuffer_max (data : RingBuffer) : ℚ :=
  ringbuffer_max_loop data.buf (data.size - 1).toNat 1 (data.buf 0)

/-- The ring `wind_hist` as set up on lines 968-972: `idx = 0`, the first `size`
floats of the allocated block zeroed. -/
def wind_hist_init (mem : Int → ℚ) (size : Int) : RingBuffer :=
  { buf := memset_zero_f mem size, idx := 0, size := size }

/-! ## The measurement cycle of `thread_anemometer` (lines 987-1189) -/

def NORMAL : Int := 0
def ERR_MSE_NAN : Int := 1
def ERR_SHAPE_MISMATCH : Int := 2
def ERR_WINDSPEED : Int := 3

/-- Modelled from the spec: the channel identifiers `NORTH`, `SOUTH`, `EAST`,
`WEST` are declared in `drv_anemometer.h`, which is not part of the sources; the
spec fixes the order North, South, East, West of the array index. -/
def NORTH : Int := 0

/-- Modelled from the spec: see `NORTH`. -/
def SOUTH : Int := 1

/-- Modelled from the spec: see `NORTH`. -/
def EAST : Int := 2

/-- Modelled from the spec: see `NORTH`. -/
def WEST : Int := 3

def ADC_SAMPLE_LEN : Int := 1000

/-- The macro `DEADZONE_OFFSET`: `(int)(25 * 12.5) + 25` for the 25 entries of
`cpulse`. -/
def DEADZONE_OFFSET : Int := 337

def VALID_LEN : Int := ADC_SAMPLE_LEN - DEADZONE_OFFSET
def NUM_ZC_AVG : Int := 6

/-- The published record `anemometer`; `speed30savg` may be NaN. -/
structure Published where
  speed : ℚ
  course : ℚ
  soundspeed : ℚ
  speed30savg : Option ℚ
  speed30smax : ℚ
  err_code : Int

/-- What is fixed before the loop starts: geometry, configuration, calibration
results, and the two library functions the loop calls. -/
structure Setup where
  height : ℚ
  sin_a : ℚ
  cos_a : ℚ
  oversampling : Int
  ref_shape : Int → Int → Peak
  pulse_offset : Int → ℚ
  sqrtf : ℚ → ℚ
  atan2f : ℚ → ℚ → ℚ

/-- The variables of `thread_anemometer` that live from one cycle to the next,
with the published record and the history ring.  The locals `ns_v`, `ew_v`, `v`,
`c`, `course` are only logged and are left out, as is `last_dump`. -/
structure Loop where
  err_count : Nat
  oversampling_count : Int
  c_acc : ℚ
  ns_v_acc : ℚ
  ew_v_acc : ℚ
  mse_history : Int → Option ℚ
  c_history : ℚ
  est_c : ℚ
  anemometer : Published
  wind_hist : RingBuffer

/-- What the loop over the four channels carries: the smoothed MSE of each
channel, `err`, `is_data_correct` and the times of flight `dt`. -/
structure Chan where
  mse_history : Int → Option ℚ
  err : Int
  is_data_correct : Bool
  dt : Int → ℚ

/-- Result of the shape gate of one channel. -/
structure Gate where
  peak_off : Int
  mse_history : Option ℚ
  err : Int
  is_data_correct : Bool

/-- The update `0.9*mse_history + 0.1*mse[mini_mse]`, NaN as soon as one side is. -/
def smooth_mse (h m : Option ℚ) : Option ℚ :=
  match h, m with
  | some a, some b => some ((9 / 10) * a + (1 / 10) * b)
  | _, _ => none

/-- Lines 1029-1048 for one channel: match the shape, update the smoothed MSE,
the NaN gate and the shape-mismatch gate.  The local array `mse` is not
initialised; `match_shape` overwrites the nine entries it reads. -/
def shape_gate (ref shape : Int → Peak) (h : Option ℚ) (err : Int) (is_data_correct : Bool) :
    Gate :=
  let r := match_shape ref shape PEAK_LEN (fun _ => none) MSE_RANGE
  let mse := r.1
  let mini_mse := r.2
  let peak_off := mini_mse - Int.tdiv MSE_RANGE 2
  let h := smooth_mse h (mse mini_mse)
  let e1 := if (mse 0).isNone then ERR_MSE_NAN else err
  let ok1 := if (mse 0).isNone then false else is_data_correct
  if flt (h.map (fun a => a * 10)) (mse mini_mse) then
    { peak_off := peak_off, mse_history := h, err := ERR_SHAPE_MISMATCH,
      is_data_correct := false }
  else
    { peak_off := peak_off, mse_history := h, err := e1, is_data_correct := ok1 }

/-- The loop `zero_cross[j] += off + DEADZONE_OFFSET` (line 1067): `n` iterations
left, index `j`. -/
def add_offset_loop (d : ℚ) : Nat → Nat → (Nat → ℚ) → (Nat → ℚ)
  | 0, _, z => z
  | n + 1, j, z => add_offset_loop d n (j + 1) (Function.update z j (z j + d))

/-- The constellation of one channel (lines 1024-1026): `capture_peaks` on the
valid region of the conditioned buffer `sig`, into the zeroed array `shape`. -/
def channel_shape (sig : Int → ℚ) : Int → Peak :=
  (capture_peaks (shift sig DEADZONE_OFFSET) VALID_LEN zeroPeaks PEAK_LEFT PEAK_RIGHT (1 / 5)).1

/-- The anchor `off = shape[PEAK_ZC + peak_off][0]` of line 1063, converted to
`int`. -/
def channel_anchor (shape : Int → Peak) (peak_off : Int) : Int :=
  truncToInt (shape (PEAK_ZC + peak_off)).1

/-- The call of `linear_interpolation_zerocrossing` on line 1065, from
`&sig[DEADZONE_OFFSET + off]` over `VALID_LEN - off` samples into the zeroed
array `zero_cross`. -/
def channel_zc_call (sig : Int → ℚ) (off : Int) : (Nat → ℚ) × Int :=
  linear_interpolation_zerocrossing
    (fun n => sig (DEADZONE_OFFSET + off + (n : Int))) (toU32 (VALID_LEN - off))
    (fun _ => 0) ZEROCROSS_LEN

/-- The zero crossings of one channel in absolute sample indices (lines
1063-1068): the returned count is not used, and all `ZEROCROSS_LEN` entries are
shifted by `off + DEADZONE_OFFSET`. -/
def channel_zero_cross (sig : Int → ℚ) (shape : Int → Peak) (peak_off : Int) : Nat → ℚ :=
  let off := channel_anchor shape peak_off
  add_offset_loop (((off + DEADZONE_OFFSET : Int) : ℚ)) ZEROCROSS_LEN 0 (channel_zc_call sig off).1

/-- The shape gate of channel `idx` on its constellation (line 1033 on). -/
def channel_gate (P : Setup) (sig : Int → ℚ) (idx : Int) (st : Chan) : Gate :=
  shape_gate (P.ref_shape idx) (channel_shape sig) (st.mse_history idx) st.err
    st.is_data_correct

/-- The time of flight of one channel in microseconds (lines 1071-1072). -/
def channel_tof (sig : Int → ℚ) (shape : Int → Peak) (peak_off : Int) (pulse_offset : ℚ) : ℚ :=
  average (fun j => channel_zero_cross sig shape peak_off j.toNat) NUM_ZC_AVG + pulse_offset

/-- One iteration of the loop over the channels (lines 1011-1073), from the
conditioned buffer `sig` of the channel (the result of `preprocess`, `filter`
and `normalize`, 1000 finite samples). -/
def channel_step (P : Setup) (sig : Int → ℚ) (idx : Int) (st : Chan) : Chan :=
  let shape := channel_shape sig
  let g := channel_gate P sig idx st
  { mse_history := Function.update st.mse_history idx g.mse_history
    err := g.err
    is_data_correct := g.is_data_correct
    dt := Function.update st.dt idx (channel_tof sig shape g.peak_off (P.pulse_offset idx)) }

/-- The loop over the four channels: `n` iterations left, channel `idx`. -/
def channel_loop (P : Setup) (sigs : Int → Int → ℚ) : Nat → Int → Chan → Chan
  | 0, _, st => st
  | n + 1, idx, st => channel_loop P sigs n (idx + 1) (channel_step P (sigs idx) idx st)

/-- The arithmetic `atan2f(..)/3.1415926*180 + 180` applied to the value `a`
returned by `atan2f`. -/
def course_deg (a : ℚ) : ℚ := a / (31415926 / 10000000) * 180 + 180

/-- The label `cycle_end` (lines 1169-1185): the error code is published. -/
def cycle_end (s : Loop) (err : Int) : Loop :=
  { s with anemometer := { s.anemometer with err_code := err } }

/-- The block "data output" (lines 1129-1159) of an accepted cycle with wind
components `ns_v`, `ew_v` and sound speed `c`. -/
def data_output (P : Setup) (s : Loop) (ns_v ew_v c : ℚ) : Loop :=
  let c_acc := s.c_acc + c
  let ns_v_acc := s.ns_v_acc + ns_v
  let ew_v_acc := s.ew_v_acc + ew_v
  let oversampling_count := s.oversampling_count + 1
  if oversampling_count ≥ P.oversampling then
    let ns_v_acc := ns_v_acc / (oversampling_count : ℚ)
    let ew_v_acc := ew_v_acc / (oversampling_count : ℚ)
    let c_acc := c_acc / (oversampling_count : ℚ)
    let speed := P.sqrtf (ns_v_acc * ns_v_acc + ew_v_acc * ew_v_acc)
    let course := if speed ≥ 1 / 4 then course_deg (P.atan2f (-ew_v_acc) (-ns_v_acc)) else -1
    let wind_hist := ringbuffer_add s.wind_hist speed
    { s with
      anemometer :=
        { speed := speed
          course := course
          soundspeed := c_acc
          speed30savg := ringbuffer_average wind_hist
          speed30smax := ringbuffer_max wind_hist
          err_code := s.anemometer.err_code }
      wind_hist := wind_hist
      ns_v_acc := 0
      ew_v_acc := 0
      c_acc := 0
      oversampling_count := 0 }
  else
    { s with
      c_acc := c_acc
      ns_v_acc := ns_v_acc
      ew_v_acc := ew_v_acc
      oversampling_count := oversampling_count }

/-- The sound speed `c` of lines 1087-1100 from the four times of flight in
microseconds (finite arithmetic: the times and `sin_a` are not zero). -/
def sound_speed (P : Setup) (dt : Int → ℚ) : ℚ :=
  let ns_c := P.height / P.sin_a * (1 / (dt NORTH / 1000000) + 1 / (dt SOUTH / 1000000))
  let ew_c := P.height / P.sin_a * (1 / (dt EAST / 1000000) + 1 / (dt WEST / 1000000))
  (ns_c + ew_c) / 2

/-- The wind component of one axis (lines 1093-1094) from the two times of
flight in microseconds. -/
def axis_speed (P : Setup) (t_fwd t_bwd : ℚ) : ℚ :=
  P.height / (P.sin_a * P.cos_a) * (1 / (t_fwd / 1000000) - 1 / (t_bwd / 1000000))

/-- The hard plausibility check of line 1103: `270 > c || c > 365`. -/
def hard_check (c : ℚ) : Bool := decide (270 > c) || decide (c > 365)

/-- Lines 1077-1185: what a cycle does once the loop over the channels has left
`err`, `is_data_correct` and the times of flight `dt` (microseconds);
`temperature` is `air_info.temperature` when line 1119 reads it. -/
def cycle_tail (P : Setup) (s : Loop) (err : Int) (is_data_correct : Bool) (dt : Int → ℚ)
    (temperature : ℚ) : Loop :=
  if !is_data_correct then
    cycle_end { s with err_count := (s.err_count + 1) % 18446744073709551616 } err
  else
    let ns_v := axis_speed P (dt NORTH) (dt SOUTH)
    let ew_v := axis_speed P (dt EAST) (dt WEST)
    let c := sound_speed P dt
    if hard_check c then
      cycle_end s ERR_WINDSPEED
    else
      let c_history := if s.c_history = 0 then c else s.c_history
      let c_history := c_history * (9 / 10) + c * (1 / 10)
      let est_c := speed_of_sound_from_T P.sqrtf temperature
      if |est_c - c| > 10 ∨ |c - c_history| > 5 then
        cycle_end { s with
          c_history := c_history
          est_c := est_c
          err_count := (s.err_count + 1) % 18446744073709551616 } ERR_WINDSPEED
      else
        cycle_end (data_output P { s with c_history := c_history, est_c := est_c } ns_v ew_v c)
          NORMAL

/-- One enabled cycle of the loop of `thread_anemometer` (lines 993-1185), from
the conditioned buffers of the four channels. -/
def cycle (P : Setup) (s : Loop) (sigs : Int → Int → ℚ) (temperature : ℚ) : Loop :=
  let st := channel_loop P sigs 4 0
    { mse_history := s.mse_history, err := NORMAL, is_data_correct := true, dt := fun _ => 0 }
  cycle_tail P { s with mse_history := st.mse_history } st.err st.is_data_correct st.dt
    temperature

/-! ## Specification-side definitions for the controller -/

/-- The right-hand side of the direct-form difference equation at index `i`:
the sum over `c` in `0..2o` of `b[c]*x[i-c]` minus the sum over `c` in `1..2o` of
`a[c]*y[i-c]`. -/
def spec_filter_rhs (x y : Int → ℚ) (ba : Int → ℚ × ℚ) (o : Nat) (i : Int) : ℚ :=
  ((List.range (2 * o + 1)).map (fun c => (ba (c : Int)).1 * x (i - (c : Int)))).sum
    - ((List.range (2 * o)).map
        (fun c => (ba ((c : Int) + 1)).2 * y (i - ((c : Int) + 1)))).sum

/-- A sequence of pushes onto a ring, oldest first. -/
def ring_pushes (r : RingBuffer) (vs : List ℚ) : RingBuffer := vs.foldl ringbuffer_add r

/-- A sequence of accepted cycles: the block "data output" run once for each
triple `(vNS, vEW, c)`, oldest first. -/
def accepted_cycles (P : Setup) (s : Loop) (l : List (ℚ × ℚ × ℚ)) : Loop :=
  l.foldl (fun s x => data_output P s x.1 x.2.1 x.2.2) s

/-- The `float` nearest to π, `0x40490FDB = 13176795 / 2^22 = 3.14159274...`: the
largest magnitude `atan2f` returns. -/
def PI_F32 : ℚ := 13176795 / 4194304

/-! ## Invariants used in the proofs -/

/-- The window invariant of the ring: read from the write index onward, the
`size` slots hold the list `w`, oldest first. -/
def RingWindow (size : Int) (r : RingBuffer) (w : List ℚ) : Prop :=
  r.size = size ∧ 0 ≤ r.idx ∧ r.idx < size ∧ w.length = size.toNat ∧
  ∀ t : Nat, (t : Int) < size → r.buf ((r.idx + (t : Int)) % size) = w.getD t 0

/-- The smoothed MSE of a channel is NaN or non-negative. -/
def HistOK (h : Option ℚ) : Prop := h = none ∨ ∃ a : ℚ, 0 ≤ a ∧ h = some a

/-! ## Concrete inputs for the controller -/

/-- The values of `sqrtf` at the exact squares 0, 1, 182.25 and 289 (the
arguments the scenarios below pass to it); elsewhere 0. -/
def sqrtf_table (x : ℚ) : ℚ :=
  if x = 1 then 1 else if x = 729 / 4 then 27 / 2 else if x = 289 then 17 else 0

/-- The values of `atan2f` on the coordinate axes, `±π/2` and `π` rounded to
`float`; elsewhere 0. -/
def atan2f_table (y x : ℚ) : ℚ :=
  if y = 0 then (if x < 0 then PI_F32 else 0)
  else if x = 0 then (if y > 0 then PI_F32 / 2 else -(PI_F32 / 2))
  else 0

/-- A reference constellation with the main peak only. -/
def mainOnlyShape : Int → Peak := fun k => if k = 8 then (100, 1) else (0, 0)

/-- A setup with `height = 0.04`, `pitch = 0.06` (so `tan α = 4/3`,
`sin α = 4/5`, `cos α = 3/5`), oversampling `K`, the reference `mainOnlyShape`
and pulse offset `5000/17 - 337` on every channel. -/
def testSetup (K : Int) : Setup :=
  { height := 1 / 25
    sin_a := 4 / 5
    cos_a := 3 / 5
    oversampling := K
    ref_shape := fun _ => mainOnlyShape
    pulse_offset := fun _ => 5000 / 17 - 337
    sqrtf := sqrtf_table
    atan2f := atan2f_table }

/-- The loop variables as initialised on lines 968-986, with a history ring of
capacity 30 and the record `anemometer` zeroed. -/
def loopInit : Loop :=
  { err_count := 0
    oversampling_count := 0
    c_acc := 0
    ns_v_acc := 0
    ew_v_acc := 0
    mse_history := fun _ => some 0
    c_history := 0
    est_c := 0
    anemometer :=
      { speed := 0, course := 0, soundspeed := 0, speed30savg := some 0, speed30smax := 0,
        err_code := 0 }
    wind_hist := wind_hist_init (fun _ => 0) 30 }

/-- A conditioned buffer that is 1 at index `337 + 100` and 1/2 elsewhere: one
peak and no zero crossing. -/
def flatSig : Int → ℚ := fun i => if i = 437 then 1 else 1 / 2

/-- An input signal for `filter`: four samples equal to 1. -/
def onesSig : Int → ℚ := fun i => if 0 ≤ i ∧ i < 4 then 1 else 0

/-- The setup `testSetup 1` after a calibration that accepted no iteration: the
reference shape of every channel is all zero. -/
def uncalSetup : Setup := { testSetup 1 with ref_shape := fun _ => zeroPeaks }

/-- The variables of the loop over the channels when the loop starts, from
`loopInit`. -/
def chanInit : Chan :=
  { mse_history := loopInit.mse_history, err := NORMAL, is_data_correct := true,
    dt := fun _ => 0 }

/-! ## `get_pulse_offset` and the propagation time (lines 646-653, 940-947) -/

/-- The memory `get_pulse_offset` works on: the array `offset` it writes and the
array `zero_cross` (rows of `ZEROCROSS_LEN` floats) it reads. -/
structure PulseMem where
  offset : Int → ℚ
  zero_cross : Int → Int → ℚ

/-- The function `get_pulse_offset(offset, zero_cross, propagation_time)`: the
memory after the four assignments. -/
def get_pulse_offset (m : PulseMem) (propagation_time : ℚ) : PulseMem :=
  let offset := Function.update m.offset NORTH
    (propagation_time - average (m.zero_cross NORTH) NUM_ZC_AVG)
  let offset := Function.update offset SOUTH
    (propagation_time - average (m.zero_cross SOUTH) NUM_ZC_AVG)
  let offset := Function.update offset EAST
    (propagation_time - average (m.zero_cross EAST) NUM_ZC_AVG)
  let offset := Function.update offset WEST
    (propagation_time - average (m.zero_cross WEST) NUM_ZC_AVG)
  { offset := offset, zero_cross := m.zero_cross }

/-- The propagation time `T = 2*height / (sin_a*est_c) * 1000000` of line 944;
not finite when the divisor `sin_a*est_c` is zero. -/
def propagation_time (height sin_a est_c : ℚ) : Option ℚ :=
  (fdiv (2 * height) (sin_a * est_c)).map (fun q => q * 1000000)

/-- Lines 941-947: `est_c` from the air temperature, the propagation time `T`
and the call of `get_pulse_offset` on the baseline `static_zero_cross`; `none`
when `T` is not finite. -/
def calibrate_pulse_offset (sqrtf : ℚ → ℚ) (height sin_a temperature : ℚ) (m : PulseMem) :
    Option PulseMem :=
  let est_c := speed_of_sound_from_T sqrtf temperature
  (propagation_time height sin_a est_c).map (fun T => get_pulse_offset m T)

/-! ## Sequences of cycles -/

/-- The loop of `thread_anemometer` over a sequence of enabled cycles: one pair
of conditioned frame set and air temperature for each cycle, oldest first. -/
def run_cycles (P : Setup) (s : Loop) (frames : List ((Int → Int → ℚ) × ℚ)) : Loop :=
  frames.foldl (fun s f => cycle P s f.1 f.2) s

/-- Modelled from the spec: index `i` is a turning point of `x` when the sign of
`x[i+1] - x[i]` differs from the sign of `x[i] - x[i-1]`, a zero difference
counting as non-negative. -/
def spec_turning (x : Int → ℚ) (i : Int) : Prop :=
  decide (0 ≤ x (i + 1) - x i) ≠ decide (0 ≤ x i - x (i - 1))

/-- Modelled from the spec: the times of flight (in microseconds) of the forward
model, `L / (c + v cos α)` with the wind and `L / (c - v cos α)` against it, for
the path length `L = 2h / sin α`. -/
def spec_tof (height sin_a cos_a c v : ℚ) : ℚ :=
  2 * height / sin_a / (c + v * cos_a) * 1000000

/-- A memory for `get_pulse_offset`: `offset` zeroed, entry `j` of the baseline
of channel `ch` equal to `100*ch + j`. -/
def pulseMemTest : PulseMem :=
  { offset := fun _ => 0, zero_cross := fun ch j => 100 * (ch : ℚ) + (j : ℚ) }

/-- Four times of flight of the forward model at the geometry of `testSetup`:
sound speed 340, wind 5 along North-South and -10 along East-West. -/
def tofTest : Int → ℚ := fun ch =>
  if ch = NORTH then spec_tof (1 / 25) (4 / 5) (3 / 5) 340 5
  else if ch = SOUTH then spec_tof (1 / 25) (4 / 5) (3 / 5) 340 (-5)
  else if ch = EAST then spec_tof (1 / 25) (4 / 5) (3 / 5) 340 (-10)
  else spec_tof (1 / 25) (4 / 5) (3 / 5) 340 (-(-10))

/-! ## The scenarios of the nominal geometry -/

/-- Line 1095 (and line 1140 on the averages): the wind speed
`sqrtf(ns_v*ns_v + ew_v*ew_v)`. -/
def wind_speed (sqrtf : ℚ → ℚ) (ns_v ew_v : ℚ) : ℚ := sqrtf (ns_v * ns_v + ew_v * ew_v)

/-- The values of `sqrtf` for the arguments of the scenarios, rounded to `float`:
0 at 0, 17.121624 at 293.15, 0.99984896 near 0.999698 and 3.3913734 near 11.5014;
elsewhere 0. -/
def sqrtf_scenario (x : ℚ) : ℚ :=
  if x = 0 then 0
  else if x = 29315 / 100 then 4488331 / 262144
  else if 9996 / 10000 ≤ x ∧ x ≤ 9998 / 10000 then 8387341 / 8388608
  else if 23 / 2 ≤ x ∧ x ≤ 1151 / 100 then 14224451 / 4194304
  else 0

/-- The value of `atan2f` on the diagonal of the third quadrant, `-3π/4` rounded
to `float`; elsewhere `atan2f_table`. -/
def atan2f_scenario (y x : ℚ) : ℚ :=
  if y = x ∧ x < 0 then -(2470649 / 1048576) else atan2f_table y x

/-- The nominal geometry `height = 0.05`, `pitch = 0.04`: `tan α = 2.5`, and
`sin_a`, `cos_a` are the `float`s nearest to `5/√29 = 0.92847669` and
`2/√29 = 0.37139068`; oversampling 1. -/
def nominalSetup : Setup :=
  { height := 1 / 20
    sin_a := 7788627 / 8388608
    cos_a := 12461803 / 33554432
    oversampling := 1
    ref_shape := fun _ => mainOnlyShape
    pulse_offset := fun _ => 0
    sqrtf := sqrtf_scenario
    atan2f := atan2f_scenario }

/-- The times of flight of the scenario "northerly": 172.65 microseconds on
North, 173.35 on South, 173.00 on East and West. -/
def northerlyTof : Int → ℚ := fun ch =>
  if ch = NORTH then 17265 / 100 else if ch = SOUTH then 17335 / 100 else 173

/-! ## `capture_peaks_from` (lines 265-293) -/

/-- Loop of `capture_peaks_from`: `n` iterations left, slot `i`, then the locals
`sig_idx` and `prev_peak`, the buffer `peaks` and `peak_detected_len`. -/
def capture_peaks_from_loop (sig : Int → ℚ) (sig_len max_idx max_distance_right : Int)
    (threshold : ℚ) : Nat → Int → Int → Int → (Int → Peak) → Int → (Int → Peak) × Int
  | 0, _, _, _, peaks, peak_detected_len => (peaks, peak_detected_len)
  | n + 1, i, sig_idx, prev_peak, peaks, peak_detected_len =>
    let turning_idx := find_next_turning (shift sig sig_idx) (sig_len - sig_idx)
    if turning_idx = 0 then (peaks, peak_detected_len)
    else
      let sig_idx := sig_idx + turning_idx
      if sig_idx > sig_len ∨ sig_idx - max_idx > max_distance_right then
        (peaks, peak_detected_len)
      else if |sig sig_idx| ≥ threshold ∧
          |((prev_peak - sig_idx : Int) : ℚ)| ≥ (MINI_PEAK_DISTANCE : ℚ) then
        capture_peaks_from_loop sig sig_len max_idx max_distance_right threshold n (i + 1)
          sig_idx sig_idx (Function.update peaks i ((sig_idx : ℚ), sig sig_idx))
          (peak_detected_len + 1)
      else
        capture_peaks_from_loop sig sig_len max_idx max_distance_right threshold n (i + 1)
          sig_idx prev_peak peaks peak_detected_len

/-- The function `capture_peaks_from(sig, sig_len, peaks, peak_len, threshold)`:
the buffer `peaks` after the call and the returned count.  The local `prev_peak`
is read before it is assigned; `prev_peak` is the value it then holds. -/
def capture_peaks_from (sig : Int → ℚ) (sig_len : Int) (peaks : Int → Peak) (peak_len : Int)
    (threshold : ℚ) (prev_peak : Int) : (Int → Peak) × Int :=
  let max_idx := argmaxf sig sig_len
  let max_distance_right := 25 * (peak_len + 2)
  let threshold := sig max_idx * threshold
  capture_peaks_from_loop sig sig_len max_idx max_distance_right threshold peak_len.toNat 0 0
    prev_peak peaks 0

/-! ## `calibration2` (lines 708-813) -/

/-- A loop `for (j = j0; ...; j++) body`: `n` iterations left, index `j`, state `s`. -/
def for_loop {σ : Type} (body : Int → σ → σ) : Nat → Int → σ → σ
  | 0, _, s => s
  | n + 1, j, s => for_loop body n (j + 1) (body j s)

/-- The assignment `a[idx][j] = v` on an array of rows. -/
def set2 {α : Type} (a : Int → Int → α) (idx j : Int) (v : α) : Int → Int → α :=
  Function.update a idx (Function.update (a idx) j v)

/-- The variables of `calibration2` that its capture loop carries.  The outputs
`static_zero_cross` (a `float*` onto the caller's `[4][ZEROCROSS_LEN]` array) and
`echo_shape` (onto the caller's `[4][PEAK_LEN][2]` array) are indexed as the
caller's arrays: `*(static_zero_cross + idx*ZEROCROSS_LEN + j)` is entry
`[idx][j]`, and `*(echo_shape + (idx*PEAK_LEN + j)*2 + k)` is component `k` of
the record `[idx][j]`. -/
structure Calib where
  static_zero_cross : Int → Int → ℚ
  echo_shape : Int → Int → Peak
  peaks_zero : Int → Int → Peak
  count : Int
  i : Int

/-- One iteration of the template loop (lines 727-736) on the conditioned buffer
of channel `idx`: `capture_peaks` into `peaks_zero[idx]`, then `distance[idx]`. -/
def template_step (sigs : Int → Int → ℚ) (idx : Int)
    (st : (Int → Int → Peak) × (Int → ℚ)) : (Int → Int → Peak) × (Int → ℚ) :=
  let pz := (capture_peaks (shift (sigs idx) DEADZONE_OFFSET) VALID_LEN (st.1 idx) PEAK_LEFT
    PEAK_RIGHT (1 / 5)).1
  let d := ((pz PEAK_MAIN).2 - (pz (PEAK_MAIN - 2)).2) + ((pz PEAK_MAIN).2 - (pz (PEAK_MAIN + 2)).2)
  (Function.update st.1 idx pz, Function.update st.2 idx d)

/-- Lines 725-745: the array `peaks_zero` (zero-initialised) after the template
loop, and `start_idx`; `distance` is written before it is read. -/
def calib_template (sigs : Int → Int → ℚ) : (Int → Int → Peak) × Int :=
  let st := for_loop (template_step sigs) 4 0 (fun _ _ => (0, 0), fun _ => 0)
  let selected_ch := argmaxf st.2 4
  let start_idx := truncToInt ((st.1 selected_ch 0).1 - 8)
  (st.1, start_idx)

/-- Lines 759-776 for one channel, on its conditioned buffer `sig`: from the row
`peaks_zero[idx]` and the row `zero_cross[idx]`, the two rows after the body. -/
def calib_channel (sig : Int → ℚ) (prev_peak start_idx : Int) (peaks : Int → Peak)
    (zero_cross : Nat → ℚ) : (Int → Peak) × (Nat → ℚ) :=
  let pz := (capture_peaks_from (shift sig (DEADZONE_OFFSET + start_idx)) (VALID_LEN - start_idx)
    peaks PEAK_LEN (1 / 5) prev_peak).1
  let pz := for_loop
    (fun j pz => Function.update pz j ((pz j).1 + ((DEADZONE_OFFSET + start_idx : Int) : ℚ), (pz j).2))
    PEAK_LEN.toNat 0 pz
  let off := truncToInt (pz PEAK_ZC).1
  let zc := (linear_interpolation_zerocrossing (fun n => sig (off + (n : Int)))
    (toU32 (ADC_SAMPLE_LEN - off)) zero_cross ZEROCROSS_LEN).1
  let zc := add_offset_loop ((off : Int) : ℚ) ZEROCROSS_LEN 0 zc
  (pz, zc)

/-- The body of the loop over the channels in one capture iteration (lines
759-776) for channel `idx`: the arrays `peaks_zero` and `zero_cross` after it. -/
def calib_channel_step (sigs : Int → Int → ℚ) (prev_peak : Int → Int) (start_idx : Int)
    (idx : Int) (st : (Int → Int → Peak) × (Int → Nat → ℚ)) :
    (Int → Int → Peak) × (Int → Nat → ℚ) :=
  let r := calib_channel (sigs idx) (prev_peak idx) start_idx (st.1 idx) (st.2 idx)
  (Function.update st.1 idx r.1, Function.update st.2 idx r.2)

/-- The four channels of one capture iteration (lines 756-777), from the array
`peaks_zero` of the previous iteration and the zeroed local `zero_cross`. -/
def calib_channels (sigs : Int → Int → ℚ) (prev_peak : Int → Int) (start_idx : Int)
    (peaks_zero : Int → Int → Peak) : (Int → Int → Peak) × (Int → Nat → ℚ) :=
  for_loop (calib_channel_step sigs prev_peak start_idx) 4 0 (peaks_zero, fun _ _ => 0)

/-- The acceptance test of lines 780-783. -/
def calib_accept (zero_cross : Int → Nat → ℚ) : Bool :=
  decide (|zero_cross NORTH PEAK_ZC.toNat - zero_cross SOUTH PEAK_ZC.toNat| < 2) &&
  decide (|zero_cross WEST PEAK_ZC.toNat - zero_cross EAST PEAK_ZC.toNat| < 2) &&
  decide (|zero_cross NORTH PEAK_ZC.toNat - zero_cross EAST PEAK_ZC.toNat| < 10) &&
  decide (|zero_cross SOUTH PEAK_ZC.toNat - zero_cross WEST PEAK_ZC.toNat| < 10)

/-- Lines 787-789: `static_zero_cross[idx][j] += zero_cross[idx][j]`. -/
def accumulate_zero_cross (zero_cross : Int → Nat → ℚ) (a : Int → Int → ℚ) : Int → Int → ℚ :=
  for_loop (fun idx a =>
    for_loop (fun j a => set2 a idx j (a idx j + zero_cross idx j.toNat)) ZEROCROSS_LEN 0 a) 4 0 a

/-- Lines 792-797: `echo_shape[idx][j][k] += peaks_zero[idx][j][k]` for `k = 0, 1`. -/
def accumulate_shape (peaks_zero : Int → Int → Peak) (a : Int → Int → Peak) : Int → Int → Peak :=
  for_loop (fun idx a =>
    for_loop (fun j a =>
      set2 a idx j ((a idx j).1 + (peaks_zero idx j).1, (a idx j).2 + (peaks_zero idx j).2))
      PEAK_LEN.toNat 0 a) 4 0 a

/-- The capture loop `for (i = 0; i < 256 && count < 32; i++)` (lines 749-799):
`n` iterations left before `i` reaches 256.  `frames i` holds the conditioned
buffers of the four channels of iteration `i`, `prev_peak i idx` the value of the
unassigned local of `capture_peaks_from` in that call. -/
def calib_loop (frames : Int → Int → Int → ℚ) (prev_peak : Int → Int → Int) (start_idx : Int) :
    Nat → Calib → Calib
  | 0, s => s
  | n + 1, s =>
    if s.count < 32 then
      let r := calib_channels (frames s.i) (prev_peak s.i) start_idx s.peaks_zero
      if calib_accept r.2 then
        calib_loop frames prev_peak start_idx n
          { static_zero_cross := accumulate_zero_cross r.2 s.static_zero_cross
            echo_shape := accumulate_shape r.1 s.echo_shape
            peaks_zero := r.1
            count := s.count + 1
            i := s.i + 1 }
      else
        calib_loop frames prev_peak start_idx n { s with peaks_zero := r.1, i := s.i + 1 }
    else s

/-- The two calls of `memset` of lines 712-713. -/
def calib_memset (static_zero_cross : Int → Int → ℚ) (echo_shape : Int → Int → Peak) :
    (Int → Int → ℚ) × (Int → Int → Peak) :=
  (fun idx j => if 0 ≤ idx ∧ idx < 4 ∧ 0 ≤ j ∧ j < ZEROCROSS_LEN then 0
      else static_zero_cross idx j,
    fun idx j => if 0 ≤ idx ∧ idx < 4 ∧ 0 ≤ j ∧ j < PEAK_LEN then (0, 0) else echo_shape idx j)

/-- Lines 803-805: `static_zero_cross[idx][j] /= count`. -/
def divide_zero_cross (count : Int) (a : Int → Int → ℚ) : Int → Int → ℚ :=
  for_loop (fun idx a =>
    for_loop (fun j a => set2 a idx j (a idx j / (count : ℚ))) ZEROCROSS_LEN 0 a) 4 0 a

/-- Lines 807-811: `echo_shape[idx][j][k] /= count` for `k = 0, 1`. -/
def divide_shape (count : Int) (a : Int → Int → Peak) : Int → Int → Peak :=
  for_loop (fun idx a =>
    for_loop (fun j a => set2 a idx j ((a idx j).1 / (count : ℚ), (a idx j).2 / (count : ℚ)))
      PEAK_LEN.toNat 0 a) 4 0 a

/-- The function `calibration2`, from the conditioned buffers the driver and the
preprocessing deliver: `template` for the template loop (the last frame set of
the stability wait), `frames i` for capture iteration `i`.  The result holds the
two output arrays, and the returned value in `count` (`return 0` before the
division when `count == 0`, `return count` after it). -/
def calibration2 (static_zero_cross : Int → Int → ℚ) (echo_shape : Int → Int → Peak)
    (template : Int → Int → ℚ) (frames : Int → Int → Int → ℚ) (prev_peak : Int → Int → Int) :
    Calib :=
  let m := calib_memset static_zero_cross echo_shape
  let t := calib_template template
  let s := calib_loop frames prev_peak t.2 256
    { static_zero_cross := m.1, echo_shape := m.2, peaks_zero := t.1, count := 0, i := 0 }
  if s.count = 0 then s
  else
    { s with
      static_zero_cross := divide_zero_cross s.count s.static_zero_cross
      echo_shape := divide_shape s.count s.echo_shape }

/-! ## The run of the capture loop, iteration by iteration -/

/-- The array `peaks_zero` when capture iteration `i` starts. -/
def calib_peaks_before (template : Int → Int → ℚ) (frames : Int → Int → Int → ℚ)
    (prev_peak : Int → Int → Int) : Nat → Int → Int → Peak
  | 0 => (calib_template template).1
  | i + 1 =>
    (calib_channels (frames (i : Int)) (prev_peak (i : Int)) (calib_template template).2
      (calib_peaks_before template frames prev_peak i)).1

/-- The peak records `peaks_zero` of capture iteration `i`, after its four
channels. -/
def calib_peaks_at (template : Int → Int → ℚ) (frames : Int → Int → Int → ℚ)
    (prev_peak : Int → Int → Int) (i : Nat) : Int → Int → Peak :=
  calib_peaks_before template frames prev_peak (i + 1)

/-- The zero crossings `zero_cross` of capture iteration `i`. -/
def calib_zero_cross_at (template : Int → Int → ℚ) (frames : Int → Int → Int → ℚ)
    (prev_peak : Int → Int → Int) (i : Nat) : Int → Nat → ℚ :=
  (calib_channels (frames (i : Int)) (prev_peak (i : Int)) (calib_template template).2
    (calib_peaks_before template frames prev_peak i)).2

/-- Whether capture iteration `i` passes the acceptance test. -/
def calib_accepted_at (template : Int → Int → ℚ) (frames : Int → Int → Int → ℚ)
    (prev_peak : Int → Int → Int) (i : Nat) : Bool :=
  calib_accept (calib_zero_cross_at template frames prev_peak i)

/-- The accepted ones among the first `n` capture iterations, oldest first. -/
def calib_accepted (template : Int → Int → ℚ) (frames : Int → Int → Int → ℚ)
    (prev_peak : Int → Int → Int) (n : Nat) : List Nat :=
  (List.range n).filter (calib_accepted_at template frames prev_peak)

/-- The invariant of the capture loop of `calibration2` after `k` iterations:
the loop counter, the array `peaks_zero`, the count of accepted iterations, and
the two output arrays, which hold the sums over the accepted iterations inside
`[4][ZEROCROSS_LEN]` resp. `[4][PEAK_LEN]` and what the caller's memory held
elsewhere. -/
def CalibInv (szc0 : Int → Int → ℚ) (es0 : Int → Int → Peak) (template : Int → Int → ℚ)
    (frames : Int → Int → Int → ℚ) (prev_peak : Int → Int → Int) (k : Nat) (s : Calib) : Prop :=
  s.i = (k : Int) ∧
  s.peaks_zero = calib_peaks_before template frames prev_peak k ∧
  s.count = ((calib_accepted template frames prev_peak k).length : Int) ∧
  (∀ idx j : Int, s.static_zero_cross idx j
    = if 0 ≤ idx ∧ idx < 4 ∧ 0 ≤ j ∧ j < 6 then
        ((calib_accepted template frames prev_peak k).map
          (fun i => calib_zero_cross_at template frames prev_peak i idx j.toNat)).sum
      else szc0 idx j) ∧
  (∀ idx j : Int, s.echo_shape idx j
    = if 0 ≤ idx ∧ idx < 4 ∧ 0 ≤ j ∧ j < 17 then
        (((calib_accepted template frames prev_peak k).map
            (fun i => (calib_peaks_at template frames prev_peak i idx j).1)).sum,
          ((calib_accepted template frames prev_peak k).map
            (fun i => (calib_peaks_at template frames prev_peak i idx j).2)).sum)
      else es0 idx j)

/-! ## Concrete inputs for `calibration2` -/

/-- Conditioned frame sets for the template loop: four silent channels. -/
def silentTemplate : Int → Int → ℚ := fun _ _ => 0

/-- Conditioned frame sets for the capture loop, the same in every iteration:
North is silent (all samples 0), the other channels are at the constant 1. -/
def splitFrames : Int → Int → Int → ℚ := fun _ ch _ => if ch = NORTH then 0 else 1

/-- A value for the unassigned local of `capture_peaks_from`: 0 in every call. -/
def prevZero : Int → Int → Int := fun _ _ => 0

/-- Conditioned frame sets for the capture loop with four silent channels in
every iteration. -/
def silentFrames : Int → Int → Int → ℚ := fun _ _ _ => 0

/-! ## `match_shape` with its accesses (lines 432-455) -/

/-- What a run touches, in program order: the indices of its first array that it
reads, the indices of its second array that it reads, and the indices it
writes. -/
structure Access where
  reads1 : List Int
  reads2 : List Int
  writes : List Int

/-- Inner loop of `match_shape` with its accesses, `n` iterations left: the test
reads `peaks1[i][0]` and, when that is not zero, `peaks2[i][0]`; the body reads
`peaks1[i][1]` and `peaks2[i+off][1]`. -/
def match_shape_inner_log (peaks1 peaks2 : Int → Peak) (off : Int) :
    Nat → Int → ℚ → ℚ → (ℚ × ℚ) × Access
  | 0, _, sum, count => ((sum, count), { reads1 := [], reads2 := [], writes := [] })
  | n + 1, i, sum, count =>
    if (peaks1 i).1 ≠ 0 then
      if (peaks2 i).1 ≠ 0 then
        let v := (peaks1 i).2 - (peaks2 (i + off)).2
        let r := match_shape_inner_log peaks1 peaks2 off n (i + 1) (sum + v * v) (count + 1)
        (r.1, { reads1 := i :: i :: r.2.reads1, reads2 := i :: (i + off) :: r.2.reads2,
                writes := r.2.writes })
      else
        let r := match_shape_inner_log peaks1 peaks2 off n (i + 1) sum count
        (r.1, { reads1 := i :: r.2.reads1, reads2 := i :: r.2.reads2, writes := r.2.writes })
    else
      let r := match_shape_inner_log peaks1 peaks2 off n (i + 1) sum count
      (r.1, { reads1 := i :: r.2.reads1, reads2 := r.2.reads2, writes := r.2.writes })

/-- Body of the outer loop of `match_shape` with its accesses to the two
constellations. -/
def match_shape_entry_log (peaks1 peaks2 : Int → Peak) (len off : Int) : Option ℚ × Access :=
  let start_idx := -off
  let stop_idx := len + off
  let start_idx := if start_idx < 0 then 0 else start_idx
  let stop_idx := if stop_idx > len then len - off else stop_idx
  let r := match_shape_inner_log peaks1 peaks2 off (stop_idx - start_idx).toNat start_idx 0 0
  (fdiv r.1.1 r.1.2, r.2)

/-- Outer loop of `match_shape` with its accesses: `n` offsets left, current
offset `off`; each iteration writes `mse[off + search_range/2]`. -/
def match_shape_outer_log (peaks1 peaks2 : Int → Peak) (len search_range : Int) :
    Nat → Int → (Int → Option ℚ) → (Int → Option ℚ) × Access
  | 0, _, mse => (mse, { reads1 := [], reads2 := [], writes := [] })
  | n + 1, off, mse =>
    let e := match_shape_entry_log peaks1 peaks2 len off
    let r := match_shape_outer_log peaks1 peaks2 len search_range n (off + 1)
      (Function.update mse (off + Int.tdiv search_range 2) e.1)
    (r.1, { reads1 := e.2.reads1 ++ r.2.reads1, reads2 := e.2.reads2 ++ r.2.reads2,
            writes := (off + Int.tdiv search_range 2) :: r.2.writes })

/-- The function `match_shape` with the accesses of its loop: the indices of
`peaks1` and of `peaks2` read and the indices of `mse` written by line 452
(`memset` zeroes the entries `0..search_range-1` before, `arg_minf` reads them
after). -/
def match_shape_log (peaks1 peaks2 : Int → Peak) (len : Int) (mse : Int → Option ℚ)
    (search_range : Int) : ((Int → Option ℚ) × Int) × Access :=
  let lo := Int.tdiv (-search_range) 2
  let hi := Int.tdiv search_range 2
  let r := match_shape_outer_log peaks1 peaks2 len search_range (hi - lo + 1).toNat lo
    (memset_zero mse search_range)
  ((r.1, arg_minf r.1 search_range), r.2)

/-! ## `capture_peaks` with its accesses (lines 235-262, 298-359) -/

/-- Loop of `argmaxf` with the indices of `sig` it reads: `sig[i]` in the
comparison, and once more when the maximum is replaced. -/
def argmaxf_loop_log (sig : Int → ℚ) : Nat → Nat → ℚ → Nat → Nat × List Int
  | 0, _, _, arg => (arg, [])
  | n + 1, i, max, arg =>
    if sig (i : Int) > max then
      let r := argmaxf_loop_log sig n (i + 1) (sig (i : Int)) i
      (r.1, (i : Int) :: (i : Int) :: r.2)
    else
      let r := argmaxf_loop_log sig n (i + 1) max arg
      (r.1, (i : Int) :: r.2)

/-- The function `argmaxf` with the indices it reads; `sig[0]` comes first. -/
def argmaxf_log (sig : Int → ℚ) (len : Int) : Int × List Int :=
  let r := argmaxf_loop_log sig (toU32 len) 0 (sig 0) 0
  (toI32 r.1, 0 :: r.2)

/-- Loop of `find_next_turning` with the indices (relative to its pointer) it
reads: `sig[i+1]` and `sig[i]` in each iteration. -/
def find_next_turning_loop_log (sig : Int → ℚ) : Nat → Int → ℚ → Int × List Int
  | 0, _, _ => (0, [])
  | n + 1, i, pre_dt =>
    let dt := sig (i + 1) - sig i
    if IS_SIGN_DIFF pre_dt dt then (i, [i + 1, i])
    else
      let r := find_next_turning_loop_log sig n (i + 1) dt
      (r.1, (i + 1) :: i :: r.2)

/-- The function `find_next_turning` with the relative indices it reads;
`sig[3]` and `sig[2]` come first, whatever `len` is. -/
def find_next_turning_log (sig : Int → ℚ) (len : Int) : Int × List Int :=
  let r := find_next_turning_loop_log sig (len - 1 - 3).toNat 3 (sig 3 - sig 2)
  (r.1, 3 :: 2 :: r.2)

/-- Loop of `find_prev_turning` with the relative indices it reads: `p[-i]` and
`p[-i-1]` in each iteration. -/
def find_prev_turning_loop_log (p : Int → ℚ) : Nat → Int → ℚ → Int × List Int
  | 0, _, _ => (0, [])
  | n + 1, i, pre_dt =>
    let dt := p (-i) - p (-i - 1)
    if IS_SIGN_DIFF pre_dt dt then (-i, [-i, -i - 1])
    else
      let r := find_prev_turning_loop_log p n (i + 1) dt
      (r.1, (-i) :: (-i - 1) :: r.2)

/-- The function `find_prev_turning` with the relative indices it reads;
`p[-2]` and `p[-3]` come first, whatever `len` is. -/
def find_prev_turning_log (sig : Int → ℚ) (len : Int) : Int × List Int :=
  let r := find_prev_turning_loop_log sig (len - 1 - 3).toNat 3 (sig (-2) - sig (-3))
  (r.1, (-2) :: (-3) :: r.2)

/-- The right walk of `capture_peaks` with the indices of `sig` it reads and the
slots of `peaks` it writes: the reads of `find_next_turning` from `&sig[sig_idx]`,
`sig[sig_idx]` in the test, and on acceptance the two assignments to
`peaks[peak_idx]`, the second reading `sig[sig_idx]` again. -/
def walk_right_log (sig : Int → ℚ) (sig_len max_idx max_distance_right : Int) (threshold : ℚ) :
    Nat → Walk → Walk × List Int × List Int
  | 0, s => (s, [], [])
  | n + 1, s =>
    let t := find_next_turning_log (shift sig s.sig_idx) (sig_len - s.sig_idx)
    let rd := t.2.map (fun k => s.sig_idx + k)
    if t.1 = 0 then (s, rd, [])
    else
      let sig_idx := s.sig_idx + t.1
      if sig_idx > sig_len ∨ sig_idx - max_idx > max_distance_right then
        ({ s with sig_idx := sig_idx }, rd, [])
      else if |sig sig_idx| ≥ threshold ∧
          |((s.prev_peak - sig_idx : Int) : ℚ)| ≥ (MINI_PEAK_DISTANCE : ℚ) then
        let r := walk_right_log sig sig_len max_idx max_distance_right threshold n
          { sig_idx := sig_idx
            peak_idx := s.peak_idx + 1
            prev_peak := sig_idx
            peak_detected_len := s.peak_detected_len + 1
            peaks := Function.update s.peaks s.peak_idx ((sig_idx : ℚ), sig sig_idx) }
        (r.1, rd ++ sig_idx :: sig_idx :: r.2.1, s.peak_idx :: s.peak_idx :: r.2.2)
      else
        let r := walk_right_log sig sig_len max_idx max_distance_right threshold n
          { s with sig_idx := sig_idx }
        (r.1, rd ++ sig_idx :: r.2.1, r.2.2)

/-- The left walk of `capture_peaks` with the indices of `sig` it reads and the
slots of `peaks` it writes. -/
def walk_left_log (sig : Int → ℚ) (max_idx max_distance_left : Int) (threshold : ℚ) :
    Nat → Walk → Walk × List Int × List Int
  | 0, s => (s, [], [])
  | n + 1, s =>
    if s.peak_idx < 0 then (s, [], [])
    else
      let t := find_prev_turning_log (shift sig s.sig_idx) s.sig_idx
      let rd := t.2.map (fun k => s.sig_idx + k)
      if t.1 = 0 then (s, rd, [])
      else
        let sig_idx := s.sig_idx + t.1
        if max_idx - sig_idx > max_distance_left then
          ({ s with sig_idx := sig_idx }, rd, [])
        else if |sig sig_idx| ≥ threshold ∧
            |((s.prev_peak - sig_idx : Int) : ℚ)| ≥ (MINI_PEAK_DISTANCE : ℚ) then
          let r := walk_left_log sig max_idx max_distance_left threshold n
            { sig_idx := sig_idx
              peak_idx := s.peak_idx - 1
              prev_peak := s.peak_idx - 1
              peak_detected_len := s.peak_detected_len + 1
              peaks := Function.update s.peaks s.peak_idx ((sig_idx : ℚ), sig sig_idx) }
          (r.1, rd ++ sig_idx :: sig_idx :: r.2.1, s.peak_idx :: s.peak_idx :: r.2.2)
        else
          let r := walk_left_log sig max_idx max_distance_left threshold n
            { s with sig_idx := sig_idx }
          (r.1, rd ++ sig_idx :: r.2.1, r.2.2)

/-- The function `capture_peaks` with the indices of `sig` it reads and the slots
of `peaks` it writes, in program order: `argmaxf`, `sig[max_idx]` for the
threshold (line 306) and for the main peak (line 311, written to slot
`peak_left_len`), the right walk, the left walk. -/
def capture_peaks_log (sig : Int → ℚ) (sig_len : Int) (peaks : Int → Peak)
    (peak_left_len peak_right_len : Int) (threshold : ℚ) :
    ((Int → Peak) × Int) × List Int × List Int :=
  let a := argmaxf_log sig sig_len
  let max_idx := a.1
  let max_distance_left := 25 * (peak_left_len + 2)
  let max_distance_right := 25 * (peak_right_len + 2)
  let threshold := sig max_idx * threshold
  let r := walk_right_log sig sig_len max_idx max_distance_right threshold peak_right_len.toNat
    { sig_idx := max_idx
      peak_idx := peak_left_len + 1
      prev_peak := 0
      peak_detected_len := 1
      peaks := Function.update peaks peak_left_len ((max_idx : ℚ), sig max_idx) }
  let l := walk_left_log sig max_idx max_distance_left threshold peak_left_len.toNat
    { r.1 with sig_idx := max_idx, peak_idx := peak_left_len - 1 }
  ((l.1.peaks, l.1.peak_detected_len),
    a.2 ++ max_idx :: max_idx :: (r.2.1 ++ l.2.1),
    peak_left_len :: peak_left_len :: (r.2.2 ++ l.2.2))

/-- A signal of 160 samples for `capture_peaks`: a sawtooth of period 6 with the
main peak at index 80. -/
def sawSig : Int → ℚ := fun i => if i = 80 then 9 else ((i % 6 : Int) : ℚ)

/-! ## Binary floating point (IEEE 754 `binary32` and `binary64`) -/

/-- Rounding of a rational to the nearest integer, a tie going to the even one. -/
def roundNE (y : ℚ) : Int :=
  let f := ⌊y⌋
  let r := y - f
  if r < 1 / 2 then f else if 1 / 2 < r then f + 1 else if f % 2 = 0 then f else f + 1

/-- The binary exponent of a positive rational `a`: the integer `e` with
`2^e ≤ a < 2^(e+1)`. -/
def ilog2 (a : ℚ) : Int :=
  let e0 : Int := (Nat.log2 a.num.toNat : Int) - (Nat.log2 a.den : Int)
  if (2 : ℚ) ^ e0 ≤ a then e0 else e0 - 1

/-- Rounding of a rational to the binary floating-point format with `p`
significant bits and least normal exponent `emin`: round to nearest, ties to
even, gradual underflow.  Overflow to infinity is not modelled. -/
def roundFloat (p : Nat) (emin : Int) (x : ℚ) : ℚ :=
  if x = 0 then 0
  else
    let a := |x|
    let e := max (ilog2 a) emin
    let q : ℚ := 2 ^ (e - ((p : Int) - 1))
    let r := (roundNE (a / q) : ℚ) * q
    if x < 0 then -r else r

/-- Rounding to `float` (binary32): the result of a `float` operation whose
exact result is `x`, and the conversion of a `double` to `float`. -/
def f32 (x : ℚ) : ℚ := roundFloat 24 (-126) x

/-- Rounding to `double` (binary64). -/
def f64 (x : ℚ) : ℚ := roundFloat 53 (-1022) x

/-! ## The routines in `float` arithmetic

Where the truth of a statement depends on the rounding of the `float`
operations, the routine is given a second time (suffix `_f32`) with the rounding
of every operation written out: an operation on `float` operands is rounded by
`f32`, an operation with a `double` operand (the literals `0.9` and `0.1`) by
`f64`, and the store of a `double` into a `float` by `f32`.  Each operation is
rounded on its own (no fused multiply-add). -/

/-- The macro `IS_SIGN_DIFF_NO_ZERO(a, b) = (a*b < 0)` on `float` operands. -/
def IS_SIGN_DIFF_NO_ZERO_f32 (a b : ℚ) : Bool := decide (f32 (a * b) < 0)

/-- Loop of `linear_interpolation_zerocrossing` (lines 205-222) in `float`
arithmetic: `out[cross] = i` converts `i` to `float`, `a`, `x` and `x + i` are
rounded.  For samples that are `float` values `a` is not zero. -/
def zcLoop_f32 (sig : Nat → ℚ) (num_zero_cross : Nat) :
    Nat → Nat → Nat → (Nat → ℚ) → (Nat → ℚ) × Nat
  | 0, _, cross, out => (out, cross)
  | n + 1, i, cross, out =>
    if cross < num_zero_cross then
      if sig i = 0 then
        zcLoop_f32 sig num_zero_cross n (i + 1) (cross + 1)
          (Function.update out cross (f32 (i : ℚ)))
      else if IS_SIGN_DIFF_NO_ZERO_f32 (sig i) (sig (i + 1)) then
        let a := f32 (sig (i + 1) - sig i)
        let b := sig i
        let x := f32 (-b / a)
        zcLoop_f32 sig num_zero_cross n (i + 1) (cross + 1)
          (Function.update out cross (f32 (x + f32 (i : ℚ))))
      else
        zcLoop_f32 sig num_zero_cross n (i + 1) cross out
    else (out, cross)

/-- The function `linear_interpolation_zerocrossing` in `float` arithmetic. -/
def linear_interpolation_zerocrossing_f32 (sig : Nat → ℚ) (sig_len : Nat) (out : Nat → ℚ)
    (num_zero_cross : Nat) : (Nat → ℚ) × Int :=
  let r := zcLoop_f32 sig num_zero_cross (toU32 ((sig_len : Int) - 1)) 0 0 out
  (r.1, toI32 r.2)

/-- Three samples `1.0f, -1e-9f, 1.0f`; the `float` nearest to `1e-9` is
`9007199 * 2^-53`. -/
def roundSig : Nat → ℚ := natSigOfList [1, -(9007199 / 9007199254740992), 1]

/-- Inner loop of `match_shape` in `float` arithmetic: `v`, `v*v`, `sum += ..`
and `count++` (a `float`) are rounded. -/
def match_shape_inner_f32 (peaks1 peaks2 : Int → Peak) (off : Int) :
    Nat → Int → ℚ → ℚ → ℚ × ℚ
  | 0, _, sum, count => (sum, count)
  | n + 1, i, sum, count =>
    if (peaks1 i).1 ≠ 0 ∧ (peaks2 i).1 ≠ 0 then
      let v := f32 ((peaks1 i).2 - (peaks2 (i + off)).2)
      match_shape_inner_f32 peaks1 peaks2 off n (i + 1) (f32 (sum + f32 (v * v)))
        (f32 (count + 1))
    else
      match_shape_inner_f32 peaks1 peaks2 off n (i + 1) sum count

/-- Body of the outer loop of `match_shape` in `float` arithmetic: `sum/count`
is rounded; NaN when `count` is zero (`sum` is zero then). -/
def match_shape_entry_f32 (peaks1 peaks2 : Int → Peak) (len off : Int) : Option ℚ :=
  let start_idx := -off
  let stop_idx := len + off
  let start_idx := if start_idx < 0 then 0 else start_idx
  let stop_idx := if stop_idx > len then len - off else stop_idx
  let r := match_shape_inner_f32 peaks1 peaks2 off (stop_idx - start_idx).toNat start_idx 0 0
  (fdiv r.1 r.2).map f32

/-- Outer loop of `match_shape` in `float` arithmetic. -/
def match_shape_outer_f32 (peaks1 peaks2 : Int → Peak) (len search_range : Int) :
    Nat → Int → (Int → Option ℚ) → (Int → Option ℚ)
  | 0, _, mse => mse
  | n + 1, off, mse =>
    match_shape_outer_f32 peaks1 peaks2 len search_range n (off + 1)
      (Function.update mse (off + Int.tdiv search_range 2)
        (match_shape_entry_f32 peaks1 peaks2 len off))

/-- The function `match_shape` in `float` arithmetic. -/
def match_shape_f32 (peaks1 peaks2 : Int → Peak) (len : Int) (mse : Int → Option ℚ)
    (search_range : Int) : (Int → Option ℚ) × Int :=
  let lo := Int.tdiv (-search_range) 2
  let hi := Int.tdiv search_range 2
  let mse := match_shape_outer_f32 peaks1 peaks2 len search_range (hi - lo + 1).toNat lo
    (memset_zero mse search_range)
  (mse, arg_minf mse search_range)

/-- The update of line 1037 in `float` arithmetic: the literals `0.9` and `0.1`
are `double`, so the products and the sum are `double` operations, and the
assignment converts the sum to `float`. -/
def smooth_mse_f32 (h m : Option ℚ) : Option ℚ :=
  match h, m with
  | some a, some b => some (f32 (f64 (f64 (f64 (9 / 10) * a) + f64 (f64 (1 / 10) * b))))
  | _, _ => none

/-- Lines 1029-1048 for one channel in `float` arithmetic: `match_shape`, the
update of the smoothed MSE, the NaN gate, and the shape-mismatch gate, whose
right-hand side `mse_history[idx]*10` is a `float` product. -/
def shape_gate_f32 (ref shape : Int → Peak) (h : Option ℚ) (err : Int) (is_data_correct : Bool) :
    Gate :=
  let r := match_shape_f32 ref shape PEAK_LEN (fun _ => none) MSE_RANGE
  let mse := r.1
  let mini_mse := r.2
  let peak_off := mini_mse - Int.tdiv MSE_RANGE 2
  let h := smooth_mse_f32 h (mse mini_mse)
  let e1 := if (mse 0).isNone then ERR_MSE_NAN else err
  let ok1 := if (mse 0).isNone then false else is_data_correct
  if flt (h.map (fun a => f32 (a * 10))) (mse mini_mse) then
    { peak_off := peak_off, mse_history := h, err := ERR_SHAPE_MISMATCH,
      is_data_correct := false }
  else
    { peak_off := peak_off, mse_history := h, err := e1, is_data_correct := ok1 }

/-- What the gates of the loop over the channels carry from one channel to the
next: the smoothed MSEs, `err` and `is_data_correct`. -/
structure Flags where
  mse_history : Int → Option ℚ
  err : Int
  is_data_correct : Bool

/-- The gates of the loop over the channels (lines 1011-1073 restricted to
`mse_history`, `err` and `is_data_correct`), from the constellation `shapes idx`
that `capture_peaks` left for channel `idx` on line 1026: `n` channels left,
channel `idx`. -/
def gate_loop_f32 (ref shapes : Int → Int → Peak) : Nat → Int → Flags → Flags
  | 0, _, st => st
  | n + 1, idx, st =>
    let g := shape_gate_f32 (ref idx) (shapes idx) (st.mse_history idx) st.err
      st.is_data_correct
    gate_loop_f32 ref shapes n (idx + 1)
      { mse_history := Function.update st.mse_history idx g.mse_history
        err := g.err
        is_data_correct := g.is_data_correct }

/-- A constellation with the main peak only, of amplitude `0.9f`
(`7549747 * 2^-23`). -/
def dimShape : Int → Peak := fun k => if k = 8 then (100, 7549747 / 8388608) else (0, 0)

/-- The constellations of a frame set whose channel 0 recorded no position and
whose other channels hold `dimShape`. -/
def silentThenDim : Int → Int → Peak := fun idx => if idx = 0 then zeroPeaks else dimShape

/-- Lines 1111-1113 and the test of line 1122 in `float` arithmetic, from the
sound speed `c` of line 1100, the estimate `est_c` of line 1119 and the history
`c_history`: the new history, which line 1113 stores whatever the test says, and
whether the test sends the cycle to `cycle_end` with `ERR_WINDSPEED`.  The
products with the `double` literals `0.9` and `0.1` and their sum are `double`
operations; the differences are `float` operations. -/
def sound_gate_f32 (c_history c est_c : ℚ) : ℚ × Bool :=
  let c_history := if c_history = 0 then c else c_history
  let c_history := f32 (f64 (f64 (c_history * f64 (9 / 10)) + f64 (c * f64 (1 / 10))))
  (c_history, decide (|f32 (est_c - c)| > 10 ∨ |f32 (c - c_history)| > 5))

/-! ## Theorems on `linear_interpolation_zerocrossing` -/

theorem zcLoop_spec (sig : Nat → ℚ) (Z : Nat) :
    ∀ (n i cross : Nat) (out : Nat → ℚ), cross ≤ Z →
      (zcLoop sig Z n i cross out).2
          = cross + (((List.range' i n).filter (zc_qualifies sig)).take (Z - cross)).length ∧
      (∀ j, j < (((List.range' i n).filter (zc_qualifies sig)).take (Z - cross)).length →
        (zcLoop sig Z n i cross out).1 (cross + j)
          = zc_emission sig
              ((((List.range' i n).filter (zc_qualifies sig)).take (Z - cross)).getD j 0)) ∧
      (∀ k, k < cross ∨
          cross + (((List.range' i n).filter (zc_qualifies sig)).take (Z - cross)).length ≤ k →
        (zcLoop sig Z n i cross out).1 k = out k) := by
  intro n
  induction n with
  | zero => intro i cross out _; simp [zcLoop]
  | succ n ih =>
    intro i cross out hc
    rw [List.range'_succ]
    by_cases hZ : cross < Z
    · have hk : Z - cross = (Z - (cross + 1)) + 1 := by omega
      by_cases h0 : sig i = 0
      · have hq : zc_qualifies sig i = true := by simp [zc_qualifies, h0]
        have hstep : zcLoop sig Z (n + 1) i cross out
            = zcLoop sig Z n (i + 1) (cross + 1) (Function.update out cross (i : ℚ)) := by
          simp [zcLoop, hZ, h0]
        rw [hstep, List.filter_cons_of_pos hq, hk, List.take_succ_cons]
        obtain ⟨a, b, c⟩ := ih (i + 1) (cross + 1) (Function.update out cross (i : ℚ)) hZ
        refine ⟨?_, ?_, ?_⟩
        · rw [a]; simp only [List.length_cons]; omega
        · intro j hj
          cases j with
          | zero =>
            simp only [Nat.add_zero, List.getD_cons_zero]
            rw [c cross (Or.inl (by omega))]
            simp [zc_emission, h0]
          | succ j =>
            have hj2 : j < (List.take (Z - (cross + 1))
                (List.filter (zc_qualifies sig) (List.range' (i + 1) n))).length := by
              simpa using hj
            have e : cross + (j + 1) = cross + 1 + j := by omega
            simp only [List.getD_cons_succ]
            rw [e]; exact b j hj2
        · intro k hk2
          simp only [List.length_cons] at hk2
          rw [c k (by omega)]
          have : k ≠ cross := by omega
          simp [Function.update, this]
      · by_cases hs : sig i * sig (i + 1) < 0
        · have hq : zc_qualifies sig i = true := by simp [zc_qualifies, hs]
          have hstep : zcLoop sig Z (n + 1) i cross out
              = zcLoop sig Z n (i + 1) (cross + 1)
                  (Function.update out cross (-sig i / (sig (i + 1) - sig i) + (i : ℚ))) := by
            simp [zcLoop, hZ, h0, hs, IS_SIGN_DIFF_NO_ZERO]
          rw [hstep, List.filter_cons_of_pos hq, hk, List.take_succ_cons]
          obtain ⟨a, b, c⟩ := ih (i + 1) (cross + 1)
            (Function.update out cross (-sig i / (sig (i + 1) - sig i) + (i : ℚ))) hZ
          refine ⟨?_, ?_, ?_⟩
          · rw [a]; simp only [List.length_cons]; omega
          · intro j hj
            cases j with
            | zero =>
              simp only [Nat.add_zero, List.getD_cons_zero]
              rw [c cross (Or.inl (by omega))]
              simp [zc_emission, h0, add_comm]
            | succ j =>
              have hj2 : j < (List.take (Z - (cross + 1))
                  (List.filter (zc_qualifies sig) (List.range' (i + 1) n))).length := by
                simpa using hj
              have e : cross + (j + 1) = cross + 1 + j := by omega
              simp only [List.getD_cons_succ]
              rw [e]; exact b j hj2
          · intro k hk2
            simp only [List.length_cons] at hk2
            rw [c k (by omega)]
            have : k ≠ cross := by omega
            simp [Function.update, this]
        · have hq : ¬ zc_qualifies sig i = true := by simp [zc_qualifies, h0, hs]
          have hstep : zcLoop sig Z (n + 1) i cross out
              = zcLoop sig Z n (i + 1) cross out := by
            simp [zcLoop, hZ, h0, hs, IS_SIGN_DIFF_NO_ZERO]
          rw [hstep, List.filter_cons_of_neg hq]
          exact ih (i + 1) cross out hc
    · have hk : Z - cross = 0 := by omega
      have hstep : zcLoop sig Z (n + 1) i cross out = (out, cross) := by
        simp [zcLoop, hZ]
      rw [hstep, hk]
      simp

theorem toU32_of_nonneg (x : Int) (h0 : 0 ≤ x) (h1 : x < 4294967296) : toU32 x = x.toNat := by
  unfold toU32
  rw [Int.emod_eq_of_lt h0 h1]

theorem toI32_of_lt (n : Nat) (h : n < 2147483648) : toI32 n = (n : Int) := by
  unfold toI32
  have h2 : n % 4294967296 = n := Nat.mod_eq_of_lt (by omega)
  rw [h2, if_pos h]

/-- C1. For a signal of `sig_len ≥ 1` samples, `linear_interpolation_zerocrossing`
returns `min(Z, q)`, where `q` is the number of qualifying indices among
`0, ..., sig_len - 2` (`x[i] == 0`, or `x[i]*x[i+1] < 0`); the first `min(Z, q)`
entries of the output are the emissions (`i`, resp. `i + (-x[i])/(x[i+1]-x[i])`)
of the first `min(Z, q)` qualifying indices in scan order, and the other
entries of the output are left as they were. -/
theorem C1_zerocrossing_rule (sig out : Nat → ℚ) (sig_len Z : Nat)
    (h1 : 1 ≤ sig_len) (h2 : sig_len < 2147483648) :
    (linear_interpolation_zerocrossing sig sig_len out Z).2
        = ((min Z (zc_qualifying sig sig_len).length : Nat) : Int) ∧
    (List.range (min Z (zc_qualifying sig sig_len).length)).map
        (linear_interpolation_zerocrossing sig sig_len out Z).1
        = ((zc_qualifying sig sig_len).take Z).map (zc_emission sig) ∧
    ∀ k, min Z (zc_qualifying sig sig_len).length ≤ k →
      (linear_interpolation_zerocrossing sig sig_len out Z).1 k = out k := by
  have hb : toU32 ((sig_len : Int) - 1) = sig_len - 1 := by
    rw [toU32_of_nonneg _ (by omega) (by omega)]; omega
  obtain ⟨a, b, c⟩ := zcLoop_spec sig Z (sig_len - 1) 0 0 out (Nat.zero_le _)
  rw [← List.range_eq_range'] at a b c
  simp only [Nat.sub_zero, Nat.zero_add, List.length_take] at a b c
  have hle : (zcLoop sig Z (sig_len - 1) 0 0 out).2 ≤ sig_len - 1 := by
    rw [a]
    have := List.length_filter_le (zc_qualifies sig) (List.range (sig_len - 1))
    simp only [List.length_range] at this
    omega
  unfold linear_interpolation_zerocrossing zc_qualifying
  simp only [hb]
  refine ⟨?_, ?_, ?_⟩
  · rw [toI32_of_lt _ (by omega), a]
  · apply List.ext_getElem
    · simp
    · intro j hj1 hj2
      simp only [List.length_map, List.length_range] at hj1
      simp only [List.getElem_map, List.getElem_range]
      rw [b j hj1]
      congr 1
      rw [List.getD_eq_getElem?_getD, List.getElem?_eq_getElem (by simpa using hj1)]
      rfl
  · intro k hk
    exact c k (Or.inr hk)

/-- C1, at the five-sample signal `zcSig` with `Z = 6`. -/
theorem C1_witness :
    1 ≤ 5 ∧ 5 < 2147483648 ∧
    (linear_interpolation_zerocrossing zcSig 5 zcOut ZEROCROSS_LEN).2
      = ((min ZEROCROSS_LEN (zc_qualifying zcSig 5).length : Nat) : Int) :=
  ⟨by decide, by decide, (C1_zerocrossing_rule zcSig zcOut 5 ZEROCROSS_LEN (by decide) (by decide)).1⟩

theorem toI32_le (n : Nat) : toI32 n ≤ (n : Int) := by
  unfold toI32
  have := Nat.mod_le n 4294967296
  split <;> omega

theorem zc_emission_bounds (sig : Nat → ℚ) (i : Nat) (h : zc_qualifies sig i = true) :
    (i : ℚ) ≤ zc_emission sig i ∧ zc_emission sig i < (i : ℚ) + 1 := by
  unfold zc_emission
  by_cases h0 : sig i = 0
  · simp [h0]
  · have hs : sig i * sig (i + 1) < 0 := by simpa [zc_qualifies, h0] using h
    rw [if_neg h0]
    have key : 0 ≤ -sig i / (sig (i + 1) - sig i) ∧ -sig i / (sig (i + 1) - sig i) < 1 := by
      rcases mul_neg_iff.mp hs with ⟨ha, hb⟩ | ⟨ha, hb⟩
      · have e : -sig i / (sig (i + 1) - sig i) = sig i / (sig i - sig (i + 1)) := by
          rw [← neg_sub (sig i) (sig (i + 1)), neg_div_neg_eq]
        rw [e]
        have hd : 0 < sig i - sig (i + 1) := by linarith
        exact ⟨div_nonneg ha.le hd.le, (div_lt_one hd).mpr (by linarith)⟩
      · have hd : 0 < sig (i + 1) - sig i := by linarith
        exact ⟨div_nonneg (by linarith) hd.le, (div_lt_one hd).mpr (by linarith)⟩
    constructor <;> linarith [key.1, key.2]

theorem zc_scan_pairwise (sig : Nat → ℚ) (n Z : Nat) :
    (((List.range' 0 n).filter (zc_qualifies sig)).take Z).Pairwise (· < ·) :=
  List.Pairwise.sublist (List.take_sublist _ _)
    (List.Pairwise.sublist (List.filter_sublist _) (List.pairwise_lt_range' 0 n))

/-- In exact arithmetic (the model `zcLoop`) the zero crossings written by
`linear_interpolation_zerocrossing` are strictly increasing: `z[k] < z[k+1]`
whenever `k + 1` is below the returned count (the emission for scan index `i`
lies in `[i, i+1)`, see `zc_emission_bounds`).  The rounding of the `float`
operations can make two of them equal, see `zcLoop_f32`. -/
theorem zerocrossing_exact_strictly_increasing (sig out : Nat → ℚ) (sig_len Z k : Nat)
    (hk : ((k + 1 : Nat) : Int) < (linear_interpolation_zerocrossing sig sig_len out Z).2) :
    (linear_interpolation_zerocrossing sig sig_len out Z).1 k
      < (linear_interpolation_zerocrossing sig sig_len out Z).1 (k + 1) := by
  unfold linear_interpolation_zerocrossing at hk ⊢
  simp only at hk ⊢
  obtain ⟨a, b, -⟩ := zcLoop_spec sig Z (toU32 ((sig_len : Int) - 1)) 0 0 out (Nat.zero_le _)
  simp only [Nat.sub_zero, Nat.zero_add] at a b
  generalize hqs : List.take Z (List.filter (zc_qualifies sig)
    (List.range' 0 (toU32 ((sig_len : Int) - 1)))) = qs at a b
  have hpw : qs.Pairwise (· < ·) := hqs ▸ zc_scan_pairwise sig _ Z
  have hmem : ∀ x ∈ qs, zc_qualifies sig x = true := by
    intro x hx
    rw [← hqs] at hx
    exact (List.mem_filter.mp (List.mem_of_mem_take hx)).2
  have hlen : k + 1 < qs.length := by
    have := toI32_le (zcLoop sig Z (toU32 ((sig_len : Int) - 1)) 0 0 out).2
    rw [a] at this hk
    omega
  have hk0 : k < qs.length := by omega
  rw [b k hk0, b (k + 1) hlen]
  rw [List.getD_eq_getElem?_getD, List.getD_eq_getElem?_getD,
    List.getElem?_eq_getElem hk0, List.getElem?_eq_getElem hlen]
  simp only [Option.getD_some]
  have hlt : qs[k] < qs[k + 1] := List.pairwise_iff_getElem.mp hpw k (k + 1) hk0 hlen (by omega)
  have h1 := zc_emission_bounds sig qs[k] (hmem _ (List.getElem_mem _))
  have h2 := zc_emission_bounds sig qs[k + 1] (hmem _ (List.getElem_mem _))
  have hc : ((qs[k] : Nat) : ℚ) + 1 ≤ ((qs[k + 1] : Nat) : ℚ) := by exact_mod_cast hlt
  linarith [h1.2, h2.1]

/-! ## Theorems on `match_shape` and `arg_minf` -/

theorem match_shape_outer_spec (R C : Int → Peak) (len S : Int) :
    ∀ (n : Nat) (off : Int) (mse : Int → Option ℚ) (k : Int),
      match_shape_outer R C len S n off mse k
        = if off + Int.tdiv S 2 ≤ k ∧ k < off + Int.tdiv S 2 + n then
            match_shape_entry R C len (k - Int.tdiv S 2)
          else mse k := by
  intro n
  induction n with
  | zero =>
    intro off mse k
    have : ¬ (off + Int.tdiv S 2 ≤ k ∧ k < off + Int.tdiv S 2 + ((0 : Nat) : Int)) := by
      push_cast; omega
    rw [if_neg this]; rfl
  | succ n ih =>
    intro off mse k
    rw [match_shape_outer, ih]
    by_cases h1 : off + 1 + Int.tdiv S 2 ≤ k ∧ k < off + 1 + Int.tdiv S 2 + (n : Int)
    · rw [if_pos h1, if_pos (by push_cast; omega)]
    · rw [if_neg h1]
      by_cases h2 : k = off + Int.tdiv S 2
      · subst h2
        rw [Function.update_same, if_pos (by push_cast; omega)]
        congr 1; omega
      · rw [Function.update_noteq h2, if_neg (by push_cast; omega)]

/-- With search range 9, `mse[off + 4]` holds the entry computed for `off`. -/
theorem match_shape_mse (R C : Int → Peak) (len : Int) (mse0 : Int → Option ℚ) (off : Int)
    (h1 : -4 ≤ off) (h2 : off ≤ 4) :
    (match_shape R C len mse0 9).1 (off + 4) = match_shape_entry R C len off := by
  have e1 : Int.tdiv (9 : Int) 2 = 4 := by decide
  have e2 : Int.tdiv (-(9 : Int)) 2 = -4 := by decide
  simp only [match_shape, e1, e2]
  rw [match_shape_outer_spec, e1, if_pos (by constructor <;> simp <;> omega)]
  congr 1; omega

/-- C3 (the code at the failing input). With reference `refShape` and current
constellation `curShape` (slot 0 absent), the entry `match_shape` writes for
`Δ = +1` is 1997/1500 while the mean over the pairs named by the contract is
1003/800: the code tests `C[i].position`, not `C[i+Δ].position`.  With
`refShape` against itself the entry for `Δ = -4` is 61/450 while the contract
mean is 93/650: for `Δ < 0` the code stops at `i < P + Δ`, not at `i < P`. -/
theorem C3_match_shape_pair_selection :
    (match_shape refShape curShape PEAK_LEN mseInit MSE_RANGE).1 (1 + Int.tdiv MSE_RANGE 2)
      = some (1997 / 1500) ∧
    spec_pair_mse refShape curShape PEAK_LEN 1 = some (1003 / 800) ∧
    (match_shape refShape refShape PEAK_LEN mseInit MSE_RANGE).1 (-4 + Int.tdiv MSE_RANGE 2)
      = some (61 / 450) ∧
    spec_pair_mse refShape refShape PEAK_LEN (-4) = some (93 / 650) := by
  decide!

theorem arg_minf_loop_spec (sig : Int → Option ℚ) :
    ∀ (n i : Nat) (min : Option ℚ) (arg : Nat) (m : ℚ),
      min = some m → sig (arg : Int) = some m → arg ≤ i →
      (∀ j : Nat, j < i → ∀ v, sig (j : Int) = some v → m ≤ v ∧ (j < arg → m < v)) →
      ∃ m2, sig ((arg_minf_loop sig n i min arg : Nat) : Int) = some m2 ∧
        (arg_minf_loop sig n i min arg = arg ∨
          (i ≤ arg_minf_loop sig n i min arg ∧ arg_minf_loop sig n i min arg < i + n)) ∧
        ∀ j : Nat, j < i + n → ∀ v, sig (j : Int) = some v →
          m2 ≤ v ∧ (j < arg_minf_loop sig n i min arg → m2 < v) := by
  intro n
  induction n with
  | zero =>
    intro i min arg m _ harg _ hinv
    exact ⟨m, harg, Or.inl rfl, fun j hj v hv => hinv j (by omega) v hv⟩
  | succ n ih =>
    intro i min arg m hmin harg hle hinv
    rw [arg_minf_loop]
    by_cases hlt : flt (sig (i : Int)) min = true
    · rw [if_pos hlt]
      obtain ⟨x, hx⟩ : ∃ x, sig (i : Int) = some x := by
        cases h : sig (i : Int) with
        | none => rw [h] at hlt; simp [flt] at hlt
        | some x => exact ⟨x, rfl⟩
      have hxm : x < m := by
        rw [hx, hmin] at hlt; simpa [flt] using hlt
      obtain ⟨m2, a, b, c⟩ := ih (i + 1) (sig (i : Int)) i x hx hx (by omega) (by
        intro j hj v hv
        by_cases hji : j = i
        · subst hji
          rw [hx] at hv
          have : x = v := by simpa using hv
          exact ⟨this ▸ le_refl x, fun h => absurd h (lt_irrefl _)⟩
        · have := (hinv j (by omega) v hv).1
          exact ⟨by linarith, fun _ => by linarith⟩)
      refine ⟨m2, a, ?_, fun j hj v hv => c j (by omega) v hv⟩
      rcases b with b | b
      · right; rw [b]; omega
      · right; omega
    · rw [if_neg hlt]
      obtain ⟨m2, a, b, c⟩ := ih (i + 1) min arg m hmin harg (by omega) (by
        intro j hj v hv
        by_cases hji : j = i
        · subst hji
          have : ¬ v < m := by
            intro hvm
            apply hlt
            rw [hv, hmin]; simpa [flt] using hvm
          exact ⟨not_lt.mp this, fun h => by omega⟩
        · exact hinv j (by omega) v hv)
      refine ⟨m2, a, ?_, fun j hj v hv => c j (by omega) v hv⟩
      rcases b with b | b
      · left; exact b
      · right; omega

/-- Result of `arg_minf` on 9 entries whose first one is not NaN. -/
theorem arg_minf_nine (sig : Int → Option ℚ) (m : ℚ) (h0 : sig 0 = some m) :
    ∃ (r : Nat) (m2 : ℚ), arg_minf sig 9 = (r : Int) ∧ r < 9 ∧ sig (r : Int) = some m2 ∧
      ∀ j : Nat, j < 9 → ∀ v, sig (j : Int) = some v → m2 ≤ v ∧ (j < r → m2 < v) := by
  have hu : toU32 9 = 9 := by decide
  obtain ⟨m2, a, b, c⟩ := arg_minf_loop_spec sig 9 0 (sig 0) 0 m h0 (by simpa using h0)
    (le_refl _) (fun j hj => absurd hj (Nat.not_lt_zero _))
  have hr : arg_minf_loop sig 9 0 (sig 0) 0 < 9 := by
    rcases b with b | b
    · rw [b]; decide
    · omega
  refine ⟨_, m2, ?_, hr, a, ?_⟩
  · unfold arg_minf
    rw [hu]
    exact toI32_of_lt _ (by omega)
  · intro j hj v hv
    exact c j (by omega) v hv

/-- C4. When all 9 MSE entries written by `match_shape` are defined, the lobe
offset `Δ` = returned index minus `S/2` lies in `[-4, 4]`, the entry at the
returned index is at most the entry of every offset, and it is strictly below
the entry of every smaller index (the returned index is the smallest one that
attains the minimum). -/
theorem C4_match_shape_argmin (R C : Int → Peak) (len : Int) (mse0 : Int → Option ℚ)
    (hdef : ∀ off : Int, -4 ≤ off → off ≤ 4 →
      ((match_shape R C len mse0 MSE_RANGE).1 (off + Int.tdiv MSE_RANGE 2)).isSome = true) :
    -4 ≤ (match_shape R C len mse0 MSE_RANGE).2 - Int.tdiv MSE_RANGE 2 ∧
    (match_shape R C len mse0 MSE_RANGE).2 - Int.tdiv MSE_RANGE 2 ≤ 4 ∧
    ∃ m, (match_shape R C len mse0 MSE_RANGE).1 (match_shape R C len mse0 MSE_RANGE).2 = some m ∧
      ∀ off : Int, -4 ≤ off → off ≤ 4 →
        ∃ v, (match_shape R C len mse0 MSE_RANGE).1 (off + Int.tdiv MSE_RANGE 2) = some v ∧
          m ≤ v ∧
          (off + Int.tdiv MSE_RANGE 2 < (match_shape R C len mse0 MSE_RANGE).2 → m < v) := by
  have e9 : MSE_RANGE = 9 := rfl
  have e1 : Int.tdiv (9 : Int) 2 = 4 := by decide
  simp only [e9, e1] at hdef ⊢
  have hret : (match_shape R C len mse0 9).2 = arg_minf (match_shape R C len mse0 9).1 9 := rfl
  obtain ⟨m, hm⟩ := Option.isSome_iff_exists.mp (hdef (-4) (by omega) (by omega))
  obtain ⟨r, m2, hr, hr9, hsome, hmin⟩ := arg_minf_nine (match_shape R C len mse0 9).1 m
    (by simpa using hm)
  rw [hret, hr]
  refine ⟨by omega, by omega, m2, hsome, ?_⟩
  intro off h1 h2
  obtain ⟨v, hv⟩ := Option.isSome_iff_exists.mp (hdef off h1 h2)
  have hcast : ((off + 4).toNat : Int) = off + 4 := Int.toNat_of_nonneg (by omega)
  have := hmin (off + 4).toNat (by omega) v (by rw [hcast]; exact hv)
  exact ⟨v, hv, this.1, fun h => this.2 (by omega)⟩

/-- C4, at the constellations `refShape` and `curShape`. -/
theorem C4_witness :
    -4 ≤ (match_shape refShape curShape PEAK_LEN mseInit MSE_RANGE).2 - Int.tdiv MSE_RANGE 2 ∧
    (match_shape refShape curShape PEAK_LEN mseInit MSE_RANGE).2 - Int.tdiv MSE_RANGE 2 ≤ 4 ∧
    ∃ m, (match_shape refShape curShape PEAK_LEN mseInit MSE_RANGE).1
        (match_shape refShape curShape PEAK_LEN mseInit MSE_RANGE).2 = some m ∧
      ∀ off : Int, -4 ≤ off → off ≤ 4 →
        ∃ v, (match_shape refShape curShape PEAK_LEN mseInit MSE_RANGE).1
            (off + Int.tdiv MSE_RANGE 2) = some v ∧
          m ≤ v ∧
          (off + Int.tdiv MSE_RANGE 2
              < (match_shape refShape curShape PEAK_LEN mseInit MSE_RANGE).2 → m < v) :=
  C4_match_shape_argmin refShape curShape PEAK_LEN mseInit
    (by intro off h1 h2; interval_cases off <;> decide!)

theorem match_shape_inner_nonneg (R C : Int → Peak) (off : Int) :
    ∀ (n : Nat) (i : Int) (sum count : ℚ), 0 ≤ sum → 0 ≤ count →
      0 ≤ (match_shape_inner R C off n i sum count).1 ∧
      0 ≤ (match_shape_inner R C off n i sum count).2 := by
  intro n
  induction n with
  | zero => intro i sum count hs hc; exact ⟨hs, hc⟩
  | succ n ih =>
    intro i sum count hs hc
    rw [match_shape_inner]
    split
    · exact ih _ _ _ (add_nonneg hs (mul_self_nonneg _)) (add_nonneg hc zero_le_one)
    · exact ih _ _ _ hs hc

theorem match_shape_inner_self (R : Int → Peak) :
    ∀ (n : Nat) (i : Int) (sum count : ℚ),
      (match_shape_inner R R 0 n i sum count).1 = sum := by
  intro n
  induction n with
  | zero => intro i sum count; rfl
  | succ n ih =>
    intro i sum count
    rw [match_shape_inner]
    split
    · rw [ih]; simp
    · rw [ih]

theorem fdiv_eq_some (a b v : ℚ) (h : fdiv a b = some v) : b ≠ 0 ∧ v = a / b := by
  unfold fdiv at h
  split at h
  · exact absurd h (by simp)
  · exact ⟨by assumption, (Option.some.inj h).symm⟩

/-- Every defined MSE entry is non-negative. -/
theorem match_shape_entry_nonneg (R C : Int → Peak) (len off : Int) (v : ℚ)
    (h : match_shape_entry R C len off = some v) : 0 ≤ v := by
  unfold match_shape_entry at h
  obtain ⟨-, hv⟩ := fdiv_eq_some _ _ _ h
  rw [hv]
  exact div_nonneg (match_shape_inner_nonneg R C off _ _ 0 0 (le_refl _) (le_refl _)).1
    (match_shape_inner_nonneg R C off _ _ 0 0 (le_refl _) (le_refl _)).2

/-- Matching a constellation against itself, a defined entry for offset 0 is 0. -/
theorem match_shape_entry_self (R : Int → Peak) (len : Int) (v : ℚ)
    (h : match_shape_entry R R len 0 = some v) : v = 0 := by
  unfold match_shape_entry at h
  obtain ⟨-, hv⟩ := fdiv_eq_some _ _ _ h
  rw [hv, match_shape_inner_self]
  simp

/-- C5, under the two conditions it needs. If all 9 MSE entries of
`match_shape(R, R)` over 17 slots are defined and no negative offset has an
entry equal to 0, then the lobe offset is `Δ = 0` and `MSE[Δ] = 0`. -/
theorem C5_match_shape_self (R : Int → Peak) (mse0 : Int → Option ℚ)
    (hdef : ∀ off : Int, -4 ≤ off → off ≤ 4 →
      ((match_shape R R PEAK_LEN mse0 MSE_RANGE).1 (off + Int.tdiv MSE_RANGE 2)).isSome = true)
    (hne : ∀ off : Int, -4 ≤ off → off < 0 →
      (match_shape R R PEAK_LEN mse0 MSE_RANGE).1 (off + Int.tdiv MSE_RANGE 2) ≠ some 0) :
    (match_shape R R PEAK_LEN mse0 MSE_RANGE).2 - Int.tdiv MSE_RANGE 2 = 0 ∧
    (match_shape R R PEAK_LEN mse0 MSE_RANGE).1 (match_shape R R PEAK_LEN mse0 MSE_RANGE).2
      = some 0 := by
  have e9 : MSE_RANGE = 9 := rfl
  have e1 : Int.tdiv (9 : Int) 2 = 4 := by decide
  simp only [e9, e1] at hdef hne ⊢
  have hret : (match_shape R R PEAK_LEN mse0 9).2
      = arg_minf (match_shape R R PEAK_LEN mse0 9).1 9 := rfl
  obtain ⟨m, hm⟩ := Option.isSome_iff_exists.mp (hdef (-4) (by omega) (by omega))
  obtain ⟨r, m2, hr, hr9, hsome, hmin⟩ := arg_minf_nine (match_shape R R PEAK_LEN mse0 9).1 m
    (by simpa using hm)
  obtain ⟨v4, hv4⟩ := Option.isSome_iff_exists.mp (hdef 0 (by omega) (by omega))
  have hv4z : v4 = 0 := by
    have := match_shape_mse R R PEAK_LEN mse0 0 (by omega) (by omega)
    rw [this] at hv4
    exact match_shape_entry_self R PEAK_LEN v4 hv4
  subst hv4z
  have hm2 : 0 ≤ m2 := by
    have hcast : ((r : Int) - 4 + 4) = (r : Int) := by omega
    have := match_shape_mse R R PEAK_LEN mse0 ((r : Int) - 4) (by omega) (by omega)
    rw [hcast, hsome] at this
    exact match_shape_entry_nonneg R R PEAK_LEN _ m2 this.symm
  have h4 := hmin 4 (by omega) 0 (by simpa using hv4)
  have hm0 : m2 = 0 := le_antisymm h4.1 hm2
  subst hm0
  have hr4 : r = 4 := by
    rcases Nat.lt_trichotomy r 4 with h | h | h
    · exfalso
      apply hne ((r : Int) - 4) (by omega) (by omega)
      have hcast : ((r : Int) - 4 + 4) = (r : Int) := by omega
      rw [hcast]; exact hsome
    · exact h
    · exact absurd (h4.2 h) (lt_irrefl _)
  subst hr4
  rw [hret, hr]
  exact ⟨by norm_num, hsome⟩

/-- C5 under its conditions, at the constellation `refShape`. -/
theorem C5_witness :
    (match_shape refShape refShape PEAK_LEN mseInit MSE_RANGE).2 - Int.tdiv MSE_RANGE 2 = 0 ∧
    (match_shape refShape refShape PEAK_LEN mseInit MSE_RANGE).1
      (match_shape refShape refShape PEAK_LEN mseInit MSE_RANGE).2 = some 0 :=
  C5_match_shape_self refShape mseInit
    (by intro off h1 h2; interval_cases off <;> decide!)
    (by intro off h1 h2; interval_cases off <;> decide!)

/-- C5 fails without those conditions: for the constellation `altShape` (all
amplitudes `±1`, alternating) every even offset has MSE 0 and the returned
index is 0, so `Δ = -4`; for the all-zero constellation every entry is NaN, the
returned index is 0 (`Δ = -4`) and `MSE[Δ]` is NaN. -/
theorem C5_counterexample :
    (match_shape altShape altShape PEAK_LEN mseInit MSE_RANGE).2 - Int.tdiv MSE_RANGE 2 = -4 ∧
    (match_shape zeroPeaks zeroPeaks PEAK_LEN mseInit MSE_RANGE).2 - Int.tdiv MSE_RANGE 2 = -4 ∧
    (match_shape zeroPeaks zeroPeaks PEAK_LEN mseInit MSE_RANGE).1
      (match_shape zeroPeaks zeroPeaks PEAK_LEN mseInit MSE_RANGE).2 = none := by
  decide!

/-! ## Theorems on turning points, `argmaxf` and `capture_peaks` -/

theorem find_next_turning_loop_bounds (sig : Int → ℚ) :
    ∀ (n : Nat) (i : Int) (pre_dt : ℚ),
      find_next_turning_loop sig n i pre_dt = 0 ∨
      (i ≤ find_next_turning_loop sig n i pre_dt ∧
        find_next_turning_loop sig n i pre_dt < i + n) := by
  intro n
  induction n with
  | zero => intro i pre_dt; left; rfl
  | succ n ih =>
    intro i pre_dt
    rw [find_next_turning_loop]
    split
    · right; push_cast; omega
    · rcases ih (i + 1) (sig (i + 1) - sig i) with h | h
      · left; exact h
      · right; push_cast; omega

/-- A found next turning point is at least 3 and at most `len - 2`. -/
theorem find_next_turning_bounds (sig : Int → ℚ) (len : Int) :
    find_next_turning sig len = 0 ∨
    (3 ≤ find_next_turning sig len ∧ find_next_turning sig len ≤ len - 2) := by
  unfold find_next_turning
  rcases find_next_turning_loop_bounds sig (len - 1 - 3).toNat 3 (sig 3 - sig 2) with h | h
  · left; exact h
  · right
    have := Int.toNat_of_nonneg (a := len - 1 - 3)
    omega

theorem find_prev_turning_loop_bounds (p : Int → ℚ) :
    ∀ (n : Nat) (i : Int) (pre_dt : ℚ),
      find_prev_turning_loop p n i pre_dt = 0 ∨
      (i ≤ -find_prev_turning_loop p n i pre_dt ∧
        -find_prev_turning_loop p n i pre_dt < i + n) := by
  intro n
  induction n with
  | zero => intro i pre_dt; left; rfl
  | succ n ih =>
    intro i pre_dt
    rw [find_prev_turning_loop]
    split
    · right; push_cast; omega
    · rcases ih (i + 1) (p (-i) - p (-i - 1)) with h | h
      · left; exact h
      · right; push_cast; omega

/-- A found previous turning point is `-i` with `3 ≤ i ≤ len - 2`. -/
theorem find_prev_turning_bounds (sig : Int → ℚ) (len : Int) :
    find_prev_turning sig len = 0 ∨
    (3 ≤ -find_prev_turning sig len ∧ -find_prev_turning sig len ≤ len - 2) := by
  unfold find_prev_turning
  rcases find_prev_turning_loop_bounds sig (len - 1 - 3).toNat 3 (sig (-2) - sig (-3)) with h | h
  · left; exact h
  · right
    have := Int.toNat_of_nonneg (a := len - 1 - 3)
    omega

theorem argmaxf_loop_spec (sig : Int → ℚ) :
    ∀ (n i : Nat) (max : ℚ) (arg : Nat),
      max = sig (arg : Int) → arg ≤ i →
      (∀ j : Nat, j < i → sig (j : Int) ≤ sig (arg : Int)) →
      (∀ j : Nat, j < arg → sig (j : Int) < sig (arg : Int)) →
      (argmaxf_loop sig n i max arg = arg ∨
        (i ≤ argmaxf_loop sig n i max arg ∧ argmaxf_loop sig n i max arg < i + n)) ∧
      (∀ j : Nat, j < i + n →
        sig (j : Int) ≤ sig ((argmaxf_loop sig n i max arg : Nat) : Int)) ∧
      (∀ j : Nat, j < argmaxf_loop sig n i max arg →
        sig (j : Int) < sig ((argmaxf_loop sig n i max arg : Nat) : Int)) := by
  intro n
  induction n with
  | zero =>
    intro i max arg _ _ h1 h2
    exact ⟨Or.inl rfl, fun j hj => h1 j (by omega), h2⟩
  | succ n ih =>
    intro i max arg hmax hle h1 h2
    rw [argmaxf_loop]
    by_cases hgt : sig (i : Int) > max
    · rw [if_pos hgt]
      rw [hmax] at hgt
      obtain ⟨a, b, c⟩ := ih (i + 1) (sig (i : Int)) i rfl (by omega)
        (by
          intro j hj
          by_cases hji : j = i
          · rw [hji]
          · exact le_of_lt (lt_of_le_of_lt (h1 j (by omega)) hgt))
        (by
          intro j hj
          exact lt_of_le_of_lt (h1 j hj) hgt)
      refine ⟨?_, fun j hj => b j (by omega), c⟩
      rcases a with a | a
      · right; rw [a]; omega
      · right; omega
    · rw [if_neg hgt]
      rw [hmax] at hgt
      obtain ⟨a, b, c⟩ := ih (i + 1) max arg hmax (by omega)
        (by
          intro j hj
          by_cases hji : j = i
          · rw [hji]; exact not_lt.mp hgt
          · exact h1 j (by omega))
        h2
      refine ⟨?_, fun j hj => b j (by omega), c⟩
      rcases a with a | a
      · left; exact a
      · right; omega

/-- On a non-empty signal `argmaxf` returns the first index of the maximum. -/
theorem argmaxf_spec (sig : Int → ℚ) (len : Int) (h1 : 0 < len) (h2 : len < 2147483648) :
    0 ≤ argmaxf sig len ∧ argmaxf sig len < len ∧
    (∀ j : Int, 0 ≤ j → j < len → sig j ≤ sig (argmaxf sig len)) ∧
    (∀ j : Int, 0 ≤ j → j < argmaxf sig len → sig j < sig (argmaxf sig len)) := by
  have hu : toU32 len = len.toNat := toU32_of_nonneg len (by omega) (by omega)
  obtain ⟨a, b, c⟩ := argmaxf_loop_spec sig len.toNat 0 (sig 0) 0 rfl (le_refl _)
    (fun j hj => absurd hj (Nat.not_lt_zero _)) (fun j hj => absurd hj (Nat.not_lt_zero _))
  have hlen : (len.toNat : Int) = len := Int.toNat_of_nonneg (by omega)
  have hr : argmaxf_loop sig len.toNat 0 (sig 0) 0 < len.toNat := by
    rcases a with a | a
    · rw [a]; omega
    · omega
  have hM : argmaxf sig len = ((argmaxf_loop sig len.toNat 0 (sig 0) 0 : Nat) : Int) := by
    unfold argmaxf
    rw [hu]
    exact toI32_of_lt _ (by omega)
  rw [hM]
  refine ⟨by omega, by omega, ?_, ?_⟩
  · intro j hj0 hj1
    have := b j.toNat (by omega)
    rwa [Int.toNat_of_nonneg hj0] at this
  · intro j hj0 hj1
    have := c j.toNat (by omega)
    rwa [Int.toNat_of_nonneg hj0] at this

theorem walk_right_slots (sig : Int → ℚ) (sig_len M maxR L : Int) (T : ℚ) :
    ∀ (n : Nat) (s : Walk), M ≤ s.sig_idx → L < s.peak_idx →
      ∀ k : Int, (walk_right sig sig_len M maxR T n s).peaks k = s.peaks k ∨
        RightSlot sig sig_len M maxR L k ((walk_right sig sig_len M maxR T n s).peaks k) := by
  intro n
  induction n with
  | zero => intro s _ _ k; left; rfl
  | succ n ih =>
    intro s hs hp k
    rw [walk_right]
    dsimp only
    have hb := find_next_turning_bounds (shift sig s.sig_idx) (sig_len - s.sig_idx)
    generalize find_next_turning (shift sig s.sig_idx) (sig_len - s.sig_idx) = t at hb ⊢
    split_ifs with h1 h2 h3
    · left; rfl
    · left; rfl
    · rcases hb with hb | hb
      · exact absurd hb h1
      · rcases ih ⟨s.sig_idx + t, s.peak_idx + 1, s.sig_idx + t, s.peak_detected_len + 1,
            Function.update s.peaks s.peak_idx (((s.sig_idx + t : Int) : ℚ), sig (s.sig_idx + t))⟩
            (by dsimp only; omega) (by dsimp only; omega) k with h | h
        · by_cases hk : k = s.peak_idx
          · right
            rw [h, hk]
            dsimp only
            rw [Function.update_same]
            exact ⟨hp, _, rfl, by omega, by omega, by omega⟩
          · left
            rw [h]
            dsimp only
            rw [Function.update_noteq hk]
        · right; exact h
    · rcases hb with hb | hb
      · exact absurd hb h1
      · exact ih ⟨s.sig_idx + t, s.peak_idx, s.prev_peak, s.peak_detected_len, s.peaks⟩
          (by dsimp only; omega) hp k

theorem walk_left_slots (sig : Int → ℚ) (M maxL L : Int) (T : ℚ) :
    ∀ (n : Nat) (s : Walk), s.sig_idx ≤ M → s.peak_idx < L →
      ∀ k : Int, (walk_left sig M maxL T n s).peaks k = s.peaks k ∨
        LeftSlot sig M maxL L k ((walk_left sig M maxL T n s).peaks k) := by
  intro n
  induction n with
  | zero => intro s _ _ k; left; rfl
  | succ n ih =>
    intro s hs hp k
    rw [walk_left]
    dsimp only
    have hb := find_prev_turning_bounds (shift sig s.sig_idx) s.sig_idx
    generalize find_prev_turning (shift sig s.sig_idx) s.sig_idx = t at hb ⊢
    split_ifs with h0 h1 h2 h3
    · left; rfl
    · left; rfl
    · left; rfl
    · rcases hb with hb | hb
      · exact absurd hb h1
      · rcases ih ⟨s.sig_idx + t, s.peak_idx - 1, s.peak_idx - 1, s.peak_detected_len + 1,
            Function.update s.peaks s.peak_idx (((s.sig_idx + t : Int) : ℚ), sig (s.sig_idx + t))⟩
            (by dsimp only; omega) (by dsimp only; omega) k with h | h
        · by_cases hk : k = s.peak_idx
          · right
            rw [h, hk]
            dsimp only
            rw [Function.update_same]
            exact ⟨hp, by omega, _, rfl, by omega, by omega, by omega⟩
          · left
            rw [h]
            dsimp only
            rw [Function.update_noteq hk]
        · right; exact h
    · rcases hb with hb | hb
      · exact absurd hb h1
      · exact ih ⟨s.sig_idx + t, s.peak_idx, s.prev_peak, s.peak_detected_len, s.peaks⟩
          (by dsimp only; omega) hp k

/-- Every slot of the buffer returned by `capture_peaks` is untouched, or is the
middle slot holding the main peak, or was written by one of the two walks. -/
theorem capture_peaks_slots (sig : Int → ℚ) (sig_len : Int) (peaks : Int → Peak)
    (L R : Int) (T : ℚ) (k : Int) :
    (capture_peaks sig sig_len peaks L R T).1 k
        = Function.update peaks L
            (((argmaxf sig sig_len : Int) : ℚ), sig (argmaxf sig sig_len)) k ∨
    RightSlot sig sig_len (argmaxf sig sig_len) (25 * (R + 2)) L k
      ((capture_peaks sig sig_len peaks L R T).1 k) ∨
    LeftSlot sig (argmaxf sig sig_len) (25 * (L + 2)) L k
      ((capture_peaks sig sig_len peaks L R T).1 k) := by
  unfold capture_peaks capture_final
  dsimp only
  rcases walk_left_slots sig (argmaxf sig sig_len) (25 * (L + 2)) L
      (sig (argmaxf sig sig_len) * T) L.toNat
      ⟨argmaxf sig sig_len, L - 1, (capture_right sig sig_len peaks L R T).prev_peak,
        (capture_right sig sig_len peaks L R T).peak_detected_len,
        (capture_right sig sig_len peaks L R T).peaks⟩
      (le_refl _) (show L - 1 < L by omega) k with h | h
  · rw [h]
    dsimp only
    unfold capture_right
    dsimp only
    rcases walk_right_slots sig sig_len (argmaxf sig sig_len) (25 * (R + 2)) L
        (sig (argmaxf sig sig_len) * T) R.toNat (capture_init sig sig_len peaks L)
        (le_refl _) (show L < L + 1 by omega) k with h2 | h2
    · left; rw [h2]; rfl
    · right; left; exact h2
  · right; right; exact h

/-- C6. For every signal of length `sig_len ≥ 1` (an `int`), after
`capture_peaks` the middle slot `L` holds `(M, sig[M])`, where `M = argmaxf` is
the first index of the maximum of the signal over `[0, sig_len)`; the slot
already holds it after the right walk, and the left walk leaves it so. -/
theorem C6_main_peak_in_middle_slot (sig : Int → ℚ) (sig_len : Int) (peaks : Int → Peak)
    (L R : Int) (T : ℚ) (h1 : 0 < sig_len) (h2 : sig_len < 2147483648) :
    (capture_peaks sig sig_len peaks L R T).1 L
      = (((argmaxf sig sig_len : Int) : ℚ), sig (argmaxf sig sig_len)) ∧
    (capture_right sig sig_len peaks L R T).peaks L
      = (((argmaxf sig sig_len : Int) : ℚ), sig (argmaxf sig sig_len)) ∧
    0 ≤ argmaxf sig sig_len ∧ argmaxf sig sig_len < sig_len ∧
    (∀ j : Int, 0 ≤ j → j < sig_len → sig j ≤ sig (argmaxf sig sig_len)) ∧
    (∀ j : Int, 0 ≤ j → j < argmaxf sig sig_len → sig j < sig (argmaxf sig sig_len)) := by
  obtain ⟨a, b, c, d⟩ := argmaxf_spec sig sig_len h1 h2
  refine ⟨?_, ?_, a, b, c, d⟩
  · rcases capture_peaks_slots sig sig_len peaks L R T L with h | h | h
    · rw [h, Function.update_same]
    · exact absurd h.1 (lt_irrefl _)
    · exact absurd h.1 (lt_irrefl _)
  · unfold capture_right
    dsimp only
    rcases walk_right_slots sig sig_len (argmaxf sig sig_len) (25 * (R + 2)) L
        (sig (argmaxf sig sig_len) * T) R.toNat (capture_init sig sig_len peaks L)
        (le_refl _) (show L < L + 1 by omega) L with h | h
    · rw [h]
      unfold capture_init
      dsimp only
      rw [Function.update_same]
    · exact absurd h.1 (lt_irrefl _)

/-- C6, at the 28-sample signal `closePeaksSig` with `L = R = 8`. -/
theorem C6_witness :
    (0 : Int) < 28 ∧ (28 : Int) < 2147483648 ∧
    (capture_peaks closePeaksSig 28 zeroPeaks PEAK_LEFT PEAK_RIGHT (1/5)).1 PEAK_LEFT
      = (((argmaxf closePeaksSig 28 : Int) : ℚ), closePeaksSig (argmaxf closePeaksSig 28)) :=
  ⟨by decide, by decide,
    (C6_main_peak_in_middle_slot closePeaksSig 28 zeroPeaks PEAK_LEFT PEAK_RIGHT (1/5)
      (by decide) (by decide)).1⟩

/-- C7 (the code at the failing input). On the zeroed buffer and the signal
`closePeaksSig` (maximum at index 20), `capture_peaks` with `L = R = 8` and
threshold ratio 0.2 stores the main peak in slot 8, a right neighbour at
position 23 in slot 9 and left neighbours at positions 17, 14, 11 in slots 7, 6,
5: peaks in adjacent slots are only 3 samples apart. -/
theorem C7_adjacent_peaks_three_apart :
    (capture_peaks closePeaksSig 28 zeroPeaks PEAK_LEFT PEAK_RIGHT (1/5)).1 9 = (23, -5) ∧
    (capture_peaks closePeaksSig 28 zeroPeaks PEAK_LEFT PEAK_RIGHT (1/5)).1 8 = (20, 10) ∧
    (capture_peaks closePeaksSig 28 zeroPeaks PEAK_LEFT PEAK_RIGHT (1/5)).1 7 = (17, -5) ∧
    (capture_peaks closePeaksSig 28 zeroPeaks PEAK_LEFT PEAK_RIGHT (1/5)).1 6 = (14, 5) ∧
    (capture_peaks closePeaksSig 28 zeroPeaks PEAK_LEFT PEAK_RIGHT (1/5)).1 5 = (11, -5) ∧
    (capture_peaks closePeaksSig 28 zeroPeaks PEAK_LEFT PEAK_RIGHT (1/5)).2 = 5 := by
  decide!

/-- C8. Max search distance: a slot to the right of the middle slot `L` is either
left as it was or holds a position `pos` with `0 < pos - M ≤ 25*(R+2)`; a slot to
the left is either left as it was or holds a position `pos` with
`0 < M - pos ≤ 25*(L+2)` (`M` the main-peak index). -/
theorem C8_max_search_distance (sig : Int → ℚ) (sig_len : Int) (peaks : Int → Peak)
    (L R : Int) (T : ℚ) (k : Int) :
    (L < k → (capture_peaks sig sig_len peaks L R T).1 k = peaks k ∨
      ∃ pos : Int, (capture_peaks sig sig_len peaks L R T).1 k = ((pos : ℚ), sig pos) ∧
        0 < pos - argmaxf sig sig_len ∧ pos - argmaxf sig sig_len ≤ 25 * (R + 2)) ∧
    (k < L → (capture_peaks sig sig_len peaks L R T).1 k = peaks k ∨
      ∃ pos : Int, (capture_peaks sig sig_len peaks L R T).1 k = ((pos : ℚ), sig pos) ∧
        0 < argmaxf sig sig_len - pos ∧ argmaxf sig sig_len - pos ≤ 25 * (L + 2)) := by
  constructor
  · intro hk
    rcases capture_peaks_slots sig sig_len peaks L R T k with h | h | h
    · left; rw [h, Function.update_noteq (by omega)]
    · obtain ⟨-, pos, e, p1, -, p3⟩ := h
      exact Or.inr ⟨pos, e, by omega, p3⟩
    · exact absurd h.1 (by omega)
  · intro hk
    rcases capture_peaks_slots sig sig_len peaks L R T k with h | h | h
    · left; rw [h, Function.update_noteq (by omega)]
    · exact absurd h.1 (by omega)
    · obtain ⟨-, -, pos, e, -, p2, p3⟩ := h
      exact Or.inr ⟨pos, e, by omega, p3⟩

/-- C9. Dead-zone exclusion: for a slice of `sig_len ≥ 1` samples, every slot of
the buffer returned by `capture_peaks` is either left as it was or holds a
position `pos` with `0 ≤ pos < sig_len`; for a slice that starts at absolute
index `D` the absolute index `D + pos` is therefore in `[D, D + sig_len)`, not
in the dead zone `[0, D)`. -/
theorem C9_positions_inside_slice (sig : Int → ℚ) (sig_len : Int) (peaks : Int → Peak)
    (L R : Int) (T : ℚ) (D k : Int) (h1 : 0 < sig_len) (h2 : sig_len < 2147483648) :
    (capture_peaks sig sig_len peaks L R T).1 k = peaks k ∨
    ∃ pos : Int, ((capture_peaks sig sig_len peaks L R T).1 k).1 = (pos : ℚ) ∧
      0 ≤ pos ∧ pos < sig_len ∧ D ≤ D + pos ∧ D + pos < D + sig_len := by
  obtain ⟨a, b, -, -⟩ := argmaxf_spec sig sig_len h1 h2
  rcases capture_peaks_slots sig sig_len peaks L R T k with h | h | h
  · by_cases hk : k = L
    · right
      rw [h, hk, Function.update_same]
      exact ⟨_, rfl, a, b, by omega, by omega⟩
    · left; rw [h, Function.update_noteq hk]
  · obtain ⟨-, pos, e, p1, p2, -⟩ := h
    exact Or.inr ⟨pos, by rw [e], by omega, by omega, by omega, by omega⟩
  · obtain ⟨-, -, pos, e, p1, p2, -⟩ := h
    exact Or.inr ⟨pos, by rw [e], by omega, by omega, by omega, by omega⟩

/-- C9, at the 28-sample signal `closePeaksSig`, slot 7, dead zone `D = 337`. -/
theorem C9_witness :
    (0 : Int) < 28 ∧ (28 : Int) < 2147483648 ∧
    ((capture_peaks closePeaksSig 28 zeroPeaks PEAK_LEFT PEAK_RIGHT (1/5)).1 7 = zeroPeaks 7 ∨
    ∃ pos : Int,
      ((capture_peaks closePeaksSig 28 zeroPeaks PEAK_LEFT PEAK_RIGHT (1/5)).1 7).1 = (pos : ℚ) ∧
      0 ≤ pos ∧ pos < 28 ∧ 337 ≤ 337 + pos ∧ 337 + pos < 337 + 28) :=
  ⟨by decide, by decide,
    C9_positions_inside_slice closePeaksSig 28 zeroPeaks PEAK_LEFT PEAK_RIGHT (1/5) 337 7
      (by decide) (by decide)⟩

/-! ## `normalize` at concrete signals -/

/-- C10 (the code at the failing input). On the samples `2.5, -1, 0.5`, whose
largest magnitude is 2.5, `normalize` divides by 2 (the integer `abs` truncates
2.5 to 2) and leaves `1.25, -0.5, 0.25`: the largest magnitude is 1.25, not 1.
On the samples `0.5, -0.25` the divisor is 0 and the results are not finite. -/
theorem C10_normalize_divides_by_truncated_max :
    normalize fracSig 3 0 = some (5/4) ∧ normalize fracSig 3 1 = some (-1/2) ∧
    normalize fracSig 3 2 = some (1/4) ∧
    normalize smallSig 2 0 = none ∧ normalize smallSig 2 1 = none := by
  decide!

/-! ## `filter` at a concrete input -/

/-- C11 (the code at the failing input). On four input samples equal to 1, with
the table `bp_coeff` of order 1, `filter` zeroes `y[0..2]` and sets
`y[3] = (b0 + x3) + (b1 + x2) + (b2 + x1) = 3`, while the difference equation
`b0*x3 + b1*x2 + b2*x1 - a1*y2 - a2*y1` gives 0: the code adds each coefficient
`b[c]` to the sample where the equation multiplies them. -/
theorem C11_filter_adds_coefficients :
    filter onesSig (fun _ => 5) 4 bp_coeff bp_coeff_order 0 = 0 ∧
    filter onesSig (fun _ => 5) 4 bp_coeff bp_coeff_order 1 = 0 ∧
    filter onesSig (fun _ => 5) 4 bp_coeff bp_coeff_order 2 = 0 ∧
    filter onesSig (fun _ => 5) 4 bp_coeff bp_coeff_order 3 = 3 ∧
    spec_filter_rhs onesSig (filter onesSig (fun _ => 5) 4 bp_coeff bp_coeff_order)
      bp_coeff bp_coeff_order 3 = 0 := by
  decide!

/-! ## Theorems on the gates of the measurement cycle -/

theorem hard_check_iff (c : ℚ) : hard_check c = true ↔ ¬ (270 ≤ c ∧ c ≤ 365) := by
  unfold hard_check
  rw [Bool.or_eq_true, decide_eq_true_eq, decide_eq_true_eq]
  constructor
  · rintro (h | h) ⟨h1, h2⟩ <;> linarith
  · intro h
    by_contra hn
    rw [not_or, not_lt, not_lt] at hn
    exact h ⟨hn.1, hn.2⟩

/-- C12, with the interval closed. For every cycle that reaches the sound-speed
check (`is_data_correct` holds), the hard check rejects exactly when the
computed sound speed `c` is outside the closed interval `[270, 365]`, and a
cycle it rejects ends at `cycle_end` with `ERR_WINDSPEED` and nothing else
changed; `c = 269.9` is rejected and `c = 270.1` passes. -/
theorem C12_hard_check (P : Setup) (s : Loop) (err : Int) (dt : Int → ℚ) (temperature : ℚ) :
    (hard_check (sound_speed P dt) = true ↔
      ¬ (270 ≤ sound_speed P dt ∧ sound_speed P dt ≤ 365)) ∧
    (hard_check (sound_speed P dt) = true →
      cycle_tail P s err true dt temperature = cycle_end s ERR_WINDSPEED) ∧
    hard_check (2699 / 10) = true ∧ hard_check (2701 / 10) = false := by
  refine ⟨hard_check_iff _, ?_, by decide!, by decide!⟩
  intro h
  unfold cycle_tail
  dsimp only
  rw [if_neg (by simp), if_pos h]

/-- C12 fails for the open interval: `c = 270` and `c = 365` are not in
`(270, 365)` and pass the hard check; with four times of flight of
`10000/27` microseconds (`c = 270`) and an air temperature of -90.9 degrees
(`est_c = 270.675`) the cycle is accepted and 270 is published. -/
theorem C12_counterexample :
    hard_check 270 = false ∧ hard_check 365 = false ∧
    sound_speed (testSetup 1) (fun _ => 10000 / 27) = 270 ∧
    (cycle_tail (testSetup 1) loopInit NORMAL true (fun _ => 10000 / 27)
      (-909 / 10)).anemometer.err_code = NORMAL ∧
    (cycle_tail (testSetup 1) loopInit NORMAL true (fun _ => 10000 / 27)
      (-909 / 10)).anemometer.soundspeed = 270 := by
  decide!

theorem match_shape_inner_count (R C : Int → Peak) (off : Int) :
    ∀ (n : Nat) (i : Int) (sum count : ℚ),
      (match_shape_inner R C off n i sum count).2
        = count + (((List.range n).countP
            (fun t : Nat => decide ((R (i + (t : Int))).1 ≠ 0 ∧ (C (i + (t : Int))).1 ≠ 0)) : Nat) : ℚ) := by
  intro n
  induction n with
  | zero => intro i sum count; simp [match_shape_inner]
  | succ n ih =>
    intro i sum count
    rw [match_shape_inner, List.range_succ_eq_map, List.countP_cons, List.countP_map]
    have hfun : ((fun t : Nat => decide ((R (i + (t : Int))).1 ≠ 0 ∧ (C (i + (t : Int))).1 ≠ 0))
          ∘ Nat.succ)
        = (fun t : Nat => decide ((R (i + 1 + (t : Int))).1 ≠ 0 ∧ (C (i + 1 + (t : Int))).1 ≠ 0)) := by
      funext t
      have e : i + ((Nat.succ t : Nat) : Int) = i + 1 + (t : Int) := by push_cast; ring
      simp only [Function.comp, e]
    rw [hfun]
    simp only [Nat.cast_zero, add_zero]
    split_ifs with h1 h2 h2
    · rw [ih]; push_cast; ring
    · exact absurd (by simpa using h1) h2
    · exact absurd h2 (by simpa using h1)
    · rw [ih]; push_cast; ring

/-- An MSE entry is NaN exactly when no index of its loop range has both
positions present. -/
theorem match_shape_entry_none_iff (R C : Int → Peak) (len off : Int) :
    match_shape_entry R C len off = none ↔
      ∀ j : Int, (if -off < 0 then 0 else -off) ≤ j →
        j < (if len + off > len then len - off else len + off) →
        ¬ ((R j).1 ≠ 0 ∧ (C j).1 ≠ 0) := by
  unfold match_shape_entry fdiv
  dsimp only
  rw [match_shape_inner_count]
  generalize (if -off < 0 then 0 else -off) = a
  generalize (if len + off > len then len - off else len + off) = b
  simp only [zero_add]
  constructor
  · intro h j h1 h2
    split_ifs at h with hz
    · have hz2 : (List.range (b - a).toNat).countP
          (fun t : Nat => decide ((R (a + (t : Int))).1 ≠ 0 ∧ (C (a + (t : Int))).1 ≠ 0)) = 0 := by
        exact_mod_cast hz
      rw [List.countP_eq_zero] at hz2
      have := hz2 (j - a).toNat (List.mem_range.mpr (by omega))
      have e : a + ((j - a).toNat : Int) = j := by
        rw [Int.toNat_of_nonneg (by omega)]; ring
      rw [e] at this
      simpa using this
  · intro h
    rw [if_pos]
    have : (List.range (b - a).toNat).countP
        (fun t : Nat => decide ((R (a + (t : Int))).1 ≠ 0 ∧ (C (a + (t : Int))).1 ≠ 0)) = 0 := by
      rw [List.countP_eq_zero]
      intro t ht
      have ht2 := List.mem_range.mp ht
      have := h (a + (t : Int)) (by omega) (by omega)
      simpa using this
    exact_mod_cast this

/-- The pair range of offset -4 is contained in the pair range of every offset
in `[-4, 4]`: if some entry is NaN, the entry of offset -4 is NaN. -/
theorem match_shape_entry_nan_first (R C : Int → Peak) (len off : Int)
    (h1 : -4 ≤ off) (h2 : off ≤ 4) (h : match_shape_entry R C len off = none) :
    match_shape_entry R C len (-4) = none := by
  rw [match_shape_entry_none_iff] at h ⊢
  intro j j1 j2
  apply h j
  · split_ifs at j1 ⊢ <;> omega
  · split_ifs at j2 ⊢ <;> omega

theorem arg_minf_loop_nan (sig : Int → Option ℚ) :
    ∀ (n i arg : Nat), arg_minf_loop sig n i none arg = arg := by
  intro n
  induction n with
  | zero => intro i arg; rfl
  | succ n ih =>
    intro i arg
    rw [arg_minf_loop]
    have : flt (sig (i : Int)) none = false := by
      unfold flt
      cases sig (i : Int) <;> rfl
    rw [this]
    exact ih (i + 1) arg

theorem shape_gate_nan (ref shape : Int → Peak) (h : Option ℚ) (err : Int) (ok : Bool)
    (hnan : (match_shape ref shape PEAK_LEN (fun _ => none) MSE_RANGE).1 0 = none) :
    (shape_gate ref shape h err ok).is_data_correct = false ∧
    (shape_gate ref shape h err ok).err = ERR_MSE_NAN ∧
    (shape_gate ref shape h err ok).mse_history = none := by
  have hmini : (match_shape ref shape PEAK_LEN (fun _ => none) MSE_RANGE).2 = 0 := by
    show arg_minf (match_shape ref shape PEAK_LEN (fun _ => none) MSE_RANGE).1 MSE_RANGE = 0
    unfold arg_minf
    rw [hnan, arg_minf_loop_nan]
    rfl
  unfold shape_gate
  dsimp only
  rw [hmini, hnan]
  have hs : smooth_mse h none = none := by
    unfold smooth_mse; cases h <;> rfl
  rw [hs]
  exact ⟨rfl, rfl, rfl⟩

theorem shape_gate_ok (ref shape : Int → Peak) (h : Option ℚ) (err : Int) (ok : Bool)
    (hh : HistOK h) :
    HistOK (shape_gate ref shape h err ok).mse_history ∧
    (shape_gate ref shape h err ok).is_data_correct
      = (if ((match_shape ref shape PEAK_LEN (fun _ => none) MSE_RANGE).1 0).isNone then false
         else ok) ∧
    (shape_gate ref shape h err ok).err
      = (if ((match_shape ref shape PEAK_LEN (fun _ => none) MSE_RANGE).1 0).isNone
         then ERR_MSE_NAN else err) := by
  cases h0 : (match_shape ref shape PEAK_LEN (fun _ => none) MSE_RANGE).1 0 with
  | none =>
    obtain ⟨a, b, c⟩ := shape_gate_nan ref shape h err ok h0
    exact ⟨Or.inl c, by rw [a]; rfl, by rw [b]; rfl⟩
  | some m =>
    obtain ⟨k, m2, hk, hk9, hsome, -⟩ :=
      arg_minf_nine (match_shape ref shape PEAK_LEN (fun _ => none) 9).1 m h0
    have hmini : (match_shape ref shape PEAK_LEN (fun _ => none) MSE_RANGE).2 = (k : Int) := hk
    have hsome2 : (match_shape ref shape PEAK_LEN (fun _ => none) MSE_RANGE).1 (k : Int)
        = some m2 := hsome
    have hm2 : 0 ≤ m2 := by
      have hcast : ((k : Int) - 4 + 4) = (k : Int) := by omega
      have := match_shape_mse ref shape PEAK_LEN (fun _ => none) ((k : Int) - 4)
        (by omega) (by omega)
      rw [hcast, hsome] at this
      exact match_shape_entry_nonneg ref shape PEAK_LEN _ m2 this.symm
    unfold shape_gate
    dsimp only
    rw [hmini, hsome2, h0]
    rcases hh with hn | ⟨a, ha, hs⟩
    · subst hn
      exact ⟨Or.inl rfl, rfl, rfl⟩
    · subst hs
      have hflt : flt (Option.map (fun a => a * 10) (smooth_mse (some a) (some m2))) (some m2)
          = false := by
        simp only [smooth_mse, Option.map_some', flt, decide_eq_false_iff_not, not_lt]
        linarith
      rw [hflt]
      refine ⟨Or.inr ⟨9 / 10 * a + 1 / 10 * m2, by positivity, rfl⟩, rfl, rfl⟩

/-- After the loop over the channels: the smoothed MSEs stay NaN or
non-negative, and the flags say whether some channel had a NaN `mse[0]`. -/
theorem channel_loop_flags (P : Setup) (sigs : Int → Int → ℚ) :
    ∀ (n : Nat) (idx : Int) (st : Chan), (∀ k, HistOK (st.mse_history k)) →
      ((st.is_data_correct = true ∧ st.err = NORMAL) ∨
        (st.is_data_correct = false ∧ st.err = ERR_MSE_NAN)) →
      (∀ k, HistOK ((channel_loop P sigs n idx st).mse_history k)) ∧
      (((channel_loop P sigs n idx st).is_data_correct = true ∧
          (channel_loop P sigs n idx st).err = NORMAL) ∨
        ((channel_loop P sigs n idx st).is_data_correct = false ∧
          (channel_loop P sigs n idx st).err = ERR_MSE_NAN)) ∧
      ((st.is_data_correct = false ∨
        ∃ j : Int, idx ≤ j ∧ j < idx + n ∧
          (match_shape (P.ref_shape j)
            (channel_shape (sigs j)) PEAK_LEN (fun _ => none) MSE_RANGE).1 0 = none) →
        (channel_loop P sigs n idx st).is_data_correct = false) := by
  intro n
  induction n with
  | zero =>
    intro idx st hh hf
    refine ⟨hh, hf, ?_⟩
    rintro (h | ⟨j, j1, j2, -⟩)
    · exact h
    · simp at j2; omega
  | succ n ih =>
    intro idx st hh hf
    rw [channel_loop]
    obtain ⟨g1, g2, g3⟩ := shape_gate_ok (P.ref_shape idx)
      (channel_shape (sigs idx)) (st.mse_history idx) st.err st.is_data_correct (hh idx)
    have hh2 : ∀ k, HistOK ((channel_step P (sigs idx) idx st).mse_history k) := by
      intro k
      unfold channel_step
      dsimp only
      by_cases hk : k = idx
      · rw [hk, Function.update_same]; exact g1
      · rw [Function.update_noteq hk]; exact hh k
    have hok : (channel_step P (sigs idx) idx st).is_data_correct
        = (if ((match_shape (P.ref_shape idx)
            (channel_shape (sigs idx)) PEAK_LEN (fun _ => none) MSE_RANGE).1 0).isNone
           then false else st.is_data_correct) := g2
    have herr : (channel_step P (sigs idx) idx st).err
        = (if ((match_shape (P.ref_shape idx)
            (channel_shape (sigs idx)) PEAK_LEN (fun _ => none) MSE_RANGE).1 0).isNone
           then ERR_MSE_NAN else st.err) := g3
    have hf2 : ((channel_step P (sigs idx) idx st).is_data_correct = true ∧
          (channel_step P (sigs idx) idx st).err = NORMAL) ∨
        ((channel_step P (sigs idx) idx st).is_data_correct = false ∧
          (channel_step P (sigs idx) idx st).err = ERR_MSE_NAN) := by
      rw [hok, herr]
      split_ifs
      · right; exact ⟨rfl, rfl⟩
      · exact hf
    obtain ⟨a, b, c⟩ := ih (idx + 1) (channel_step P (sigs idx) idx st) hh2 hf2
    refine ⟨a, b, ?_⟩
    intro hcase
    apply c
    rcases hcase with h | ⟨j, j1, j2, j3⟩
    · left; rw [hok, h]; split_ifs <;> rfl
    · by_cases hj : j = idx
      · left; rw [hok, ← hj, j3]; rfl
      · right; exact ⟨j, by omega, by push_cast at j2; omega, j3⟩

/-- The smoothed MSEs stay NaN or non-negative from one cycle to the next. -/
theorem cycle_mse_history_ok (P : Setup) (s : Loop) (sigs : Int → Int → ℚ) (temperature : ℚ)
    (hh : ∀ k, HistOK (s.mse_history k)) :
    ∀ k, HistOK ((cycle P s sigs temperature).mse_history k) := by
  obtain ⟨a, -, -⟩ := channel_loop_flags P sigs 4 0
    { mse_history := s.mse_history, err := NORMAL, is_data_correct := true, dt := fun _ => 0 }
    hh (Or.inl ⟨rfl, rfl⟩)
  have e : (cycle P s sigs temperature).mse_history
      = (channel_loop P sigs 4 0
          { mse_history := s.mse_history, err := NORMAL, is_data_correct := true,
            dt := fun _ => 0 }).mse_history := by
    unfold cycle cycle_tail
    dsimp only
    split_ifs
    all_goals first | rfl | (unfold data_output; dsimp only; split_ifs <;> rfl)
  rw [e]
  exact a

/-- If some MSE entry is NaN, `mse[0]` (offset -4) is NaN. -/
theorem match_shape_nan_first (R C : Int → Peak)
    (h : ∃ off : Int, -4 ≤ off ∧ off ≤ 4 ∧
      (match_shape R C PEAK_LEN (fun _ => none) MSE_RANGE).1
        (off + Int.tdiv MSE_RANGE 2) = none) :
    (match_shape R C PEAK_LEN (fun _ => none) MSE_RANGE).1 0 = none := by
  have e9 : MSE_RANGE = 9 := rfl
  have e1 : Int.tdiv (9 : Int) 2 = 4 := by decide
  obtain ⟨off, o1, o2, o3⟩ := h
  simp only [e9, e1] at o3 ⊢
  rw [match_shape_mse R C PEAK_LEN _ off o1 o2] at o3
  have := match_shape_entry_nan_first R C PEAK_LEN off o1 o2 o3
  rw [← match_shape_mse R C PEAK_LEN (fun _ => none) (-4) (by omega) (by omega)] at this
  exact this

/-- Against an all-zero reference every MSE entry is NaN. -/
theorem match_shape_zero_ref (C : Int → Peak) (off : Int) (h1 : -4 ≤ off) (h2 : off ≤ 4) :
    (match_shape zeroPeaks C PEAK_LEN (fun _ => none) MSE_RANGE).1
      (off + Int.tdiv MSE_RANGE 2) = none := by
  have e9 : MSE_RANGE = 9 := rfl
  have e1 : Int.tdiv (9 : Int) 2 = 4 := by decide
  simp only [e9, e1]
  rw [match_shape_mse zeroPeaks C PEAK_LEN _ off h1 h2, match_shape_entry_none_iff]
  intro j _ _ hj
  exact hj.1 rfl

/-- A cycle in which `mse[0]` of one of the four channels is NaN ends with
`ERR_MSE_NAN` and one more counted error. -/
theorem cycle_nan_fault (P : Setup) (s : Loop) (sigs : Int → Int → ℚ) (temperature : ℚ)
    (idx : Int) (hh : ∀ k, HistOK (s.mse_history k)) (i0 : 0 ≤ idx) (i4 : idx < 4)
    (h0 : (match_shape (P.ref_shape idx) (channel_shape (sigs idx)) PEAK_LEN (fun _ => none)
      MSE_RANGE).1 0 = none) :
    (cycle P s sigs temperature).anemometer.err_code = ERR_MSE_NAN ∧
    (cycle P s sigs temperature).err_count = (s.err_count + 1) % 18446744073709551616 := by
  obtain ⟨-, b, c⟩ := channel_loop_flags P sigs 4 0
    { mse_history := s.mse_history, err := NORMAL, is_data_correct := true, dt := fun _ => 0 }
    hh (Or.inl ⟨rfl, rfl⟩)
  have hfalse := c (Or.inr ⟨idx, i0, by push_cast; omega, h0⟩)
  have herr : (channel_loop P sigs 4 0
      { mse_history := s.mse_history, err := NORMAL, is_data_correct := true,
        dt := fun _ => 0 }).err = ERR_MSE_NAN := by
    rcases b with ⟨b1, -⟩ | ⟨-, b2⟩
    · rw [hfalse] at b1; exact absurd b1 (by decide)
    · exact b2
  unfold cycle cycle_tail
  dsimp only
  rw [hfalse, herr]
  exact ⟨rfl, rfl⟩

/-- C14 (the code at the failing input). With four times of flight of 250
microseconds the sound speed is 400; the cycle ends with `ERR_WINDSPEED` and the
published record is otherwise unchanged, but `err_count` is still 0: the hard
check jumps to `cycle_end` without counting.  A cycle rejected by the final
check (`c = 360` against `est_c = 340.85`) does count: `err_count` becomes 1. -/
theorem C14_hard_check_does_not_count :
    sound_speed (testSetup 1) (fun _ => 250) = 400 ∧
    (cycle_tail (testSetup 1) loopInit NORMAL true (fun _ => 250)
      (1585 / 100)).anemometer.err_code = ERR_WINDSPEED ∧
    (cycle_tail (testSetup 1) loopInit NORMAL true (fun _ => 250) (1585 / 100)).err_count
      = loopInit.err_count ∧
    (cycle_tail (testSetup 1) loopInit NORMAL true (fun _ => 250)
      (1585 / 100)).anemometer.soundspeed = loopInit.anemometer.soundspeed ∧
    sound_speed (testSetup 1) (fun _ => 2500 / 9) = 360 ∧
    (cycle_tail (testSetup 1) loopInit NORMAL true (fun _ => 2500 / 9)
      (1585 / 100)).anemometer.err_code = ERR_WINDSPEED ∧
    (cycle_tail (testSetup 1) loopInit NORMAL true (fun _ => 2500 / 9) (1585 / 100)).err_count
      = loopInit.err_count + 1 := by
  decide!

theorem cycle_tail_fault_frame (P : Setup) (s : Loop) (err : Int) (ok : Bool) (dt : Int → ℚ)
    (temperature : ℚ)
    (h : (cycle_tail P s err ok dt temperature).anemometer.err_code ≠ NORMAL) :
    (cycle_tail P s err ok dt temperature).anemometer.speed = s.anemometer.speed ∧
    (cycle_tail P s err ok dt temperature).anemometer.course = s.anemometer.course ∧
    (cycle_tail P s err ok dt temperature).anemometer.soundspeed = s.anemometer.soundspeed ∧
    (cycle_tail P s err ok dt temperature).anemometer.speed30savg
      = s.anemometer.speed30savg ∧
    (cycle_tail P s err ok dt temperature).anemometer.speed30smax
      = s.anemometer.speed30smax ∧
    (cycle_tail P s err ok dt temperature).wind_hist = s.wind_hist := by
  unfold cycle_tail at h ⊢
  dsimp only at h ⊢
  split_ifs at h ⊢
  all_goals first | exact ⟨rfl, rfl, rfl, rfl, rfl, rfl⟩ | exact absurd rfl h

/-- C15. No partial publication: for every cycle that ends with an error code
other than `NORMAL`, the published speed, course, sound speed, 30 s average and
30 s maximum and the history ring (contents, write index, capacity) are what
they were before the cycle. -/
theorem C15_no_partial_publication (P : Setup) (s : Loop) (sigs : Int → Int → ℚ)
    (temperature : ℚ)
    (h : (cycle P s sigs temperature).anemometer.err_code ≠ NORMAL) :
    (cycle P s sigs temperature).anemometer.speed = s.anemometer.speed ∧
    (cycle P s sigs temperature).anemometer.course = s.anemometer.course ∧
    (cycle P s sigs temperature).anemometer.soundspeed = s.anemometer.soundspeed ∧
    (cycle P s sigs temperature).anemometer.speed30savg = s.anemometer.speed30savg ∧
    (cycle P s sigs temperature).anemometer.speed30smax = s.anemometer.speed30smax ∧
    (cycle P s sigs temperature).wind_hist = s.wind_hist :=
  cycle_tail_fault_frame P _ _ _ _ temperature h

/-- C15, at a cycle of the uncalibrated setup `uncalSetup` on the buffer
`flatSig`, which ends with `ERR_MSE_NAN`. -/
theorem C15_witness :
    (cycle uncalSetup loopInit (fun _ => flatSig) (1585 / 100)).anemometer.err_code ≠ NORMAL ∧
    (cycle uncalSetup loopInit (fun _ => flatSig) (1585 / 100)).anemometer.soundspeed
      = loopInit.anemometer.soundspeed :=
  ⟨by
      rw [(cycle_nan_fault uncalSetup loopInit (fun _ => flatSig) (1585 / 100) 0
        (fun _ => Or.inr ⟨0, le_refl _, rfl⟩) (by decide) (by decide)
        (match_shape_nan_first _ _
          ⟨0, by decide, by decide,
            match_shape_zero_ref (channel_shape flatSig) 0 (by decide) (by decide)⟩)).1]
      decide,
    (C15_no_partial_publication uncalSetup loopInit (fun _ => flatSig) (1585 / 100) (by
      rw [(cycle_nan_fault uncalSetup loopInit (fun _ => flatSig) (1585 / 100) 0
        (fun _ => Or.inr ⟨0, le_refl _, rfl⟩) (by decide) (by decide)
        (match_shape_nan_first _ _
          ⟨0, by decide, by decide,
            match_shape_zero_ref (channel_shape flatSig) 0 (by decide) (by decide)⟩)).1]
      decide)).2.2.1⟩

/-! ## Theorems on the zero crossings of a channel -/

theorem truncToInt_intCast (z : Int) : truncToInt ((z : Int) : ℚ) = z := by
  simp [truncToInt]

/-- The anchor read from the constellation lies inside the valid region. -/
theorem channel_anchor_bounds (sig : Int → ℚ) (peak_off : Int) :
    0 ≤ channel_anchor (channel_shape sig) peak_off ∧
    channel_anchor (channel_shape sig) peak_off < VALID_LEN := by
  have hv : VALID_LEN = 663 := by decide
  obtain ⟨a, b, -, -⟩ := argmaxf_spec (shift sig DEADZONE_OFFSET) VALID_LEN
    (by rw [hv]; decide) (by rw [hv]; decide)
  unfold channel_anchor channel_shape
  rcases capture_peaks_slots (shift sig DEADZONE_OFFSET) VALID_LEN zeroPeaks PEAK_LEFT
      PEAK_RIGHT (1 / 5) (PEAK_ZC + peak_off) with h | h | h
  · rw [h]
    by_cases hk : PEAK_ZC + peak_off = PEAK_LEFT
    · rw [hk, Function.update_same]
      dsimp only
      rw [truncToInt_intCast]
      exact ⟨a, b⟩
    · rw [Function.update_noteq hk]
      have : truncToInt (zeroPeaks (PEAK_ZC + peak_off)).1 = 0 := by
        show truncToInt ((0 : Int) : ℚ) = 0
        exact truncToInt_intCast 0
      rw [this, hv]
      decide
  · obtain ⟨-, pos, e, p1, p2, -⟩ := h
    rw [e]
    dsimp only
    rw [truncToInt_intCast]
    omega
  · obtain ⟨-, -, pos, e, p1, p2, -⟩ := h
    rw [e]
    dsimp only
    rw [truncToInt_intCast]
    omega

/-- The count returned by `linear_interpolation_zerocrossing` and the entries
it leaves untouched. -/
theorem zerocrossing_count_rest (sig out : Nat → ℚ) (sig_len Z : Nat)
    (h1 : 1 ≤ sig_len) (h2 : sig_len < 2147483648) :
    (linear_interpolation_zerocrossing sig sig_len out Z).2
        = ((min Z (zc_qualifying sig sig_len).length : Nat) : Int) ∧
    ∀ k, min Z (zc_qualifying sig sig_len).length ≤ k →
      (linear_interpolation_zerocrossing sig sig_len out Z).1 k = out k := by
  have hb : toU32 ((sig_len : Int) - 1) = sig_len - 1 := by
    rw [toU32_of_nonneg _ (by omega) (by omega)]; omega
  obtain ⟨a, -, c⟩ := zcLoop_spec sig Z (sig_len - 1) 0 0 out (Nat.zero_le _)
  rw [← List.range_eq_range'] at a c
  simp only [Nat.sub_zero, Nat.zero_add, List.length_take] at a c
  have hle : (zcLoop sig Z (sig_len - 1) 0 0 out).2 ≤ sig_len - 1 := by
    rw [a]
    have := List.length_filter_le (zc_qualifies sig) (List.range (sig_len - 1))
    simp only [List.length_range] at this
    omega
  unfold linear_interpolation_zerocrossing zc_qualifying
  simp only [hb]
  exact ⟨by rw [toI32_of_lt _ (by omega), a], fun k hk => c k (Or.inr hk)⟩

theorem add_offset_loop_spec (d : ℚ) :
    ∀ (n j : Nat) (z : Nat → ℚ) (k : Nat),
      add_offset_loop d n j z k = if j ≤ k ∧ k < j + n then z k + d else z k := by
  intro n
  induction n with
  | zero =>
    intro j z k
    rw [add_offset_loop, if_neg (by omega)]
  | succ n ih =>
    intro j z k
    rw [add_offset_loop, ih]
    by_cases hk : k = j
    · subst hk
      rw [if_neg (by omega), if_pos (by omega), Function.update_same]
    · rw [Function.update_noteq hk]
      by_cases h : j + 1 ≤ k ∧ k < j + 1 + n
      · rw [if_pos h, if_pos (by omega)]
      · rw [if_neg h, if_neg (by omega)]

theorem average_loop_eq (sig : Int → ℚ) :
    ∀ (n : Nat) (i : Int) (sum : ℚ),
      average_loop sig n i sum
        = sum + ((List.range n).map (fun j : Nat => sig (i + (j : Int)))).sum := by
  intro n
  induction n with
  | zero => intro i sum; simp [average_loop]
  | succ n ih =>
    intro i sum
    rw [average_loop, ih, List.range_succ_eq_map, List.map_cons, List.sum_cons, List.map_map]
    have : (fun j : Nat => sig (i + 1 + (j : Int)))
        = ((fun j : Nat => sig (i + (j : Int))) ∘ Nat.succ) := by
      funext j; simp only [Function.comp, Nat.succ_eq_add_one]; congr 1; push_cast; ring
    rw [this]
    simp only [Nat.cast_zero, add_zero]
    ring

/-- C16, as the controller does it. For every channel whose signal has
`q < Z = 6` qualifying indices after the anchor `A`,
`linear_interpolation_zerocrossing` returns `q`; the controller does not test
the count: `err` and `is_data_correct` are left as the shape gate set them, the
entries `q..5` of `zero_cross` hold the anchor position `A + DEADZONE_OFFSET`,
and the time of flight is the mean of the six entries plus the pulse offset. -/
theorem C16_count_not_tested (P : Setup) (sig : Int → ℚ) (idx : Int) (st : Chan) (A : Int)
    (q : Nat)
    (hA : A = channel_anchor (channel_shape sig) (channel_gate P sig idx st).peak_off)
    (hq : q = (zc_qualifying (fun n : Nat => sig (DEADZONE_OFFSET + A + (n : Int)))
      (VALID_LEN - A).toNat).length)
    (hlt : q < ZEROCROSS_LEN) :
    (channel_zc_call sig A).2 = (q : Int) ∧
    (∀ j : Nat, q ≤ j → j < ZEROCROSS_LEN →
      channel_zero_cross sig (channel_shape sig) (channel_gate P sig idx st).peak_off j
        = ((A + DEADZONE_OFFSET : Int) : ℚ)) ∧
    (channel_step P sig idx st).is_data_correct = (channel_gate P sig idx st).is_data_correct ∧
    (channel_step P sig idx st).err = (channel_gate P sig idx st).err ∧
    (channel_step P sig idx st).dt idx
      = ((List.range 6).map (fun j : Nat =>
          channel_zero_cross sig (channel_shape sig) (channel_gate P sig idx st).peak_off j)).sum
          / 6 + P.pulse_offset idx := by
  have hv : VALID_LEN = 663 := by decide
  obtain ⟨a0, a1⟩ := channel_anchor_bounds sig (channel_gate P sig idx st).peak_off
  rw [← hA] at a0 a1
  rw [hv] at a1
  have hu : toU32 (VALID_LEN - A) = (VALID_LEN - A).toNat :=
    toU32_of_nonneg _ (by rw [hv]; omega) (by rw [hv]; omega)
  obtain ⟨c1, c2⟩ := zerocrossing_count_rest
    (fun n : Nat => sig (DEADZONE_OFFSET + A + (n : Int))) (fun _ => 0)
    (VALID_LEN - A).toNat ZEROCROSS_LEN (by rw [hv]; omega) (by rw [hv]; omega)
  rw [← hq, Nat.min_eq_right (le_of_lt hlt)] at c1 c2
  refine ⟨?_, ?_, rfl, rfl, ?_⟩
  · unfold channel_zc_call
    rw [hu]
    exact c1
  · intro j j1 j2
    unfold channel_zero_cross
    rw [← hA, add_offset_loop_spec, if_pos ⟨Nat.zero_le _, by omega⟩]
    unfold channel_zc_call
    rw [hu, c2 j j1]
    simp
  · unfold channel_step
    dsimp only
    rw [Function.update_same]
    unfold channel_tof average
    rw [average_loop_eq]
    simp [NUM_ZC_AVG]

/-- A signal whose scanned samples are all positive has no qualifying index. -/
theorem zc_qualifying_of_pos (sig : Nat → ℚ) (sig_len : Nat) (h : ∀ n, 0 < sig n) :
    zc_qualifying sig sig_len = [] := by
  unfold zc_qualifying
  rw [List.filter_eq_nil_iff]
  intro n _
  have h1 := h n
  have h2 := h (n + 1)
  have h3 : ¬ sig n * sig (n + 1) < 0 := not_lt.mpr (mul_nonneg h1.le h2.le)
  simp [zc_qualifies, h1.ne', h3]

theorem flatSig_pos (i : Int) : 0 < flatSig i := by
  unfold flatSig
  split_ifs <;> norm_num

/-- C16 as the controller does it, at the buffer `flatSig`, which has no
qualifying index after any anchor. -/
theorem C16_witness :
    (0 < ZEROCROSS_LEN) ∧
    (channel_zc_call flatSig
      (channel_anchor (channel_shape flatSig)
        (channel_gate (testSetup 1) flatSig 0 chanInit).peak_off)).2 = ((0 : Nat) : Int) :=
  ⟨by decide,
    (C16_count_not_tested (testSetup 1) flatSig 0 chanInit
      (channel_anchor (channel_shape flatSig)
        (channel_gate (testSetup 1) flatSig 0 chanInit).peak_off) 0 rfl
      (by rw [zc_qualifying_of_pos _ _ (fun n => flatSig_pos _)]; rfl)
      (by decide)).1⟩

/-- C16 fails as stated. On the buffer `flatSig` (one peak, every sample
positive) the shape gate finds offset 0, the anchor is 0 and
`linear_interpolation_zerocrossing` returns 0 crossings; with that buffer on
all four channels the cycle is nevertheless accepted: the six entries of
`zero_cross` hold 337, the times of flight are `5000/17` microseconds, the error
code is `NORMAL`, `err_count` stays 0 and the sound speed 340 is published. -/
theorem C16_counterexample :
    (channel_gate (testSetup 1) flatSig 0 chanInit).peak_off = 0 ∧
    channel_anchor (channel_shape flatSig) 0 = 0 ∧
    (channel_zc_call flatSig 0).2 = 0 ∧
    (cycle (testSetup 1) loopInit (fun _ => flatSig) (1585 / 100)).anemometer.err_code
      = NORMAL ∧
    (cycle (testSetup 1) loopInit (fun _ => flatSig) (1585 / 100)).anemometer.soundspeed
      = 340 ∧
    (cycle (testSetup 1) loopInit (fun _ => flatSig) (1585 / 100)).err_count = 0 ∧
    (cycle (testSetup 1) loopInit (fun _ => flatSig) (1585 / 100)).wind_hist.idx = 1 := by
  decide!

/-! ## Theorems on the block "data output" -/

theorem data_output_publish (P : Setup) (s : Loop) (ns_v ew_v c : ℚ)
    (h : s.oversampling_count + 1 ≥ P.oversampling) :
    (data_output P s ns_v ew_v c).anemometer.speed
      = P.sqrtf ((s.ns_v_acc + ns_v) / ((s.oversampling_count + 1 : Int) : ℚ)
            * ((s.ns_v_acc + ns_v) / ((s.oversampling_count + 1 : Int) : ℚ))
          + (s.ew_v_acc + ew_v) / ((s.oversampling_count + 1 : Int) : ℚ)
            * ((s.ew_v_acc + ew_v) / ((s.oversampling_count + 1 : Int) : ℚ))) ∧
    (data_output P s ns_v ew_v c).anemometer.course
      = if (data_output P s ns_v ew_v c).anemometer.speed ≥ 1 / 4 then
          course_deg (P.atan2f (-((s.ew_v_acc + ew_v) / ((s.oversampling_count + 1 : Int) : ℚ)))
            (-((s.ns_v_acc + ns_v) / ((s.oversampling_count + 1 : Int) : ℚ))))
        else -1 := by
  unfold data_output
  dsimp only
  rw [if_pos h]
  exact ⟨rfl, rfl⟩

theorem course_deg_range (a : ℚ) :
    (0 ≤ course_deg a ∧ course_deg a < 360) ↔
      (-(31415926 / 10000000) ≤ a ∧ a < 31415926 / 10000000) := by
  unfold course_deg
  constructor
  · rintro ⟨h1, h2⟩
    constructor <;> linarith
  · rintro ⟨h1, h2⟩
    constructor <;> linarith

/-- C17, with the range of `atan2f` made explicit. For a published sample with
speed at least 0.25 m/s the published course is `a/3.1415926*180 + 180`, where
`a` is the value `atan2f(-vEW_avg, -vNS_avg)` returns; it lies in `[0, 360)`
when `-3.1415926 ≤ a < 3.1415926`, and in `[-0.00001, 360.00001]` when `a` has
magnitude at most the `float` nearest π. -/
theorem C17_course_range (P : Setup) (s : Loop) (ns_v ew_v c : ℚ)
    (hpub : s.oversampling_count + 1 ≥ P.oversampling)
    (hspeed : (data_output P s ns_v ew_v c).anemometer.speed ≥ 1 / 4) :
    (data_output P s ns_v ew_v c).anemometer.course
      = course_deg (P.atan2f (-((s.ew_v_acc + ew_v) / ((s.oversampling_count + 1 : Int) : ℚ)))
          (-((s.ns_v_acc + ns_v) / ((s.oversampling_count + 1 : Int) : ℚ)))) ∧
    ((-(31415926 / 10000000) ≤
        P.atan2f (-((s.ew_v_acc + ew_v) / ((s.oversampling_count + 1 : Int) : ℚ)))
          (-((s.ns_v_acc + ns_v) / ((s.oversampling_count + 1 : Int) : ℚ))) ∧
      P.atan2f (-((s.ew_v_acc + ew_v) / ((s.oversampling_count + 1 : Int) : ℚ)))
          (-((s.ns_v_acc + ns_v) / ((s.oversampling_count + 1 : Int) : ℚ)))
        < 31415926 / 10000000) →
      0 ≤ (data_output P s ns_v ew_v c).anemometer.course ∧
      (data_output P s ns_v ew_v c).anemometer.course < 360) ∧
    (|P.atan2f (-((s.ew_v_acc + ew_v) / ((s.oversampling_count + 1 : Int) : ℚ)))
          (-((s.ns_v_acc + ns_v) / ((s.oversampling_count + 1 : Int) : ℚ)))| ≤ PI_F32 →
      -(1 / 100000) ≤ (data_output P s ns_v ew_v c).anemometer.course ∧
      (data_output P s ns_v ew_v c).anemometer.course ≤ 360 + 1 / 100000) := by
  obtain ⟨-, hc⟩ := data_output_publish P s ns_v ew_v c hpub
  rw [if_pos hspeed] at hc
  rw [hc]
  refine ⟨rfl, fun h => (course_deg_range _).mpr h, ?_⟩
  intro h
  have h1 := (abs_le.mp h).1
  have h2 := (abs_le.mp h).2
  unfold course_deg PI_F32 at *
  constructor <;> linarith

/-- C17 with its conditions, at a published sample of `testSetup 1` with wind
components `(vNS, vEW) = (0, -1)`: `atan2f(1, 0)` is π/2 and the course 90. -/
theorem C17_witness :
    (loopInit.oversampling_count + 1 ≥ (testSetup 1).oversampling) ∧
    ((data_output (testSetup 1) loopInit 0 (-1) 340).anemometer.speed ≥ 1 / 4) ∧
    0 ≤ (data_output (testSetup 1) loopInit 0 (-1) 340).anemometer.course ∧
    (data_output (testSetup 1) loopInit 0 (-1) 340).anemometer.course < 360 :=
  ⟨by decide, by decide!,
    (C17_course_range (testSetup 1) loopInit 0 (-1) 340 (by decide) (by decide!)).2.1
      (by decide!)⟩

/-- C17 fails as stated. For a wind along the North-South axis, `vNS_avg = 1`
and `vEW_avg = 0`, the published speed is 1 and `atan2f(0, -1)` is the `float`
nearest π, which is above the constant 3.1415926: the published course is
above 360.  For the value `-π` that `atan2f` returns just across the axis the
arithmetic gives a course below 0. -/
theorem C17_counterexample :
    (data_output (testSetup 1) loopInit 1 0 340).anemometer.speed = 1 ∧
    360 < (data_output (testSetup 1) loopInit 1 0 340).anemometer.course ∧
    course_deg (-PI_F32) < 0 := by
  decide!

theorem atan2f_table_range (y x : ℚ) : |atan2f_table y x| ≤ PI_F32 := by
  have hp : (0 : ℚ) < PI_F32 := by unfold PI_F32; norm_num
  unfold atan2f_table
  split_ifs
  · rw [abs_of_pos hp]
  · simp [hp.le]
  · rw [abs_of_pos (by linarith)]; linarith
  · rw [abs_neg, abs_of_pos (by linarith)]; linarith
  · simp [hp.le]

/-- C18. For every output sample that is published, the published course is the
sentinel -1 exactly when the published speed is below 0.25 m/s; `atan2f` is any
function with values of magnitude at most the `float` nearest π, so that a
course computed from it is never -1. -/
theorem C18_course_sentinel (P : Setup) (s : Loop) (ns_v ew_v c : ℚ)
    (hpub : s.oversampling_count + 1 ≥ P.oversampling)
    (hatan : ∀ y x : ℚ, |P.atan2f y x| ≤ PI_F32) :
    (data_output P s ns_v ew_v c).anemometer.course = -1 ↔
      (data_output P s ns_v ew_v c).anemometer.speed < 1 / 4 := by
  obtain ⟨-, hc⟩ := data_output_publish P s ns_v ew_v c hpub
  rw [hc]
  constructor
  · intro h
    by_contra hlt
    rw [if_pos (not_lt.mp hlt)] at h
    have hb := hatan (-((s.ew_v_acc + ew_v) / ((s.oversampling_count + 1 : Int) : ℚ)))
      (-((s.ns_v_acc + ns_v) / ((s.oversampling_count + 1 : Int) : ℚ)))
    have hlo := (abs_le.mp hb).1
    unfold course_deg PI_F32 at *
    linarith
  · intro h
    rw [if_neg (not_le.mpr h)]

/-- C18, at a published sample of the setup `testSetup 1`: wind components
`(0, -1)`, sound speed 340. -/
theorem C18_witness :
    (loopInit.oversampling_count + 1 ≥ (testSetup 1).oversampling) ∧
    ((data_output (testSetup 1) loopInit 0 (-1) 340).anemometer.course = -1 ↔
      (data_output (testSetup 1) loopInit 0 (-1) 340).anemometer.speed < 1 / 4) :=
  ⟨by decide, C18_course_sentinel (testSetup 1) loopInit 0 (-1) 340 (by decide)
    atan2f_table_range⟩

theorem data_output_below (P : Setup) (s : Loop) (ns_v ew_v c : ℚ)
    (h : ¬ s.oversampling_count + 1 ≥ P.oversampling) :
    data_output P s ns_v ew_v c =
      { s with
        c_acc := s.c_acc + c
        ns_v_acc := s.ns_v_acc + ns_v
        ew_v_acc := s.ew_v_acc + ew_v
        oversampling_count := s.oversampling_count + 1 } := by
  unfold data_output
  dsimp only
  rw [if_neg h]

theorem accepted_cycles_below (P : Setup) :
    ∀ (l : List (ℚ × ℚ × ℚ)) (s : Loop),
      s.oversampling_count + (l.length : Int) < P.oversampling →
      (accepted_cycles P s l).c_acc = s.c_acc + (l.map (fun x => x.2.2)).sum ∧
      (accepted_cycles P s l).ns_v_acc = s.ns_v_acc + (l.map (fun x => x.1)).sum ∧
      (accepted_cycles P s l).ew_v_acc = s.ew_v_acc + (l.map (fun x => x.2.1)).sum ∧
      (accepted_cycles P s l).oversampling_count = s.oversampling_count + (l.length : Int) ∧
      (accepted_cycles P s l).anemometer = s.anemometer ∧
      (accepted_cycles P s l).wind_hist = s.wind_hist := by
  intro l
  induction l with
  | nil => intro s _; simp [accepted_cycles]
  | cons x l ih =>
    intro s h
    simp only [List.length_cons, Nat.cast_add, Nat.cast_one] at h
    have e : accepted_cycles P s (x :: l)
        = accepted_cycles P (data_output P s x.1 x.2.1 x.2.2) l := rfl
    have hstep := data_output_below P s x.1 x.2.1 x.2.2 (by omega)
    rw [e, hstep]
    obtain ⟨a, b, c, d, e2, f⟩ := ih
      { s with
        c_acc := s.c_acc + x.2.2
        ns_v_acc := s.ns_v_acc + x.1
        ew_v_acc := s.ew_v_acc + x.2.1
        oversampling_count := s.oversampling_count + 1 }
      (by show s.oversampling_count + 1 + (l.length : Int) < P.oversampling; omega)
    refine ⟨?_, ?_, ?_, ?_, ?_, ?_⟩
    · rw [a]; simp only [List.map_cons, List.sum_cons]; ring
    · rw [b]; simp only [List.map_cons, List.sum_cons]; ring
    · rw [c]; simp only [List.map_cons, List.sum_cons]; ring
    · rw [d]; simp only [List.length_cons]; push_cast; ring
    · rw [e2]
    · rw [f]

/-- C19. Oversampling: starting from zeroed accumulators and counter, after
`K = cfg.oversampling ≥ 1` accepted cycles the published sound speed is the mean
of the `c_i`, the published speed is `sqrtf(mean(vNS_i)^2 + mean(vEW_i)^2)`, the
accumulators and the counter are zero again, and after fewer than `K` accepted
cycles the published record and the history ring are what they were. -/
theorem C19_oversampling (P : Setup) (s : Loop) (l : List (ℚ × ℚ × ℚ))
    (hK : 1 ≤ P.oversampling) (hl : (l.length : Int) = P.oversampling)
    (h0 : s.c_acc = 0) (h1 : s.ns_v_acc = 0) (h2 : s.ew_v_acc = 0)
    (h3 : s.oversampling_count = 0) :
    (accepted_cycles P s l).anemometer.soundspeed
      = (l.map (fun x => x.2.2)).sum / (P.oversampling : ℚ) ∧
    (accepted_cycles P s l).anemometer.speed
      = P.sqrtf ((l.map (fun x => x.1)).sum / (P.oversampling : ℚ)
            * ((l.map (fun x => x.1)).sum / (P.oversampling : ℚ))
          + (l.map (fun x => x.2.1)).sum / (P.oversampling : ℚ)
            * ((l.map (fun x => x.2.1)).sum / (P.oversampling : ℚ))) ∧
    (accepted_cycles P s l).c_acc = 0 ∧ (accepted_cycles P s l).ns_v_acc = 0 ∧
    (accepted_cycles P s l).ew_v_acc = 0 ∧ (accepted_cycles P s l).oversampling_count = 0 ∧
    ∀ j : Nat, j < l.length →
      (accepted_cycles P s (l.take j)).anemometer = s.anemometer ∧
      (accepted_cycles P s (l.take j)).wind_hist = s.wind_hist := by
  have hprefix : ∀ j : Nat, j < l.length →
      (accepted_cycles P s (l.take j)).anemometer = s.anemometer ∧
      (accepted_cycles P s (l.take j)).wind_hist = s.wind_hist := by
    intro j hj
    have hlen : (l.take j).length = j := by simp; omega
    obtain ⟨-, -, -, -, e, f⟩ := accepted_cycles_below P (l.take j) s (by rw [hlen, h3]; omega)
    exact ⟨e, f⟩
  rcases List.eq_nil_or_concat l with hnil | ⟨L, x, hx⟩
  · rw [hnil] at hl; simp at hl; omega
  · rw [List.concat_eq_append] at hx
    subst hx
    have hL : (L.length : Int) + 1 = P.oversampling := by
      rw [← hl]; simp
    obtain ⟨a, b, c, d, -, -⟩ := accepted_cycles_below P L s (by rw [h3]; omega)
    have e : accepted_cycles P s (L ++ [x])
        = data_output P (accepted_cycles P s L) x.1 x.2.1 x.2.2 := by
      simp [accepted_cycles, List.foldl_append]
    have hcount : (accepted_cycles P s L).oversampling_count + 1 = P.oversampling := by
      rw [d, h3]; omega
    have hge : (accepted_cycles P s L).oversampling_count + 1 ≥ P.oversampling := by omega
    refine ⟨?_, ?_, ?_, ?_, ?_, ?_, hprefix⟩
    all_goals rw [e]; unfold data_output; dsimp only; rw [if_pos hge]
    · rw [hcount, a, h0]; simp [List.sum_append, add_comm]
    · rw [hcount, b, c, h1, h2]; simp [List.sum_append, add_comm]

/-- C19, at two accepted cycles with `cfg.oversampling = 2`. -/
theorem C19_witness :
    (1 : Int) ≤ (testSetup 2).oversampling ∧
    (accepted_cycles (testSetup 2) loopInit [(1, 0, 340), (3, 0, 342)]).anemometer.soundspeed
      = ([((1 : ℚ), (0 : ℚ), (340 : ℚ)), (3, 0, 342)].map (fun x => x.2.2)).sum
          / (((testSetup 2).oversampling : Int) : ℚ) :=
  ⟨by decide,
    (C19_oversampling (testSetup 2) loopInit [(1, 0, 340), (3, 0, 342)]
      (by decide) (by decide) rfl rfl rfl rfl).1⟩

/-! ## Theorems on the history ring -/

theorem ringbuffer_add_idx (r : RingBuffer) (v : ℚ) (size : Int) (hs : r.size = size)
    (h0 : 0 ≤ r.idx) (h1 : r.idx < size) :
    (ringbuffer_add r v).idx = (r.idx + 1) % size ∧ (ringbuffer_add r v).size = size ∧
    (ringbuffer_add r v).buf = Function.update r.buf r.idx v := by
  unfold ringbuffer_add
  dsimp only
  split_ifs with h
  · have : r.idx + 1 = size := by omega
    refine ⟨?_, hs, rfl⟩
    dsimp only
    rw [this, Int.emod_self]
  · refine ⟨?_, hs, rfl⟩
    dsimp only
    rw [Int.emod_eq_of_lt (by omega) (by omega)]

theorem emod_wrap (a size : Int) (h0 : 0 ≤ a) (h1 : a < 2 * size) :
    a % size = if a < size then a else a - size := by
  split_ifs with h
  · exact Int.emod_eq_of_lt h0 h
  · rw [Int.emod_eq_sub_self_emod, Int.emod_eq_of_lt (by omega) (by omega)]

theorem ringWindow_add (size : Int) (r : RingBuffer) (w : List ℚ) (v : ℚ)
    (h : RingWindow size r w) : RingWindow size (ringbuffer_add r v) ((w ++ [v]).drop 1) := by
  obtain ⟨hs, h0, h1, hl, hw⟩ := h
  obtain ⟨ei, es, eb⟩ := ringbuffer_add_idx r v size hs h0 h1
  have hpos : 0 < size := by omega
  have hlen : ((w ++ [v]).drop 1).length = size.toNat := by
    simp [hl]
  have hwl : (w.length : Int) = size := by rw [hl]; exact Int.toNat_of_nonneg (by omega)
  refine ⟨es, ?_, ?_, hlen, ?_⟩
  · rw [ei]; exact Int.emod_nonneg _ (by omega)
  · rw [ei]; exact Int.emod_lt_of_pos _ hpos
  · intro t ht
    rw [ei, eb, Int.emod_add_emod, List.getD_eq_getElem?_getD, List.getElem?_drop]
    by_cases hlast : (t : Int) + 1 < size
    · have hne : (r.idx + 1 + (t : Int)) % size ≠ r.idx := by
        rw [emod_wrap _ size (by omega) (by omega)]
        split_ifs <;> omega
      rw [Function.update_noteq hne, List.getElem?_append_left (by omega)]
      have := hw (t + 1) (by push_cast; omega)
      rw [List.getD_eq_getElem?_getD] at this
      have e1 : r.idx + 1 + (t : Int) = r.idx + ((t + 1 : Nat) : Int) := by push_cast; ring
      rw [e1, Nat.add_comm 1 t]
      exact this
    · have hidx : (r.idx + 1 + (t : Int)) % size = r.idx := by
        rw [emod_wrap _ size (by omega) (by omega)]
        split_ifs <;> omega
      have ht1 : 1 + t = w.length := by omega
      rw [hidx, Function.update_same, ht1]
      simp

theorem ringWindow_pushes (size : Int) :
    ∀ (vs : List ℚ) (r : RingBuffer) (w : List ℚ), RingWindow size r w →
      RingWindow size (ring_pushes r vs) ((w ++ vs).drop vs.length) ∧
      (ring_pushes r vs).idx = (r.idx + (vs.length : Int)) % size := by
  intro vs
  induction vs with
  | nil =>
    intro r w h
    refine ⟨by simpa [ring_pushes] using h, ?_⟩
    simp only [ring_pushes, List.foldl_nil, List.length_nil, Nat.cast_zero, add_zero]
    exact (Int.emod_eq_of_lt h.2.1 h.2.2.1).symm
  | cons v vs ih =>
    intro r w h
    have h2 := ringWindow_add size r w v h
    obtain ⟨a, b⟩ := ih (ringbuffer_add r v) ((w ++ [v]).drop 1) h2
    have e : ring_pushes r (v :: vs) = ring_pushes (ringbuffer_add r v) vs := rfl
    have hw1 : 1 ≤ (w ++ [v]).length := by simp
    have el : (List.drop 1 (w ++ [v]) ++ vs).drop vs.length
        = (w ++ v :: vs).drop (v :: vs).length := by
      rw [← List.drop_append_of_le_length hw1, List.drop_drop]
      simp [Nat.add_comm]
    rw [e]
    refine ⟨el ▸ a, ?_⟩
    rw [b, (ringbuffer_add_idx r v size h.1 h.2.1 h.2.2.1).1, Int.emod_add_emod]
    congr 1
    simp only [List.length_cons]; push_cast; ring

theorem ringWindow_init (mem : Int → ℚ) (size : Int) (h : 1 ≤ size) :
    RingWindow size (wind_hist_init mem size) (List.replicate size.toNat 0) := by
  refine ⟨rfl, le_refl _, by simp [wind_hist_init]; omega, by simp, ?_⟩
  intro t ht
  have : ((wind_hist_init mem size).idx + (t : Int)) % size = (t : Int) := by
    simp only [wind_hist_init, zero_add]
    exact Int.emod_eq_of_lt (by omega) ht
  rw [this]
  simp only [wind_hist_init, memset_zero_f]
  rw [if_pos ⟨by omega, ht⟩, List.getD_eq_getElem?_getD]
  have ht2 : t < size.toNat := by omega
  simp [List.getElem?_replicate, ht2]

theorem ringbuffer_sum_eq (buf : Int → ℚ) :
    ∀ (n : Nat) (i : Int) (avg : ℚ),
      ringbuffer_sum buf n i avg
        = avg + ((List.range n).map (fun j : Nat => buf (i + (j : Int)))).sum := by
  intro n
  induction n with
  | zero => intro i avg; simp [ringbuffer_sum]
  | succ n ih =>
    intro i avg
    rw [ringbuffer_sum, ih, List.range_succ_eq_map, List.map_cons, List.sum_cons, List.map_map]
    have : (fun j : Nat => buf (i + 1 + (j : Int)))
        = ((fun j : Nat => buf (i + (j : Int))) ∘ Nat.succ) := by
      funext j; simp only [Function.comp, Nat.succ_eq_add_one]; congr 1; push_cast; ring
    rw [this]
    simp only [Nat.cast_zero, add_zero]
    ring

theorem ringbuffer_max_loop_spec (buf : Int → ℚ) :
    ∀ (n : Nat) (i : Int) (max : ℚ),
      max ≤ ringbuffer_max_loop buf n i max ∧
      (∀ j : Int, i ≤ j → j < i + n → buf j ≤ ringbuffer_max_loop buf n i max) ∧
      (ringbuffer_max_loop buf n i max = max ∨
        ∃ j : Int, i ≤ j ∧ j < i + n ∧ buf j = ringbuffer_max_loop buf n i max) := by
  intro n
  induction n with
  | zero =>
    intro i max
    exact ⟨le_refl _, fun j h1 h2 => by simp at h2; omega, Or.inl rfl⟩
  | succ n ih =>
    intro i max
    rw [ringbuffer_max_loop]
    obtain ⟨a, b, c⟩ := ih (i + 1) (MAX max (buf i))
    have hm1 : max ≤ MAX max (buf i) := by unfold MAX; split_ifs with h <;> linarith
    have hm2 : buf i ≤ MAX max (buf i) := by unfold MAX; split_ifs with h <;> linarith
    refine ⟨le_trans hm1 a, ?_, ?_⟩
    · intro j h1 h2
      by_cases hj : j = i
      · rw [hj]; exact le_trans hm2 a
      · exact b j (by omega) (by push_cast at h2; omega)
    · rcases c with c | ⟨j, j1, j2, j3⟩
      · by_cases hgt : max > buf i
        · left; rw [c]; unfold MAX; rw [if_pos hgt]
        · right
          refine ⟨i, le_refl _, by push_cast; omega, ?_⟩
          rw [c]; unfold MAX; rw [if_neg hgt]
      · right; exact ⟨j, by omega, by push_cast; omega, j3⟩

/-- C20. History ring: after any sequence `vs` of pushes onto the ring set up
with capacity `size ≥ 1` (zeroed, `idx = 0`), `0 ≤ idx < size`, `idx` is the
number of pushes modulo `size`, and the `size` slots read from `idx` onward are
the last `size` elements of the zeros followed by the pushed values, oldest
first (so the buffer holds the last `min(n, size)` pushed values and
`size - min(n, size)` zeros, and the next push overwrites the oldest);
a push writes slot `idx` and no other slot; `ringbuffer_average` is the sum of
the buffer divided by `size`, and `ringbuffer_max` is an element of the buffer
that no element exceeds. -/
theorem C20_history_ring (mem : Int → ℚ) (size : Int) (vs : List ℚ) (h : 1 ≤ size) :
    (ring_pushes (wind_hist_init mem size) vs).size = size ∧
    0 ≤ (ring_pushes (wind_hist_init mem size) vs).idx ∧
    (ring_pushes (wind_hist_init mem size) vs).idx < size ∧
    (ring_pushes (wind_hist_init mem size) vs).idx = (vs.length : Int) % size ∧
    (∀ t : Nat, (t : Int) < size →
      (ring_pushes (wind_hist_init mem size) vs).buf
          (((ring_pushes (wind_hist_init mem size) vs).idx + (t : Int)) % size)
        = ((List.replicate size.toNat 0 ++ vs).drop vs.length).getD t 0) ∧
    (∀ v : ℚ,
      (ringbuffer_add (ring_pushes (wind_hist_init mem size) vs) v).buf
        = Function.update (ring_pushes (wind_hist_init mem size) vs).buf
            (ring_pushes (wind_hist_init mem size) vs).idx v) ∧
    ringbuffer_average (ring_pushes (wind_hist_init mem size) vs)
      = some (((List.range size.toNat).map
          (fun j : Nat => (ring_pushes (wind_hist_init mem size) vs).buf (j : Int))).sum
          / (size : ℚ)) ∧
    (∃ j : Int, 0 ≤ j ∧ j < size ∧
      (ring_pushes (wind_hist_init mem size) vs).buf j
        = ringbuffer_max (ring_pushes (wind_hist_init mem size) vs)) ∧
    (∀ j : Int, 0 ≤ j → j < size →
      (ring_pushes (wind_hist_init mem size) vs).buf j
        ≤ ringbuffer_max (ring_pushes (wind_hist_init mem size) vs)) := by
  obtain ⟨⟨hs, h0, h1, -, hw⟩, hidx⟩ :=
    ringWindow_pushes size vs _ _ (ringWindow_init mem size h)
  generalize ring_pushes (wind_hist_init mem size) vs = r at hs h0 h1 hw hidx ⊢
  have hsz : (size : ℚ) ≠ 0 := by
    have : (0 : ℚ) < (size : ℚ) := by exact_mod_cast (show 0 < size by omega)
    exact ne_of_gt this
  refine ⟨hs, h0, h1, ?_, hw, ?_, ?_, ?_, ?_⟩
  · rw [hidx]; simp [wind_hist_init]
  · intro v
    exact (ringbuffer_add_idx r v size hs h0 h1).2.2
  · unfold ringbuffer_average fdiv
    rw [hs, if_neg hsz, ringbuffer_sum_eq]
    simp
  · unfold ringbuffer_max
    rw [hs]
    obtain ⟨-, -, c⟩ := ringbuffer_max_loop_spec r.buf (size - 1).toNat 1 (r.buf 0)
    have hc : ((size - 1).toNat : Int) = size - 1 := Int.toNat_of_nonneg (by omega)
    rcases c with c | ⟨j, j1, j2, j3⟩
    · exact ⟨0, le_refl _, by omega, c.symm⟩
    · exact ⟨j, by omega, by omega, j3⟩
  · intro j j0 j1
    unfold ringbuffer_max
    rw [hs]
    obtain ⟨a, b, -⟩ := ringbuffer_max_loop_spec r.buf (size - 1).toNat 1 (r.buf 0)
    have hc : ((size - 1).toNat : Int) = size - 1 := Int.toNat_of_nonneg (by omega)
    by_cases hj : j = 0
    · rw [hj]; exact a
    · exact b j (by omega) (by omega)

/-- C20, at a ring of capacity 3 after the pushes 1, 2, 3, 4. -/
theorem C20_witness :
    (1 : Int) ≤ 3 ∧
    (ring_pushes (wind_hist_init (fun _ => 7) 3) [1, 2, 3, 4]).idx = ((4 : Nat) : Int) % 3 :=
  ⟨by decide, (C20_history_ring (fun _ => 7) 3 [1, 2, 3, 4] (by decide)).2.2.2.1⟩

/-! ## Theorems on the pulse offset -/

theorem average_six (sig : Int → ℚ) :
    average sig NUM_ZC_AVG = (sig 0 + sig 1 + sig 2 + sig 3 + sig 4 + sig 5) / 6 := by
  unfold average
  have e : NUM_ZC_AVG = 6 := rfl
  rw [e, average_loop_eq]
  simp [List.range_succ]
  ring

/-- C21. Pulse offset: for every geometry, baseline and air temperature with
`sin_a ≠ 0` and estimated sound speed `est_c ≠ 0`, the propagation time of line
944 is the finite value `T = 2*height/(sin_a*est_c) * 10^6`, and the call of
`get_pulse_offset` with it leaves in `offset[ch]`, for each of the four
channels, `T` minus the arithmetic mean of the first six entries of the
baseline of that channel, leaves the other entries of `offset` as they were and
leaves the baseline unchanged. -/
theorem C21_pulse_offset (sqrtf : ℚ → ℚ) (height sin_a temperature : ℚ) (m : PulseMem)
    (hs : sin_a ≠ 0) (hc : speed_of_sound_from_T sqrtf temperature ≠ 0) :
    propagation_time height sin_a (speed_of_sound_from_T sqrtf temperature)
      = some (2 * height / (sin_a * speed_of_sound_from_T sqrtf temperature) * 1000000) ∧
    ∃ r : PulseMem, calibrate_pulse_offset sqrtf height sin_a temperature m = some r ∧
      (∀ ch : Int, 0 ≤ ch → ch < 4 →
        r.offset ch
          = 2 * height / (sin_a * speed_of_sound_from_T sqrtf temperature) * 1000000
            - (m.zero_cross ch 0 + m.zero_cross ch 1 + m.zero_cross ch 2 + m.zero_cross ch 3
                + m.zero_cross ch 4 + m.zero_cross ch 5) / 6) ∧
      (∀ ch : Int, ¬ (0 ≤ ch ∧ ch < 4) → r.offset ch = m.offset ch) ∧
      r.zero_cross = m.zero_cross := by
  have hT : propagation_time height sin_a (speed_of_sound_from_T sqrtf temperature)
      = some (2 * height / (sin_a * speed_of_sound_from_T sqrtf temperature) * 1000000) := by
    unfold propagation_time fdiv
    rw [if_neg (mul_ne_zero hs hc)]
    rfl
  refine ⟨hT, get_pulse_offset m
    (2 * height / (sin_a * speed_of_sound_from_T sqrtf temperature) * 1000000), ?_, ?_, ?_, rfl⟩
  · unfold calibrate_pulse_offset
    dsimp only
    rw [hT]
    rfl
  · intro ch h0 h4
    unfold get_pulse_offset
    dsimp only
    simp only [average_six]
    unfold NORTH SOUTH EAST WEST
    interval_cases ch <;> simp [Function.update]
  · intro ch h
    unfold get_pulse_offset
    dsimp only
    unfold NORTH SOUTH EAST WEST
    have h0 : ch ≠ 0 := by omega
    have h1 : ch ≠ 1 := by omega
    have h2 : ch ≠ 2 := by omega
    have h3 : ch ≠ 3 := by omega
    simp [Function.update, h0, h1, h2, h3]

/-- C21, at the geometry `height = 0.04`, `sin_a = 0.8`, the air temperature
15.85 degrees (`sqrtf 289 = 17`, so `est_c = 340.85`) and the baseline
`pulseMemTest`: the propagation time is `2*0.04/(0.8*340.85) * 10^6`. -/
theorem C21_witness :
    ((4 / 5 : ℚ) ≠ 0 ∧ speed_of_sound_from_T sqrtf_table (1585 / 100) ≠ 0) ∧
    propagation_time (1 / 25) (4 / 5) (speed_of_sound_from_T sqrtf_table (1585 / 100))
      = some (2 * (1 / 25) / ((4 / 5) * speed_of_sound_from_T sqrtf_table (1585 / 100))
          * 1000000) :=
  ⟨⟨by norm_num, by decide!⟩,
    (C21_pulse_offset sqrtf_table (1 / 25) (4 / 5) (1585 / 100) pulseMemTest
      (by norm_num) (by decide!)).1⟩

/-! ## Theorems on the turning-point scan -/

theorem IS_SIGN_DIFF_iff (a b : ℚ) :
    IS_SIGN_DIFF a b = true ↔ decide (0 ≤ b) ≠ decide (0 ≤ a) := by
  unfold IS_SIGN_DIFF
  by_cases ha : a < 0 <;> by_cases hb : b < 0 <;>
    simp [ha, hb, not_le.mpr, not_lt.mp]

theorem find_next_turning_loop_least (sig : Int → ℚ) :
    ∀ (n : Nat) (i : Int),
      (find_next_turning_loop sig n i (sig i - sig (i - 1)) = 0 ∧
        ∀ j : Int, i ≤ j → j < i + n → ¬ spec_turning sig j) ∨
      (i ≤ find_next_turning_loop sig n i (sig i - sig (i - 1)) ∧
        find_next_turning_loop sig n i (sig i - sig (i - 1)) < i + n ∧
        spec_turning sig (find_next_turning_loop sig n i (sig i - sig (i - 1))) ∧
        ∀ j : Int, i ≤ j → j < find_next_turning_loop sig n i (sig i - sig (i - 1)) →
          ¬ spec_turning sig j) := by
  intro n
  induction n with
  | zero =>
    intro i
    left
    exact ⟨rfl, fun j h1 h2 => by simp at h2; omega⟩
  | succ n ih =>
    intro i
    rw [find_next_turning_loop]
    by_cases ht : IS_SIGN_DIFF (sig i - sig (i - 1)) (sig (i + 1) - sig i) = true
    · rw [if_pos ht]
      right
      refine ⟨le_refl _, by push_cast; omega, (IS_SIGN_DIFF_iff _ _).mp ht, ?_⟩
      intro j h1 h2
      omega
    · rw [if_neg ht]
      have hnot : ¬ spec_turning sig i := fun h => ht ((IS_SIGN_DIFF_iff _ _).mpr h)
      have e : sig (i + 1) - sig i = sig (i + 1) - sig (i + 1 - 1) := by
        rw [add_sub_cancel_right]
      rw [e]
      rcases ih (i + 1) with ⟨h0, hall⟩ | ⟨h1, h2, h3, h4⟩
      · left
        refine ⟨h0, ?_⟩
        intro j j1 j2
        by_cases hj : j = i
        · rw [hj]; exact hnot
        · exact hall j (by omega) (by push_cast at j2; omega)
      · right
        refine ⟨by omega, by push_cast; omega, h3, ?_⟩
        intro j j1 j2
        by_cases hj : j = i
        · rw [hj]; exact hnot
        · exact h4 j (by omega) j2

/-- C27. For every signal and every `len`, `find_next_turning` returns either 0,
and then no index in `[3, len-2]` is a turning point, or an index `r` with
`3 ≤ r ≤ len-2` that is a turning point (the sign of `x[r+1]-x[r]` differs from
the sign of `x[r]-x[r-1]`, a zero difference counting as non-negative) such that
no index in `[3, r)` is a turning point; a found index is never the sentinel 0. -/
theorem C27_find_next_turning (sig : Int → ℚ) (len : Int) :
    (find_next_turning sig len = 0 ∧
      ∀ j : Int, 3 ≤ j → j ≤ len - 2 → ¬ spec_turning sig j) ∨
    (3 ≤ find_next_turning sig len ∧ find_next_turning sig len ≤ len - 2 ∧
      find_next_turning sig len ≠ 0 ∧
      spec_turning sig (find_next_turning sig len) ∧
      ∀ j : Int, 3 ≤ j → j < find_next_turning sig len → ¬ spec_turning sig j) := by
  unfold find_next_turning
  have e : sig 3 - sig 2 = sig 3 - sig (3 - 1) := by norm_num
  rw [e]
  have hn := Int.toNat_of_nonneg (a := len - 1 - 3)
  rcases find_next_turning_loop_least sig (len - 1 - 3).toNat 3 with ⟨h0, hall⟩ | ⟨h1, h2, h3, h4⟩
  · left
    refine ⟨h0, ?_⟩
    intro j j1 j2
    exact hall j j1 (by omega)
  · right
    exact ⟨h1, by omega, by omega, h3, h4⟩

/-! ## Theorems on the smoothed sound-speed gate -/

theorem cycle_tail_final (P : Setup) (s : Loop) (err : Int) (dt : Int → ℚ) (temperature : ℚ)
    (hh : hard_check (sound_speed P dt) = false) :
    ((cycle_tail P s err true dt temperature).anemometer.err_code = ERR_WINDSPEED ↔
      (|speed_of_sound_from_T P.sqrtf temperature - sound_speed P dt| > 10 ∨
        |sound_speed P dt
          - ((if s.c_history = 0 then sound_speed P dt else s.c_history) * (9 / 10)
              + sound_speed P dt * (1 / 10))| > 5)) ∧
    (cycle_tail P s err true dt temperature).c_history
      = (if s.c_history = 0 then sound_speed P dt else s.c_history) * (9 / 10)
          + sound_speed P dt * (1 / 10) := by
  unfold cycle_tail
  dsimp only
  rw [if_neg (by simp), hh, if_neg (by simp)]
  by_cases hg : |speed_of_sound_from_T P.sqrtf temperature - sound_speed P dt| > 10 ∨
      |sound_speed P dt
        - ((if s.c_history = 0 then sound_speed P dt else s.c_history) * (9 / 10)
            + sound_speed P dt * (1 / 10))| > 5
  · rw [if_pos hg]
    exact ⟨⟨fun _ => hg, fun _ => rfl⟩, rfl⟩
  · rw [if_neg hg]
    refine ⟨⟨fun h => absurd h ?_, fun h => absurd h hg⟩, ?_⟩
    · unfold cycle_end NORMAL ERR_WINDSPEED
      simp
    · unfold cycle_end data_output
      dsimp only
      split_ifs <;> rfl

/-- In exact arithmetic (the model `cycle_tail`), for every cycle that passed
the hard check, with previous history `h_prev = s.c_history`, computed sound
speed `c` and estimate `est_c`: when `h_prev ≠ 0` the cycle ends with
`ERR_WINDSPEED` if and only if `|est_c - c| > 10` or `0.9*|c - h_prev| > 5`;
when `h_prev = 0` it ends with `ERR_WINDSPEED` if and only if
`|est_c - c| > 10` (the history test never rejects); and in all cases, rejected
or not, the history after the cycle is `0.9*h_prev + 0.1*c` for `h_prev ≠ 0` and
`c` for `h_prev = 0`.  With the rounding of the stored history the outcome can
differ within one unit in the last place of the threshold, see
`sound_gate_f32`. -/
theorem smoothed_gate_exact (P : Setup) (s : Loop) (err : Int) (dt : Int → ℚ) (temperature : ℚ)
    (hh : hard_check (sound_speed P dt) = false) :
    (s.c_history ≠ 0 →
      ((cycle_tail P s err true dt temperature).anemometer.err_code = ERR_WINDSPEED ↔
        (|speed_of_sound_from_T P.sqrtf temperature - sound_speed P dt| > 10 ∨
          (9 / 10) * |sound_speed P dt - s.c_history| > 5)) ∧
      (cycle_tail P s err true dt temperature).c_history
        = (9 / 10) * s.c_history + (1 / 10) * sound_speed P dt) ∧
    (s.c_history = 0 →
      ((cycle_tail P s err true dt temperature).anemometer.err_code = ERR_WINDSPEED ↔
        |speed_of_sound_from_T P.sqrtf temperature - sound_speed P dt| > 10) ∧
      (cycle_tail P s err true dt temperature).c_history = sound_speed P dt) := by
  obtain ⟨h1, h2⟩ := cycle_tail_final P s err dt temperature hh
  constructor
  · intro hne
    rw [if_neg hne] at h1 h2
    have e : sound_speed P dt - (s.c_history * (9 / 10) + sound_speed P dt * (1 / 10))
        = (9 / 10) * (sound_speed P dt - s.c_history) := by ring
    rw [e, abs_mul, abs_of_pos (by norm_num : (0 : ℚ) < 9 / 10)] at h1
    exact ⟨h1, by rw [h2]; ring⟩
  · intro h0
    rw [if_pos h0] at h1 h2
    have e : sound_speed P dt - (sound_speed P dt * (9 / 10) + sound_speed P dt * (1 / 10))
        = 0 := by ring
    rw [e, abs_zero] at h1
    refine ⟨?_, by rw [h2]; ring⟩
    rw [h1]
    constructor
    · rintro (h | h)
      · exact h
      · exact absurd h (by norm_num)
    · exact Or.inl

/-! ## Theorems on the axis arithmetic -/

theorem spec_tof_inv (height sin_a cos_a c v : ℚ) (hh : height ≠ 0) :
    1 / (spec_tof height sin_a cos_a c v / 1000000) = (c + v * cos_a) * sin_a / (2 * height) := by
  unfold spec_tof
  field_simp
  ring

/-- C29. The axis arithmetic inverts the forward model: for every geometry with
`height > 0`, `sin_a > 0`, `cos_a > 0` (an angle strictly between 0 and a right
angle), every sound speed `c > 0` and wind components `v`, `w` along the two
axes with `|v*cos_a| < c` and `|w*cos_a| < c`, if the times of flight are
`L/(c + v cos_a)` and `L/(c - v cos_a)` with `L = 2*height/sin_a` (and likewise
for `w` on the other axis), then the axis speed of lines 1093-1094 is `v` (resp.
`w`) and the sound speed of lines 1098-1100 is `c`; equal times give the axis
speed 0; and four times equal to `T = 2*height/(sin_a*est_c) * 10^6` give the
sound speed `est_c`. -/
theorem C29_axis_arithmetic_inverts (P : Setup) (c v w : ℚ) (dt : Int → ℚ)
    (hh : 0 < P.height) (hs : 0 < P.sin_a) (hco : 0 < P.cos_a) (hc : 0 < c)
    (hv : |v * P.cos_a| < c) (hw : |w * P.cos_a| < c)
    (hN : dt NORTH = spec_tof P.height P.sin_a P.cos_a c v)
    (hS : dt SOUTH = spec_tof P.height P.sin_a P.cos_a c (-v))
    (hE : dt EAST = spec_tof P.height P.sin_a P.cos_a c w)
    (hW : dt WEST = spec_tof P.height P.sin_a P.cos_a c (-w)) :
    axis_speed P (dt NORTH) (dt SOUTH) = v ∧
    axis_speed P (dt EAST) (dt WEST) = w ∧
    sound_speed P dt = c ∧
    (∀ t : ℚ, axis_speed P t t = 0) ∧
    (∀ est_c : ℚ, est_c ≠ 0 →
      sound_speed P (fun _ => 2 * P.height / (P.sin_a * est_c) * 1000000) = est_c) := by
  have h1 := abs_lt.mp hv
  have h2 := abs_lt.mp hw
  have hh0 : P.height ≠ 0 := ne_of_gt hh
  have hs0 : P.sin_a ≠ 0 := ne_of_gt hs
  have hc0 : P.cos_a ≠ 0 := ne_of_gt hco
  have hcpos : c ≠ 0 := ne_of_gt hc
  have eN := spec_tof_inv P.height P.sin_a P.cos_a c v hh0
  have eS := spec_tof_inv P.height P.sin_a P.cos_a c (-v) hh0
  have eE := spec_tof_inv P.height P.sin_a P.cos_a c w hh0
  have eW := spec_tof_inv P.height P.sin_a P.cos_a c (-w) hh0
  refine ⟨?_, ?_, ?_, ?_, ?_⟩
  · unfold axis_speed
    rw [hN, hS, eN, eS]
    field_simp
    ring
  · unfold axis_speed
    rw [hE, hW, eE, eW]
    field_simp
    ring
  · unfold sound_speed
    dsimp only
    rw [hN, hS, hE, hW, eN, eS, eE, eW]
    field_simp
    ring
  · intro t
    unfold axis_speed
    rw [sub_self, mul_zero]
  · intro est_c he
    unfold sound_speed
    dsimp only
    field_simp
    ring

/-- C29, at the geometry of `testSetup 1` (`height = 0.04`, `sin_a = 0.8`,
`cos_a = 0.6`) with `c = 340`, `v = 5` along North-South and `w = -10` along
East-West: the axis arithmetic returns 5, -10 and 340. -/
theorem C29_witness :
    (0 < (testSetup 1).height ∧ 0 < (testSetup 1).sin_a ∧ 0 < (testSetup 1).cos_a ∧
      |(5 : ℚ) * (testSetup 1).cos_a| < 340 ∧ |(-10 : ℚ) * (testSetup 1).cos_a| < 340) ∧
    axis_speed (testSetup 1) (tofTest NORTH) (tofTest SOUTH) = 5 ∧
    axis_speed (testSetup 1) (tofTest EAST) (tofTest WEST) = -10 ∧
    sound_speed (testSetup 1) tofTest = 340 :=
  ⟨by decide!,
    (C29_axis_arithmetic_inverts (testSetup 1) 340 5 (-10) tofTest
      (by decide!) (by decide!) (by decide!) (by norm_num) (by decide!) (by decide!)
      rfl rfl rfl (by decide!)).1,
    (C29_axis_arithmetic_inverts (testSetup 1) 340 5 (-10) tofTest
      (by decide!) (by decide!) (by decide!) (by norm_num) (by decide!) (by decide!)
      rfl rfl rfl (by decide!)).2.1,
    (C29_axis_arithmetic_inverts (testSetup 1) 340 5 (-10) tofTest
      (by decide!) (by decide!) (by decide!) (by norm_num) (by decide!) (by decide!)
      rfl rfl rfl (by decide!)).2.2.1⟩

/-! ## Theorems on sequences of cycles -/

/-- From smoothed MSEs that are NaN or non-negative, a cycle ends with `NORMAL`,
`ERR_MSE_NAN` or `ERR_WINDSPEED`. -/
theorem cycle_err_code (P : Setup) (s : Loop) (sigs : Int → Int → ℚ) (temperature : ℚ)
    (hh : ∀ k, HistOK (s.mse_history k)) :
    (cycle P s sigs temperature).anemometer.err_code = NORMAL ∨
    (cycle P s sigs temperature).anemometer.err_code = ERR_MSE_NAN ∨
    (cycle P s sigs temperature).anemometer.err_code = ERR_WINDSPEED := by
  obtain ⟨-, b, -⟩ := channel_loop_flags P sigs 4 0
    { mse_history := s.mse_history, err := NORMAL, is_data_correct := true, dt := fun _ => 0 }
    hh (Or.inl ⟨rfl, rfl⟩)
  unfold cycle cycle_tail
  dsimp only
  rcases b with ⟨b1, -⟩ | ⟨b1, b2⟩
  · rw [b1]
    rw [if_neg (by simp)]
    split_ifs
    all_goals first | (left; rfl) | (right; right; rfl)
  · rw [b1, b2]
    right; left; rfl

theorem run_cycles_mse_history_ok (P : Setup) (frames : List ((Int → Int → ℚ) × ℚ)) :
    ∀ s : Loop, (∀ k, HistOK (s.mse_history k)) →
      ∀ k, HistOK ((run_cycles P s frames).mse_history k) := by
  induction frames with
  | nil => intro s hh; exact hh
  | cons f l ih =>
    intro s hh
    exact ih (cycle P s f.1 f.2) (cycle_mse_history_ok P s f.1 f.2 hh)

/-- In exact arithmetic (the models `shape_gate` and `cycle`)
`ERR_SHAPE_MISMATCH` is never raised. The shape gate stores `0.9*h + 0.1*m` as
the new history before it compares `m > 10*history`, so for a history `h ≥ 0`
and a finite MSE `m ≥ 0` the exact comparison is false; hence from smoothed MSEs
that are NaN or non-negative (they start at 0) the exact gate never sets
`ERR_SHAPE_MISMATCH`, the new history is again NaN or non-negative, and after
every sequence of cycles, on every frame set, the exact cycle does not end with
`ERR_SHAPE_MISMATCH`.  With the rounding of the `float` operations the
comparison can be true, see `shape_gate_f32`. -/
theorem shape_mismatch_exact_never_raised (P : Setup) (s : Loop)
    (frames : List ((Int → Int → ℚ) × ℚ)) (sigs : Int → Int → ℚ) (temperature : ℚ)
    (ref shape : Int → Peak) (h : Option ℚ) (err : Int) (ok : Bool)
    (hh : ∀ k, HistOK (s.mse_history k)) :
    (∀ a m : ℚ, 0 ≤ a → 0 ≤ m →
      smooth_mse (some a) (some m) = some (9 / 10 * a + 1 / 10 * m) ∧
      flt ((smooth_mse (some a) (some m)).map (fun x => x * 10)) (some m) = false) ∧
    (HistOK h → err ≠ ERR_SHAPE_MISMATCH →
      (shape_gate ref shape h err ok).err ≠ ERR_SHAPE_MISMATCH ∧
      HistOK (shape_gate ref shape h err ok).mse_history) ∧
    (∀ k, HistOK ((run_cycles P s frames).mse_history k)) ∧
    (cycle P (run_cycles P s frames) sigs temperature).anemometer.err_code
      ≠ ERR_SHAPE_MISMATCH := by
  refine ⟨?_, ?_, run_cycles_mse_history_ok P frames s hh, ?_⟩
  · intro a m ha hm
    refine ⟨rfl, ?_⟩
    simp only [smooth_mse, Option.map_some', flt, decide_eq_false_iff_not, not_lt]
    linarith
  · intro hH herr
    obtain ⟨g1, -, g3⟩ := shape_gate_ok ref shape h err ok hH
    refine ⟨?_, g1⟩
    rw [g3]
    split_ifs
    · decide
    · exact herr
  · rcases cycle_err_code P (run_cycles P s frames) sigs temperature
      (run_cycles_mse_history_ok P frames s hh) with h1 | h1 | h1 <;>
    · rw [h1]; decide

/-! ## Theorems on the scenarios of the nominal geometry -/

theorem sqrt_bracket (x a b : ℝ) (ha : 0 ≤ a) (hb : 0 ≤ b) (h1 : a ^ 2 ≤ x) (h2 : x ≤ b ^ 2) :
    a ≤ Real.sqrt x ∧ Real.sqrt x ≤ b :=
  ⟨(Real.le_sqrt ha (le_trans (sq_nonneg a) h1)).mpr h1, (Real.sqrt_le_left hb).mpr h2⟩

/-- The angle `α = atan(2h/p)` of the nominal geometry, `2h/p = 5/2`: its sine
is `5/√29 = 0.92847669...` and its cosine `2/√29 = 0.37139067...`. -/
theorem nominal_angle :
    (9284766 / 10000000 : ℝ) ≤ Real.sin (Real.arctan (5 / 2)) ∧
    Real.sin (Real.arctan (5 / 2)) ≤ 9284768 / 10000000 ∧
    (3713906 / 10000000 : ℝ) ≤ Real.cos (Real.arctan (5 / 2)) ∧
    Real.cos (Real.arctan (5 / 2)) ≤ 3713908 / 10000000 := by
  rw [Real.sin_arctan, Real.cos_arctan]
  obtain ⟨h1, h2⟩ := sqrt_bracket (1 + (5 / 2 : ℝ) ^ 2) (26925824 / 10000000)
    (26925825 / 10000000) (by norm_num) (by norm_num) (by norm_num) (by norm_num)
  have hpos : (0 : ℝ) < Real.sqrt (1 + (5 / 2 : ℝ) ^ 2) := by linarith
  refine ⟨?_, ?_, ?_, ?_⟩
  · rw [le_div_iff₀ hpos]; linarith
  · rw [div_le_iff₀ hpos]; linarith
  · rw [le_div_iff₀ hpos]; linarith
  · rw [div_le_iff₀ hpos]; linarith

/-- Brackets of `sin_a` and `cos_a` for values within `10^-6` of the sine and
cosine of the nominal angle. -/
theorem nominal_brackets (sin_a cos_a : ℚ)
    (hs : |(sin_a : ℝ) - Real.sin (Real.arctan (5 / 2))| ≤ 1 / 1000000)
    (hc : |(cos_a : ℝ) - Real.cos (Real.arctan (5 / 2))| ≤ 1 / 1000000) :
    (9284756 / 10000000 ≤ sin_a ∧ sin_a ≤ 9284778 / 10000000) ∧
    (3713896 / 10000000 ≤ cos_a ∧ cos_a ≤ 3713918 / 10000000) := by
  obtain ⟨a1, a2, a3, a4⟩ := nominal_angle
  have hs1 := (abs_le.mp hs).1
  have hs2 := (abs_le.mp hs).2
  have hc1 := (abs_le.mp hc).1
  have hc2 := (abs_le.mp hc).2
  have b1 : ((9284756 / 10000000 : ℚ) : ℝ) ≤ (sin_a : ℝ) := by push_cast; linarith
  have b2 : (sin_a : ℝ) ≤ ((9284778 / 10000000 : ℚ) : ℝ) := by push_cast; linarith
  have b3 : ((3713896 / 10000000 : ℚ) : ℝ) ≤ (cos_a : ℝ) := by push_cast; linarith
  have b4 : (cos_a : ℝ) ≤ ((3713918 / 10000000 : ℚ) : ℝ) := by push_cast; linarith
  exact ⟨⟨by exact_mod_cast b1, by exact_mod_cast b2⟩, ⟨by exact_mod_cast b3, by exact_mod_cast b4⟩⟩

theorem nominalSetup_angle :
    |((nominalSetup.sin_a : ℚ) : ℝ) - Real.sin (Real.arctan (5 / 2))| ≤ 1 / 1000000 ∧
    |((nominalSetup.cos_a : ℚ) : ℝ) - Real.cos (Real.arctan (5 / 2))| ≤ 1 / 1000000 := by
  obtain ⟨a1, a2, a3, a4⟩ := nominal_angle
  have e1 : ((nominalSetup.sin_a : ℚ) : ℝ) = 7788627 / 8388608 := by
    show (((7788627 / 8388608 : ℚ)) : ℝ) = _
    norm_num
  have e2 : ((nominalSetup.cos_a : ℚ) : ℝ) = 12461803 / 33554432 := by
    show (((12461803 / 33554432 : ℚ)) : ℝ) = _
    norm_num
  rw [e1, e2, abs_le, abs_le]
  refine ⟨⟨?_, ?_⟩, ⟨?_, ?_⟩⟩ <;> linarith

theorem sound_speed_equal (P : Setup) (t : ℚ) :
    sound_speed P (fun _ => t) = P.height / P.sin_a * (2000000 / t) := by
  unfold sound_speed
  dsimp only
  rw [one_div_div]
  ring

theorem cycle_tail_accept (P : Setup) (s : Loop) (err : Int) (dt : Int → ℚ) (temperature : ℚ)
    (h1 : hard_check (sound_speed P dt) = false)
    (h2 : ¬ (|speed_of_sound_from_T P.sqrtf temperature - sound_speed P dt| > 10 ∨
      |sound_speed P dt
        - ((if s.c_history = 0 then sound_speed P dt else s.c_history) * (9 / 10)
            + sound_speed P dt * (1 / 10))| > 5)) :
    cycle_tail P s err true dt temperature
      = cycle_end (data_output P
          { s with
            c_history := (if s.c_history = 0 then sound_speed P dt else s.c_history) * (9 / 10)
              + sound_speed P dt * (1 / 10)
            est_c := speed_of_sound_from_T P.sqrtf temperature }
          (axis_speed P (dt NORTH) (dt SOUTH)) (axis_speed P (dt EAST) (dt WEST))
          (sound_speed P dt)) NORMAL := by
  unfold cycle_tail
  dsimp only
  rw [if_neg (by simp), h1, if_neg (by simp), if_neg h2]

theorem data_output_soundspeed (P : Setup) (s : Loop) (ns_v ew_v c : ℚ)
    (h : s.oversampling_count + 1 ≥ P.oversampling) :
    (data_output P s ns_v ew_v c).anemometer.soundspeed
      = (s.c_acc + c) / ((s.oversampling_count + 1 : Int) : ℚ) := by
  unfold data_output
  dsimp only
  rw [if_pos h]

theorem axis_speed_equal (P : Setup) (t : ℚ) : axis_speed P t t = 0 := by
  unfold axis_speed
  rw [sub_self, mul_zero]

theorem sqrt_293 :
    (171216 / 10000 : ℝ) ≤ Real.sqrt (29315 / 100) ∧ Real.sqrt (29315 / 100) ≤ 171217 / 10000 :=
  sqrt_bracket _ _ _ (by norm_num) (by norm_num) (by norm_num) (by norm_num)

/-- C22, with the time of flight that the geometry gives. For every setup with
`height = 0.05`, `sin_a` within `10^-6` of the sine of `α = atan(2h/p) = atan 2.5`,
`sqrtf(293.15)` within `10^-4` of the square root, `sqrtf(0) = 0` and
oversampling 1, at 20 degrees, from accumulators at zero and a history that is
0 or within 5 of 343: with four times of flight of 173.0 microseconds the
computed sound speed is 622.56 (within 0.01) and the hard check rejects the cycle
with `ERR_WINDSPEED`; with four times of flight of 314.0 microseconds the cycle
is accepted and publishes speed 0, sound speed 343 (within 0.01) and course -1. -/
theorem C22_calm_air (P : Setup) (s : Loop) (err : Int)
    (hh : P.height = 1 / 20)
    (hs : |(P.sin_a : ℝ) - Real.sin (Real.arctan (5 / 2))| ≤ 1 / 1000000)
    (hc : |(P.cos_a : ℝ) - Real.cos (Real.arctan (5 / 2))| ≤ 1 / 1000000)
    (hq : |((P.sqrtf (20 + 27315 / 100) : ℚ) : ℝ) - Real.sqrt (29315 / 100)| ≤ 1 / 10000)
    (h0 : P.sqrtf 0 = 0)
    (hK : P.oversampling ≤ 1)
    (hfresh : s.oversampling_count = 0 ∧ s.c_acc = 0 ∧ s.ns_v_acc = 0 ∧ s.ew_v_acc = 0)
    (hhist : s.c_history = 0 ∨ |s.c_history - 343| ≤ 5) :
    (|sound_speed P (fun _ => 173) - 62256 / 100| ≤ 1 / 100 ∧
      cycle_tail P s err true (fun _ => 173) 20 = cycle_end s ERR_WINDSPEED) ∧
    ((cycle_tail P s err true (fun _ => 314) 20).anemometer.err_code = NORMAL ∧
      (cycle_tail P s err true (fun _ => 314) 20).anemometer.speed = 0 ∧
      |(cycle_tail P s err true (fun _ => 314) 20).anemometer.soundspeed - 343| ≤ 1 / 100 ∧
      (cycle_tail P s err true (fun _ => 314) 20).anemometer.course = -1) := by
  obtain ⟨⟨s1, s2⟩, -⟩ := nominal_brackets P.sin_a P.cos_a hs hc
  have spos : 0 < P.sin_a := by linarith
  obtain ⟨f1, f2, f3, f4⟩ := hfresh
  constructor
  · have e : sound_speed P (fun _ => 173) = 100000 / 173 / P.sin_a := by
      rw [sound_speed_equal, hh]
      field_simp
      ring
    have b1 : 62255 / 100 ≤ sound_speed P (fun _ => 173) := by
      rw [e, le_div_iff₀ spos]; linarith
    have b2 : sound_speed P (fun _ => 173) ≤ 62257 / 100 := by
      rw [e, div_le_iff₀ spos]; linarith
    refine ⟨abs_le.mpr ⟨by linarith, by linarith⟩, ?_⟩
    have hk : hard_check (sound_speed P (fun _ => 173)) = true := by
      rw [hard_check_iff]
      rintro ⟨-, h⟩
      linarith
    unfold cycle_tail
    dsimp only
    rw [if_neg (by simp), if_pos hk]
  · have e : sound_speed P (fun _ => 314) = 100000 / 314 / P.sin_a := by
      rw [sound_speed_equal, hh]
      field_simp
      ring
    have b1 : 343003 / 1000 ≤ sound_speed P (fun _ => 314) := by
      rw [e, le_div_iff₀ spos]; linarith
    have b2 : sound_speed P (fun _ => 314) ≤ 343005 / 1000 := by
      rw [e, div_le_iff₀ spos]; linarith
    have hk : hard_check (sound_speed P (fun _ => 314)) = false :=
      Bool.eq_false_iff.mpr (fun h => (hard_check_iff _).mp h ⟨by linarith, by linarith⟩)
    obtain ⟨r1, r2⟩ := sqrt_293
    have q1 : ((171215 / 10000 : ℚ) : ℝ) ≤ ((P.sqrtf (20 + 27315 / 100) : ℚ) : ℝ) := by
      have := (abs_le.mp hq).1
      push_cast; linarith
    have q2 : ((P.sqrtf (20 + 27315 / 100) : ℚ) : ℝ) ≤ ((171218 / 10000 : ℚ) : ℝ) := by
      have := (abs_le.mp hq).2
      push_cast; linarith
    have q1' : 171215 / 10000 ≤ P.sqrtf (20 + 27315 / 100) := by exact_mod_cast q1
    have q2' : P.sqrtf (20 + 27315 / 100) ≤ 171218 / 10000 := by exact_mod_cast q2
    have hgate : ¬ (|speed_of_sound_from_T P.sqrtf 20 - sound_speed P (fun _ => 314)| > 10 ∨
        |sound_speed P (fun _ => 314)
          - ((if s.c_history = 0 then sound_speed P (fun _ => 314) else s.c_history) * (9 / 10)
              + sound_speed P (fun _ => 314) * (1 / 10))| > 5) := by
      rw [not_or, not_lt, not_lt]
      constructor
      · unfold speed_of_sound_from_T
        rw [abs_le]
        constructor <;> linarith
      · rcases hhist with h | h
        · rw [if_pos h]
          have : sound_speed P (fun _ => 314)
              - (sound_speed P (fun _ => 314) * (9 / 10)
                  + sound_speed P (fun _ => 314) * (1 / 10)) = 0 := by ring
          rw [this, abs_zero]
          norm_num
        · have h1 := (abs_le.mp h).1
          have h2 := (abs_le.mp h).2
          split_ifs
          · have : sound_speed P (fun _ => 314)
                - (sound_speed P (fun _ => 314) * (9 / 10)
                    + sound_speed P (fun _ => 314) * (1 / 10)) = 0 := by ring
            rw [this, abs_zero]
            norm_num
          · rw [abs_le]
            constructor <;> linarith
    rw [cycle_tail_accept P s err (fun _ => 314) 20 hk hgate]
    have hpub : s.oversampling_count + 1 ≥ P.oversampling := by rw [f1]; linarith
    obtain ⟨p1, p2⟩ := data_output_publish P
      { s with
        c_history := (if s.c_history = 0 then sound_speed P (fun _ => 314) else s.c_history)
          * (9 / 10) + sound_speed P (fun _ => 314) * (1 / 10)
        est_c := speed_of_sound_from_T P.sqrtf 20 }
      (axis_speed P 314 314) (axis_speed P 314 314) (sound_speed P (fun _ => 314)) hpub
    have p3 := data_output_soundspeed P
      { s with
        c_history := (if s.c_history = 0 then sound_speed P (fun _ => 314) else s.c_history)
          * (9 / 10) + sound_speed P (fun _ => 314) * (1 / 10)
        est_c := speed_of_sound_from_T P.sqrtf 20 }
      (axis_speed P 314 314) (axis_speed P 314 314) (sound_speed P (fun _ => 314)) hpub
    have p1' : (data_output P
        { s with
          c_history := (if s.c_history = 0 then sound_speed P (fun _ => 314) else s.c_history)
            * (9 / 10) + sound_speed P (fun _ => 314) * (1 / 10)
          est_c := speed_of_sound_from_T P.sqrtf 20 }
        (axis_speed P 314 314) (axis_speed P 314 314)
        (sound_speed P (fun _ => 314))).anemometer.speed = 0 := by
      rw [p1]
      dsimp only
      simp only [axis_speed_equal, f3, f4, add_zero, zero_div, mul_zero, h0]
    refine ⟨rfl, p1', ?_, ?_⟩
    · show |(data_output _ _ _ _ _).anemometer.soundspeed - 343| ≤ 1 / 100
      rw [p3]
      dsimp only
      rw [f1, f2, abs_le]
      norm_num
      constructor <;> linarith
    · show (data_output _ _ _ _ _).anemometer.course = -1
      rw [p2, p1', if_neg (by norm_num)]

theorem nominalSetup_sqrt293 :
    |((nominalSetup.sqrtf (20 + 27315 / 100) : ℚ) : ℝ) - Real.sqrt (29315 / 100)|
      ≤ 1 / 10000 := by
  have e : nominalSetup.sqrtf (20 + 27315 / 100) = 4488331 / 262144 := by decide!
  obtain ⟨r1, r2⟩ := sqrt_293
  rw [e, abs_le]
  push_cast
  constructor <;> linarith

/-- C22 with its conditions, at `nominalSetup` from the initial state
`loopInit`: the cycle with four times of flight of 314 microseconds is
accepted. -/
theorem C22_witness :
    (nominalSetup.height = 1 / 20 ∧ nominalSetup.sqrtf 0 = 0 ∧ nominalSetup.oversampling ≤ 1) ∧
    (cycle_tail nominalSetup loopInit NORMAL true (fun _ => 314) 20).anemometer.err_code
      = NORMAL ∧
    |(cycle_tail nominalSetup loopInit NORMAL true (fun _ => 314) 20).anemometer.soundspeed
      - 343| ≤ 1 / 100 ∧
    (cycle_tail nominalSetup loopInit NORMAL true (fun _ => 314) 20).anemometer.course = -1 :=
  ⟨⟨rfl, by decide!, by decide⟩,
    (C22_calm_air nominalSetup loopInit NORMAL rfl nominalSetup_angle.1 nominalSetup_angle.2
      nominalSetup_sqrt293 (by decide!) (by decide) ⟨rfl, rfl, rfl, rfl⟩ (Or.inl rfl)).2.1,
    (C22_calm_air nominalSetup loopInit NORMAL rfl nominalSetup_angle.1 nominalSetup_angle.2
      nominalSetup_sqrt293 (by decide!) (by decide) ⟨rfl, rfl, rfl, rfl⟩ (Or.inl rfl)).2.2.2.1,
    (C22_calm_air nominalSetup loopInit NORMAL rfl nominalSetup_angle.1 nominalSetup_angle.2
      nominalSetup_sqrt293 (by decide!) (by decide) ⟨rfl, rfl, rfl, rfl⟩
      (Or.inl rfl)).2.2.2.2⟩

/-- C22 fails as stated. At `nominalSetup` (`height = 0.05`, `tan α = 2.5`), 20
degrees, four times of flight of 173.0 microseconds, from the initial state:
the computed sound speed is above 622, the hard check rejects the cycle with
`ERR_WINDSPEED` and the published sound speed is still the initial 0. -/
theorem C22_counterexample :
    622 < sound_speed nominalSetup (fun _ => 173) ∧
    hard_check (sound_speed nominalSetup (fun _ => 173)) = true ∧
    (cycle_tail nominalSetup loopInit NORMAL true (fun _ => 173) 20).anemometer.err_code
      = ERR_WINDSPEED ∧
    (cycle_tail nominalSetup loopInit NORMAL true (fun _ => 173) 20).anemometer.soundspeed
      = 0 := by
  decide!

theorem axis_speed_northerly (P : Setup) (hh : P.height = 1 / 20) :
    axis_speed P (17265 / 100) (17335 / 100) = 14000000 / 11971551 / (P.sin_a * P.cos_a) := by
  unfold axis_speed
  rw [hh]
  by_cases h : P.sin_a * P.cos_a = 0
  · rw [h]; norm_num
  · field_simp
    ring

theorem sound_speed_northerly (P : Setup) (hh : P.height = 1 / 20) :
    sound_speed P northerlyTof = 1197157550000 / 2071078323 / P.sin_a := by
  unfold sound_speed northerlyTof NORTH SOUTH EAST WEST
  dsimp only
  rw [hh]
  by_cases h : P.sin_a = 0
  · rw [h]; norm_num
  · norm_num
    field_simp
    ring

/-- C23, with the value the arithmetic gives. For every setup with
`height = 0.05` and `sin_a`, `cos_a` within `10^-6` of the sine and cosine of
`α = atan 2.5`, and the times of flight 172.65, 173.35, 173.00, 173.00
microseconds: the North-South component is 3.39 m/s (within 0.01), not 2.0; the
East-West component is 0; the wind speed of line 1095 is 3.39 (within 0.01)
when `sqrtf` is within `10^-4` of the square root at its argument; and the
computed sound speed fails the hard check. -/
theorem C23_northerly (P : Setup)
    (hh : P.height = 1 / 20)
    (hs : |(P.sin_a : ℝ) - Real.sin (Real.arctan (5 / 2))| ≤ 1 / 1000000)
    (hc : |(P.cos_a : ℝ) - Real.cos (Real.arctan (5 / 2))| ≤ 1 / 1000000)
    (hq : |((wind_speed P.sqrtf (axis_speed P (northerlyTof NORTH) (northerlyTof SOUTH))
              (axis_speed P (northerlyTof EAST) (northerlyTof WEST)) : ℚ) : ℝ)
          - Real.sqrt (((axis_speed P (northerlyTof NORTH) (northerlyTof SOUTH)
                * axis_speed P (northerlyTof NORTH) (northerlyTof SOUTH)
              + axis_speed P (northerlyTof EAST) (northerlyTof WEST)
                * axis_speed P (northerlyTof EAST) (northerlyTof WEST) : ℚ) : ℝ))|
        ≤ 1 / 10000) :
    |axis_speed P (northerlyTof NORTH) (northerlyTof SOUTH) - 339 / 100| ≤ 1 / 100 ∧
    axis_speed P (northerlyTof EAST) (northerlyTof WEST) = 0 ∧
    |wind_speed P.sqrtf (axis_speed P (northerlyTof NORTH) (northerlyTof SOUTH))
        (axis_speed P (northerlyTof EAST) (northerlyTof WEST)) - 339 / 100| ≤ 1 / 100 ∧
    hard_check (sound_speed P northerlyTof) = true := by
  obtain ⟨⟨s1, s2⟩, ⟨c1, c2⟩⟩ := nominal_brackets P.sin_a P.cos_a hs hc
  have spos : 0 < P.sin_a := by linarith
  have cpos : 0 < P.cos_a := by linarith
  have eN : northerlyTof NORTH = 17265 / 100 := by decide!
  have eS : northerlyTof SOUTH = 17335 / 100 := by decide!
  have eE : northerlyTof EAST = 173 := by decide!
  have eW : northerlyTof WEST = 173 := by decide!
  rw [eN, eS, eE, eW] at hq ⊢
  have hw : axis_speed P 173 173 = 0 := axis_speed_equal P 173
  have p1 : 3448261 / 10000000 ≤ P.sin_a * P.cos_a := by nlinarith
  have p2 : P.sin_a * P.cos_a ≤ 3448291 / 10000000 := by nlinarith
  have ppos : 0 < P.sin_a * P.cos_a := mul_pos spos cpos
  have v1 : 33913 / 10000 ≤ axis_speed P (17265 / 100) (17335 / 100) := by
    rw [axis_speed_northerly P hh, le_div_iff₀ ppos]; linarith
  have v2 : axis_speed P (17265 / 100) (17335 / 100) ≤ 33914 / 10000 := by
    rw [axis_speed_northerly P hh, div_le_iff₀ ppos]; linarith
  rw [hw] at hq ⊢
  refine ⟨abs_le.mpr ⟨by linarith, by linarith⟩, rfl, ?_, ?_⟩
  · have hv0 : (0 : ℝ) ≤ ((axis_speed P (17265 / 100) (17335 / 100) : ℚ) : ℝ) := by
      have : (0 : ℚ) ≤ axis_speed P (17265 / 100) (17335 / 100) := by linarith
      exact_mod_cast this
    have e : (((axis_speed P (17265 / 100) (17335 / 100)
          * axis_speed P (17265 / 100) (17335 / 100) + 0 * 0 : ℚ)) : ℝ)
        = ((axis_speed P (17265 / 100) (17335 / 100) : ℚ) : ℝ)
          * ((axis_speed P (17265 / 100) (17335 / 100) : ℚ) : ℝ) := by
      push_cast; ring
    rw [e, Real.sqrt_mul_self hv0] at hq
    have h1 := (abs_le.mp hq).1
    have h2 := (abs_le.mp hq).2
    have v1' : ((33913 / 10000 : ℚ) : ℝ)
        ≤ ((axis_speed P (17265 / 100) (17335 / 100) : ℚ) : ℝ) := by exact_mod_cast v1
    have v2' : ((axis_speed P (17265 / 100) (17335 / 100) : ℚ) : ℝ)
        ≤ ((33914 / 10000 : ℚ) : ℝ) := by exact_mod_cast v2
    push_cast at v1' v2'
    have w1 : ((338 / 100 : ℚ) : ℝ)
        ≤ ((wind_speed P.sqrtf (axis_speed P (17265 / 100) (17335 / 100)) 0 : ℚ) : ℝ) := by
      push_cast; linarith
    have w2 : ((wind_speed P.sqrtf (axis_speed P (17265 / 100) (17335 / 100)) 0 : ℚ) : ℝ)
        ≤ ((340 / 100 : ℚ) : ℝ) := by
      push_cast; linarith
    have w1' : 338 / 100 ≤ wind_speed P.sqrtf (axis_speed P (17265 / 100) (17335 / 100)) 0 := by
      exact_mod_cast w1
    have w2' : wind_speed P.sqrtf (axis_speed P (17265 / 100) (17335 / 100)) 0 ≤ 340 / 100 := by
      exact_mod_cast w2
    exact abs_le.mpr ⟨by linarith, by linarith⟩
  · rw [hard_check_iff, sound_speed_northerly P hh]
    rintro ⟨-, h⟩
    rw [div_le_iff₀ spos] at h
    linarith

theorem nominalSetup_northerly :
    axis_speed nominalSetup (northerlyTof NORTH) (northerlyTof SOUTH)
      = 562949953421312000000 / 165994679184915761433 ∧
    axis_speed nominalSetup (northerlyTof EAST) (northerlyTof WEST) = 0 ∧
    wind_speed nominalSetup.sqrtf (562949953421312000000 / 165994679184915761433) 0
      = 14224451 / 4194304 := by
  decide!

theorem nominalSetup_northerly_sqrt :
    |((wind_speed nominalSetup.sqrtf
            (axis_speed nominalSetup (northerlyTof NORTH) (northerlyTof SOUTH))
            (axis_speed nominalSetup (northerlyTof EAST) (northerlyTof WEST)) : ℚ) : ℝ)
        - Real.sqrt (((axis_speed nominalSetup (northerlyTof NORTH) (northerlyTof SOUTH)
              * axis_speed nominalSetup (northerlyTof NORTH) (northerlyTof SOUTH)
            + axis_speed nominalSetup (northerlyTof EAST) (northerlyTof WEST)
              * axis_speed nominalSetup (northerlyTof EAST) (northerlyTof WEST) : ℚ) : ℝ))|
      ≤ 1 / 10000 := by
  rw [nominalSetup_northerly.1, nominalSetup_northerly.2.1, nominalSetup_northerly.2.2]
  have e : (((562949953421312000000 / 165994679184915761433 : ℚ)
        * (562949953421312000000 / 165994679184915761433) + 0 * 0 : ℚ) : ℝ)
      = (562949953421312000000 / 165994679184915761433 : ℝ)
        * (562949953421312000000 / 165994679184915761433 : ℝ) := by
    push_cast; ring
  rw [e, Real.sqrt_mul_self (by norm_num), abs_le]
  push_cast
  constructor <;> norm_num

/-- C23 with its conditions, at `nominalSetup`: the North-South component is
within 0.01 of 3.39 and the wind speed of line 1095 as well. -/
theorem C23_witness :
    nominalSetup.height = 1 / 20 ∧
    |axis_speed nominalSetup (northerlyTof NORTH) (northerlyTof SOUTH) - 339 / 100| ≤ 1 / 100 ∧
    |wind_speed nominalSetup.sqrtf
        (axis_speed nominalSetup (northerlyTof NORTH) (northerlyTof SOUTH))
        (axis_speed nominalSetup (northerlyTof EAST) (northerlyTof WEST)) - 339 / 100|
      ≤ 1 / 100 :=
  ⟨rfl,
    (C23_northerly nominalSetup rfl nominalSetup_angle.1 nominalSetup_angle.2
      nominalSetup_northerly_sqrt).1,
    (C23_northerly nominalSetup rfl nominalSetup_angle.1 nominalSetup_angle.2
      nominalSetup_northerly_sqrt).2.2.1⟩

/-- C23 fails as stated. At `nominalSetup` with the times of flight 172.65,
173.35, 173.00 and 173.00 microseconds the North-South component is above 3.39,
more than 0.1 away from 2.0, and so is the wind speed of line 1095. -/
theorem C23_counterexample :
    339 / 100 < axis_speed nominalSetup (northerlyTof NORTH) (northerlyTof SOUTH) ∧
    axis_speed nominalSetup (northerlyTof EAST) (northerlyTof WEST) = 0 ∧
    339 / 100 < wind_speed nominalSetup.sqrtf
      (axis_speed nominalSetup (northerlyTof NORTH) (northerlyTof SOUTH))
      (axis_speed nominalSetup (northerlyTof EAST) (northerlyTof WEST)) := by
  decide!

theorem sqrt_diag :
    (9998 / 10000 : ℝ) ≤ Real.sqrt (999698 / 1000000) ∧
    Real.sqrt (999698 / 1000000) ≤ 9999 / 10000 :=
  sqrt_bracket _ _ _ (by norm_num) (by norm_num) (by norm_num) (by norm_num)

/-- C24, with the course the arithmetic gives. For every published sample whose
averaged components are `vNS = vEW = 0.707`, with `sqrtf` within `10^-4` of the
square root of `0.707² + 0.707² = 0.999698` and `atan2f(-0.707, -0.707)` within
`10^-6` of the angle `-3π/4` of the point: the published speed is 1.0 (within
0.001) and the published course is 45 degrees (within 0.001), not 225. -/
theorem C24_diagonal (P : Setup) (s : Loop) (ns_v ew_v c : ℚ)
    (hpub : s.oversampling_count + 1 ≥ P.oversampling)
    (hN : (s.ns_v_acc + ns_v) / ((s.oversampling_count + 1 : Int) : ℚ) = 707 / 1000)
    (hE : (s.ew_v_acc + ew_v) / ((s.oversampling_count + 1 : Int) : ℚ) = 707 / 1000)
    (hq : |((wind_speed P.sqrtf (707 / 1000) (707 / 1000) : ℚ) : ℝ)
        - Real.sqrt (999698 / 1000000)| ≤ 1 / 10000)
    (ha : |((P.atan2f (-(707 / 1000)) (-(707 / 1000)) : ℚ) : ℝ) - (-(3 * Real.pi / 4))|
        ≤ 1 / 1000000) :
    (data_output P s ns_v ew_v c).anemometer.speed = wind_speed P.sqrtf (707 / 1000) (707 / 1000) ∧
    |(data_output P s ns_v ew_v c).anemometer.speed - 1| ≤ 1 / 1000 ∧
    (data_output P s ns_v ew_v c).anemometer.course
      = course_deg (P.atan2f (-(707 / 1000)) (-(707 / 1000))) ∧
    |(data_output P s ns_v ew_v c).anemometer.course - 45| ≤ 1 / 1000 := by
  obtain ⟨p1, p2⟩ := data_output_publish P s ns_v ew_v c hpub
  rw [hN, hE] at p1 p2
  obtain ⟨r1, r2⟩ := sqrt_diag
  have h1 := (abs_le.mp hq).1
  have h2 := (abs_le.mp hq).2
  have w1 : ((9997 / 10000 : ℚ) : ℝ) ≤ ((wind_speed P.sqrtf (707 / 1000) (707 / 1000) : ℚ) : ℝ) := by
    push_cast; linarith
  have w2 : ((wind_speed P.sqrtf (707 / 1000) (707 / 1000) : ℚ) : ℝ) ≤ ((1 : ℚ) : ℝ) := by
    push_cast; linarith
  have w1' : 9997 / 10000 ≤ wind_speed P.sqrtf (707 / 1000) (707 / 1000) := by exact_mod_cast w1
  have w2' : wind_speed P.sqrtf (707 / 1000) (707 / 1000) ≤ 1 := by exact_mod_cast w2
  have hspeed : (data_output P s ns_v ew_v c).anemometer.speed
      = wind_speed P.sqrtf (707 / 1000) (707 / 1000) := p1
  rw [hspeed, if_pos (by linarith)] at p2
  have a1 := (abs_le.mp ha).1
  have a2 := (abs_le.mp ha).2
  have g1 := Real.pi_gt_d6
  have g2 := Real.pi_lt_d6
  have t1 : ((-(23561958 / 10000000) : ℚ) : ℝ)
      ≤ ((P.atan2f (-(707 / 1000)) (-(707 / 1000)) : ℚ) : ℝ) := by
    push_cast; linarith
  have t2 : ((P.atan2f (-(707 / 1000)) (-(707 / 1000)) : ℚ) : ℝ)
      ≤ ((-(2356193 / 1000000) : ℚ) : ℝ) := by
    push_cast; linarith
  have t1' : -(23561958 / 10000000) ≤ P.atan2f (-(707 / 1000)) (-(707 / 1000)) := by
    exact_mod_cast t1
  have t2' : P.atan2f (-(707 / 1000)) (-(707 / 1000)) ≤ -(2356193 / 1000000) := by
    exact_mod_cast t2
  refine ⟨hspeed, ?_, p2, ?_⟩
  · rw [hspeed, abs_le]
    constructor <;> linarith
  · rw [p2, abs_le]
    unfold course_deg
    constructor <;> linarith

theorem nominalSetup_diag :
    |((wind_speed nominalSetup.sqrtf (707 / 1000) (707 / 1000) : ℚ) : ℝ)
        - Real.sqrt (999698 / 1000000)| ≤ 1 / 10000 ∧
    |((nominalSetup.atan2f (-(707 / 1000)) (-(707 / 1000)) : ℚ) : ℝ) - (-(3 * Real.pi / 4))|
        ≤ 1 / 1000000 := by
  have e1 : wind_speed nominalSetup.sqrtf (707 / 1000) (707 / 1000) = 8387341 / 8388608 := by
    decide!
  have e2 : nominalSetup.atan2f (-(707 / 1000)) (-(707 / 1000)) = -(2470649 / 1048576) := by
    decide!
  obtain ⟨r1, r2⟩ := sqrt_diag
  have g1 := Real.pi_gt_d6
  have g2 := Real.pi_lt_d6
  rw [e1, e2, abs_le, abs_le]
  push_cast
  refine ⟨⟨?_, ?_⟩, ⟨?_, ?_⟩⟩ <;> linarith

/-- C24 with its conditions, at `nominalSetup` from the initial state with the
components `(0.707, 0.707)`: speed within 0.001 of 1 and course within 0.001 of
45 degrees. -/
theorem C24_witness :
    (loopInit.oversampling_count + 1 ≥ nominalSetup.oversampling) ∧
    |(data_output nominalSetup loopInit (707 / 1000) (707 / 1000) 343).anemometer.speed - 1|
      ≤ 1 / 1000 ∧
    |(data_output nominalSetup loopInit (707 / 1000) (707 / 1000) 343).anemometer.course - 45|
      ≤ 1 / 1000 :=
  ⟨by decide,
    (C24_diagonal nominalSetup loopInit (707 / 1000) (707 / 1000) 343 (by decide) (by decide!)
      (by decide!) nominalSetup_diag.1 nominalSetup_diag.2).2.1,
    (C24_diagonal nominalSetup loopInit (707 / 1000) (707 / 1000) 343 (by decide) (by decide!)
      (by decide!) nominalSetup_diag.1 nominalSetup_diag.2).2.2.2⟩

/-- C24 fails as stated. At `nominalSetup` from the initial state, for the
components `vNS = vEW = 0.707` the published speed is within 0.001 of 1 and the
published course is below 46 degrees, more than 1 degree away from 225:
`atan2f(-0.707, -0.707)` is `-3π/4`, and the arithmetic adds 180 degrees to
`-135`. -/
theorem C24_counterexample :
    9997 / 10000 < (data_output nominalSetup loopInit (707 / 1000) (707 / 1000)
      343).anemometer.speed ∧
    44 < (data_output nominalSetup loopInit (707 / 1000) (707 / 1000) 343).anemometer.course ∧
    (data_output nominalSetup loopInit (707 / 1000) (707 / 1000) 343).anemometer.course < 46 := by
  decide!

/-! ## Theorems on `calibration2` -/

theorem for_loop_set2 {α : Type} (g : Int → Int → α → α) (idx : Int) :
    ∀ (n : Nat) (j0 : Int) (a : Int → Int → α),
      for_loop (fun j a => set2 a idx j (g idx j (a idx j))) n j0 a
        = fun i j => if i = idx ∧ j0 ≤ j ∧ j < j0 + n then g idx j (a i j) else a i j := by
  intro n
  induction n with
  | zero =>
    intro j0 a
    funext i j
    rw [for_loop, if_neg (by push_cast; omega)]
  | succ n ih =>
    intro j0 a
    rw [for_loop, ih]
    funext i j
    unfold set2
    by_cases hi : i = idx
    · subst hi
      by_cases hj : j = j0
      · subst hj
        rw [if_neg (by omega), if_pos (by push_cast; omega)]
        simp [Function.update_same]
      · by_cases hr : j0 + 1 ≤ j ∧ j < j0 + 1 + n
        · rw [if_pos ⟨rfl, hr⟩, if_pos ⟨rfl, by omega, by push_cast; omega⟩]
          simp [Function.update_same, Function.update_noteq hj]
        · rw [if_neg (fun h => hr h.2), if_neg (fun h => hr ⟨by omega, by
            have := h.2.2; push_cast at this; omega⟩)]
          simp [Function.update_same, Function.update_noteq hj]
    · rw [if_neg (fun h => hi h.1), if_neg (fun h => hi h.1), Function.update_noteq hi]

theorem for_loop2_set2 {α : Type} (g : Int → Int → α → α) (m : Nat) :
    ∀ (n : Nat) (i0 : Int) (a : Int → Int → α),
      for_loop (fun idx a => for_loop (fun j a => set2 a idx j (g idx j (a idx j))) m 0 a) n i0 a
        = fun (i j : Int) =>
            if i0 ≤ i ∧ i < i0 + n ∧ 0 ≤ j ∧ j < (m : Int) then g i j (a i j) else a i j := by
  intro n
  induction n with
  | zero =>
    intro i0 a
    funext i j
    rw [for_loop, if_neg (by push_cast; omega)]
  | succ n ih =>
    intro i0 a
    rw [for_loop, ih, for_loop_set2]
    funext i j
    dsimp only
    by_cases hi : i = i0
    · subst hi
      rw [if_neg (by omega)]
      by_cases hj : 0 ≤ j ∧ j < (m : Int)
      · rw [if_pos ⟨rfl, hj.1, by omega⟩, if_pos ⟨le_refl _, by push_cast; omega, hj⟩]
      · rw [if_neg (fun h => hj ⟨h.2.1, by omega⟩), if_neg (fun h => hj h.2.2)]
    · by_cases hr : i0 + 1 ≤ i ∧ i < i0 + 1 + n ∧ 0 ≤ j ∧ j < (m : Int)
      · rw [if_pos hr, if_neg (fun h => hi h.1), if_pos ⟨by omega, by push_cast; omega, hr.2.2⟩]
      · rw [if_neg hr, if_neg (fun h => hi h.1), if_neg (fun h => hr ⟨by omega, by
          have := h.2.1; push_cast at this; omega, h.2.2⟩)]

theorem accumulate_zero_cross_apply (zero_cross : Int → Nat → ℚ) (a : Int → Int → ℚ)
    (idx j : Int) :
    accumulate_zero_cross zero_cross a idx j
      = if 0 ≤ idx ∧ idx < 4 ∧ 0 ≤ j ∧ j < 6 then a idx j + zero_cross idx j.toNat
        else a idx j := by
  have h := for_loop2_set2 (fun idx j x => x + zero_cross idx j.toNat) ZEROCROSS_LEN 4 0 a
  have e : accumulate_zero_cross zero_cross a
      = fun i j => if 0 ≤ i ∧ i < 0 + ((4 : Nat) : Int) ∧ 0 ≤ j ∧ j < ((ZEROCROSS_LEN : Nat) : Int)
          then a i j + zero_cross i j.toNat else a i j := h
  rw [e]
  rfl

theorem accumulate_shape_apply (peaks_zero : Int → Int → Peak) (a : Int → Int → Peak)
    (idx j : Int) :
    accumulate_shape peaks_zero a idx j
      = if 0 ≤ idx ∧ idx < 4 ∧ 0 ≤ j ∧ j < 17
        then ((a idx j).1 + (peaks_zero idx j).1, (a idx j).2 + (peaks_zero idx j).2)
        else a idx j := by
  have h := for_loop2_set2
    (fun idx j (x : Peak) => (x.1 + (peaks_zero idx j).1, x.2 + (peaks_zero idx j).2))
    PEAK_LEN.toNat 4 0 a
  have e : accumulate_shape peaks_zero a
      = fun i j => if 0 ≤ i ∧ i < 0 + ((4 : Nat) : Int) ∧ 0 ≤ j ∧ j < ((PEAK_LEN.toNat : Nat) : Int)
          then ((a i j).1 + (peaks_zero i j).1, (a i j).2 + (peaks_zero i j).2) else a i j := h
  rw [e]
  rfl

theorem divide_zero_cross_apply (count : Int) (a : Int → Int → ℚ) (idx j : Int) :
    divide_zero_cross count a idx j
      = if 0 ≤ idx ∧ idx < 4 ∧ 0 ≤ j ∧ j < 6 then a idx j / (count : ℚ) else a idx j := by
  have h := for_loop2_set2 (fun _ _ (x : ℚ) => x / (count : ℚ)) ZEROCROSS_LEN 4 0 a
  have e : divide_zero_cross count a
      = fun i j => if 0 ≤ i ∧ i < 0 + ((4 : Nat) : Int) ∧ 0 ≤ j ∧ j < ((ZEROCROSS_LEN : Nat) : Int)
          then a i j / (count : ℚ) else a i j := h
  rw [e]
  rfl

theorem divide_shape_apply (count : Int) (a : Int → Int → Peak) (idx j : Int) :
    divide_shape count a idx j
      = if 0 ≤ idx ∧ idx < 4 ∧ 0 ≤ j ∧ j < 17
        then ((a idx j).1 / (count : ℚ), (a idx j).2 / (count : ℚ)) else a idx j := by
  have h := for_loop2_set2 (fun _ _ (x : Peak) => (x.1 / (count : ℚ), x.2 / (count : ℚ)))
    PEAK_LEN.toNat 4 0 a
  have e : divide_shape count a
      = fun i j => if 0 ≤ i ∧ i < 0 + ((4 : Nat) : Int) ∧ 0 ≤ j ∧ j < ((PEAK_LEN.toNat : Nat) : Int)
          then ((a i j).1 / (count : ℚ), (a i j).2 / (count : ℚ)) else a i j := h
  rw [e]
  rfl

theorem calib_accepted_succ (T : Int → Int → ℚ) (F : Int → Int → Int → ℚ)
    (p : Int → Int → Int) (k : Nat) :
    calib_accepted T F p (k + 1)
      = calib_accepted T F p k ++ (if calib_accepted_at T F p k then [k] else []) := by
  unfold calib_accepted
  rw [List.range_succ, List.filter_append]
  congr 1
  by_cases h : calib_accepted_at T F p k = true
  · simp [h]
  · simp [h]

theorem calib_loop_spec (szc0 : Int → Int → ℚ) (es0 : Int → Int → Peak) (T : Int → Int → ℚ)
    (F : Int → Int → Int → ℚ) (p : Int → Int → Int) :
    ∀ (n k : Nat) (s : Calib), CalibInv szc0 es0 T F p k s →
      ∃ N : Nat, k ≤ N ∧ N ≤ k + n ∧
        CalibInv szc0 es0 T F p N (calib_loop F p (calib_template T).2 n s) ∧
        (∀ m : Nat, k ≤ m → m < N → (calib_accepted T F p m).length < 32) ∧
        (N < k + n → 32 ≤ (calib_accepted T F p N).length) := by
  intro n
  induction n with
  | zero =>
    intro k s hs
    exact ⟨k, le_refl _, le_refl _, hs, fun m h1 h2 => by omega, fun h => by omega⟩
  | succ n ih =>
    intro k s hs
    obtain ⟨h1, h2, h3, h4, h5⟩ := hs
    rw [calib_loop]
    by_cases hc : s.count < 32
    · rw [if_pos hc]
      dsimp only
      have hr1 : (calib_channels (F s.i) (p s.i) (calib_template T).2 s.peaks_zero).1
          = calib_peaks_before T F p (k + 1) := by
        rw [h1, h2]; rfl
      have hr2 : (calib_channels (F s.i) (p s.i) (calib_template T).2 s.peaks_zero).2
          = calib_zero_cross_at T F p k := by
        rw [h1, h2]; rfl
      have hlen : (calib_accepted T F p k).length < 32 := by
        rw [h3] at hc; exact_mod_cast hc
      rw [hr1, hr2]
      have hacc : calib_accept (calib_zero_cross_at T F p k) = calib_accepted_at T F p k := rfl
      rw [hacc]
      by_cases ha : calib_accepted_at T F p k = true
      · rw [if_pos ha]
        have hinv : CalibInv szc0 es0 T F p (k + 1)
            { static_zero_cross :=
                accumulate_zero_cross (calib_zero_cross_at T F p k) s.static_zero_cross
              echo_shape := accumulate_shape (calib_peaks_before T F p (k + 1)) s.echo_shape
              peaks_zero := calib_peaks_before T F p (k + 1)
              count := s.count + 1
              i := s.i + 1 } := by
          refine ⟨by dsimp only; rw [h1]; push_cast; rfl, rfl, ?_, ?_, ?_⟩
          · dsimp only
            rw [calib_accepted_succ, if_pos ha, List.length_append, h3]
            simp
          · intro idx j
            dsimp only
            rw [accumulate_zero_cross_apply, h4, calib_accepted_succ, if_pos ha]
            split_ifs
            · rw [List.map_append, List.sum_append]
              simp
            · rfl
          · intro idx j
            dsimp only
            rw [accumulate_shape_apply, h5, calib_accepted_succ, if_pos ha]
            split_ifs
            · rw [List.map_append, List.sum_append, List.map_append, List.sum_append]
              simp [calib_peaks_at]
            · rfl
        obtain ⟨N, n1, n2, n3, n4, n5⟩ := ih (k + 1) _ hinv
        refine ⟨N, by omega, by omega, n3, ?_, fun h => n5 (by omega)⟩
        intro m m1 m2
        by_cases hm : m = k
        · rw [hm]; exact hlen
        · exact n4 m (by omega) m2
      · rw [if_neg ha]
        have hinv : CalibInv szc0 es0 T F p (k + 1)
            { s with peaks_zero := calib_peaks_before T F p (k + 1), i := s.i + 1 } := by
          have hnil : calib_accepted T F p (k + 1) = calib_accepted T F p k := by
            rw [calib_accepted_succ, if_neg ha, List.append_nil]
          refine ⟨by dsimp only; rw [h1]; push_cast; rfl, rfl, ?_, ?_, ?_⟩
          · dsimp only; rw [hnil, h3]
          · intro idx j; dsimp only; rw [hnil, h4]
          · intro idx j; dsimp only; rw [hnil, h5]
        obtain ⟨N, n1, n2, n3, n4, n5⟩ := ih (k + 1) _ hinv
        refine ⟨N, by omega, by omega, n3, ?_, fun h => n5 (by omega)⟩
        intro m m1 m2
        by_cases hm : m = k
        · rw [hm]; exact hlen
        · exact n4 m (by omega) m2
    · rw [if_neg hc]
      refine ⟨k, le_refl _, by omega, ⟨h1, h2, h3, h4, h5⟩, fun m m1 m2 => by omega, fun _ => ?_⟩
      rw [h3] at hc
      have : ¬ ((calib_accepted T F p k).length < 32) := by
        intro h; exact hc (by exact_mod_cast h)
      omega

theorem calib_init_inv (szc0 : Int → Int → ℚ) (es0 : Int → Int → Peak) (T : Int → Int → ℚ)
    (F : Int → Int → Int → ℚ) (p : Int → Int → Int) :
    CalibInv szc0 es0 T F p 0
      { static_zero_cross := (calib_memset szc0 es0).1
        echo_shape := (calib_memset szc0 es0).2
        peaks_zero := (calib_template T).1
        count := 0
        i := 0 } := by
  refine ⟨rfl, rfl, rfl, ?_, ?_⟩
  · intro idx j
    rfl
  · intro idx j
    rfl

theorem calib_accepted_length_le (T : Int → Int → ℚ) (F : Int → Int → Int → ℚ)
    (p : Int → Int → Int) (k : Nat) :
    (calib_accepted T F p (k + 1)).length ≤ (calib_accepted T F p k).length + 1 := by
  rw [calib_accepted_succ, List.length_append]
  split_ifs <;> simp

/-- The run of `calibration2`: the number `N` of capture iterations, and the
invariant of the loop when it ends. -/
theorem calibration2_run (szc0 : Int → Int → ℚ) (es0 : Int → Int → Peak) (T : Int → Int → ℚ)
    (F : Int → Int → Int → ℚ) (p : Int → Int → Int) :
    ∃ N : Nat, N ≤ 256 ∧
      CalibInv szc0 es0 T F p N (calib_loop F p (calib_template T).2 256
        { static_zero_cross := (calib_memset szc0 es0).1
          echo_shape := (calib_memset szc0 es0).2
          peaks_zero := (calib_template T).1
          count := 0
          i := 0 }) ∧
      (∀ m : Nat, m < N → (calib_accepted T F p m).length < 32) ∧
      (N < 256 → (calib_accepted T F p N).length = 32) ∧
      (calib_accepted T F p N).length ≤ 32 := by
  obtain ⟨N, -, n2, n3, n4, n5⟩ := calib_loop_spec szc0 es0 T F p 256 0 _
    (calib_init_inv szc0 es0 T F p)
  have hle : (calib_accepted T F p N).length ≤ 32 := by
    cases N with
    | zero => simp [calib_accepted]
    | succ M =>
      have := n4 M (Nat.zero_le _) (Nat.lt_succ_self _)
      have := calib_accepted_length_le T F p M
      omega
  refine ⟨N, by omega, n3, fun m hm => n4 m (Nat.zero_le _) hm, fun h => ?_, hle⟩
  have := n5 (by omega)
  omega

/-- What `calibration2` returns and leaves in its two outputs, in terms of the
number `N` of capture iterations it ran. -/
theorem calibration2_spec (szc0 : Int → Int → ℚ) (es0 : Int → Int → Peak) (T : Int → Int → ℚ)
    (F : Int → Int → Int → ℚ) (p : Int → Int → Int) :
    ∃ N : Nat, N ≤ 256 ∧
      (calibration2 szc0 es0 T F p).i = (N : Int) ∧
      (∀ m : Nat, m < N → (calib_accepted T F p m).length < 32) ∧
      (N < 256 → (calib_accepted T F p N).length = 32) ∧
      (calibration2 szc0 es0 T F p).count = ((calib_accepted T F p N).length : Int) ∧
      (calibration2 szc0 es0 T F p).count ≤ 32 ∧
      (∀ idx j : Int, 0 ≤ idx → idx < 4 → 0 ≤ j → j < 6 →
        (calibration2 szc0 es0 T F p).static_zero_cross idx j
          = if (calibration2 szc0 es0 T F p).count = 0 then 0
            else ((calib_accepted T F p N).map
                (fun i => calib_zero_cross_at T F p i idx j.toNat)).sum
              / ((calibration2 szc0 es0 T F p).count : ℚ)) ∧
      (∀ idx j : Int, 0 ≤ idx → idx < 4 → 0 ≤ j → j < 17 →
        (calibration2 szc0 es0 T F p).echo_shape idx j
          = if (calibration2 szc0 es0 T F p).count = 0 then (0, 0)
            else (((calib_accepted T F p N).map
                  (fun i => (calib_peaks_at T F p i idx j).1)).sum
                / ((calibration2 szc0 es0 T F p).count : ℚ),
              ((calib_accepted T F p N).map
                  (fun i => (calib_peaks_at T F p i idx j).2)).sum
                / ((calibration2 szc0 es0 T F p).count : ℚ))) ∧
      (∀ idx j : Int, ¬ (0 ≤ idx ∧ idx < 4 ∧ 0 ≤ j ∧ j < 6) →
        (calibration2 szc0 es0 T F p).static_zero_cross idx j = szc0 idx j) ∧
      (∀ idx j : Int, ¬ (0 ≤ idx ∧ idx < 4 ∧ 0 ≤ j ∧ j < 17) →
        (calibration2 szc0 es0 T F p).echo_shape idx j = es0 idx j) := by
  obtain ⟨N, n1, ⟨i1, -, i3, i4, i5⟩, n3, n4, n5⟩ := calibration2_run szc0 es0 T F p
  refine ⟨N, n1, ?_, n3, n4, ?_, ?_, ?_, ?_, ?_, ?_⟩
  · unfold calibration2
    dsimp only
    split_ifs <;> exact i1
  · unfold calibration2
    dsimp only
    split_ifs <;> exact i3
  · have : (calibration2 szc0 es0 T F p).count = ((calib_accepted T F p N).length : Int) := by
      unfold calibration2
      dsimp only
      split_ifs <;> exact i3
    rw [this]
    exact_mod_cast n5
  · intro idx j h1 h2 h3 h4
    unfold calibration2
    dsimp only
    by_cases hc : (calib_loop F p (calib_template T).2 256
        { static_zero_cross := (calib_memset szc0 es0).1
          echo_shape := (calib_memset szc0 es0).2
          peaks_zero := (calib_template T).1
          count := 0
          i := 0 }).count = 0
    · rw [if_pos hc, if_pos hc, i4, if_pos ⟨h1, h2, h3, h4⟩]
      have hl : (calib_accepted T F p N).length = 0 := by
        rw [i3] at hc; exact_mod_cast hc
      rw [List.length_eq_zero.mp hl]
      rfl
    · rw [if_neg hc, if_neg hc]
      dsimp only
      rw [divide_zero_cross_apply, if_pos ⟨h1, h2, h3, h4⟩, i4, if_pos ⟨h1, h2, h3, h4⟩]
  · intro idx j h1 h2 h3 h4
    unfold calibration2
    dsimp only
    by_cases hc : (calib_loop F p (calib_template T).2 256
        { static_zero_cross := (calib_memset szc0 es0).1
          echo_shape := (calib_memset szc0 es0).2
          peaks_zero := (calib_template T).1
          count := 0
          i := 0 }).count = 0
    · rw [if_pos hc, if_pos hc, i5, if_pos ⟨h1, h2, h3, h4⟩]
      have hl : (calib_accepted T F p N).length = 0 := by
        rw [i3] at hc; exact_mod_cast hc
      rw [List.length_eq_zero.mp hl]
      rfl
    · rw [if_neg hc, if_neg hc]
      dsimp only
      rw [divide_shape_apply, if_pos ⟨h1, h2, h3, h4⟩, i5, if_pos ⟨h1, h2, h3, h4⟩]
  · intro idx j h
    unfold calibration2
    dsimp only
    split_ifs
    · rw [i4, if_neg h]
    · dsimp only
      rw [divide_zero_cross_apply, if_neg h, i4, if_neg h]
  · intro idx j h
    unfold calibration2
    dsimp only
    split_ifs
    · rw [i5, if_neg h]
    · dsimp only
      rw [divide_shape_apply, if_neg h, i5, if_neg h]

/-- C30. Calibration accumulation: for every content of the two output arrays
before the call and every sequence of conditioned frame sets, `calibration2`
runs `N ≤ 256` capture iterations (it stops before 256 only when 32 iterations
were accepted, and fewer than 32 were accepted before each iteration it runs),
returns the number of accepted iterations among them, which is at most 32; when
it returns 0 every entry of `static_zero_cross[4][ZEROCROSS_LEN]` is 0 and every
record of `echo_shape[4][PEAK_LEN]` is `(0, 0)`; otherwise each entry is the sum
over the accepted iterations of the zero crossing resp. of the components of the
peak record of that iteration, divided by the returned count. -/
theorem C30_calibration_accumulation (szc0 : Int → Int → ℚ) (es0 : Int → Int → Peak)
    (T : Int → Int → ℚ) (F : Int → Int → Int → ℚ) (p : Int → Int → Int) :
    ∃ N : Nat, N ≤ 256 ∧
      (calibration2 szc0 es0 T F p).i = (N : Int) ∧
      (∀ m : Nat, m < N → (calib_accepted T F p m).length < 32) ∧
      (N < 256 → (calib_accepted T F p N).length = 32) ∧
      (calibration2 szc0 es0 T F p).count = ((calib_accepted T F p N).length : Int) ∧
      (calibration2 szc0 es0 T F p).count ≤ 32 ∧
      ((calibration2 szc0 es0 T F p).count = 0 →
        ∀ idx j : Int, 0 ≤ idx → idx < 4 → 0 ≤ j →
          (j < 6 → (calibration2 szc0 es0 T F p).static_zero_cross idx j = 0) ∧
          (j < 17 → (calibration2 szc0 es0 T F p).echo_shape idx j = (0, 0))) ∧
      ((calibration2 szc0 es0 T F p).count ≠ 0 →
        ∀ idx j : Int, 0 ≤ idx → idx < 4 → 0 ≤ j →
          (j < 6 → (calibration2 szc0 es0 T F p).static_zero_cross idx j
            = ((calib_accepted T F p N).map
                (fun i => calib_zero_cross_at T F p i idx j.toNat)).sum
              / ((calibration2 szc0 es0 T F p).count : ℚ)) ∧
          (j < 17 → (calibration2 szc0 es0 T F p).echo_shape idx j
            = (((calib_accepted T F p N).map
                  (fun i => (calib_peaks_at T F p i idx j).1)).sum
                / ((calibration2 szc0 es0 T F p).count : ℚ),
              ((calib_accepted T F p N).map
                  (fun i => (calib_peaks_at T F p i idx j).2)).sum
                / ((calibration2 szc0 es0 T F p).count : ℚ)))) := by
  obtain ⟨N, n1, n2, n3, n4, n5, n6, n7, n8, -, -⟩ := calibration2_spec szc0 es0 T F p
  refine ⟨N, n1, n2, n3, n4, n5, n6, ?_, ?_⟩
  · intro hc idx j h1 h2 h3
    constructor
    · intro h4
      rw [n7 idx j h1 h2 h3 h4, if_pos hc]
    · intro h4
      rw [n8 idx j h1 h2 h3 h4, if_pos hc]
  · intro hc idx j h1 h2 h3
    constructor
    · intro h4
      rw [n7 idx j h1 h2 h3 h4, if_neg hc]
    · intro h4
      rw [n8 idx j h1 h2 h3 h4, if_neg hc]

/-! ## Theorems on uncalibrated operation -/

/-- Against a reference whose positions are all zero inside `[0, PEAK_LEN)`,
`mse[0]` is NaN. -/
theorem match_shape_absent_ref (R C : Int → Peak)
    (hR : ∀ j : Int, 0 ≤ j → j < 17 → (R j).1 = 0) :
    (match_shape R C PEAK_LEN (fun _ => none) MSE_RANGE).1 0 = none := by
  have h := match_shape_mse R C PEAK_LEN (fun _ => none) (-4) (by decide) (by decide)
  have e : (-4 : Int) + 4 = 0 := by decide
  rw [e] at h
  have e9 : MSE_RANGE = 9 := rfl
  rw [e9, h, match_shape_entry_none_iff]
  intro j j1 j2 hj
  have eL : PEAK_LEN = 17 := rfl
  rw [eL] at j2
  have j1' : (4 : Int) ≤ j := by
    have : (if -(-4 : Int) < 0 then (0 : Int) else -(-4)) = 4 := by decide
    rw [this] at j1; exact j1
  have j2' : j < 13 := by
    have : (if (17 : Int) + (-4) > 17 then (17 : Int) - (-4) else 17 + (-4)) = 13 := by decide
    rw [this] at j2; exact j2
  exact hj.1 (hR j (by omega) (by omega))

/-- With a reference whose positions are all absent, every sequence of cycles
leaves the published measurement and the history ring as they were, counts one
error for each cycle and keeps the smoothed MSEs NaN or non-negative. -/
theorem run_cycles_absent_ref (P : Setup)
    (href : ∀ idx j : Int, 0 ≤ idx → idx < 4 → 0 ≤ j → j < 17 → (P.ref_shape idx j).1 = 0)
    (frames : List ((Int → Int → ℚ) × ℚ)) :
    ∀ s : Loop, (∀ k, HistOK (s.mse_history k)) →
      (∀ k, HistOK ((run_cycles P s frames).mse_history k)) ∧
      (frames ≠ [] → (run_cycles P s frames).anemometer.err_code = ERR_MSE_NAN) ∧
      (run_cycles P s frames).anemometer.speed = s.anemometer.speed ∧
      (run_cycles P s frames).anemometer.course = s.anemometer.course ∧
      (run_cycles P s frames).anemometer.soundspeed = s.anemometer.soundspeed ∧
      (run_cycles P s frames).anemometer.speed30savg = s.anemometer.speed30savg ∧
      (run_cycles P s frames).anemometer.speed30smax = s.anemometer.speed30smax ∧
      (run_cycles P s frames).wind_hist = s.wind_hist := by
  induction frames using List.reverseRecOn with
  | nil =>
    intro s hh
    exact ⟨hh, fun h => absurd rfl h, rfl, rfl, rfl, rfl, rfl, rfl⟩
  | append_singleton l f ih =>
    intro s hh
    obtain ⟨a, -, b1, b2, b3, b4, b5, b6⟩ := ih s hh
    have e : run_cycles P s (l ++ [f]) = cycle P (run_cycles P s l) f.1 f.2 := by
      unfold run_cycles
      rw [List.foldl_append]
      rfl
    rw [e]
    obtain ⟨c1, -⟩ := cycle_nan_fault P (run_cycles P s l) f.1 f.2 0 a (by decide) (by decide)
      (match_shape_absent_ref _ _ (fun j j1 j2 => href 0 j (by decide) (by decide) j1 j2))
    have hne : (cycle P (run_cycles P s l) f.1 f.2).anemometer.err_code ≠ NORMAL := by
      rw [c1]; decide
    obtain ⟨d1, d2, d3, d4, d5, d6⟩ :=
      cycle_tail_fault_frame P _ _ _ _ f.2 hne
    refine ⟨cycle_mse_history_ok P _ f.1 f.2 a, fun _ => c1, ?_, ?_, ?_, ?_, ?_, ?_⟩
    · exact d1.trans b1
    · exact d2.trans b2
    · exact d3.trans b3
    · exact d4.trans b4
    · exact d5.trans b5
    · exact d6.trans b6

/-- C26. Uncalibrated operation: if `calibration2` returns 0 and the reference
shape of the controller is the array `echo_shape` it leaves, then every
reference record inside `[4][PEAK_LEN]` is `(0, 0)`, and after every sequence
of measurement cycles, whatever the frame sets, the next cycle ends with
`ERR_MSE_NAN` and one more counted error, and the published speed, course,
sound speed, 30 s average and 30 s maximum and the history ring are still what
they were before the first cycle. -/
theorem C26_uncalibrated (P : Setup) (s : Loop) (szc0 : Int → Int → ℚ) (es0 : Int → Int → Peak)
    (T : Int → Int → ℚ) (F : Int → Int → Int → ℚ) (p : Int → Int → Int)
    (frames : List ((Int → Int → ℚ) × ℚ)) (sigs : Int → Int → ℚ) (temperature : ℚ)
    (hcount : (calibration2 szc0 es0 T F p).count = 0)
    (href : ∀ idx j : Int, 0 ≤ idx → idx < 4 → 0 ≤ j → j < 17 →
      P.ref_shape idx j = (calibration2 szc0 es0 T F p).echo_shape idx j)
    (hh : ∀ k, HistOK (s.mse_history k)) :
    (∀ idx j : Int, 0 ≤ idx → idx < 4 → 0 ≤ j → j < 17 → P.ref_shape idx j = (0, 0)) ∧
    (cycle P (run_cycles P s frames) sigs temperature).anemometer.err_code = ERR_MSE_NAN ∧
    (cycle P (run_cycles P s frames) sigs temperature).err_count
      = ((run_cycles P s frames).err_count + 1) % 18446744073709551616 ∧
    (cycle P (run_cycles P s frames) sigs temperature).anemometer.speed = s.anemometer.speed ∧
    (cycle P (run_cycles P s frames) sigs temperature).anemometer.course
      = s.anemometer.course ∧
    (cycle P (run_cycles P s frames) sigs temperature).anemometer.soundspeed
      = s.anemometer.soundspeed ∧
    (cycle P (run_cycles P s frames) sigs temperature).anemometer.speed30savg
      = s.anemometer.speed30savg ∧
    (cycle P (run_cycles P s frames) sigs temperature).anemometer.speed30smax
      = s.anemometer.speed30smax ∧
    (cycle P (run_cycles P s frames) sigs temperature).wind_hist = s.wind_hist := by
  obtain ⟨N, -, -, -, -, -, -, -, n8, -, -⟩ := calibration2_spec szc0 es0 T F p
  have hzero : ∀ idx j : Int, 0 ≤ idx → idx < 4 → 0 ≤ j → j < 17 →
      P.ref_shape idx j = (0, 0) := by
    intro idx j h1 h2 h3 h4
    rw [href idx j h1 h2 h3 h4, n8 idx j h1 h2 h3 h4, if_pos hcount]
  have href0 : ∀ idx j : Int, 0 ≤ idx → idx < 4 → 0 ≤ j → j < 17 →
      (P.ref_shape idx j).1 = 0 := by
    intro idx j h1 h2 h3 h4
    rw [hzero idx j h1 h2 h3 h4]
  obtain ⟨a, -, b1, b2, b3, b4, b5, b6⟩ := run_cycles_absent_ref P href0 frames s hh
  obtain ⟨c1, c2⟩ := cycle_nan_fault P (run_cycles P s frames) sigs temperature 0 a
    (by decide) (by decide) (match_shape_absent_ref _ _ (fun j j1 j2 => href0 0 j (by decide) (by decide) j1 j2))
  have hne : (cycle P (run_cycles P s frames) sigs temperature).anemometer.err_code
      ≠ NORMAL := by
    rw [c1]; decide
  obtain ⟨d1, d2, d3, d4, d5, d6⟩ := cycle_tail_fault_frame P _ _ _ _ temperature hne
  exact ⟨hzero, c1, c2, d1.trans b1, d2.trans b2, d3.trans b3, d4.trans b4, d5.trans b5,
    d6.trans b6⟩

/-! ## A calibration that accepts no iteration -/

theorem find_next_turning_loop_const (c : ℚ) :
    ∀ (n : Nat) (i : Int), find_next_turning_loop (fun _ => c) n i 0 = 0 := by
  intro n
  induction n with
  | zero => intro i; rfl
  | succ n ih =>
    intro i
    rw [find_next_turning_loop]
    simp only [sub_self]
    rw [if_neg (by simp [IS_SIGN_DIFF])]
    exact ih (i + 1)

theorem find_next_turning_const (c : ℚ) (len : Int) :
    find_next_turning (fun _ => c) len = 0 := by
  unfold find_next_turning
  rw [sub_self]
  exact find_next_turning_loop_const c _ _

theorem find_prev_turning_loop_const (c : ℚ) :
    ∀ (n : Nat) (i : Int), find_prev_turning_loop (fun _ => c) n i 0 = 0 := by
  intro n
  induction n with
  | zero => intro i; rfl
  | succ n ih =>
    intro i
    rw [find_prev_turning_loop]
    simp only [sub_self]
    rw [if_neg (by simp [IS_SIGN_DIFF])]
    exact ih (i + 1)

theorem find_prev_turning_const (c : ℚ) (len : Int) :
    find_prev_turning (fun _ => c) len = 0 := by
  unfold find_prev_turning
  rw [sub_self]
  exact find_prev_turning_loop_const c _ _

theorem argmaxf_loop_const (c : ℚ) :
    ∀ (n i arg : Nat), argmaxf_loop (fun _ => c) n i c arg = arg := by
  intro n
  induction n with
  | zero => intro i arg; rfl
  | succ n ih =>
    intro i arg
    rw [argmaxf_loop, if_neg (lt_irrefl c)]
    exact ih (i + 1) arg

theorem argmaxf_const (c : ℚ) (len : Int) : argmaxf (fun _ => c) len = 0 := by
  unfold argmaxf
  rw [argmaxf_loop_const]
  rfl

theorem walk_right_const (c : ℚ) (sig_len M D : Int) (T : ℚ) (n : Nat) (s : Walk) :
    walk_right (fun _ => c) sig_len M D T n s = s := by
  cases n with
  | zero => rfl
  | succ n =>
    rw [walk_right]
    have : find_next_turning (shift (fun _ => c) s.sig_idx) (sig_len - s.sig_idx) = 0 :=
      find_next_turning_const c _
    simp only [this, if_true]

theorem walk_left_const (c : ℚ) (M D : Int) (T : ℚ) (n : Nat) (s : Walk) :
    walk_left (fun _ => c) M D T n s = s := by
  cases n with
  | zero => rfl
  | succ n =>
    rw [walk_left]
    have : find_prev_turning (shift (fun _ => c) s.sig_idx) s.sig_idx = 0 :=
      find_prev_turning_const c _
    simp only [this, if_true]
    split_ifs <;> rfl

theorem capture_peaks_silent (sig_len : Int) (peaks : Int → Peak) (L R : Int) (thr : ℚ) :
    (capture_peaks (fun _ => 0) sig_len peaks L R thr).1 = Function.update peaks L (0, 0) := by
  unfold capture_peaks capture_final capture_right capture_init
  simp only [walk_right_const, walk_left_const, argmaxf_const]
  simp

theorem capture_peaks_from_const (c : ℚ) (sig_len : Int) (peaks : Int → Peak) (thr : ℚ)
    (prev : Int) :
    (capture_peaks_from (fun _ => c) sig_len peaks PEAK_LEN thr prev).1 = peaks := by
  unfold capture_peaks_from
  have e : PEAK_LEN.toNat = 16 + 1 := by decide
  simp only [e]
  rw [capture_peaks_from_loop]
  have : find_next_turning (shift (fun _ => c) 0) (sig_len - 0) = 0 :=
    find_next_turning_const c _
  simp only [this, if_true]

theorem for_loop_update {α : Type} (g : Int → α → α) :
    ∀ (n : Nat) (j0 : Int) (a : Int → α),
      for_loop (fun j a => Function.update a j (g j (a j))) n j0 a
        = fun j => if j0 ≤ j ∧ j < j0 + n then g j (a j) else a j := by
  intro n
  induction n with
  | zero =>
    intro j0 a
    funext j
    rw [for_loop, if_neg (by push_cast; omega)]
  | succ n ih =>
    intro j0 a
    rw [for_loop, ih]
    funext j
    dsimp only
    by_cases hj : j = j0
    · subst hj
      rw [if_neg (by omega), if_pos ⟨le_refl _, by push_cast; omega⟩, Function.update_same]
    · rw [Function.update_noteq hj]
      by_cases hr : j0 + 1 ≤ j ∧ j < j0 + 1 + n
      · rw [if_pos hr, if_pos ⟨by omega, by push_cast; omega⟩]
      · rw [if_neg hr, if_neg (fun h => hr ⟨by omega, by
          have := h.2; push_cast at this; omega⟩)]

theorem zcLoop_done (sig : Nat → ℚ) (Z n i cross : Nat) (out : Nat → ℚ) (h : Z ≤ cross) :
    zcLoop sig Z n i cross out = (out, cross) := by
  cases n with
  | zero => rfl
  | succ n => rw [zcLoop, if_neg (by omega)]

theorem zcLoop_silent :
    ∀ (n i cross : Nat) (out : Nat → ℚ), cross ≤ 5 → 6 ≤ cross + n →
      (zcLoop (fun _ => 0) 6 n i cross out).1 5 = ((i + (5 - cross) : Nat) : ℚ) := by
  intro n
  induction n with
  | zero => intro i cross out h1 h2; omega
  | succ n ih =>
    intro i cross out h1 h2
    rw [zcLoop, if_pos (by omega), if_pos rfl]
    by_cases h5 : cross = 5
    · subst h5
      rw [zcLoop_done _ _ _ _ _ _ (le_refl _)]
      simp
    · rw [ih (i + 1) (cross + 1) _ (by omega) (by omega)]
      congr 1
      omega

theorem zcLoop_const_one (Z : Nat) :
    ∀ (n i cross : Nat) (out : Nat → ℚ), (zcLoop (fun _ => 1) Z n i cross out).1 = out := by
  intro n
  induction n with
  | zero => intro i cross out; rfl
  | succ n ih =>
    intro i cross out
    rw [zcLoop]
    have h3 : IS_SIGN_DIFF_NO_ZERO (1 : ℚ) 1 = false := by decide!
    rw [h3]
    by_cases h1 : cross < Z
    · rw [if_pos h1, if_neg one_ne_zero, if_neg (by simp)]
      exact ih _ _ _
    · rw [if_neg h1]

theorem update_const_self {α : Type} (v : α) (a : Int) :
    Function.update (fun _ : Int => v) a v = fun _ => v := by
  funext x
  by_cases h : x = a
  · rw [h, Function.update_same]
  · rw [Function.update_noteq h]

theorem calib_template_silent : calib_template silentTemplate = (fun _ _ => (0, 0), -8) := by
  have step : ∀ idx : Int,
      template_step silentTemplate idx (fun _ _ => (0, 0), fun _ => 0)
        = (fun _ _ => (0, 0), fun _ => 0) := by
    intro idx
    unfold template_step
    have e : shift (silentTemplate idx) DEADZONE_OFFSET = fun _ => 0 := rfl
    simp only [e, capture_peaks_silent, update_const_self]
    simp only [sub_self, add_zero, update_const_self]
  have hst : for_loop (template_step silentTemplate) 4 0 (fun _ _ => (0, 0), fun _ => 0)
      = (fun _ _ => (0, 0), fun _ => 0) := by
    simp only [for_loop, step]
  unfold calib_template
  simp only [hst, argmaxf_const]
  have : truncToInt ((0 : ℚ) - 8) = -8 := by decide!
  rw [this]

/-- The rows that one channel of a capture iteration leaves when its buffer is
constant: no peak is written, every recorded position is shifted by
`DEADZONE_OFFSET + start_idx`. -/
theorem calib_channel_const_peaks (c : ℚ) (prev start : Int) (peaks : Int → Peak)
    (z : Nat → ℚ) :
    (calib_channel (fun _ => c) prev start peaks z).1
      = fun j => if 0 ≤ j ∧ j < 17
          then ((peaks j).1 + ((DEADZONE_OFFSET + start : Int) : ℚ), (peaks j).2) else peaks j := by
  unfold calib_channel
  have e : shift (fun _ : Int => c) (DEADZONE_OFFSET + start) = fun _ => c := rfl
  simp only [e, capture_peaks_from_const]
  rw [for_loop_update (fun j (x : Peak) => (x.1 + ((DEADZONE_OFFSET + start : Int) : ℚ), x.2))]
  rfl

/-- Each channel of a capture iteration works on its own rows. -/
theorem calib_channels_rows (sigs : Int → Int → ℚ) (prev : Int → Int) (start : Int)
    (pz : Int → Int → Peak) :
    (∀ idx : Int, 0 ≤ idx → idx < 4 →
      (calib_channels sigs prev start pz).1 idx
        = (calib_channel (sigs idx) (prev idx) start (pz idx) (fun _ => 0)).1 ∧
      (calib_channels sigs prev start pz).2 idx
        = (calib_channel (sigs idx) (prev idx) start (pz idx) (fun _ => 0)).2) ∧
    (∀ idx : Int, ¬ (0 ≤ idx ∧ idx < 4) → (calib_channels sigs prev start pz).1 idx = pz idx) := by
  unfold calib_channels
  simp only [for_loop, calib_channel_step]
  constructor
  · intro idx h0 h4
    interval_cases idx <;> simp [Function.update]
  · intro idx h
    have h0 : idx ≠ 0 := by omega
    have h1 : idx ≠ 1 := by omega
    have h2 : idx ≠ 2 := by omega
    have h3 : idx ≠ 3 := by omega
    simp [Function.update, h0, h1, h2, h3]

theorem calib_channel_zc (sig : Int → ℚ) (prev start : Int) (peaks : Int → Peak)
    (z : Nat → ℚ) :
    (calib_channel sig prev start peaks z).2
      = add_offset_loop
          ((truncToInt ((calib_channel sig prev start peaks z).1 PEAK_ZC).1 : Int) : ℚ)
          ZEROCROSS_LEN 0
          (linear_interpolation_zerocrossing
            (fun n => sig (truncToInt ((calib_channel sig prev start peaks z).1 PEAK_ZC).1
              + (n : Int)))
            (toU32 (ADC_SAMPLE_LEN
              - truncToInt ((calib_channel sig prev start peaks z).1 PEAK_ZC).1))
            z ZEROCROSS_LEN).1 :=
  rfl

theorem calib_channel_const_off (c : ℚ) (prev start : Int) (peaks : Int → Peak) (z : Nat → ℚ)
    (m : Int) (hm : (peaks 5).1 + ((DEADZONE_OFFSET + start : Int) : ℚ) = ((m : Int) : ℚ)) :
    truncToInt ((calib_channel (fun _ => c) prev start peaks z).1 PEAK_ZC).1 = m := by
  rw [calib_channel_const_peaks]
  have e : PEAK_ZC = 5 := rfl
  simp only [e]
  rw [if_pos (by decide)]
  dsimp only
  rw [hm, truncToInt_intCast]

/-- A silent channel: the sixth zero crossing is 5 samples after the anchor. -/
theorem calib_channel_silent_zc (prev start : Int) (peaks : Int → Peak) (m : Int)
    (hm : (peaks 5).1 + ((DEADZONE_OFFSET + start : Int) : ℚ) = ((m : Int) : ℚ))
    (hn : 6 ≤ toU32 (((toU32 (ADC_SAMPLE_LEN - m) : Nat) : Int) - 1)) :
    (calib_channel (fun _ => 0) prev start peaks (fun _ => 0)).2 5 = 5 + (m : ℚ) := by
  rw [calib_channel_zc, calib_channel_const_off 0 prev start peaks _ m hm, add_offset_loop_spec,
    if_pos (by decide)]
  congr 1
  unfold linear_interpolation_zerocrossing
  dsimp only
  have e : ZEROCROSS_LEN = 6 := rfl
  rw [e, zcLoop_silent _ 0 0 _ (by decide) (by omega)]
  norm_num

/-- A channel at the constant 1: no zero crossing, the entries hold the anchor. -/
theorem calib_channel_one_zc (prev start : Int) (peaks : Int → Peak) (m : Int)
    (hm : (peaks 5).1 + ((DEADZONE_OFFSET + start : Int) : ℚ) = ((m : Int) : ℚ)) :
    (calib_channel (fun _ => 1) prev start peaks (fun _ => 0)).2 5 = 0 + (m : ℚ) := by
  rw [calib_channel_zc, calib_channel_const_off 1 prev start peaks _ m hm, add_offset_loop_spec,
    if_pos (by decide)]
  congr 1
  unfold linear_interpolation_zerocrossing
  dsimp only
  rw [zcLoop_const_one]

/-- With frame sets that are constant on every channel, after the silent
template: no peak is ever written, and each capture iteration shifts every
recorded position by `DEADZONE_OFFSET + start_idx = 329`. -/
theorem const_peaks_before (F : Int → Int → Int → ℚ)
    (hF : ∀ i ch : Int, ∃ c : ℚ, F i ch = fun _ => c) :
    ∀ i : Nat, calib_peaks_before silentTemplate F prevZero i
      = fun idx j => if 0 ≤ idx ∧ idx < 4 ∧ 0 ≤ j ∧ j < 17 then (329 * (i : ℚ), 0) else (0, 0) := by
  intro i
  induction i with
  | zero =>
    rw [calib_peaks_before, calib_template_silent]
    funext idx j
    split_ifs <;> simp
  | succ i ih =>
    rw [calib_peaks_before, ih, calib_template_silent]
    obtain ⟨r1, r2⟩ := calib_channels_rows (F (i : Int)) (prevZero (i : Int)) (-8)
      (fun idx j => if 0 ≤ idx ∧ idx < 4 ∧ 0 ≤ j ∧ j < 17 then (329 * (i : ℚ), 0) else (0, 0))
    funext idx j
    by_cases hidx : 0 ≤ idx ∧ idx < 4
    · rw [(r1 idx hidx.1 hidx.2).1]
      obtain ⟨c, hs⟩ := hF (i : Int) idx
      rw [hs, calib_channel_const_peaks]
      have eK : ((DEADZONE_OFFSET + (-8) : Int) : ℚ) = 329 := by decide!
      rw [eK]
      dsimp only
      by_cases hj : 0 ≤ j ∧ j < 17
      · rw [if_pos hj, if_pos ⟨hidx.1, hidx.2, hj.1, hj.2⟩, if_pos ⟨hidx.1, hidx.2, hj.1, hj.2⟩]
        push_cast
        ext
        · simp; ring
        · rfl
      · rw [if_neg hj, if_neg (fun h => hj ⟨h.2.2.1, h.2.2.2⟩),
          if_neg (fun h => hj ⟨h.2.2.1, h.2.2.2⟩)]
    · rw [r2 idx hidx]
      dsimp only
      rw [if_neg (fun h => hidx ⟨h.1, h.2.1⟩), if_neg (fun h => hidx ⟨h.1, h.2.1⟩)]

theorem splitFrames_const (i ch : Int) : ∃ c : ℚ, splitFrames i ch = fun _ => c :=
  ⟨if ch = NORTH then 0 else 1, rfl⟩

theorem silentFrames_const (i ch : Int) : ∃ c : ℚ, silentFrames i ch = fun _ => c :=
  ⟨0, rfl⟩

theorem split_scan_length (i : Nat) (hi : i < 256) :
    6 ≤ toU32 (((toU32 (ADC_SAMPLE_LEN - (329 * ((i : Int) + 1))) : Nat) : Int) - 1) := by
  unfold toU32 ADC_SAMPLE_LEN
  by_cases h3 : i < 3
  · interval_cases i <;> decide
  · have e : (1000 - 329 * ((i : Int) + 1)) % 4294967296
        = 1000 - 329 * ((i : Int) + 1) + 4294967296 := by omega
    rw [e]
    have e2 : (((1000 - 329 * ((i : Int) + 1) + 4294967296).toNat : Nat) : Int)
        = 1000 - 329 * ((i : Int) + 1) + 4294967296 := by omega
    rw [e2]
    have e3 : (1000 - 329 * ((i : Int) + 1) + 4294967296 - 1) % 4294967296
        = 1000 - 329 * ((i : Int) + 1) + 4294967296 - 1 := by omega
    rw [e3]
    omega

/-- With the frame sets `splitFrames` after the silent template, none of the
first 256 capture iterations passes the acceptance test: the sixth crossing of
North is 5 samples after that of South. -/
theorem split_rejected (i : Nat) (hi : i < 256) :
    calib_accepted_at silentTemplate splitFrames prevZero i = false := by
  unfold calib_accepted_at calib_zero_cross_at
  rw [const_peaks_before splitFrames splitFrames_const, calib_template_silent]
  obtain ⟨r1, -⟩ := calib_channels_rows (splitFrames (i : Int)) (prevZero (i : Int)) (-8)
    (fun idx j => if 0 ≤ idx ∧ idx < 4 ∧ 0 ≤ j ∧ j < 17 then (329 * (i : ℚ), 0) else (0, 0))
  have hm : ∀ idx : Int, 0 ≤ idx → idx < 4 →
      ((fun j : Int => if 0 ≤ idx ∧ idx < 4 ∧ 0 ≤ j ∧ j < 17 then ((329 * (i : ℚ), 0) : Peak)
          else (0, 0)) 5).1 + ((DEADZONE_OFFSET + (-8) : Int) : ℚ)
        = (((329 * ((i : Int) + 1) : Int)) : ℚ) := by
    intro idx h0 h4
    dsimp only
    rw [if_pos ⟨h0, h4, by decide, by decide⟩]
    have eK : ((DEADZONE_OFFSET + (-8) : Int) : ℚ) = 329 := by decide!
    rw [eK]
    push_cast
    ring
  have hN : (calib_channels (splitFrames (i : Int)) (prevZero (i : Int)) (-8)
      (fun idx j => if 0 ≤ idx ∧ idx < 4 ∧ 0 ≤ j ∧ j < 17 then (329 * (i : ℚ), 0) else (0, 0))).2
        NORTH PEAK_ZC.toNat = 5 + (((329 * ((i : Int) + 1) : Int)) : ℚ) := by
    rw [(r1 NORTH (by decide) (by decide)).2]
    exact calib_channel_silent_zc _ _ _ _ (hm NORTH (by decide) (by decide))
      (split_scan_length i hi)
  have hS : (calib_channels (splitFrames (i : Int)) (prevZero (i : Int)) (-8)
      (fun idx j => if 0 ≤ idx ∧ idx < 4 ∧ 0 ≤ j ∧ j < 17 then (329 * (i : ℚ), 0) else (0, 0))).2
        SOUTH PEAK_ZC.toNat = 0 + (((329 * ((i : Int) + 1) : Int)) : ℚ) := by
    rw [(r1 SOUTH (by decide) (by decide)).2]
    exact calib_channel_one_zc _ _ _ _ (hm SOUTH (by decide) (by decide))
  unfold calib_accept
  rw [hN, hS]
  have : ¬ (|(5 + (((329 * ((i : Int) + 1) : Int)) : ℚ)) - (0 + (((329 * ((i : Int) + 1) : Int)) : ℚ))| < 2) := by
    have e : (5 + (((329 * ((i : Int) + 1) : Int)) : ℚ)) - (0 + (((329 * ((i : Int) + 1) : Int)) : ℚ))
        = 5 := by ring
    rw [e]
    norm_num
  rw [decide_eq_false this]
  rfl

/-- The calibration on `splitFrames` returns 0. -/
theorem calibration2_split_count (szc0 : Int → Int → ℚ) (es0 : Int → Int → Peak) :
    (calibration2 szc0 es0 silentTemplate splitFrames prevZero).count = 0 := by
  obtain ⟨N, n1, -, -, -, n5, -⟩ := calibration2_spec szc0 es0 silentTemplate splitFrames
    prevZero
  rw [n5]
  have : calib_accepted silentTemplate splitFrames prevZero N = [] := by
    unfold calib_accepted
    rw [List.filter_eq_nil_iff]
    intro a ha
    rw [split_rejected a (by have := List.mem_range.mp ha; omega)]
    simp
  rw [this]
  rfl

/-- The anchor position of every channel in capture iteration `i` on constant
frame sets. -/
theorem const_anchor (i : Nat) (idx : Int) (h0 : 0 ≤ idx) (h4 : idx < 4) :
    ((fun j : Int => if 0 ≤ idx ∧ idx < 4 ∧ 0 ≤ j ∧ j < 17 then ((329 * (i : ℚ), 0) : Peak)
        else (0, 0)) 5).1 + ((DEADZONE_OFFSET + (-8) : Int) : ℚ)
      = (((329 * ((i : Int) + 1) : Int)) : ℚ) := by
  dsimp only
  rw [if_pos ⟨h0, h4, by decide, by decide⟩]
  have eK : ((DEADZONE_OFFSET + (-8) : Int) : ℚ) = 329 := by decide!
  rw [eK]
  push_cast
  ring

/-- With four silent channels every one of the first 256 capture iterations
passes the acceptance test. -/
theorem silent_accepted (i : Nat) (hi : i < 256) :
    calib_accepted_at silentTemplate silentFrames prevZero i = true := by
  unfold calib_accepted_at calib_zero_cross_at
  rw [const_peaks_before silentFrames silentFrames_const, calib_template_silent]
  obtain ⟨r1, -⟩ := calib_channels_rows (silentFrames (i : Int)) (prevZero (i : Int)) (-8)
    (fun idx j => if 0 ≤ idx ∧ idx < 4 ∧ 0 ≤ j ∧ j < 17 then (329 * (i : ℚ), 0) else (0, 0))
  have hz : ∀ idx : Int, 0 ≤ idx → idx < 4 →
      (calib_channels (silentFrames (i : Int)) (prevZero (i : Int)) (-8)
        (fun idx j => if 0 ≤ idx ∧ idx < 4 ∧ 0 ≤ j ∧ j < 17 then (329 * (i : ℚ), 0)
          else (0, 0))).2 idx PEAK_ZC.toNat = 5 + (((329 * ((i : Int) + 1) : Int)) : ℚ) := by
    intro idx h0 h4
    rw [(r1 idx h0 h4).2]
    exact calib_channel_silent_zc _ _ _ _ (const_anchor i idx h0 h4) (split_scan_length i hi)
  unfold calib_accept
  rw [hz NORTH (by decide) (by decide), hz SOUTH (by decide) (by decide),
    hz EAST (by decide) (by decide), hz WEST (by decide) (by decide), sub_self, abs_zero]
  decide

theorem silent_accepted_range (n : Nat) (hn : n ≤ 256) :
    calib_accepted silentTemplate silentFrames prevZero n = List.range n := by
  unfold calib_accepted
  rw [List.filter_eq_self]
  intro a ha
  exact silent_accepted a (by have := List.mem_range.mp ha; omega)

theorem calibration2_split_shape (szc0 : Int → Int → ℚ) (es0 : Int → Int → Peak)
    (idx j : Int) (h1 : 0 ≤ idx) (h2 : idx < 4) (h3 : 0 ≤ j) (h4 : j < 17) :
    (calibration2 szc0 es0 silentTemplate splitFrames prevZero).echo_shape idx j = (0, 0) := by
  obtain ⟨N, -, -, -, -, -, -, -, n8, -, -⟩ := calibration2_spec szc0 es0 silentTemplate
    splitFrames prevZero
  rw [n8 idx j h1 h2 h3 h4, if_pos (calibration2_split_count szc0 es0)]

/-- C26 with its conditions: the calibration on the frame sets `splitFrames`
(North silent, the other channels constant) returns 0, the setup `uncalSetup`
has the reference shape it leaves, and after one cycle on the buffer `flatSig`
the next cycle ends with `ERR_MSE_NAN`, the published sound speed unchanged. -/
theorem C26_witness :
    (calibration2 (fun _ _ => 0) (fun _ _ => (0, 0)) silentTemplate splitFrames prevZero).count
      = 0 ∧
    (cycle uncalSetup (run_cycles uncalSetup loopInit [(fun _ => flatSig, 1585 / 100)])
      (fun _ => flatSig) (1585 / 100)).anemometer.err_code = ERR_MSE_NAN ∧
    (cycle uncalSetup (run_cycles uncalSetup loopInit [(fun _ => flatSig, 1585 / 100)])
      (fun _ => flatSig) (1585 / 100)).anemometer.soundspeed = loopInit.anemometer.soundspeed :=
  ⟨calibration2_split_count _ _,
    (C26_uncalibrated uncalSetup loopInit (fun _ _ => 0) (fun _ _ => (0, 0)) silentTemplate
      splitFrames prevZero [(fun _ => flatSig, 1585 / 100)] (fun _ => flatSig) (1585 / 100)
      (calibration2_split_count _ _)
      (fun idx j h1 h2 h3 h4 => (calibration2_split_shape _ _ idx j h1 h2 h3 h4).symm)
      (fun _ => Or.inr ⟨0, le_refl _, rfl⟩)).2.1,
    (C26_uncalibrated uncalSetup loopInit (fun _ _ => 0) (fun _ _ => (0, 0)) silentTemplate
      splitFrames prevZero [(fun _ => flatSig, 1585 / 100)] (fun _ => flatSig) (1585 / 100)
      (calibration2_split_count _ _)
      (fun idx j h1 h2 h3 h4 => (calibration2_split_shape _ _ idx j h1 h2 h3 h4).symm)
      (fun _ => Or.inr ⟨0, le_refl _, rfl⟩)).2.2.2.2.2.1⟩

/-- C30 at two runs. On the frame sets `silentFrames` (every channel silent, so
that every iteration is accepted) the capture loop stops after 32 iterations,
`calibration2` returns 32, and the record `echo_shape[0][5]` is the mean
`(329 + 2*329 + ... + 32*329)/32 = 5428.5` of the 32 recorded positions, with
amplitude 0. -/
theorem C30_witness :
    (calibration2 (fun _ _ => 0) (fun _ _ => (0, 0)) silentTemplate silentFrames prevZero).i
      = 32 ∧
    (calibration2 (fun _ _ => 0) (fun _ _ => (0, 0)) silentTemplate silentFrames prevZero).count
      = 32 ∧
    (calibration2 (fun _ _ => 0) (fun _ _ => (0, 0)) silentTemplate silentFrames
      prevZero).echo_shape 0 5 = (10857 / 2, 0) := by
  obtain ⟨N, n1, n2, n3, n4, n5, -, -, n8⟩ := C30_calibration_accumulation (fun _ _ => 0)
    (fun _ _ => (0, 0)) silentTemplate silentFrames prevZero
  have hN : N = 32 := by
    have hle : N ≤ 32 := by
      by_contra hgt
      have := n3 32 (by omega)
      rw [silent_accepted_range 32 (by omega), List.length_range] at this
      omega
    have := n4 (by omega)
    rw [silent_accepted_range N n1, List.length_range] at this
    exact this
  subst hN
  rw [silent_accepted_range 32 (by omega)] at n5 n8
  have hc : (calibration2 (fun _ _ => 0) (fun _ _ => (0, 0)) silentTemplate silentFrames
      prevZero).count = 32 := by
    rw [n5]; rfl
  refine ⟨n2, hc, ?_⟩
  rw [(n8 (by rw [hc]; decide) 0 5 (by decide) (by decide) (by decide)).2 (by decide), hc]
  have e1 : (fun i : Nat => (calib_peaks_at silentTemplate silentFrames prevZero i 0 5).1)
      = fun i : Nat => 329 * (((i + 1 : Nat)) : ℚ) := by
    funext i
    unfold calib_peaks_at
    rw [const_peaks_before silentFrames silentFrames_const]
    simp
  have e2 : (fun i : Nat => (calib_peaks_at silentTemplate silentFrames prevZero i 0 5).2)
      = fun _ : Nat => (0 : ℚ) := by
    funext i
    unfold calib_peaks_at
    rw [const_peaks_before silentFrames silentFrames_const]
    simp
  rw [e1, e2]
  decide!

/-! ## Theorems on the accesses of `match_shape` -/

/-- The inner loop with its accesses computes what `match_shape_inner` computes;
from index `i` with `n` iterations left it reads `peaks1` in `[i, i+n)` and
`peaks2` in `[i, i+n)` and `[i+off, i+n+off)`. -/
theorem match_shape_inner_log_spec (R C : Int → Peak) (off : Int) :
    ∀ (n : Nat) (i : Int) (sum count : ℚ),
      (match_shape_inner_log R C off n i sum count).1 = match_shape_inner R C off n i sum count ∧
      (∀ k ∈ (match_shape_inner_log R C off n i sum count).2.reads1, i ≤ k ∧ k < i + n) ∧
      (∀ k ∈ (match_shape_inner_log R C off n i sum count).2.reads2,
        (i ≤ k ∧ k < i + n) ∨ (i + off ≤ k ∧ k < i + n + off)) ∧
      (match_shape_inner_log R C off n i sum count).2.writes = [] := by
  intro n
  induction n with
  | zero =>
    intro i sum count
    exact ⟨rfl, fun k hk => by simp [match_shape_inner_log] at hk,
      fun k hk => by simp [match_shape_inner_log] at hk, rfl⟩
  | succ n ih =>
    intro i sum count
    rw [match_shape_inner_log, match_shape_inner]
    by_cases h1 : (R i).1 ≠ 0
    · by_cases h2 : (C i).1 ≠ 0
      · rw [if_pos h1, if_pos h2, if_pos ⟨h1, h2⟩]
        obtain ⟨a, b, c, d⟩ := ih (i + 1) (sum + ((R i).2 - (C (i + off)).2)
          * ((R i).2 - (C (i + off)).2)) (count + 1)
        refine ⟨a, ?_, ?_, d⟩
        · intro k hk
          simp only [List.mem_cons] at hk
          rcases hk with hk | hk | hk
          · push_cast; omega
          · push_cast; omega
          · have := b k hk; push_cast; omega
        · intro k hk
          simp only [List.mem_cons] at hk
          rcases hk with hk | hk | hk
          · left; push_cast; omega
          · right; push_cast; omega
          · rcases c k hk with h | h
            · left; push_cast; omega
            · right; push_cast; omega
      · rw [if_pos h1, if_neg h2, if_neg (fun h => h2 h.2)]
        obtain ⟨a, b, c, d⟩ := ih (i + 1) sum count
        refine ⟨a, ?_, ?_, d⟩
        · intro k hk
          simp only [List.mem_cons] at hk
          rcases hk with hk | hk
          · push_cast; omega
          · have := b k hk; push_cast; omega
        · intro k hk
          simp only [List.mem_cons] at hk
          rcases hk with hk | hk
          · left; push_cast; omega
          · rcases c k hk with h | h
            · left; push_cast; omega
            · right; push_cast; omega
    · rw [if_neg h1, if_neg (fun h => h1 h.1)]
      obtain ⟨a, b, c, d⟩ := ih (i + 1) sum count
      refine ⟨a, ?_, ?_, d⟩
      · intro k hk
        simp only [List.mem_cons] at hk
        rcases hk with hk | hk
        · push_cast; omega
        · have := b k hk; push_cast; omega
      · intro k hk
        rcases c k hk with h | h
        · left; push_cast; omega
        · right; push_cast; omega

/-- One offset of `match_shape` with its accesses: the value is that of
`match_shape_entry`, every index read lies in `[0, len)`, nothing is written. -/
theorem match_shape_entry_log_spec (R C : Int → Peak) (len off : Int) :
    (match_shape_entry_log R C len off).1 = match_shape_entry R C len off ∧
    (∀ k ∈ (match_shape_entry_log R C len off).2.reads1, 0 ≤ k ∧ k < len) ∧
    (∀ k ∈ (match_shape_entry_log R C len off).2.reads2, 0 ≤ k ∧ k < len) ∧
    (match_shape_entry_log R C len off).2.writes = [] := by
  unfold match_shape_entry_log match_shape_entry
  dsimp only
  obtain ⟨a, b, c, d⟩ := match_shape_inner_log_spec R C off
    ((if len + off > len then len - off else len + off)
      - (if -off < 0 then 0 else -off)).toNat
    (if -off < 0 then 0 else -off) 0 0
  refine ⟨by rw [a], ?_, ?_, d⟩
  · intro k hk
    have := b k hk
    split_ifs at this <;> omega
  · intro k hk
    have := c k hk
    split_ifs at this <;> omega

/-- The outer loop with its accesses: the array is that of `match_shape_outer`,
every index read lies in `[0, len)`, and the `n` iterations from `off` write
`mse[off + S/2]`, `mse[off + S/2 + 1]`, ... in this order. -/
theorem match_shape_outer_log_spec (R C : Int → Peak) (len S : Int) :
    ∀ (n : Nat) (off : Int) (mse : Int → Option ℚ),
      (match_shape_outer_log R C len S n off mse).1 = match_shape_outer R C len S n off mse ∧
      (∀ k ∈ (match_shape_outer_log R C len S n off mse).2.reads1, 0 ≤ k ∧ k < len) ∧
      (∀ k ∈ (match_shape_outer_log R C len S n off mse).2.reads2, 0 ≤ k ∧ k < len) ∧
      (match_shape_outer_log R C len S n off mse).2.writes
        = (List.range n).map (fun t : Nat => off + Int.tdiv S 2 + (t : Int)) := by
  intro n
  induction n with
  | zero =>
    intro off mse
    exact ⟨rfl, fun k hk => by simp [match_shape_outer_log] at hk,
      fun k hk => by simp [match_shape_outer_log] at hk, rfl⟩
  | succ n ih =>
    intro off mse
    rw [match_shape_outer_log, match_shape_outer]
    dsimp only
    obtain ⟨e1, e2, e3, -⟩ := match_shape_entry_log_spec R C len off
    rw [e1]
    obtain ⟨a, b, c, d⟩ := ih (off + 1)
      (Function.update mse (off + Int.tdiv S 2) (match_shape_entry R C len off))
    refine ⟨a, ?_, ?_, ?_⟩
    · intro k hk
      rcases List.mem_append.mp hk with h | h
      · exact e2 k h
      · exact b k h
    · intro k hk
      rcases List.mem_append.mp hk with h | h
      · exact e3 k h
      · exact c k h
    · rw [d, List.range_succ_eq_map, List.map_cons, List.map_map]
      congr 1
      · simp
      · apply List.map_congr_left
        intro t _
        simp only [Function.comp, Nat.succ_eq_add_one]
        push_cast
        ring

/-- The loop of `arg_minf` returns the index it started with or one it visited. -/
theorem arg_minf_loop_range (sig : Int → Option ℚ) :
    ∀ (n i : Nat) (min : Option ℚ) (arg : Nat),
      arg_minf_loop sig n i min arg = arg ∨
      (i ≤ arg_minf_loop sig n i min arg ∧ arg_minf_loop sig n i min arg < i + n) := by
  intro n
  induction n with
  | zero => intro i min arg; left; rfl
  | succ n ih =>
    intro i min arg
    rw [arg_minf_loop]
    split_ifs
    · rcases ih (i + 1) (sig (i : Int)) i with h | h
      · right; omega
      · right; omega
    · rcases ih (i + 1) min arg with h | h
      · left; exact h
      · right; omega

/-- The index `arg_minf` returns on nine entries lies in `[0, 8]`, NaN entries
or not. -/
theorem arg_minf_nine_range (sig : Int → Option ℚ) :
    0 ≤ arg_minf sig 9 ∧ arg_minf sig 9 ≤ 8 := by
  unfold arg_minf
  have hu : toU32 9 = 9 := by decide
  rw [hu]
  have hr : arg_minf_loop sig 9 0 (sig 0) 0 < 9 := by
    rcases arg_minf_loop_range sig 9 0 (sig 0) 0 with h | h
    · rw [h]; decide
    · omega
  rw [toI32_of_lt _ (by omega)]
  omega

/-- For an odd `S ≥ 1` the C quotients `-S/2` and `S/2` are opposite, and the
loop `off = -S/2 .. S/2` has `S` iterations. -/
theorem tdiv_odd (S : Int) (hS : 1 ≤ S) (hodd : S % 2 = 1) :
    Int.tdiv (-S) 2 + Int.tdiv S 2 = 0 ∧
    (Int.tdiv S 2 - Int.tdiv (-S) 2 + 1).toNat = S.toNat := by
  have h1 : Int.tdiv S 2 = S / 2 := Int.tdiv_eq_ediv (by omega) (by decide)
  have h2 : Int.tdiv (-S) 2 = -(Int.tdiv S 2) := Int.neg_tdiv _ _
  rw [h2, h1]
  constructor
  · omega
  · congr 1
    omega

/-- C32. Index bounds of `match_shape`: for every `len` and every odd
`search_range = S ≥ 1`, the run with its accesses computes what `match_shape`
computes, every index of `peaks1` and every index of `peaks2` it reads lies in
`[0, len)`, and the entries of `mse` its loop writes are `0, 1, ..., S-1` in this
order, each once.  And for the controller (`S = 9`, `PEAK_ZC = 5`): whatever the
reference and the constellation, the anchor slot `PEAK_ZC + peak_off` lies in
`[1, 9]`, inside the `PEAK_LEN = 17` slots. -/
theorem C32_match_shape_index_bounds (R C : Int → Peak) (len : Int) (mse0 : Int → Option ℚ)
    (S : Int) (hS : 1 ≤ S) (hodd : S % 2 = 1) :
    (match_shape_log R C len mse0 S).1 = match_shape R C len mse0 S ∧
    (∀ k ∈ (match_shape_log R C len mse0 S).2.reads1, 0 ≤ k ∧ k < len) ∧
    (∀ k ∈ (match_shape_log R C len mse0 S).2.reads2, 0 ≤ k ∧ k < len) ∧
    (match_shape_log R C len mse0 S).2.writes
      = (List.range S.toNat).map (fun t : Nat => (t : Int)) ∧
    (∀ (ref shape : Int → Peak) (h : Option ℚ) (err : Int) (ok : Bool),
      1 ≤ PEAK_ZC + (shape_gate ref shape h err ok).peak_off ∧
      PEAK_ZC + (shape_gate ref shape h err ok).peak_off ≤ 9 ∧
      PEAK_ZC + (shape_gate ref shape h err ok).peak_off < PEAK_LEN) := by
  obtain ⟨t1, t2⟩ := tdiv_odd S hS hodd
  obtain ⟨a, b, c, d⟩ := match_shape_outer_log_spec R C len S
    (Int.tdiv S 2 - Int.tdiv (-S) 2 + 1).toNat (Int.tdiv (-S) 2) (memset_zero mse0 S)
  refine ⟨?_, b, c, ?_, ?_⟩
  · unfold match_shape_log match_shape
    dsimp only
    rw [a]
  · unfold match_shape_log
    dsimp only
    rw [d, t1, t2]
    apply List.map_congr_left
    intro t _
    ring
  · intro ref shape h err ok
    have hp : (shape_gate ref shape h err ok).peak_off
        = arg_minf (match_shape ref shape PEAK_LEN (fun _ => none) MSE_RANGE).1 9
          - Int.tdiv 9 2 := by
      unfold shape_gate
      dsimp only
      split_ifs <;> rfl
    obtain ⟨r1, r2⟩ := arg_minf_nine_range
      (match_shape ref shape PEAK_LEN (fun _ => none) MSE_RANGE).1
    have e1 : Int.tdiv (9 : Int) 2 = 4 := by decide
    have e5 : PEAK_ZC = 5 := rfl
    have eL : PEAK_LEN = 17 := rfl
    rw [hp, e1]
    omega

/-- C32 at the controller's call: `len = 17`, `S = 9`, the constellations
`refShape` and `curShape`; the loop writes `mse[0..8]`. -/
theorem C32_witness :
    ((1 : Int) ≤ 9 ∧ (9 : Int) % 2 = 1) ∧
    (∀ k ∈ (match_shape_log refShape curShape 17 mseInit 9).2.reads2, 0 ≤ k ∧ k < 17) ∧
    (match_shape_log refShape curShape 17 mseInit 9).2.writes = [0, 1, 2, 3, 4, 5, 6, 7, 8] :=
  ⟨by decide,
    (C32_match_shape_index_bounds refShape curShape 17 mseInit 9 (by decide) (by decide)).2.2.1,
    (C32_match_shape_index_bounds refShape curShape 17 mseInit 9 (by decide) (by decide)).2.2.2.1⟩

/-! ## Theorems on the accesses of `capture_peaks` -/

/-- The loop of `argmaxf` with its accesses computes what `argmaxf_loop`
computes and reads `sig` in `[i, i+n)`. -/
theorem argmaxf_loop_log_spec (sig : Int → ℚ) :
    ∀ (n i : Nat) (max : ℚ) (arg : Nat),
      (argmaxf_loop_log sig n i max arg).1 = argmaxf_loop sig n i max arg ∧
      ∀ k ∈ (argmaxf_loop_log sig n i max arg).2, (i : Int) ≤ k ∧ k < (i : Int) + n := by
  intro n
  induction n with
  | zero =>
    intro i max arg
    exact ⟨rfl, fun k hk => by simp [argmaxf_loop_log] at hk⟩
  | succ n ih =>
    intro i max arg
    rw [argmaxf_loop_log, argmaxf_loop]
    split_ifs
    · obtain ⟨a, b⟩ := ih (i + 1) (sig (i : Int)) i
      refine ⟨a, ?_⟩
      intro k hk
      simp only [List.mem_cons] at hk
      rcases hk with hk | hk | hk
      · push_cast; omega
      · push_cast; omega
      · have := b k hk; push_cast at this ⊢; omega
    · obtain ⟨a, b⟩ := ih (i + 1) max arg
      refine ⟨a, ?_⟩
      intro k hk
      simp only [List.mem_cons] at hk
      rcases hk with hk | hk
      · push_cast; omega
      · have := b k hk; push_cast at this ⊢; omega

/-- The function `argmaxf` with its accesses, for `len ≥ 1`: same result, every
index read lies in `[0, len)`. -/
theorem argmaxf_log_spec (sig : Int → ℚ) (len : Int) (hlen : 1 ≤ len) :
    (argmaxf_log sig len).1 = argmaxf sig len ∧
    ∀ k ∈ (argmaxf_log sig len).2, 0 ≤ k ∧ k < len := by
  obtain ⟨a, b⟩ := argmaxf_loop_log_spec sig (toU32 len) 0 (sig 0) 0
  unfold argmaxf_log argmaxf
  dsimp only
  refine ⟨by rw [a], ?_⟩
  intro k hk
  have hu : ((toU32 len : Nat) : Int) ≤ len := by
    unfold toU32
    omega
  simp only [List.mem_cons] at hk
  rcases hk with hk | hk
  · omega
  · have := b k hk
    push_cast at this
    omega

/-- The loop of `find_next_turning` with its accesses: same result, reads in
`[i, i+n]`. -/
theorem find_next_turning_loop_log_spec (sig : Int → ℚ) :
    ∀ (n : Nat) (i : Int) (pre_dt : ℚ),
      (find_next_turning_loop_log sig n i pre_dt).1 = find_next_turning_loop sig n i pre_dt ∧
      ∀ k ∈ (find_next_turning_loop_log sig n i pre_dt).2, i ≤ k ∧ k ≤ i + n := by
  intro n
  induction n with
  | zero =>
    intro i pre_dt
    exact ⟨rfl, fun k hk => by simp [find_next_turning_loop_log] at hk⟩
  | succ n ih =>
    intro i pre_dt
    rw [find_next_turning_loop_log, find_next_turning_loop]
    dsimp only
    split_ifs
    · refine ⟨rfl, ?_⟩
      intro k hk
      simp only [List.mem_cons, List.mem_singleton, List.not_mem_nil, or_false] at hk
      rcases hk with hk | hk
      · push_cast; omega
      · push_cast; omega
    · obtain ⟨a, b⟩ := ih (i + 1) (sig (i + 1) - sig i)
      refine ⟨a, ?_⟩
      intro k hk
      simp only [List.mem_cons] at hk
      rcases hk with hk | hk | hk
      · push_cast; omega
      · push_cast; omega
      · have := b k hk; push_cast; omega

/-- The function `find_next_turning` with its accesses: same result; every
relative index read is at least 2 and at most `max 3 (len-1)`; 3 and 2 are
read whatever `len` is. -/
theorem find_next_turning_log_spec (sig : Int → ℚ) (len : Int) :
    (find_next_turning_log sig len).1 = find_next_turning sig len ∧
    (∀ k ∈ (find_next_turning_log sig len).2, 2 ≤ k ∧ (k ≤ 3 ∨ k ≤ len - 1)) ∧
    (3 : Int) ∈ (find_next_turning_log sig len).2 ∧ (2 : Int) ∈ (find_next_turning_log sig len).2 := by
  obtain ⟨a, b⟩ := find_next_turning_loop_log_spec sig (len - 1 - 3).toNat 3 (sig 3 - sig 2)
  unfold find_next_turning_log find_next_turning
  dsimp only
  refine ⟨a, ?_, by simp, by simp⟩
  intro k hk
  simp only [List.mem_cons] at hk
  rcases hk with hk | hk | hk
  · omega
  · omega
  · have := b k hk
    omega

/-- The loop of `find_prev_turning` with its accesses: same result, reads in
`[-(i+n), -i]`. -/
theorem find_prev_turning_loop_log_spec (p : Int → ℚ) :
    ∀ (n : Nat) (i : Int) (pre_dt : ℚ),
      (find_prev_turning_loop_log p n i pre_dt).1 = find_prev_turning_loop p n i pre_dt ∧
      ∀ k ∈ (find_prev_turning_loop_log p n i pre_dt).2, -(i + n) ≤ k ∧ k ≤ -i := by
  intro n
  induction n with
  | zero =>
    intro i pre_dt
    exact ⟨rfl, fun k hk => by simp [find_prev_turning_loop_log] at hk⟩
  | succ n ih =>
    intro i pre_dt
    rw [find_prev_turning_loop_log, find_prev_turning_loop]
    dsimp only
    split_ifs
    · refine ⟨rfl, ?_⟩
      intro k hk
      simp only [List.mem_cons, List.mem_singleton, List.not_mem_nil, or_false] at hk
      rcases hk with hk | hk
      · push_cast; omega
      · push_cast; omega
    · obtain ⟨a, b⟩ := ih (i + 1) (p (-i) - p (-i - 1))
      refine ⟨a, ?_⟩
      intro k hk
      simp only [List.mem_cons] at hk
      rcases hk with hk | hk | hk
      · push_cast; omega
      · push_cast; omega
      · have := b k hk; push_cast; omega

/-- The function `find_prev_turning` with its accesses: same result; every
relative index read is at most -2 and at least `min (-3) (-(len-1))`; -2 and
-3 are read whatever `len` is. -/
theorem find_prev_turning_log_spec (sig : Int → ℚ) (len : Int) :
    (find_prev_turning_log sig len).1 = find_prev_turning sig len ∧
    (∀ k ∈ (find_prev_turning_log sig len).2, k ≤ -2 ∧ (-3 ≤ k ∨ -(len - 1) ≤ k)) ∧
    (-2 : Int) ∈ (find_prev_turning_log sig len).2 ∧
    (-3 : Int) ∈ (find_prev_turning_log sig len).2 := by
  obtain ⟨a, b⟩ := find_prev_turning_loop_log_spec sig (len - 1 - 3).toNat 3
    (sig (-2) - sig (-3))
  unfold find_prev_turning_log find_prev_turning
  dsimp only
  refine ⟨a, ?_, by simp, by simp⟩
  intro k hk
  simp only [List.mem_cons] at hk
  rcases hk with hk | hk | hk
  · omega
  · omega
  · have := b k hk
    omega

/-- The right walk with its accesses: from a position between the maximum and
the search distance, with three more samples behind the search distance, every
index read lies inside the signal, and the slots written start at the current
slot and stay below `hi`. -/
theorem walk_right_log_spec (sig : Int → ℚ) (sig_len M D : Int) (T : ℚ) (lo hi : Int)
    (hM : 0 ≤ M) (hD : M + D + 3 ≤ sig_len - 1) :
    ∀ (n : Nat) (s : Walk), M ≤ s.sig_idx → s.sig_idx ≤ M + D → lo ≤ s.peak_idx →
      s.peak_idx + n ≤ hi + 1 →
      (walk_right_log sig sig_len M D T n s).1 = walk_right sig sig_len M D T n s ∧
      (∀ k ∈ (walk_right_log sig sig_len M D T n s).2.1, 0 ≤ k ∧ k < sig_len) ∧
      (∀ w ∈ (walk_right_log sig sig_len M D T n s).2.2, lo ≤ w ∧ w ≤ hi) := by
  intro n
  induction n with
  | zero =>
    intro s _ _ _ _
    exact ⟨rfl, fun k hk => by simp [walk_right_log] at hk,
      fun w hw => by simp [walk_right_log] at hw⟩
  | succ n ih =>
    intro s h1 h2 h3 h4
    obtain ⟨t1, t2, -, -⟩ := find_next_turning_log_spec (shift sig s.sig_idx)
      (sig_len - s.sig_idx)
    have hrd : ∀ k ∈ (find_next_turning_log (shift sig s.sig_idx) (sig_len - s.sig_idx)).2.map
        (fun k => s.sig_idx + k), 0 ≤ k ∧ k < sig_len := by
      intro k hk
      obtain ⟨j, hj, rfl⟩ := List.mem_map.mp hk
      have := t2 j hj
      omega
    rw [walk_right_log, walk_right]
    dsimp only
    rw [t1]
    by_cases h0 : find_next_turning (shift sig s.sig_idx) (sig_len - s.sig_idx) = 0
    · rw [if_pos h0, if_pos h0]
      exact ⟨rfl, hrd, fun w hw => by simp at hw⟩
    · rw [if_neg h0, if_neg h0]
      have hb : 3 ≤ find_next_turning (shift sig s.sig_idx) (sig_len - s.sig_idx) := by
        rcases find_next_turning_bounds (shift sig s.sig_idx) (sig_len - s.sig_idx) with h | h
        · exact absurd h h0
        · exact h.1
      by_cases hbr : s.sig_idx + find_next_turning (shift sig s.sig_idx) (sig_len - s.sig_idx)
            > sig_len ∨
          s.sig_idx + find_next_turning (shift sig s.sig_idx) (sig_len - s.sig_idx) - M > D
      · rw [if_pos hbr, if_pos hbr]
        exact ⟨rfl, hrd, fun w hw => by simp at hw⟩
      · rw [if_neg hbr, if_neg hbr]
        rw [not_or, not_lt, not_lt] at hbr
        have hidx : 0 ≤ s.sig_idx
              + find_next_turning (shift sig s.sig_idx) (sig_len - s.sig_idx) ∧
            s.sig_idx + find_next_turning (shift sig s.sig_idx) (sig_len - s.sig_idx)
              < sig_len := by
          constructor <;> omega
        split_ifs
        · obtain ⟨a, b, c⟩ := ih
            { sig_idx := s.sig_idx
                + find_next_turning (shift sig s.sig_idx) (sig_len - s.sig_idx)
              peak_idx := s.peak_idx + 1
              prev_peak := s.sig_idx
                + find_next_turning (shift sig s.sig_idx) (sig_len - s.sig_idx)
              peak_detected_len := s.peak_detected_len + 1
              peaks := Function.update s.peaks s.peak_idx
                (((s.sig_idx
                    + find_next_turning (shift sig s.sig_idx) (sig_len - s.sig_idx) : Int) : ℚ),
                  sig (s.sig_idx
                    + find_next_turning (shift sig s.sig_idx) (sig_len - s.sig_idx))) }
            (by dsimp only; omega) (by dsimp only; omega) (by dsimp only; omega)
            (by dsimp only; push_cast at h4; omega)
          refine ⟨a, ?_, ?_⟩
          · intro k hk
            rcases List.mem_append.mp hk with h | h
            · exact hrd k h
            · simp only [List.mem_cons] at h
              rcases h with h | h | h
              · rw [h]; exact hidx
              · rw [h]; exact hidx
              · exact b k h
          · intro w hw
            simp only [List.mem_cons] at hw
            rcases hw with h | h | h
            · rw [h]; push_cast at h4; omega
            · rw [h]; push_cast at h4; omega
            · exact c w h
        · obtain ⟨a, b, c⟩ := ih
            { s with sig_idx := s.sig_idx
                + find_next_turning (shift sig s.sig_idx) (sig_len - s.sig_idx) }
            (by dsimp only; omega) (by dsimp only; omega) (by dsimp only; omega)
            (by dsimp only; push_cast at h4; omega)
          refine ⟨a, ?_, c⟩
          intro k hk
          rcases List.mem_append.mp hk with h | h
          · exact hrd k h
          · simp only [List.mem_cons] at h
            rcases h with h | h
            · rw [h]; exact hidx
            · exact b k h

/-- The left walk with its accesses: from a position between the search
distance and the maximum, with three more samples before the search distance,
every index read lies inside the signal, and the slots written lie in
`[0, hi]`. -/
theorem walk_left_log_spec (sig : Int → ℚ) (sig_len M D : Int) (T : ℚ) (hi : Int)
    (hD : D + 3 ≤ M) (hM : M < sig_len) :
    ∀ (n : Nat) (s : Walk), M - D ≤ s.sig_idx → s.sig_idx ≤ M → s.peak_idx ≤ hi →
      (walk_left_log sig M D T n s).1 = walk_left sig M D T n s ∧
      (∀ k ∈ (walk_left_log sig M D T n s).2.1, 0 ≤ k ∧ k < sig_len) ∧
      (∀ w ∈ (walk_left_log sig M D T n s).2.2, 0 ≤ w ∧ w ≤ hi) := by
  intro n
  induction n with
  | zero =>
    intro s _ _ _
    exact ⟨rfl, fun k hk => by simp [walk_left_log] at hk,
      fun w hw => by simp [walk_left_log] at hw⟩
  | succ n ih =>
    intro s h1 h2 h3
    rw [walk_left_log, walk_left]
    by_cases hp : s.peak_idx < 0
    · rw [if_pos hp, if_pos hp]
      exact ⟨rfl, fun k hk => by simp at hk, fun w hw => by simp at hw⟩
    · rw [if_neg hp, if_neg hp]
      obtain ⟨t1, t2, -, -⟩ := find_prev_turning_log_spec (shift sig s.sig_idx) s.sig_idx
      have hrd : ∀ k ∈ (find_prev_turning_log (shift sig s.sig_idx) s.sig_idx).2.map
          (fun k => s.sig_idx + k), 0 ≤ k ∧ k < sig_len := by
        intro k hk
        obtain ⟨j, hj, rfl⟩ := List.mem_map.mp hk
        have := t2 j hj
        omega
      dsimp only
      rw [t1]
      by_cases h0 : find_prev_turning (shift sig s.sig_idx) s.sig_idx = 0
      · rw [if_pos h0, if_pos h0]
        exact ⟨rfl, hrd, fun w hw => by simp at hw⟩
      · rw [if_neg h0, if_neg h0]
        have hb : 3 ≤ -find_prev_turning (shift sig s.sig_idx) s.sig_idx := by
          rcases find_prev_turning_bounds (shift sig s.sig_idx) s.sig_idx with h | h
          · exact absurd h h0
          · exact h.1
        by_cases hbr : M - (s.sig_idx + find_prev_turning (shift sig s.sig_idx) s.sig_idx) > D
        · rw [if_pos hbr, if_pos hbr]
          exact ⟨rfl, hrd, fun w hw => by simp at hw⟩
        · rw [if_neg hbr, if_neg hbr]
          rw [not_lt] at hbr
          have hidx : 0 ≤ s.sig_idx + find_prev_turning (shift sig s.sig_idx) s.sig_idx ∧
              s.sig_idx + find_prev_turning (shift sig s.sig_idx) s.sig_idx < sig_len := by
            constructor <;> omega
          split_ifs
          · obtain ⟨a, b, c⟩ := ih
              { sig_idx := s.sig_idx + find_prev_turning (shift sig s.sig_idx) s.sig_idx
                peak_idx := s.peak_idx - 1
                prev_peak := s.peak_idx - 1
                peak_detected_len := s.peak_detected_len + 1
                peaks := Function.update s.peaks s.peak_idx
                  (((s.sig_idx + find_prev_turning (shift sig s.sig_idx) s.sig_idx : Int) : ℚ),
                    sig (s.sig_idx + find_prev_turning (shift sig s.sig_idx) s.sig_idx)) }
              (by dsimp only; omega) (by dsimp only; omega) (by dsimp only; omega)
            refine ⟨a, ?_, ?_⟩
            · intro k hk
              rcases List.mem_append.mp hk with h | h
              · exact hrd k h
              · simp only [List.mem_cons] at h
                rcases h with h | h | h
                · rw [h]; exact hidx
                · rw [h]; exact hidx
                · exact b k h
            · intro w hw
              simp only [List.mem_cons] at hw
              rcases hw with h | h | h
              · rw [h]; omega
              · rw [h]; omega
              · exact c w h
          · obtain ⟨a, b, c⟩ := ih
              { s with sig_idx := s.sig_idx
                  + find_prev_turning (shift sig s.sig_idx) s.sig_idx }
              (by dsimp only; omega) (by dsimp only; omega) (by dsimp only; omega)
            refine ⟨a, ?_, c⟩
            intro k hk
            rcases List.mem_append.mp hk with h | h
            · exact hrd k h
            · simp only [List.mem_cons] at h
              rcases h with h | h
              · rw [h]; exact hidx
              · exact b k h

/-- The first iteration of the right walk reads what `find_next_turning` reads
from `&sig[sig_idx]`. -/
theorem walk_right_log_first (sig : Int → ℚ) (sig_len M D : Int) (T : ℚ) (n : Nat) (s : Walk)
    (k : Int)
    (hk : k ∈ (find_next_turning_log (shift sig s.sig_idx) (sig_len - s.sig_idx)).2) :
    s.sig_idx + k ∈ (walk_right_log sig sig_len M D T (n + 1) s).2.1 := by
  have h : s.sig_idx + k ∈
      (find_next_turning_log (shift sig s.sig_idx) (sig_len - s.sig_idx)).2.map
        (fun k => s.sig_idx + k) := List.mem_map.mpr ⟨k, hk, rfl⟩
  rw [walk_right_log]
  dsimp only
  split_ifs
  · exact h
  · exact h
  · exact List.mem_append_left _ h
  · exact List.mem_append_left _ h

/-- The first iteration of the left walk, entered with a slot index that is not
negative, reads what `find_prev_turning` reads from `&sig[sig_idx]`. -/
theorem walk_left_log_first (sig : Int → ℚ) (M D : Int) (T : ℚ) (n : Nat) (s : Walk)
    (hp : 0 ≤ s.peak_idx) (k : Int)
    (hk : k ∈ (find_prev_turning_log (shift sig s.sig_idx) s.sig_idx).2) :
    s.sig_idx + k ∈ (walk_left_log sig M D T (n + 1) s).2.1 := by
  have h : s.sig_idx + k ∈
      (find_prev_turning_log (shift sig s.sig_idx) s.sig_idx).2.map
        (fun k => s.sig_idx + k) := List.mem_map.mpr ⟨k, hk, rfl⟩
  rw [walk_left_log, if_neg (not_lt.mpr hp)]
  dsimp only
  split_ifs
  · exact h
  · exact h
  · exact List.mem_append_left _ h
  · exact List.mem_append_left _ h

/-- C31. Read/write bounds of `capture_peaks`, for `peak_left_len = L ≥ 0` and
`peak_right_len = R ≥ 0`: when the index `M = argmaxf(sig, sig_len)` of the
maximum satisfies `25*(L+2) + 3 ≤ M` and `M + 25*(R+2) + 3 ≤ sig_len - 1`, the run
with its accesses computes what `capture_peaks` computes, every index of `sig` it
reads lies in `[0, sig_len)`, and every slot of `peaks` it writes lies in
`[0, L+R]`.  The reads include those of `find_next_turning` at relative indices 2
and 3 (absolute `M+2`, `M+3`, when `R ≥ 1`) and those of `find_prev_turning` at
relative indices -2 and -3 (absolute `M-2`, `M-3`, when `L ≥ 1`). -/
theorem C31_capture_peaks_bounds (sig : Int → ℚ) (sig_len : Int) (peaks : Int → Peak)
    (L R : Int) (threshold : ℚ) (hL : 0 ≤ L) (hR : 0 ≤ R)
    (h1 : 25 * (L + 2) + 3 ≤ argmaxf sig sig_len)
    (h2 : argmaxf sig sig_len + 25 * (R + 2) + 3 ≤ sig_len - 1) :
    (capture_peaks_log sig sig_len peaks L R threshold).1
      = capture_peaks sig sig_len peaks L R threshold ∧
    (∀ k ∈ (capture_peaks_log sig sig_len peaks L R threshold).2.1, 0 ≤ k ∧ k < sig_len) ∧
    (∀ w ∈ (capture_peaks_log sig sig_len peaks L R threshold).2.2, 0 ≤ w ∧ w ≤ L + R) ∧
    (1 ≤ R →
      argmaxf sig sig_len + 2 ∈ (capture_peaks_log sig sig_len peaks L R threshold).2.1 ∧
      argmaxf sig sig_len + 3 ∈ (capture_peaks_log sig sig_len peaks L R threshold).2.1) ∧
    (1 ≤ L →
      argmaxf sig sig_len - 2 ∈ (capture_peaks_log sig sig_len peaks L R threshold).2.1 ∧
      argmaxf sig sig_len - 3 ∈ (capture_peaks_log sig sig_len peaks L R threshold).2.1) := by
  obtain ⟨a1, a2⟩ := argmaxf_log_spec sig sig_len (by omega)
  obtain ⟨r1, r2, r3⟩ := walk_right_log_spec sig sig_len (argmaxf sig sig_len)
    (25 * (R + 2)) (sig (argmaxf sig sig_len) * threshold) (L + 1) (L + R)
    (by omega) (by omega) R.toNat
    { sig_idx := argmaxf sig sig_len
      peak_idx := L + 1
      prev_peak := 0
      peak_detected_len := 1
      peaks := Function.update peaks L
        (((argmaxf sig sig_len : Int) : ℚ), sig (argmaxf sig sig_len)) }
    (by dsimp only; omega) (by dsimp only; omega) (by dsimp only; omega)
    (by dsimp only; rw [Int.toNat_of_nonneg hR]; omega)
  obtain ⟨l1, l2, l3⟩ := walk_left_log_spec sig sig_len (argmaxf sig sig_len)
    (25 * (L + 2)) (sig (argmaxf sig sig_len) * threshold) (L + R)
    (by omega) (by omega) L.toNat
    { (walk_right_log sig sig_len (argmaxf sig sig_len) (25 * (R + 2))
        (sig (argmaxf sig sig_len) * threshold) R.toNat
        { sig_idx := argmaxf sig sig_len
          peak_idx := L + 1
          prev_peak := 0
          peak_detected_len := 1
          peaks := Function.update peaks L
            (((argmaxf sig sig_len : Int) : ℚ), sig (argmaxf sig sig_len)) }).1 with
      sig_idx := argmaxf sig sig_len, peak_idx := L - 1 }
    (by dsimp only; omega) (by dsimp only; omega) (by dsimp only; omega)
  have hM : 0 ≤ argmaxf sig sig_len ∧ argmaxf sig sig_len < sig_len := by
    constructor <;> omega
  unfold capture_peaks_log
  dsimp only
  rw [a1]
  refine ⟨?_, ?_, ?_, ?_, ?_⟩
  · rw [l1, r1]
    rfl
  · intro k hk
    rcases List.mem_append.mp hk with h | h
    · exact a2 k h
    · simp only [List.mem_cons] at h
      rcases h with h | h | h
      · rw [h]; exact hM
      · rw [h]; exact hM
      · rcases List.mem_append.mp h with h | h
        · exact r2 k h
        · exact l2 k h
  · intro w hw
    simp only [List.mem_cons] at hw
    rcases hw with h | h | h
    · rw [h]; omega
    · rw [h]; omega
    · rcases List.mem_append.mp h with h | h
      · have := r3 w h
        omega
      · exact l3 w h
  · intro hR1
    obtain ⟨n, hn⟩ : ∃ n : Nat, R.toNat = n + 1 := ⟨R.toNat - 1, by omega⟩
    obtain ⟨-, -, f3, f2⟩ := find_next_turning_log_spec
      (shift sig (argmaxf sig sig_len)) (sig_len - argmaxf sig sig_len)
    rw [hn]
    constructor
    · apply List.mem_append_right
      apply List.mem_cons_of_mem
      apply List.mem_cons_of_mem
      apply List.mem_append_left
      exact walk_right_log_first sig sig_len (argmaxf sig sig_len) (25 * (R + 2))
        (sig (argmaxf sig sig_len) * threshold) n
        { sig_idx := argmaxf sig sig_len
          peak_idx := L + 1
          prev_peak := 0
          peak_detected_len := 1
          peaks := Function.update peaks L
            (((argmaxf sig sig_len : Int) : ℚ), sig (argmaxf sig sig_len)) } 2 f2
    · apply List.mem_append_right
      apply List.mem_cons_of_mem
      apply List.mem_cons_of_mem
      apply List.mem_append_left
      exact walk_right_log_first sig sig_len (argmaxf sig sig_len) (25 * (R + 2))
        (sig (argmaxf sig sig_len) * threshold) n
        { sig_idx := argmaxf sig sig_len
          peak_idx := L + 1
          prev_peak := 0
          peak_detected_len := 1
          peaks := Function.update peaks L
            (((argmaxf sig sig_len : Int) : ℚ), sig (argmaxf sig sig_len)) } 3 f3
  · intro hL1
    obtain ⟨n, hn⟩ : ∃ n : Nat, L.toNat = n + 1 := ⟨L.toNat - 1, by omega⟩
    obtain ⟨-, -, f2, f3⟩ := find_prev_turning_log_spec
      (shift sig (argmaxf sig sig_len)) (argmaxf sig sig_len)
    rw [hn]
    constructor
    · apply List.mem_append_right
      apply List.mem_cons_of_mem
      apply List.mem_cons_of_mem
      apply List.mem_append_right
      exact walk_left_log_first sig (argmaxf sig sig_len) (25 * (L + 2))
        (sig (argmaxf sig sig_len) * threshold) n _ (by dsimp only; omega) (-2) f2
    · apply List.mem_append_right
      apply List.mem_cons_of_mem
      apply List.mem_cons_of_mem
      apply List.mem_append_right
      exact walk_left_log_first sig (argmaxf sig sig_len) (25 * (L + 2))
        (sig (argmaxf sig sig_len) * threshold) n _ (by dsimp only; omega) (-3) f3

/-- The maximum of `sawSig` over 160 samples is at index 80. -/
theorem argmaxf_sawSig : argmaxf sawSig 160 = 80 := by decide!

/-- C31 at the signal `sawSig` of 160 samples, with one slot on each side of
the main peak (`M = 80`, `25*3 + 3 = 78`): the reads stay in `[0, 160)`, the
writes in `[0, 2]`, and `sig[82]`, `sig[83]`, `sig[78]`, `sig[77]` are read. -/
theorem C31_witness :
    ((0 : Int) ≤ 1 ∧ 25 * ((1 : Int) + 2) + 3 ≤ argmaxf sawSig 160 ∧
      argmaxf sawSig 160 + 25 * ((1 : Int) + 2) + 3 ≤ 160 - 1) ∧
    (∀ k ∈ (capture_peaks_log sawSig 160 zeroPeaks 1 1 (1 / 2)).2.1, 0 ≤ k ∧ k < 160) ∧
    (∀ w ∈ (capture_peaks_log sawSig 160 zeroPeaks 1 1 (1 / 2)).2.2, 0 ≤ w ∧ w ≤ 1 + 1) ∧
    (argmaxf sawSig 160 + 2 ∈ (capture_peaks_log sawSig 160 zeroPeaks 1 1 (1 / 2)).2.1 ∧
      argmaxf sawSig 160 - 3 ∈ (capture_peaks_log sawSig 160 zeroPeaks 1 1 (1 / 2)).2.1) :=
  ⟨by rw [argmaxf_sawSig]; decide,
    (C31_capture_peaks_bounds sawSig 160 zeroPeaks 1 1 (1 / 2) (by decide) (by decide)
      (by rw [argmaxf_sawSig]; decide) (by rw [argmaxf_sawSig]; decide)).2.1,
    (C31_capture_peaks_bounds sawSig 160 zeroPeaks 1 1 (1 / 2) (by decide) (by decide)
      (by rw [argmaxf_sawSig]; decide) (by rw [argmaxf_sawSig]; decide)).2.2.1,
    ((C31_capture_peaks_bounds sawSig 160 zeroPeaks 1 1 (1 / 2) (by decide) (by decide)
      (by rw [argmaxf_sawSig]; decide) (by rw [argmaxf_sawSig]; decide)).2.2.2.1
        (by decide)).1,
    ((C31_capture_peaks_bounds sawSig 160 zeroPeaks 1 1 (1 / 2) (by decide) (by decide)
      (by rw [argmaxf_sawSig]; decide) (by rw [argmaxf_sawSig]; decide)).2.2.2.2
        (by decide)).2⟩

/-! ## Theorems on the rounding to a binary format -/

/-- The exponent computed by `ilog2` brackets its argument. -/
theorem ilog2_spec (a : ℚ) (ha : 0 < a) :
    (2 : ℚ) ^ ilog2 a ≤ a ∧ a < (2 : ℚ) ^ (ilog2 a + 1) := by
  have hn : 0 < a.num := Rat.num_pos.mpr ha
  have hn0 : a.num.toNat ≠ 0 := by omega
  have hd0 : a.den ≠ 0 := a.den_nz
  have e1 : ((a.num.toNat : ℕ) : ℚ) = (a.num : ℚ) := by
    have : ((a.num.toNat : ℕ) : Int) = a.num := Int.toNat_of_nonneg hn.le
    exact_mod_cast congrArg (fun z : Int => (z : ℚ)) this
  have ea : a = ((a.num.toNat : ℕ) : ℚ) / ((a.den : ℕ) : ℚ) := by
    rw [e1]; exact (Rat.num_div_den a).symm
  have n1 : ((2 : ℚ) ^ (Nat.log2 a.num.toNat)) ≤ ((a.num.toNat : ℕ) : ℚ) := by
    exact_mod_cast Nat.log2_self_le hn0
  have n2 : ((a.num.toNat : ℕ) : ℚ) < ((2 : ℚ) ^ (Nat.log2 a.num.toNat + 1)) := by
    exact_mod_cast (Nat.lt_log2_self (n := a.num.toNat))
  have d1 : ((2 : ℚ) ^ (Nat.log2 a.den)) ≤ ((a.den : ℕ) : ℚ) := by
    exact_mod_cast Nat.log2_self_le hd0
  have d2 : ((a.den : ℕ) : ℚ) < ((2 : ℚ) ^ (Nat.log2 a.den + 1)) := by
    exact_mod_cast (Nat.lt_log2_self (n := a.den))
  have hdpos : (0 : ℚ) < ((a.den : ℕ) : ℚ) := by exact_mod_cast a.den_pos
  have p1 : (0 : ℚ) < (2 : ℚ) ^ (Nat.log2 a.num.toNat) := by positivity
  have p2 : (0 : ℚ) < (2 : ℚ) ^ (Nat.log2 a.den) := by positivity
  have two : (2 : ℚ) ≠ 0 := two_ne_zero
  have hz : (2 : ℚ) ^ ((Nat.log2 a.num.toNat : Int) - (Nat.log2 a.den : Int))
      = (2 : ℚ) ^ (Nat.log2 a.num.toNat) / (2 : ℚ) ^ (Nat.log2 a.den) := by
    rw [zpow_sub₀ two, zpow_natCast, zpow_natCast]
  have up : a < (2 : ℚ) ^ ((Nat.log2 a.num.toNat : Int) - (Nat.log2 a.den : Int) + 1) := by
    rw [zpow_add_one₀ two, hz]
    have : ((a.num.toNat : ℕ) : ℚ) / ((a.den : ℕ) : ℚ)
        < (2 : ℚ) ^ (Nat.log2 a.num.toNat) / (2 : ℚ) ^ (Nat.log2 a.den) * 2 := by
      rw [div_lt_iff₀ hdpos]
      have h3 : (2 : ℚ) ^ (Nat.log2 a.num.toNat) / (2 : ℚ) ^ (Nat.log2 a.den) * 2
            * ((a.den : ℕ) : ℚ)
          = (2 : ℚ) ^ (Nat.log2 a.num.toNat + 1)
            * (((a.den : ℕ) : ℚ) / (2 : ℚ) ^ (Nat.log2 a.den)) := by
        rw [pow_succ]; field_simp
      rw [h3]
      have h4 : (1 : ℚ) ≤ ((a.den : ℕ) : ℚ) / (2 : ℚ) ^ (Nat.log2 a.den) := by
        rw [le_div_iff₀ p2]; linarith
      have h5 : (0 : ℚ) < (2 : ℚ) ^ (Nat.log2 a.num.toNat + 1) := by positivity
      nlinarith
    rw [← ea] at this
    exact this
  have lo : (2 : ℚ) ^ ((Nat.log2 a.num.toNat : Int) - (Nat.log2 a.den : Int) - 1) ≤ a := by
    rw [zpow_sub₀ two, hz, zpow_one]
    have : (2 : ℚ) ^ (Nat.log2 a.num.toNat) / (2 : ℚ) ^ (Nat.log2 a.den) / 2
        ≤ ((a.num.toNat : ℕ) : ℚ) / ((a.den : ℕ) : ℚ) := by
      rw [le_div_iff₀ hdpos]
      have h3 : (2 : ℚ) ^ (Nat.log2 a.num.toNat) / (2 : ℚ) ^ (Nat.log2 a.den) / 2
            * ((a.den : ℕ) : ℚ)
          = (2 : ℚ) ^ (Nat.log2 a.num.toNat)
            * (((a.den : ℕ) : ℚ) / (2 : ℚ) ^ (Nat.log2 a.den + 1)) := by
        rw [pow_succ]; field_simp
      rw [h3]
      have h4 : ((a.den : ℕ) : ℚ) / (2 : ℚ) ^ (Nat.log2 a.den + 1) ≤ 1 := by
        rw [div_le_one (by positivity)]; exact d2.le
      nlinarith
    rw [← ea] at this
    exact this
  unfold ilog2
  dsimp only
  split_ifs with h
  · exact ⟨h, up⟩
  · refine ⟨lo, ?_⟩
    rw [sub_add_cancel]
    exact not_le.mp h

/-- The exponent is determined by the bracket. -/
theorem ilog2_unique (a : ℚ) (e : Int) (h1 : (2 : ℚ) ^ e ≤ a) (h2 : a < (2 : ℚ) ^ (e + 1)) :
    ilog2 a = e := by
  have ha : 0 < a := lt_of_lt_of_le (zpow_pos (by norm_num) e) h1
  obtain ⟨s1, s2⟩ := ilog2_spec a ha
  have two : (1 : ℚ) < 2 := by norm_num
  have a1 : e < ilog2 a + 1 := (zpow_lt_zpow_iff_right₀ two).mp (lt_of_le_of_lt h1 s2)
  have a2 : ilog2 a < e + 1 := (zpow_lt_zpow_iff_right₀ two).mp (lt_of_le_of_lt s1 h2)
  omega

/-- The exponent is monotone. -/
theorem ilog2_mono (a b : ℚ) (ha : 0 < a) (hab : a ≤ b) : ilog2 a ≤ ilog2 b := by
  obtain ⟨s1, -⟩ := ilog2_spec a ha
  obtain ⟨-, t2⟩ := ilog2_spec b (lt_of_lt_of_le ha hab)
  have two : (1 : ℚ) < 2 := by norm_num
  have : ilog2 a < ilog2 b + 1 :=
    (zpow_lt_zpow_iff_right₀ two).mp (lt_of_le_of_lt (s1.trans hab) t2)
  omega

/-- The rounding to the nearest integer lies between the floor and the floor
plus one. -/
theorem roundNE_bounds (y : ℚ) : ⌊y⌋ ≤ roundNE y ∧ roundNE y ≤ ⌊y⌋ + 1 := by
  unfold roundNE
  dsimp only
  split_ifs <;> constructor <;> omega

/-- The rounding to the nearest integer is within one half of its argument. -/
theorem roundNE_error (y : ℚ) : |((roundNE y : Int) : ℚ) - y| ≤ 1 / 2 := by
  have h1 := Int.floor_le y
  have h2 := Int.lt_floor_add_one y
  unfold roundNE
  dsimp only
  rw [abs_le]
  split_ifs with a b c
  · constructor <;> linarith
  · push_cast; constructor <;> linarith
  · constructor <;> linarith
  · push_cast; constructor <;> linarith

/-- The rounding to the nearest integer fixes the integers. -/
theorem roundNE_intCast (k : Int) : roundNE (k : ℚ) = k := by
  unfold roundNE
  dsimp only
  rw [Int.floor_intCast, sub_self, if_pos (by norm_num)]

/-- The rounding to the nearest integer is monotone. -/
theorem roundNE_mono (y z : ℚ) (h : y ≤ z) : roundNE y ≤ roundNE z := by
  have hf : ⌊y⌋ ≤ ⌊z⌋ := Int.floor_mono h
  rcases lt_or_eq_of_le hf with hlt | heq
  · have := (roundNE_bounds y).2
    have := (roundNE_bounds z).1
    omega
  · unfold roundNE
    dsimp only
    rw [heq]
    have hr : y - (⌊z⌋ : ℚ) ≤ z - (⌊z⌋ : ℚ) := by linarith
    split_ifs <;> first | omega | (exfalso; linarith)

theorem roundFloat_zero (p : Nat) (emin : Int) : roundFloat p emin 0 = 0 := by
  unfold roundFloat
  rw [if_pos rfl]

/-- The rounding of a positive rational: the quotient by the quantum
`2^(e-(p-1))` is rounded to the nearest integer. -/
theorem roundFloat_of_pos (p : Nat) (emin : Int) (x : ℚ) (hx : 0 < x) :
    roundFloat p emin x
      = ((roundNE (x / 2 ^ (max (ilog2 x) emin - ((p : Int) - 1))) : Int) : ℚ)
        * 2 ^ (max (ilog2 x) emin - ((p : Int) - 1)) := by
  unfold roundFloat
  rw [if_neg hx.ne', abs_of_pos hx]
  dsimp only
  rw [if_neg (not_lt.mpr hx.le)]

/-- The rounding is odd. -/
theorem roundFloat_neg (p : Nat) (emin : Int) (x : ℚ) :
    roundFloat p emin (-x) = -roundFloat p emin x := by
  unfold roundFloat
  by_cases h0 : x = 0
  · rw [h0, neg_zero, if_pos rfl, neg_zero]
  · rw [if_neg (neg_ne_zero.mpr h0), if_neg h0, abs_neg]
    dsimp only
    rcases lt_or_gt_of_ne h0 with h | h
    · rw [if_neg (by linarith : ¬ -x < 0), if_pos h, neg_neg]
    · rw [if_pos (by linarith : -x < 0), if_neg (by linarith : ¬ x < 0)]

/-- The rounding of a non-negative rational is non-negative. -/
theorem roundFloat_nonneg (p : Nat) (emin : Int) (x : ℚ) (hx : 0 ≤ x) :
    0 ≤ roundFloat p emin x := by
  rcases eq_or_lt_of_le hx with h | h
  · rw [← h, roundFloat_zero]
  · rw [roundFloat_of_pos p emin x h]
    have hq : (0 : ℚ) < 2 ^ (max (ilog2 x) emin - ((p : Int) - 1)) := zpow_pos (by norm_num) _
    have h0 : roundNE ((0 : Int) : ℚ) ≤ roundNE (x / 2 ^ (max (ilog2 x) emin - ((p : Int) - 1))) :=
      roundNE_mono _ _ (by push_cast; exact div_nonneg hx hq.le)
    rw [roundNE_intCast] at h0
    have : (0 : ℚ) ≤ ((roundNE (x / 2 ^ (max (ilog2 x) emin - ((p : Int) - 1))) : Int) : ℚ) := by
      exact_mod_cast h0
    exact mul_nonneg this hq.le

/-- Error of the rounding: at most `|x|/2^p` in the normal range, at most
`2^(emin-p)` below it. -/
theorem roundFloat_error (p : Nat) (emin : Int) (x : ℚ) :
    |roundFloat p emin x - x| ≤ |x| / 2 ^ p + 2 ^ (emin - (p : Int)) := by
  have two : (2 : ℚ) ≠ 0 := two_ne_zero
  have hpos : ∀ y : ℚ, 0 < y →
      |roundFloat p emin y - y| ≤ y / 2 ^ p + 2 ^ (emin - (p : Int)) := by
    intro y hy
    rw [roundFloat_of_pos p emin y hy]
    have hq : (0 : ℚ) < 2 ^ (max (ilog2 y) emin - ((p : Int) - 1)) := zpow_pos (by norm_num) _
    have herr := roundNE_error (y / 2 ^ (max (ilog2 y) emin - ((p : Int) - 1)))
    have e1 : ((roundNE (y / 2 ^ (max (ilog2 y) emin - ((p : Int) - 1))) : Int) : ℚ)
          * 2 ^ (max (ilog2 y) emin - ((p : Int) - 1)) - y
        = (((roundNE (y / 2 ^ (max (ilog2 y) emin - ((p : Int) - 1))) : Int) : ℚ)
            - y / 2 ^ (max (ilog2 y) emin - ((p : Int) - 1)))
          * 2 ^ (max (ilog2 y) emin - ((p : Int) - 1)) := by
      field_simp
    rw [e1, abs_mul, abs_of_pos hq]
    have h1 : |((roundNE (y / 2 ^ (max (ilog2 y) emin - ((p : Int) - 1))) : Int) : ℚ)
          - y / 2 ^ (max (ilog2 y) emin - ((p : Int) - 1))|
          * 2 ^ (max (ilog2 y) emin - ((p : Int) - 1))
        ≤ 1 / 2 * 2 ^ (max (ilog2 y) emin - ((p : Int) - 1)) :=
      mul_le_mul_of_nonneg_right herr hq.le
    have h2 : (1 / 2 : ℚ) * 2 ^ (max (ilog2 y) emin - ((p : Int) - 1))
        = 2 ^ (max (ilog2 y) emin - (p : Int)) := by
      have : max (ilog2 y) emin - ((p : Int) - 1) = (max (ilog2 y) emin - (p : Int)) + 1 := by
        ring
      rw [this, zpow_add_one₀ two]
      ring
    rw [h2] at h1
    refine h1.trans ?_
    have hy2 : (0 : ℚ) ≤ y / 2 ^ p := by positivity
    have hz2 : (0 : ℚ) ≤ 2 ^ (emin - (p : Int)) := (zpow_pos (by norm_num) _).le
    rcases le_total (ilog2 y) emin with hle | hle
    · rw [max_eq_right hle]
      linarith
    · rw [max_eq_left hle, zpow_sub₀ two, zpow_natCast]
      have := (ilog2_spec y hy).1
      have : (2 : ℚ) ^ ilog2 y / 2 ^ p ≤ y / 2 ^ p :=
        div_le_div_of_nonneg_right this (by positivity)
      linarith
  rcases lt_trichotomy x 0 with h | h | h
  · have := hpos (-x) (by linarith)
    rw [roundFloat_neg] at this
    rw [abs_of_neg h]
    have e : -roundFloat p emin x - -x = -(roundFloat p emin x - x) := by ring
    rw [e, abs_neg] at this
    exact this
  · rw [h, roundFloat_zero]
    simp only [sub_zero, abs_zero, zero_div, zero_add]
    exact (zpow_pos (by norm_num) _).le
  · rw [abs_of_pos h]
    exact hpos x h

/-- The rounding is monotone on the positive rationals. -/
theorem roundFloat_mono_pos (p : Nat) (emin : Int) (hp : 1 ≤ p) (x y : ℚ) (hx : 0 < x)
    (hxy : x ≤ y) : roundFloat p emin x ≤ roundFloat p emin y := by
  have two : (2 : ℚ) ≠ 0 := two_ne_zero
  have one_lt : (1 : ℚ) < 2 := by norm_num
  have hy : 0 < y := lt_of_lt_of_le hx hxy
  rw [roundFloat_of_pos p emin x hx, roundFloat_of_pos p emin y hy]
  have hlog := ilog2_mono x y hx hxy
  have he : max (ilog2 x) emin ≤ max (ilog2 y) emin := max_le_max hlog (le_refl _)
  rcases eq_or_lt_of_le he with heq | hlt
  · rw [heq]
    have hq : (0 : ℚ) < 2 ^ (max (ilog2 y) emin - ((p : Int) - 1)) := zpow_pos (by norm_num) _
    have := roundNE_mono (x / 2 ^ (max (ilog2 y) emin - ((p : Int) - 1)))
      (y / 2 ^ (max (ilog2 y) emin - ((p : Int) - 1))) (div_le_div_of_nonneg_right hxy hq.le)
    have : ((roundNE (x / 2 ^ (max (ilog2 y) emin - ((p : Int) - 1))) : Int) : ℚ)
        ≤ ((roundNE (y / 2 ^ (max (ilog2 y) emin - ((p : Int) - 1))) : Int) : ℚ) := by
      exact_mod_cast this
    exact mul_le_mul_of_nonneg_right this hq.le
  · obtain ⟨k, hk⟩ : ∃ k : Nat, p = k + 1 := ⟨p - 1, by omega⟩
    have hpk : ((p : Int) - 1) = (k : Int) := by rw [hk]; push_cast; ring
    rw [hpk]
    -- the left side is at most `2^(ex+1)`
    have hqx : (0 : ℚ) < 2 ^ (max (ilog2 x) emin - (k : Int)) := zpow_pos (by norm_num) _
    have hqy : (0 : ℚ) < 2 ^ (max (ilog2 y) emin - (k : Int)) := zpow_pos (by norm_num) _
    have ux : x < 2 ^ (max (ilog2 x) emin + 1) :=
      lt_of_lt_of_le (ilog2_spec x hx).2
        (zpow_le_zpow_right₀ one_lt.le (by have := le_max_left (ilog2 x) emin; omega))
    have ux2 : x / 2 ^ (max (ilog2 x) emin - (k : Int)) ≤ (((2 : Int) ^ (k + 1) : Int) : ℚ) := by
      rw [div_le_iff₀ hqx]
      push_cast
      have : (2 : ℚ) ^ (k + 1) * 2 ^ (max (ilog2 x) emin - (k : Int))
          = 2 ^ (max (ilog2 x) emin + 1) := by
        rw [← zpow_natCast, ← zpow_add₀ two]
        congr 1
        push_cast
        ring
      rw [this]
      exact ux.le
    have rx := roundNE_mono _ _ ux2
    rw [roundNE_intCast] at rx
    have rx2 : ((roundNE (x / 2 ^ (max (ilog2 x) emin - (k : Int))) : Int) : ℚ)
        ≤ (2 : ℚ) ^ (k + 1) := by exact_mod_cast rx
    have left : ((roundNE (x / 2 ^ (max (ilog2 x) emin - (k : Int))) : Int) : ℚ)
          * 2 ^ (max (ilog2 x) emin - (k : Int))
        ≤ 2 ^ (max (ilog2 x) emin + 1) := by
      have := mul_le_mul_of_nonneg_right rx2 hqx.le
      have e : (2 : ℚ) ^ (k + 1) * 2 ^ (max (ilog2 x) emin - (k : Int))
          = 2 ^ (max (ilog2 x) emin + 1) := by
        rw [← zpow_natCast, ← zpow_add₀ two]
        congr 1
        push_cast
        ring
      rw [e] at this
      exact this
    -- the right side is at least `2^ey`
    have hey : max (ilog2 y) emin = ilog2 y := by
      apply max_eq_left
      have := le_max_right (ilog2 x) emin
      by_contra hcon
      rw [max_eq_right (by omega : ilog2 y ≤ emin)] at hlt
      omega
    have ly : (((2 : Int) ^ k : Int) : ℚ) ≤ y / 2 ^ (max (ilog2 y) emin - (k : Int)) := by
      rw [le_div_iff₀ hqy]
      push_cast
      have : (2 : ℚ) ^ k * 2 ^ (max (ilog2 y) emin - (k : Int)) = 2 ^ (max (ilog2 y) emin) := by
        rw [← zpow_natCast, ← zpow_add₀ two]
        congr 1
        ring
      rw [this, hey]
      exact (ilog2_spec y hy).1
    have ry := roundNE_mono _ _ ly
    rw [roundNE_intCast] at ry
    have ry2 : (2 : ℚ) ^ k
        ≤ ((roundNE (y / 2 ^ (max (ilog2 y) emin - (k : Int))) : Int) : ℚ) := by
      exact_mod_cast ry
    have right : (2 : ℚ) ^ (max (ilog2 y) emin)
        ≤ ((roundNE (y / 2 ^ (max (ilog2 y) emin - (k : Int))) : Int) : ℚ)
          * 2 ^ (max (ilog2 y) emin - (k : Int)) := by
      have := mul_le_mul_of_nonneg_right ry2 hqy.le
      have e : (2 : ℚ) ^ k * 2 ^ (max (ilog2 y) emin - (k : Int)) = 2 ^ (max (ilog2 y) emin) := by
        rw [← zpow_natCast, ← zpow_add₀ two]
        congr 1
        ring
      rw [e] at this
      exact this
    have mid : (2 : ℚ) ^ (max (ilog2 x) emin + 1) ≤ 2 ^ (max (ilog2 y) emin) :=
      zpow_le_zpow_right₀ one_lt.le (by omega)
    exact left.trans (mid.trans right)

/-- The rounding is monotone. -/
theorem roundFloat_mono (p : Nat) (emin : Int) (hp : 1 ≤ p) (x y : ℚ) (hxy : x ≤ y) :
    roundFloat p emin x ≤ roundFloat p emin y := by
  rcases lt_or_le 0 x with hx | hx
  · exact roundFloat_mono_pos p emin hp x y hx hxy
  · rcases le_or_lt 0 y with hy | hy
    · have h1 := roundFloat_nonneg p emin (-x) (by linarith)
      rw [roundFloat_neg] at h1
      have h2 := roundFloat_nonneg p emin y hy
      linarith
    · have := roundFloat_mono_pos p emin hp (-y) (-x) (by linarith) (by linarith)
      rw [roundFloat_neg, roundFloat_neg] at this
      linarith

/-- The natural numbers below `2^p` are values of the format. -/
theorem roundFloat_natCast (p : Nat) (emin : Int) (he : emin ≤ 0) (n : Nat)
    (hn : n < 2 ^ p) : roundFloat p emin (n : ℚ) = (n : ℚ) := by
  have two : (2 : ℚ) ≠ 0 := two_ne_zero
  have one_lt : (1 : ℚ) < 2 := by norm_num
  rcases Nat.eq_zero_or_pos n with h0 | h0
  · rw [h0, Nat.cast_zero, roundFloat_zero]
  · have hx : (0 : ℚ) < (n : ℚ) := by exact_mod_cast h0
    obtain ⟨s1, s2⟩ := ilog2_spec (n : ℚ) hx
    have l0 : 0 ≤ ilog2 (n : ℚ) := by
      have h1 : (2 : ℚ) ^ (0 : Int) ≤ (n : ℚ) := by
        rw [zpow_zero]; exact_mod_cast h0
      have := (zpow_lt_zpow_iff_right₀ one_lt).mp (lt_of_le_of_lt h1 s2)
      omega
    have l1 : ilog2 (n : ℚ) < (p : Int) := by
      have h1 : (n : ℚ) < (2 : ℚ) ^ (p : Int) := by
        rw [zpow_natCast]; exact_mod_cast hn
      exact (zpow_lt_zpow_iff_right₀ one_lt).mp (lt_of_le_of_lt s1 h1)
    rw [roundFloat_of_pos p emin _ hx, max_eq_left (by omega : emin ≤ ilog2 (n : ℚ))]
    obtain ⟨k, hk⟩ : ∃ k : Nat, ((p : Int) - 1) - ilog2 (n : ℚ) = (k : Int) :=
      ⟨(((p : Int) - 1) - ilog2 (n : ℚ)).toNat, by omega⟩
    have hq : ilog2 (n : ℚ) - ((p : Int) - 1) = -(k : Int) := by omega
    rw [hq, zpow_neg, zpow_natCast]
    have e : (n : ℚ) / ((2 : ℚ) ^ k)⁻¹ = (((n : Int) * 2 ^ k : Int) : ℚ) := by
      push_cast
      rw [div_inv_eq_mul]
    rw [e, roundNE_intCast]
    push_cast
    field_simp

/-- A rational within one half of an integer rounds to it. -/
theorem roundNE_eq_of_close (y : ℚ) (k : Int) (h : |y - (k : ℚ)| < 1 / 2) : roundNE y = k := by
  rw [abs_lt] at h
  unfold roundNE
  dsimp only
  rcases le_or_lt (k : ℚ) y with hk | hk
  · have hf : ⌊y⌋ = k := Int.floor_eq_iff.mpr ⟨hk, by linarith⟩
    rw [hf, if_pos (by linarith)]
  · have hf : ⌊y⌋ = k - 1 := Int.floor_eq_iff.mpr ⟨by push_cast; linarith, by push_cast; linarith⟩
    rw [hf, if_neg (by push_cast; linarith), if_pos (by push_cast; linarith)]
    ring

/-- Evaluation of the rounding at a positive rational `x` of the normal range:
with `2^e ≤ x < 2^(e+1)`, the multiple `k * 2^(e-(p-1))` of the quantum that is
nearer to `x` than half a quantum is the result. -/
theorem roundFloat_eval (p : Nat) (emin e k : Int) (x : ℚ) (hemin : emin ≤ e)
    (h1 : (2 : ℚ) ^ e ≤ x) (h2 : x < (2 : ℚ) ^ (e + 1))
    (h3 : |x - (k : ℚ) * 2 ^ (e - ((p : Int) - 1))| < 2 ^ (e - (p : Int))) :
    roundFloat p emin x = (k : ℚ) * 2 ^ (e - ((p : Int) - 1)) := by
  have two : (2 : ℚ) ≠ 0 := two_ne_zero
  have hx : 0 < x := lt_of_lt_of_le (zpow_pos (by norm_num) e) h1
  rw [roundFloat_of_pos p emin x hx, ilog2_unique x e h1 h2, max_eq_left hemin]
  have hq : (0 : ℚ) < 2 ^ (e - ((p : Int) - 1)) := zpow_pos (by norm_num) _
  have hhalf : (2 : ℚ) ^ (e - (p : Int)) = 1 / 2 * 2 ^ (e - ((p : Int) - 1)) := by
    have : e - ((p : Int) - 1) = (e - (p : Int)) + 1 := by ring
    rw [this, zpow_add_one₀ two]
    ring
  have hc : |x / 2 ^ (e - ((p : Int) - 1)) - (k : ℚ)| < 1 / 2 := by
    have e1 : x / 2 ^ (e - ((p : Int) - 1)) - (k : ℚ)
        = (x - (k : ℚ) * 2 ^ (e - ((p : Int) - 1))) / 2 ^ (e - ((p : Int) - 1)) := by
      field_simp
      ring
    rw [e1, abs_div, abs_of_pos hq, div_lt_iff₀ hq, ← hhalf]
    exact h3
  rw [roundNE_eq_of_close _ k hc]

theorem f32_zero : f32 0 = 0 := roundFloat_zero 24 (-126)

theorem f64_zero : f64 0 = 0 := roundFloat_zero 53 (-1022)

theorem f32_neg (x : ℚ) : f32 (-x) = -f32 x := roundFloat_neg 24 (-126) x

theorem f64_neg (x : ℚ) : f64 (-x) = -f64 x := roundFloat_neg 53 (-1022) x

theorem f32_nonneg (x : ℚ) (hx : 0 ≤ x) : 0 ≤ f32 x := roundFloat_nonneg 24 (-126) x hx

theorem f64_nonneg (x : ℚ) (hx : 0 ≤ x) : 0 ≤ f64 x := roundFloat_nonneg 53 (-1022) x hx

/-- Rounding to `float` is monotone. -/
theorem f32_mono (x y : ℚ) (h : x ≤ y) : f32 x ≤ f32 y :=
  roundFloat_mono 24 (-126) (by decide) x y h

/-- Rounding to `double` is monotone. -/
theorem f64_mono (x y : ℚ) (h : x ≤ y) : f64 x ≤ f64 y :=
  roundFloat_mono 53 (-1022) (by decide) x y h

/-- The natural numbers below `2^24` are `float` values. -/
theorem f32_natCast (n : Nat) (hn : n < 16777216) : f32 (n : ℚ) = (n : ℚ) :=
  roundFloat_natCast 24 (-126) (by decide) n (by norm_num; exact hn)

theorem f32_one : f32 1 = 1 := by
  have := f32_natCast 1 (by decide)
  simpa using this

/-- Error of the rounding to `float`. -/
theorem f32_error (x : ℚ) : |f32 x - x| ≤ |x| / 16777216 + 1 / 2 ^ 150 := by
  have := roundFloat_error 24 (-126) x
  have e : (2 : ℚ) ^ ((-126 : Int) - ((24 : Nat) : Int)) = 1 / 2 ^ 150 := by
    rw [show ((-126 : Int) - ((24 : Nat) : Int)) = -((150 : Nat) : Int) by norm_num, zpow_neg,
      zpow_natCast, one_div]
  rw [e] at this
  have e2 : (2 : ℚ) ^ 24 = 16777216 := by norm_num
  rw [e2] at this
  exact this

/-- Error of the rounding to `double`. -/
theorem f64_error (x : ℚ) : |f64 x - x| ≤ |x| / 9007199254740992 + 1 / 2 ^ 1075 := by
  have := roundFloat_error 53 (-1022) x
  have e : (2 : ℚ) ^ ((-1022 : Int) - ((53 : Nat) : Int)) = 1 / 2 ^ 1075 := by
    rw [show ((-1022 : Int) - ((53 : Nat) : Int)) = -((1075 : Nat) : Int) by norm_num, zpow_neg,
      zpow_natCast, one_div]
  rw [e] at this
  have e2 : (2 : ℚ) ^ 53 = 9007199254740992 := by norm_num
  rw [e2] at this
  exact this

/-- Evaluation of `f32` at a positive rational of the normal range. -/
theorem f32_eval (x y : ℚ) (e k : Int) (hemin : -126 ≤ e) (h1 : (2 : ℚ) ^ e ≤ x)
    (h2 : x < (2 : ℚ) ^ (e + 1)) (hy : y = (k : ℚ) * 2 ^ (e - 23))
    (h3 : |x - y| < 2 ^ (e - 24)) : f32 x = y := by
  rw [hy] at h3 ⊢
  exact roundFloat_eval 24 (-126) e k x hemin h1 h2 h3

/-- Evaluation of `f64` at a positive rational of the normal range. -/
theorem f64_eval (x y : ℚ) (e k : Int) (hemin : -1022 ≤ e) (h1 : (2 : ℚ) ^ e ≤ x)
    (h2 : x < (2 : ℚ) ^ (e + 1)) (hy : y = (k : ℚ) * 2 ^ (e - 52))
    (h3 : |x - y| < 2 ^ (e - 53)) : f64 x = y := by
  rw [hy] at h3 ⊢
  exact roundFloat_eval 53 (-1022) e k x hemin h1 h2 h3

/-- A rational halfway between two integers rounds to the even one; here the
lower one is even. -/
theorem roundNE_tie_even (k : Int) (hk : k % 2 = 0) : roundNE ((k : ℚ) + 1 / 2) = k := by
  have hf : ⌊(k : ℚ) + 1 / 2⌋ = k :=
    Int.floor_eq_iff.mpr ⟨by linarith, by linarith⟩
  unfold roundNE
  dsimp only
  rw [hf, if_neg (by norm_num), if_neg (by norm_num), if_pos hk]

/-- Evaluation of the rounding at a tie: a positive rational of the normal range
that lies half a quantum above a multiple `k * 2^(e-(p-1))` with `k` even rounds
down to it. -/
theorem roundFloat_eval_tie (p : Nat) (emin e k : Int) (x : ℚ) (hemin : emin ≤ e)
    (h1 : (2 : ℚ) ^ e ≤ x) (h2 : x < (2 : ℚ) ^ (e + 1)) (hk : k % 2 = 0)
    (h3 : x - (k : ℚ) * 2 ^ (e - ((p : Int) - 1)) = 2 ^ (e - (p : Int))) :
    roundFloat p emin x = (k : ℚ) * 2 ^ (e - ((p : Int) - 1)) := by
  have two : (2 : ℚ) ≠ 0 := two_ne_zero
  have hx : 0 < x := lt_of_lt_of_le (zpow_pos (by norm_num) e) h1
  rw [roundFloat_of_pos p emin x hx, ilog2_unique x e h1 h2, max_eq_left hemin]
  have hq : (0 : ℚ) < 2 ^ (e - ((p : Int) - 1)) := zpow_pos (by norm_num) _
  have hhalf : (2 : ℚ) ^ (e - (p : Int)) = 1 / 2 * 2 ^ (e - ((p : Int) - 1)) := by
    have : e - ((p : Int) - 1) = (e - (p : Int)) + 1 := by ring
    rw [this, zpow_add_one₀ two]
    ring
  have hc : x / 2 ^ (e - ((p : Int) - 1)) = (k : ℚ) + 1 / 2 := by
    rw [div_eq_iff hq.ne']
    rw [hhalf] at h3
    linarith
  rw [hc, roundNE_tie_even k hk]

/-- Evaluation of `f32` at a tie with an even lower neighbour. -/
theorem f32_eval_tie (x y : ℚ) (e k : Int) (hemin : -126 ≤ e) (h1 : (2 : ℚ) ^ e ≤ x)
    (h2 : x < (2 : ℚ) ^ (e + 1)) (hk : k % 2 = 0) (hy : y = (k : ℚ) * 2 ^ (e - 23))
    (h3 : x - y = 2 ^ (e - 24)) : f32 x = y := by
  rw [hy] at h3 ⊢
  exact roundFloat_eval_tie 24 (-126) e k x hemin h1 h2 hk h3

/-- A rational halfway between two integers rounds to the even one; here the
upper one is even. -/
theorem roundNE_tie_odd (k : Int) (hk : k % 2 = 1) : roundNE ((k : ℚ) + 1 / 2) = k + 1 := by
  have hf : ⌊(k : ℚ) + 1 / 2⌋ = k :=
    Int.floor_eq_iff.mpr ⟨by linarith, by linarith⟩
  unfold roundNE
  dsimp only
  rw [hf, if_neg (by norm_num), if_neg (by norm_num), if_neg (by omega)]

/-- Evaluation of the rounding at a tie: a positive rational of the normal range
that lies half a quantum below a multiple `k * 2^(e-(p-1))` with `k` even rounds
up to it. -/
theorem roundFloat_eval_tie_up (p : Nat) (emin e k : Int) (x : ℚ) (hemin : emin ≤ e)
    (h1 : (2 : ℚ) ^ e ≤ x) (h2 : x < (2 : ℚ) ^ (e + 1)) (hk : k % 2 = 0)
    (h3 : (k : ℚ) * 2 ^ (e - ((p : Int) - 1)) - x = 2 ^ (e - (p : Int))) :
    roundFloat p emin x = (k : ℚ) * 2 ^ (e - ((p : Int) - 1)) := by
  have two : (2 : ℚ) ≠ 0 := two_ne_zero
  have hx : 0 < x := lt_of_lt_of_le (zpow_pos (by norm_num) e) h1
  rw [roundFloat_of_pos p emin x hx, ilog2_unique x e h1 h2, max_eq_left hemin]
  have hq : (0 : ℚ) < 2 ^ (e - ((p : Int) - 1)) := zpow_pos (by norm_num) _
  have hhalf : (2 : ℚ) ^ (e - (p : Int)) = 1 / 2 * 2 ^ (e - ((p : Int) - 1)) := by
    have : e - ((p : Int) - 1) = (e - (p : Int)) + 1 := by ring
    rw [this, zpow_add_one₀ two]
    ring
  have hc : x / 2 ^ (e - ((p : Int) - 1)) = ((k - 1 : Int) : ℚ) + 1 / 2 := by
    rw [div_eq_iff hq.ne']
    rw [hhalf] at h3
    push_cast
    linarith
  rw [hc, roundNE_tie_odd (k - 1) (by omega)]
  congr 2
  ring

/-- Evaluation of `f32` at a tie with an even upper neighbour. -/
theorem f32_eval_tie_up (x y : ℚ) (e k : Int) (hemin : -126 ≤ e) (h1 : (2 : ℚ) ^ e ≤ x)
    (h2 : x < (2 : ℚ) ^ (e + 1)) (hk : k % 2 = 0) (hy : y = (k : ℚ) * 2 ^ (e - 23))
    (h3 : y - x = 2 ^ (e - 24)) : f32 x = y := by
  rw [hy] at h3 ⊢
  exact roundFloat_eval_tie_up 24 (-126) e k x hemin h1 h2 hk h3

/-! ## Theorems on the routines in `float` arithmetic -/

/-- A negative rounded value comes from a negative exact value. -/
theorem f32_neg_of (x : ℚ) (h : f32 x < 0) : x < 0 := by
  by_contra hx
  have := f32_nonneg x (not_lt.mp hx)
  linarith

/-- In `float` arithmetic the value emitted for a sign change between the
samples `s0` (a `float`) and `s1` at scan index `i < 2^24 - 1` lies in
`[i, i+1]`. -/
theorem zc_emission_f32_bounds (s0 s1 : ℚ) (h0 : f32 s0 = s0) (hneg : f32 (s0 * s1) < 0)
    (i : Nat) (hi : i + 1 < 16777216) :
    (i : ℚ) ≤ f32 (f32 (-s0 / f32 (s1 - s0)) + f32 (i : ℚ)) ∧
    f32 (f32 (-s0 / f32 (s1 - s0)) + f32 (i : ℚ)) ≤ (i : ℚ) + 1 := by
  have hs : s0 * s1 < 0 := f32_neg_of _ hneg
  have key : 0 ≤ -s0 / f32 (s1 - s0) ∧ -s0 / f32 (s1 - s0) ≤ 1 := by
    rcases mul_neg_iff.mp hs with ⟨ha, hb⟩ | ⟨ha, hb⟩
    · have h1 : f32 (s1 - s0) ≤ f32 (-s0) := f32_mono _ _ (by linarith)
      rw [f32_neg, h0] at h1
      have hd : 0 < -f32 (s1 - s0) := by linarith
      have e : -s0 / f32 (s1 - s0) = s0 / -f32 (s1 - s0) := by
        rw [div_neg, neg_div]
      rw [e]
      exact ⟨div_nonneg ha.le hd.le, (div_le_one hd).mpr (by linarith)⟩
    · have h1 : f32 (-s0) ≤ f32 (s1 - s0) := f32_mono _ _ (by linarith)
      rw [f32_neg, h0] at h1
      have hd : 0 < f32 (s1 - s0) := by linarith
      exact ⟨div_nonneg (by linarith) hd.le, (div_le_one hd).mpr h1⟩
  have x0 : 0 ≤ f32 (-s0 / f32 (s1 - s0)) := f32_nonneg _ key.1
  have x1 : f32 (-s0 / f32 (s1 - s0)) ≤ 1 := by
    have := f32_mono _ _ key.2
    rw [f32_one] at this
    exact this
  have hi0 : f32 (i : ℚ) = (i : ℚ) := f32_natCast i (by omega)
  have hi1 : f32 (((i + 1 : Nat) : ℚ)) = ((i + 1 : Nat) : ℚ) := f32_natCast (i + 1) hi
  rw [hi0]
  constructor
  · have := f32_mono (i : ℚ) (f32 (-s0 / f32 (s1 - s0)) + (i : ℚ)) (by linarith)
    rw [hi0] at this
    exact this
  · have := f32_mono (f32 (-s0 / f32 (s1 - s0)) + (i : ℚ)) (((i + 1 : Nat) : ℚ))
      (by push_cast; linarith)
    rw [hi1] at this
    push_cast at this
    exact this

/-- Invariant of the scan in `float` arithmetic: the entries written so far are
at most the scan index and non-decreasing; so are the entries at the end. -/
theorem zcLoop_f32_nondecreasing (sig : Nat → ℚ) (Z : Nat) (hsig : ∀ i, f32 (sig i) = sig i) :
    ∀ (n i cross : Nat) (out : Nat → ℚ), i + n < 16777216 →
      (∀ k, k < cross → out k ≤ (i : ℚ)) →
      (∀ k, k + 1 < cross → out k ≤ out (k + 1)) →
      ∀ k, k + 1 < (zcLoop_f32 sig Z n i cross out).2 →
        (zcLoop_f32 sig Z n i cross out).1 k ≤ (zcLoop_f32 sig Z n i cross out).1 (k + 1) := by
  intro n
  induction n with
  | zero =>
    intro i cross out _ _ h2 k hk
    exact h2 k hk
  | succ n ih =>
    intro i cross out hi h1 h2
    have step : ∀ v : ℚ, (i : ℚ) ≤ v → v ≤ (i : ℚ) + 1 →
        ∀ k, k + 1 < (zcLoop_f32 sig Z n (i + 1) (cross + 1) (Function.update out cross v)).2 →
          (zcLoop_f32 sig Z n (i + 1) (cross + 1) (Function.update out cross v)).1 k
            ≤ (zcLoop_f32 sig Z n (i + 1) (cross + 1) (Function.update out cross v)).1 (k + 1) := by
      intro v v1 v2
      apply ih (i + 1) (cross + 1) (Function.update out cross v) (by omega)
      · intro k hk
        push_cast
        by_cases hkc : k = cross
        · rw [hkc, Function.update_same]; exact v2
        · rw [Function.update_noteq hkc]
          have := h1 k (by omega)
          linarith
      · intro k hk
        by_cases hkc : k + 1 = cross
        · rw [hkc, Function.update_same, Function.update_noteq (by omega)]
          have := h1 k (by omega)
          linarith
        · rw [Function.update_noteq (by omega), Function.update_noteq (by omega)]
          exact h2 k (by omega)
    rw [zcLoop_f32]
    by_cases hc : cross < Z
    · rw [if_pos hc]
      by_cases h0 : sig i = 0
      · rw [if_pos h0]
        have hv : f32 (i : ℚ) = (i : ℚ) := f32_natCast i (by omega)
        rw [hv]
        exact step (i : ℚ) (le_refl _) (by linarith)
      · rw [if_neg h0]
        by_cases hq : IS_SIGN_DIFF_NO_ZERO_f32 (sig i) (sig (i + 1)) = true
        · rw [if_pos hq]
          dsimp only
          have hneg : f32 (sig i * sig (i + 1)) < 0 := by
            simpa [IS_SIGN_DIFF_NO_ZERO_f32] using hq
          obtain ⟨b1, b2⟩ := zc_emission_f32_bounds (sig i) (sig (i + 1)) (hsig i) hneg i
            (by omega)
          exact step _ b1 b2
        · rw [if_neg hq]
          apply ih (i + 1) cross out (by omega)
          · intro k hk
            have := h1 k hk
            push_cast
            linarith
          · exact h2
    · rw [if_neg hc]
      exact h2

/-- C2. In `float` arithmetic the zero crossings written by
`linear_interpolation_zerocrossing` are non-decreasing: for a signal of `float`
samples and at most `2^24` of them, `z[k] ≤ z[k+1]` whenever `k + 1` is below the
returned count.  The value emitted for scan index `i` lies in `[i, i+1]`
(`zc_emission_f32_bounds`); the upper end is reached by rounding, so two
consecutive crossings can be equal. -/
theorem C2_zerocrossing_nondecreasing (sig out : Nat → ℚ) (sig_len Z k : Nat)
    (hsig : ∀ i, f32 (sig i) = sig i) (h1 : 1 ≤ sig_len) (h2 : sig_len ≤ 16777216)
    (hk : ((k + 1 : Nat) : Int) < (linear_interpolation_zerocrossing_f32 sig sig_len out Z).2) :
    (linear_interpolation_zerocrossing_f32 sig sig_len out Z).1 k
      ≤ (linear_interpolation_zerocrossing_f32 sig sig_len out Z).1 (k + 1) := by
  unfold linear_interpolation_zerocrossing_f32 at hk ⊢
  dsimp only at hk ⊢
  have hu : toU32 ((sig_len : Int) - 1) = sig_len - 1 := by
    rw [toU32_of_nonneg _ (by omega) (by omega)]
    omega
  rw [hu] at hk ⊢
  apply zcLoop_f32_nondecreasing sig Z hsig (sig_len - 1) 0 0 out (by omega)
  · intro k hk; exact absurd hk (Nat.not_lt_zero _)
  · intro k hk; exact absurd hk (Nat.not_lt_zero _)
  · have := toI32_le (zcLoop_f32 sig Z (sig_len - 1) 0 0 out).2
    omega

theorem f32_eps : f32 (9007199 / 9007199254740992) = 9007199 / 9007199254740992 :=
  f32_eval _ _ (-30) 9007199 (by norm_num) (by norm_num) (by norm_num) (by norm_num)
    (by rw [abs_lt]; constructor <;> norm_num)

theorem f32_one_eps : f32 (1 + 9007199 / 9007199254740992) = 1 :=
  f32_eval _ _ 0 8388608 (by norm_num) (by norm_num) (by norm_num) (by norm_num)
    (by rw [abs_lt]; constructor <;> norm_num)

/-- The samples of `roundSig` are `float` values. -/
theorem roundSig_float : ∀ i, f32 (roundSig i) = roundSig i := by
  intro i
  match i with
  | 0 => exact f32_one
  | 1 =>
    show f32 (-(9007199 / 9007199254740992)) = -(9007199 / 9007199254740992)
    rw [f32_neg, f32_eps]
  | 2 => exact f32_one
  | n + 3 => exact f32_zero

/-- One iteration of the scan in `float` arithmetic that finds a sign change. -/
theorem zcLoop_f32_cross (sig : Nat → ℚ) (Z n i cross : Nat) (out : Nat → ℚ) (hc : cross < Z)
    (h0 : sig i ≠ 0) (hq : IS_SIGN_DIFF_NO_ZERO_f32 (sig i) (sig (i + 1)) = true) :
    zcLoop_f32 sig Z (n + 1) i cross out
      = zcLoop_f32 sig Z n (i + 1) (cross + 1)
          (Function.update out cross
            (f32 (f32 (-sig i / f32 (sig (i + 1) - sig i)) + f32 (i : ℚ)))) := by
  rw [zcLoop_f32, if_pos hc, if_neg h0, if_pos hq]

/-- The value stored for the sign change at index 0 of `roundSig`: the slope
`-1e-9 - 1` rounds to `-1`. -/
theorem roundSig_first :
    f32 (f32 (-roundSig 0 / f32 (roundSig (0 + 1) - roundSig 0)) + f32 ((0 : Nat) : ℚ)) = 1 := by
  have s0 : roundSig 0 = 1 := rfl
  have s1 : roundSig (0 + 1) = -(9007199 / 9007199254740992) := rfl
  rw [s0, s1, show (-(9007199 / 9007199254740992) - 1 : ℚ) = -(1 + 9007199 / 9007199254740992)
    by ring, f32_neg, f32_one_eps, show (-1 / -1 : ℚ) = 1 by norm_num, f32_one, Nat.cast_zero,
    f32_zero, add_zero, f32_one]

/-- The value stored for the sign change at index 1 of `roundSig`: the sum
`1e-9 + 1` rounds to `1`. -/
theorem roundSig_second :
    f32 (f32 (-roundSig 1 / f32 (roundSig (1 + 1) - roundSig 1)) + f32 ((1 : Nat) : ℚ)) = 1 := by
  have s1 : roundSig 1 = -(9007199 / 9007199254740992) := rfl
  have s2 : roundSig (1 + 1) = 1 := rfl
  rw [s1, s2, sub_neg_eq_add, f32_one_eps, neg_neg, div_one, f32_eps, Nat.cast_one, f32_one,
    add_comm, f32_one_eps]

/-- The run of `linear_interpolation_zerocrossing` in `float` arithmetic on
`roundSig`: two crossings, both stored as `1.0`. -/
theorem roundSig_run :
    linear_interpolation_zerocrossing_f32 roundSig 3 zcOut ZEROCROSS_LEN
      = (Function.update (Function.update zcOut 0 1) 1 1, 2) := by
  have s0 : roundSig 0 = 1 := rfl
  have s1 : roundSig 1 = -(9007199 / 9007199254740992) := rfl
  have s2 : roundSig (1 + 1) = 1 := rfl
  have hu : toU32 (((3 : Nat) : Int) - 1) = 1 + 1 := by decide
  have q0 : IS_SIGN_DIFF_NO_ZERO_f32 (roundSig 0) (roundSig (0 + 1)) = true := by
    rw [s0, show roundSig (0 + 1) = -(9007199 / 9007199254740992) from rfl]
    unfold IS_SIGN_DIFF_NO_ZERO_f32
    rw [one_mul, f32_neg, f32_eps]
    norm_num
  have q1 : IS_SIGN_DIFF_NO_ZERO_f32 (roundSig 1) (roundSig (1 + 1)) = true := by
    rw [s1, s2]
    unfold IS_SIGN_DIFF_NO_ZERO_f32
    rw [mul_one, f32_neg, f32_eps]
    norm_num
  have r1 : zcLoop_f32 roundSig ZEROCROSS_LEN (1 + 1) 0 0 zcOut
      = zcLoop_f32 roundSig ZEROCROSS_LEN 1 (0 + 1) (0 + 1) (Function.update zcOut 0 1) := by
    rw [zcLoop_f32_cross roundSig ZEROCROSS_LEN 1 0 0 zcOut (by decide) (by rw [s0]; norm_num) q0,
      roundSig_first]
  have r2 : zcLoop_f32 roundSig ZEROCROSS_LEN (0 + 1) 1 1 (Function.update zcOut 0 1)
      = zcLoop_f32 roundSig ZEROCROSS_LEN 0 (1 + 1) (1 + 1)
          (Function.update (Function.update zcOut 0 1) 1 1) := by
    rw [zcLoop_f32_cross roundSig ZEROCROSS_LEN 0 1 1 _ (by decide) (by rw [s1]; norm_num) q1,
      roundSig_second]
  have r3 : zcLoop_f32 roundSig ZEROCROSS_LEN 0 (1 + 1) (1 + 1)
        (Function.update (Function.update zcOut 0 1) 1 1)
      = (Function.update (Function.update zcOut 0 1) 1 1, 2) := by
    rw [zcLoop_f32]
  have run : zcLoop_f32 roundSig ZEROCROSS_LEN (1 + 1) 0 0 zcOut
      = (Function.update (Function.update zcOut 0 1) 1 1, 2) := by
    rw [r1]
    exact r2.trans r3
  unfold linear_interpolation_zerocrossing_f32
  rw [hu, run]
  rfl

/-- The count and the two values of the run on `roundSig`. -/
theorem roundSig_crossings :
    (linear_interpolation_zerocrossing_f32 roundSig 3 zcOut ZEROCROSS_LEN).2 = 2 ∧
    (linear_interpolation_zerocrossing_f32 roundSig 3 zcOut ZEROCROSS_LEN).1 0 = 1 ∧
    (linear_interpolation_zerocrossing_f32 roundSig 3 zcOut ZEROCROSS_LEN).1 1 = 1 := by
  rw [roundSig_run]
  refine ⟨rfl, ?_, ?_⟩
  · show Function.update (Function.update zcOut 0 1) 1 1 0 = 1
    rw [Function.update_noteq (by decide), Function.update_same]
  · show Function.update (Function.update zcOut 0 1) 1 1 1 = 1
    rw [Function.update_same]

/-- C2 fails as stated.  On the three `float` samples `1.0f, -1e-9f, 1.0f` the
code finds two crossings and stores `1.0` for both: at `i = 0` the slope
`-1e-9 - 1` rounds to `-1`, so `x = 1`, and at `i = 1` the sum `1e-9 + 1` rounds
to `1`; `z[0] < z[1]` is false. -/
theorem C2_counterexample :
    (∀ i, f32 (roundSig i) = roundSig i) ∧
    (linear_interpolation_zerocrossing_f32 roundSig 3 zcOut ZEROCROSS_LEN).2 = 2 ∧
    (linear_interpolation_zerocrossing_f32 roundSig 3 zcOut ZEROCROSS_LEN).1 0 = 1 ∧
    (linear_interpolation_zerocrossing_f32 roundSig 3 zcOut ZEROCROSS_LEN).1 1 = 1 ∧
    ¬ ((linear_interpolation_zerocrossing_f32 roundSig 3 zcOut ZEROCROSS_LEN).1 0
      < (linear_interpolation_zerocrossing_f32 roundSig 3 zcOut ZEROCROSS_LEN).1 1) := by
  obtain ⟨a, b, c⟩ := roundSig_crossings
  refine ⟨roundSig_float, a, b, c, ?_⟩
  rw [b, c]
  exact lt_irrefl _

/-- C2 as amended, at the signal `roundSig`: the two crossings are in order. -/
theorem C2_witness :
    ((∀ i, f32 (roundSig i) = roundSig i) ∧ 1 ≤ 3 ∧ 3 ≤ 16777216 ∧
      ((0 + 1 : Nat) : Int)
        < (linear_interpolation_zerocrossing_f32 roundSig 3 zcOut ZEROCROSS_LEN).2) ∧
    (linear_interpolation_zerocrossing_f32 roundSig 3 zcOut ZEROCROSS_LEN).1 0
      ≤ (linear_interpolation_zerocrossing_f32 roundSig 3 zcOut ZEROCROSS_LEN).1 (0 + 1) :=
  ⟨⟨roundSig_float, by decide, by decide, by rw [roundSig_crossings.1]; decide⟩,
    C2_zerocrossing_nondecreasing roundSig zcOut 3 ZEROCROSS_LEN 0 roundSig_float (by decide)
      (by decide) (by rw [roundSig_crossings.1]; decide)⟩

/-- The `float` counter of `match_shape` is zero at the end exactly when the
exact counter is: once a pair is counted it is at least 1. -/
theorem match_shape_inner_f32_zero_iff (R C : Int → Peak) (off : Int) :
    ∀ (n : Nat) (i : Int) (sum count sum2 count2 : ℚ), 0 ≤ count → 0 ≤ count2 →
      (count = 0 ↔ count2 = 0) →
      ((match_shape_inner_f32 R C off n i sum count).2 = 0 ↔
        (match_shape_inner R C off n i sum2 count2).2 = 0) := by
  intro n
  induction n with
  | zero => intro i sum count sum2 count2 _ _ h; exact h
  | succ n ih =>
    intro i sum count sum2 count2 h1 h2 h
    rw [match_shape_inner_f32, match_shape_inner]
    by_cases hp : (R i).1 ≠ 0 ∧ (C i).1 ≠ 0
    · rw [if_pos hp, if_pos hp]
      dsimp only
      have hf : 1 ≤ f32 (count + 1) := by
        have := f32_mono 1 (count + 1) (by linarith)
        rw [f32_one] at this
        exact this
      apply ih _ _ _ _ _ (by linarith) (by linarith)
      constructor
      · intro h0; linarith
      · intro h0; linarith
    · rw [if_neg hp, if_neg hp]
      exact ih _ _ _ _ _ h1 h2 h

/-- An MSE entry is NaN in `float` arithmetic exactly when it is NaN in exact
arithmetic: when no pair is counted. -/
theorem match_shape_entry_f32_none_iff (R C : Int → Peak) (len off : Int) :
    match_shape_entry_f32 R C len off = none ↔ match_shape_entry R C len off = none := by
  unfold match_shape_entry_f32 match_shape_entry fdiv
  dsimp only
  generalize (if -off < 0 then 0 else -off) = a
  generalize (if len + off > len then len - off else len + off) = b
  have := match_shape_inner_f32_zero_iff R C off (b - a).toNat a 0 0 0 0 (le_refl _) (le_refl _)
    Iff.rfl
  by_cases h0 : (match_shape_inner_f32 R C off (b - a).toNat a 0 0).2 = 0
  · rw [if_pos h0, if_pos (this.mp h0)]
    simp
  · rw [if_neg h0, if_neg (mt this.mpr h0)]
    simp

/-- In `float` arithmetic the sum and the count of `match_shape` stay
non-negative. -/
theorem match_shape_inner_f32_nonneg (R C : Int → Peak) (off : Int) :
    ∀ (n : Nat) (i : Int) (sum count : ℚ), 0 ≤ sum → 0 ≤ count →
      0 ≤ (match_shape_inner_f32 R C off n i sum count).1 ∧
      0 ≤ (match_shape_inner_f32 R C off n i sum count).2 := by
  intro n
  induction n with
  | zero => intro i sum count hs hc; exact ⟨hs, hc⟩
  | succ n ih =>
    intro i sum count hs hc
    rw [match_shape_inner_f32]
    split
    · exact ih _ _ _
        (f32_nonneg _ (add_nonneg hs (f32_nonneg _ (mul_self_nonneg _))))
        (f32_nonneg _ (add_nonneg hc zero_le_one))
    · exact ih _ _ _ hs hc

/-- Every defined MSE entry is non-negative, in `float` arithmetic too. -/
theorem match_shape_entry_f32_nonneg (R C : Int → Peak) (len off : Int) (v : ℚ)
    (h : match_shape_entry_f32 R C len off = some v) : 0 ≤ v := by
  unfold match_shape_entry_f32 at h
  dsimp only at h
  obtain ⟨w, hw, rfl⟩ := Option.map_eq_some'.mp h
  obtain ⟨-, hv⟩ := fdiv_eq_some _ _ _ hw
  rw [hv]
  exact f32_nonneg _ (div_nonneg
    (match_shape_inner_f32_nonneg R C off _ _ 0 0 (le_refl _) (le_refl _)).1
    (match_shape_inner_f32_nonneg R C off _ _ 0 0 (le_refl _) (le_refl _)).2)

/-- What the outer loop of `match_shape` leaves in `mse`, in `float` arithmetic. -/
theorem match_shape_outer_f32_spec (R C : Int → Peak) (len S : Int) :
    ∀ (n : Nat) (off : Int) (mse : Int → Option ℚ) (k : Int),
      match_shape_outer_f32 R C len S n off mse k
        = if off + Int.tdiv S 2 ≤ k ∧ k < off + Int.tdiv S 2 + n then
            match_shape_entry_f32 R C len (k - Int.tdiv S 2)
          else mse k := by
  intro n
  induction n with
  | zero =>
    intro off mse k
    have : ¬ (off + Int.tdiv S 2 ≤ k ∧ k < off + Int.tdiv S 2 + ((0 : Nat) : Int)) := by
      push_cast; omega
    rw [if_neg this]; rfl
  | succ n ih =>
    intro off mse k
    rw [match_shape_outer_f32, ih]
    by_cases h1 : off + 1 + Int.tdiv S 2 ≤ k ∧ k < off + 1 + Int.tdiv S 2 + (n : Int)
    · rw [if_pos h1, if_pos (by push_cast; omega)]
    · rw [if_neg h1]
      by_cases h2 : k = off + Int.tdiv S 2
      · subst h2
        rw [Function.update_same, if_pos (by push_cast; omega)]
        congr 1; omega
      · rw [Function.update_noteq h2, if_neg (by push_cast; omega)]

/-- With search range 9, `mse[off + 4]` holds the entry computed for `off`, in
`float` arithmetic. -/
theorem match_shape_f32_mse (R C : Int → Peak) (len : Int) (mse0 : Int → Option ℚ) (off : Int)
    (h1 : -4 ≤ off) (h2 : off ≤ 4) :
    (match_shape_f32 R C len mse0 9).1 (off + 4) = match_shape_entry_f32 R C len off := by
  have e1 : Int.tdiv (9 : Int) 2 = 4 := by decide
  have e2 : Int.tdiv (-(9 : Int)) 2 = -4 := by decide
  simp only [match_shape_f32, e1, e2]
  rw [match_shape_outer_f32_spec, e1, if_pos (by constructor <;> simp <;> omega)]
  congr 1; omega

/-- The index returned by `match_shape` is `arg_minf` of the entries. -/
theorem match_shape_f32_index (R C : Int → Peak) (len : Int) (mse0 : Int → Option ℚ) (S : Int) :
    (match_shape_f32 R C len mse0 S).2 = arg_minf (match_shape_f32 R C len mse0 S).1 S := by
  unfold match_shape_f32
  rfl

/-- If some MSE entry is NaN, `mse[0]` (offset -4) is NaN, in `float`
arithmetic too. -/
theorem match_shape_f32_nan_first (R C : Int → Peak)
    (h : ∃ off : Int, -4 ≤ off ∧ off ≤ 4 ∧
      (match_shape_f32 R C PEAK_LEN (fun _ => none) MSE_RANGE).1
        (off + Int.tdiv MSE_RANGE 2) = none) :
    (match_shape_f32 R C PEAK_LEN (fun _ => none) MSE_RANGE).1 0 = none := by
  have e9 : MSE_RANGE = 9 := rfl
  have e1 : Int.tdiv (9 : Int) 2 = 4 := by decide
  obtain ⟨off, o1, o2, o3⟩ := h
  simp only [e9, e1] at o3 ⊢
  rw [match_shape_f32_mse R C PEAK_LEN _ off o1 o2, match_shape_entry_f32_none_iff] at o3
  have := match_shape_entry_nan_first R C PEAK_LEN off o1 o2 o3
  rw [← match_shape_entry_f32_none_iff,
    ← match_shape_f32_mse R C PEAK_LEN (fun _ => none) (-4) (by omega) (by omega)] at this
  exact this

/-- The shape gate of a channel whose `mse[0]` is NaN, in `float` arithmetic:
`mini_mse` is 0, the comparison with the NaN is false, and the gate leaves
`ERR_MSE_NAN` with `is_data_correct` cleared. -/
theorem shape_gate_f32_nan (ref shape : Int → Peak) (h : Option ℚ) (err : Int) (ok : Bool)
    (hnan : (match_shape_f32 ref shape PEAK_LEN (fun _ => none) MSE_RANGE).1 0 = none) :
    (shape_gate_f32 ref shape h err ok).is_data_correct = false ∧
    (shape_gate_f32 ref shape h err ok).err = ERR_MSE_NAN ∧
    (shape_gate_f32 ref shape h err ok).mse_history = none := by
  have hmini : (match_shape_f32 ref shape PEAK_LEN (fun _ => none) MSE_RANGE).2 = 0 := by
    rw [match_shape_f32_index]
    unfold arg_minf
    rw [hnan, arg_minf_loop_nan]
    rfl
  unfold shape_gate_f32
  dsimp only
  rw [hmini, hnan]
  have hs : smooth_mse_f32 h none = none := by
    unfold smooth_mse_f32; cases h <;> rfl
  rw [hs]
  exact ⟨rfl, rfl, rfl⟩

/-- What the shape gate can leave in `err` and `is_data_correct`: the codes of
its two tests or the incoming code, and a flag it never sets. -/
theorem shape_gate_f32_flags (ref shape : Int → Peak) (h : Option ℚ) (err : Int) (ok : Bool) :
    ((shape_gate_f32 ref shape h err ok).err = ERR_SHAPE_MISMATCH ∨
      (shape_gate_f32 ref shape h err ok).err = ERR_MSE_NAN ∨
      (shape_gate_f32 ref shape h err ok).err = err) ∧
    ((shape_gate_f32 ref shape h err ok).is_data_correct = false ∨
      (shape_gate_f32 ref shape h err ok).is_data_correct = ok) := by
  unfold shape_gate_f32
  dsimp only
  split_ifs
  · exact ⟨Or.inl rfl, Or.inl rfl⟩
  · exact ⟨Or.inr (Or.inl rfl), Or.inl rfl⟩
  · exact ⟨Or.inr (Or.inr rfl), Or.inr rfl⟩

/-- Once a gate has cleared `is_data_correct`, the later gates leave it cleared
and leave one of the two fault codes in `err`. -/
theorem gate_loop_f32_fault (ref shapes : Int → Int → Peak) :
    ∀ (n : Nat) (idx : Int) (st : Flags), st.is_data_correct = false →
      (st.err = ERR_MSE_NAN ∨ st.err = ERR_SHAPE_MISMATCH) →
      (gate_loop_f32 ref shapes n idx st).is_data_correct = false ∧
      ((gate_loop_f32 ref shapes n idx st).err = ERR_MSE_NAN ∨
        (gate_loop_f32 ref shapes n idx st).err = ERR_SHAPE_MISMATCH) := by
  intro n
  induction n with
  | zero => intro idx st h1 h2; exact ⟨h1, h2⟩
  | succ n ih =>
    intro idx st h1 h2
    rw [gate_loop_f32]
    obtain ⟨a, b⟩ := shape_gate_f32_flags (ref idx) (shapes idx) (st.mse_history idx) st.err
      st.is_data_correct
    apply ih
    · dsimp only
      rcases b with b | b
      · exact b
      · rw [b]; exact h1
    · dsimp only
      rcases a with a | a | a
      · right; exact a
      · left; exact a
      · rw [a]; exact h2

/-- If `mse[0]` of one of the channels `idx, ..., idx+n-1` is NaN, the loop over
the channels ends with `is_data_correct` cleared and one of the two fault codes
in `err`. -/
theorem gate_loop_f32_nan (ref shapes : Int → Int → Peak) :
    ∀ (n : Nat) (idx : Int) (st : Flags),
      (∃ j : Int, idx ≤ j ∧ j < idx + n ∧
        (match_shape_f32 (ref j) (shapes j) PEAK_LEN (fun _ => none) MSE_RANGE).1 0 = none) →
      (gate_loop_f32 ref shapes n idx st).is_data_correct = false ∧
      ((gate_loop_f32 ref shapes n idx st).err = ERR_MSE_NAN ∨
        (gate_loop_f32 ref shapes n idx st).err = ERR_SHAPE_MISMATCH) := by
  intro n
  induction n with
  | zero =>
    rintro idx st ⟨j, j1, j2, -⟩
    simp at j2
    omega
  | succ n ih =>
    rintro idx st ⟨j, j1, j2, j3⟩
    rw [gate_loop_f32]
    by_cases hj : j = idx
    · subst hj
      obtain ⟨a, b, -⟩ := shape_gate_f32_nan (ref j) (shapes j) (st.mse_history j) st.err
        st.is_data_correct j3
      exact gate_loop_f32_fault ref shapes n (j + 1) _ a (Or.inl b)
    · exact ih (idx + 1) _ ⟨j, by omega, by push_cast at j2; omega, j3⟩

/-! ### Rounded values on the constellation `dimShape`

The value of each rounded operation of `match_shape` and of the shape gate for
the reference `mainOnlyShape` and the constellation `dimShape`, each from its
exponent and its significand by `f32_eval`, `f64_eval` or `f32_eval_tie`. -/

theorem dim_v : f32 (838861 / 8388608) = 838861 / 8388608 :=
  f32_eval _ _ (-4) 13421776 (by norm_num) (by norm_num) (by norm_num) (by norm_num)
    (by rw [abs_lt]; constructor <;> norm_num)

theorem dim_vv : f32 (838861 / 8388608 * (838861 / 8388608)) = 10737423 / 1073741824 :=
  f32_eval _ _ (-7) 10737423 (by norm_num) (by norm_num) (by norm_num) (by norm_num)
    (by rw [abs_lt]; constructor <;> norm_num)

theorem dim_m : f32 (10737423 / 1073741824) = 10737423 / 1073741824 :=
  f32_eval _ _ (-7) 10737423 (by norm_num) (by norm_num) (by norm_num) (by norm_num)
    (by rw [abs_lt]; constructor <;> norm_num)

/-- The `double` literal `0.1`. -/
theorem f64_tenth : f64 (1 / 10) = 3602879701896397 / 36028797018963968 :=
  f64_eval _ _ (-4) 7205759403792794 (by norm_num) (by norm_num) (by norm_num) (by norm_num)
    (by rw [abs_lt]; constructor <;> norm_num)

/-- The `double` literal `0.9`. -/
theorem f64_nine_tenths : f64 (9 / 10) = 8106479329266893 / 9007199254740992 :=
  f64_eval _ _ (-1) 8106479329266893 (by norm_num) (by norm_num) (by norm_num) (by norm_num)
    (by rw [abs_lt]; constructor <;> norm_num)

theorem dim_p : f64 (3602879701896397 / 36028797018963968 * (10737423 / 1073741824)) = 4611688062831821 / 4611686018427387904 :=
  f64_eval _ _ (-10) 4611688062831821 (by norm_num) (by norm_num) (by norm_num) (by norm_num)
    (by rw [abs_lt]; constructor <;> norm_num)

theorem dim_p2 : f64 (4611688062831821 / 4611686018427387904) = 4611688062831821 / 4611686018427387904 :=
  f64_eval _ _ (-10) 4611688062831821 (by norm_num) (by norm_num) (by norm_num) (by norm_num)
    (by rw [abs_lt]; constructor <;> norm_num)

theorem dim_h : f32 (4611688062831821 / 4611686018427387904) = 4294969 / 4294967296 :=
  f32_eval _ _ (-10) 8589938 (by norm_num) (by norm_num) (by norm_num) (by norm_num)
    (by rw [abs_lt]; constructor <;> norm_num)

theorem dim_t : f32 (4294969 / 4294967296 * 10) = 5368711 / 536870912 :=
  f32_eval_tie _ _ (-7) 10737422 (by norm_num) (by norm_num) (by norm_num) (by decide)
    (by norm_num) (by norm_num)

/-- The inner loop of `match_shape` over a range without a counted pair leaves
the sum and the count as they are. -/
theorem match_shape_inner_f32_skip (R C : Int → Peak) (off : Int) :
    ∀ (n : Nat) (i : Int) (sum count : ℚ),
      (∀ j : Int, i ≤ j → j < i + n → ¬ ((R j).1 ≠ 0 ∧ (C j).1 ≠ 0)) →
      match_shape_inner_f32 R C off n i sum count = (sum, count) := by
  intro n
  induction n with
  | zero => intro i sum count _; rfl
  | succ n ih =>
    intro i sum count h
    rw [match_shape_inner_f32, if_neg (h i (le_refl _) (by push_cast; omega))]
    exact ih (i + 1) sum count (fun j j1 j2 => h j (by omega) (by push_cast; omega))

/-- The inner loop of `match_shape` over a range with exactly one counted pair,
at index `s`. -/
theorem match_shape_inner_f32_single (R C : Int → Peak) (off s : Int)
    (hs : (R s).1 ≠ 0 ∧ (C s).1 ≠ 0)
    (hother : ∀ j : Int, j ≠ s → ¬ ((R j).1 ≠ 0 ∧ (C j).1 ≠ 0)) :
    ∀ (n : Nat) (i : Int) (sum count : ℚ), i ≤ s → s < i + n →
      match_shape_inner_f32 R C off n i sum count
        = (f32 (sum + f32 (f32 ((R s).2 - (C (s + off)).2) * f32 ((R s).2 - (C (s + off)).2))),
            f32 (count + 1)) := by
  intro n
  induction n with
  | zero => intro i sum count h1 h2; simp at h2; omega
  | succ n ih =>
    intro i sum count h1 h2
    rw [match_shape_inner_f32]
    by_cases hi : i = s
    · subst hi
      rw [if_pos hs]
      exact match_shape_inner_f32_skip R C off n (i + 1) _ _
        (fun j j1 _ => hother j (by omega))
    · rw [if_neg (hother i hi)]
      exact ih (i + 1) sum count (by omega) (by push_cast at h2; omega)

/-- An MSE entry whose loop range holds exactly one counted pair, at index `s`:
the rounded square of the rounded amplitude difference. -/
theorem match_shape_entry_f32_single (R C : Int → Peak) (len off s : Int)
    (hs : (R s).1 ≠ 0 ∧ (C s).1 ≠ 0)
    (hother : ∀ j : Int, j ≠ s → ¬ ((R j).1 ≠ 0 ∧ (C j).1 ≠ 0))
    (h1 : (if -off < 0 then 0 else -off) ≤ s)
    (h2 : s < (if len + off > len then len - off else len + off)) :
    match_shape_entry_f32 R C len off
      = some (f32 (f32 (f32 (f32 ((R s).2 - (C (s + off)).2)
          * f32 ((R s).2 - (C (s + off)).2))))) := by
  unfold match_shape_entry_f32
  dsimp only
  rw [match_shape_inner_f32_single R C off s hs hother _ _ 0 0 h1 (by omega)]
  dsimp only
  rw [zero_add, zero_add, f32_one]
  unfold fdiv
  rw [if_neg one_ne_zero, div_one]
  rfl

theorem mainOnlyShape_present (j : Int) : (mainOnlyShape j).1 ≠ 0 ↔ j = 8 := by
  unfold mainOnlyShape
  split_ifs with h
  · simp [h]
  · simp [h]

/-- The nine MSE entries of `dimShape` against the reference `mainOnlyShape`
in `float` arithmetic: `0.010000004` for offset 0, `1` for the others. -/
theorem dim_entries (off : Int) (h1 : -4 ≤ off) (h2 : off ≤ 4) :
    (match_shape_f32 mainOnlyShape dimShape PEAK_LEN (fun _ => none) MSE_RANGE).1 (off + 4)
      = if off = 0 then some (10737423 / 1073741824) else some 1 := by
  have e9 : MSE_RANGE = 9 := rfl
  have eL : PEAK_LEN = 17 := rfl
  rw [e9, match_shape_f32_mse mainOnlyShape dimShape PEAK_LEN _ off h1 h2, eL,
    match_shape_entry_f32_single mainOnlyShape dimShape 17 off 8
      ⟨by unfold mainOnlyShape; norm_num, by unfold dimShape; norm_num⟩
      (fun j hj hp => hj ((mainOnlyShape_present j).mp hp.1))
      (by split_ifs <;> omega) (by split_ifs <;> omega)]
  have r8 : (mainOnlyShape 8).2 = 1 := rfl
  rw [r8]
  by_cases h0 : off = 0
  · rw [if_pos h0, h0]
    have c8 : (dimShape (8 + 0)).2 = 7549747 / 8388608 := rfl
    rw [c8, show (1 - 7549747 / 8388608 : ℚ) = 838861 / 8388608 by norm_num, dim_v, dim_vv,
      dim_m, dim_m]
  · rw [if_neg h0]
    have c8 : (dimShape (8 + off)).2 = 0 := by
      unfold dimShape
      rw [if_neg (by omega)]
    rw [c8, sub_zero, f32_one, mul_one, f32_one, f32_one, f32_one]

/-- The index `match_shape` returns for `dimShape` against `mainOnlyShape`. -/
theorem dim_index :
    (match_shape_f32 mainOnlyShape dimShape PEAK_LEN (fun _ => none) MSE_RANGE).2 = 4 := by
  have e9 : MSE_RANGE = 9 := rfl
  have ent : ∀ k : Int, 0 ≤ k → k ≤ 8 →
      (match_shape_f32 mainOnlyShape dimShape PEAK_LEN (fun _ => none) 9).1 k
        = if k - 4 = 0 then some (10737423 / 1073741824) else some 1 := by
    intro k k0 k8
    have := dim_entries (k - 4) (by omega) (by omega)
    rw [sub_add_cancel, e9] at this
    exact this
  rw [match_shape_f32_index, e9]
  obtain ⟨r, m2, a, b, c, d⟩ := arg_minf_nine
    (match_shape_f32 mainOnlyShape dimShape PEAK_LEN (fun _ => none) 9).1 1
    (by rw [ent 0 (by decide) (by decide)]; rfl)
  rw [a]
  have h4 := ent 4 (by decide) (by decide)
  rw [if_pos (by norm_num)] at h4
  have hm := (d 4 (by decide) _ h4).1
  have hr := ent (r : Int) (by omega) (by omega)
  rw [c] at hr
  by_cases hr4 : (r : Int) - 4 = 0
  · omega
  · rw [if_neg hr4] at hr
    have : m2 = 1 := Option.some.inj hr
    rw [this] at hm
    norm_num at hm

/-- The shape gate of `dimShape` against `mainOnlyShape` from the smoothed
history 0, in `float` arithmetic: the update stores `0.0010000002` and the
product by 10 rounds to `0.0099999998`, below the MSE `0.010000004`, so the gate
sets `ERR_SHAPE_MISMATCH`. -/
theorem dim_gate (err : Int) (ok : Bool) :
    shape_gate_f32 mainOnlyShape dimShape (some 0) err ok
      = { peak_off := 0, mse_history := some (4294969 / 4294967296),
          err := ERR_SHAPE_MISMATCH, is_data_correct := false } := by
  have h4 := dim_entries 0 (by decide) (by decide)
  rw [if_pos rfl, zero_add] at h4
  have hs : smooth_mse_f32 (some 0) (some (10737423 / 1073741824))
      = some (4294969 / 4294967296) := by
    unfold smooth_mse_f32
    dsimp only
    rw [f64_tenth, f64_nine_tenths, mul_zero, f64_zero, zero_add, dim_p, dim_p2, dim_h]
  have hf : flt (Option.map (fun a => f32 (a * 10)) (some (4294969 / 4294967296)))
      (some (10737423 / 1073741824)) = true := by
    rw [Option.map_some', dim_t]
    unfold flt
    norm_num
  unfold shape_gate_f32
  dsimp only
  rw [dim_index, h4, hs, hf, if_pos rfl]
  rfl

/-- The loop over `n + 1` channels is the loop over the first `n` followed by
the gate of the last one. -/
theorem gate_loop_f32_succ_last (ref shapes : Int → Int → Peak) :
    ∀ (n : Nat) (idx : Int) (st : Flags),
      gate_loop_f32 ref shapes (n + 1) idx st
        = gate_loop_f32 ref shapes 1 (idx + n) (gate_loop_f32 ref shapes n idx st) := by
  intro n
  induction n with
  | zero =>
    intro idx st
    rw [Nat.cast_zero, add_zero]
    rfl
  | succ n ih =>
    intro idx st
    have e : idx + ((n + 1 : Nat) : Int) = idx + 1 + (n : Int) := by push_cast; ring
    rw [e]
    exact ih (idx + 1) _

/-- The gates of the channels `idx, ..., idx+n-1` leave the smoothed MSE of the
other channels as it is. -/
theorem gate_loop_f32_history (ref shapes : Int → Int → Peak) :
    ∀ (n : Nat) (idx : Int) (st : Flags) (k : Int), (k < idx ∨ idx + n ≤ k) →
      (gate_loop_f32 ref shapes n idx st).mse_history k = st.mse_history k := by
  intro n
  induction n with
  | zero => intro idx st k _; rfl
  | succ n ih =>
    intro idx st k hk
    rw [gate_loop_f32, ih _ _ k (by push_cast at hk; omega)]
    exact Function.update_noteq (by push_cast at hk; omega) _ _

/-- The flags after the gate of a single channel. -/
theorem gate_loop_f32_one (ref shapes : Int → Int → Peak) (idx : Int) (st : Flags) :
    (gate_loop_f32 ref shapes 1 idx st).err
      = (shape_gate_f32 (ref idx) (shapes idx) (st.mse_history idx) st.err
          st.is_data_correct).err ∧
    (gate_loop_f32 ref shapes 1 idx st).is_data_correct
      = (shape_gate_f32 (ref idx) (shapes idx) (st.mse_history idx) st.err
          st.is_data_correct).is_data_correct :=
  ⟨rfl, rfl⟩

/-- Against a constellation without any position every MSE entry is NaN, in
`float` arithmetic as in exact arithmetic. -/
theorem match_shape_f32_zero_cur (R : Int → Peak) (off : Int) (h1 : -4 ≤ off) (h2 : off ≤ 4) :
    (match_shape_f32 R zeroPeaks PEAK_LEN (fun _ => none) MSE_RANGE).1
      (off + Int.tdiv MSE_RANGE 2) = none := by
  have e9 : MSE_RANGE = 9 := rfl
  have e1 : Int.tdiv (9 : Int) 2 = 4 := by decide
  simp only [e9, e1]
  rw [match_shape_f32_mse R zeroPeaks PEAK_LEN _ off h1 h2, match_shape_entry_f32_none_iff,
    match_shape_entry_none_iff]
  intro j _ _ hj
  exact hj.2 rfl

/-- If the last of the four channels holds `dimShape` against the reference
`mainOnlyShape` and its smoothed MSE is 0, the loop over the channels ends with
`ERR_SHAPE_MISMATCH`, whatever the gates of the other channels left. -/
theorem gate_loop_f32_last_dim (ref shapes : Int → Int → Peak) (st : Flags)
    (hr : ref 3 = mainOnlyShape) (hs : shapes 3 = dimShape) (h3 : st.mse_history 3 = some 0) :
    (gate_loop_f32 ref shapes 4 0 st).err = ERR_SHAPE_MISMATCH ∧
    (gate_loop_f32 ref shapes 4 0 st).is_data_correct = false := by
  have e := gate_loop_f32_succ_last ref shapes 3 0 st
  have e3 : (0 : Int) + ((3 : Nat) : Int) = 3 := by norm_num
  rw [e3] at e
  have hh := gate_loop_f32_history ref shapes 3 0 st 3 (Or.inr (by norm_num))
  obtain ⟨a, b⟩ := gate_loop_f32_one ref shapes 3 (gate_loop_f32 ref shapes 3 0 st)
  rw [hr, hs, hh, h3, dim_gate] at a b
  rw [show (4 : Nat) = 3 + 1 from rfl, e, a, b]
  exact ⟨rfl, rfl⟩

/-- C13. NaN gate, in `float` arithmetic: for every reference and every current
constellation, if the MSE entry of some offset in `[-4, 4]` is NaN then `mse[0]`
is NaN and the shape gate of the channel sets `err = ERR_MSE_NAN` and clears
`is_data_correct`; and when this happens on one of the four channels, the loop
over the channels ends with `is_data_correct` cleared (the cycle is rejected as
a fault) and with `ERR_MSE_NAN` or `ERR_SHAPE_MISMATCH` in `err`: the mismatch
test of a later channel may overwrite the code. -/
theorem C13_nan_gate_f32 (ref shape : Int → Peak) (h : Option ℚ) (err : Int) (ok : Bool)
    (refs shapes : Int → Int → Peak) (hist : Int → Option ℚ) (idx : Int) :
    ((∃ off : Int, -4 ≤ off ∧ off ≤ 4 ∧
        (match_shape_f32 ref shape PEAK_LEN (fun _ => none) MSE_RANGE).1
          (off + Int.tdiv MSE_RANGE 2) = none) →
      (match_shape_f32 ref shape PEAK_LEN (fun _ => none) MSE_RANGE).1 0 = none ∧
      (shape_gate_f32 ref shape h err ok).is_data_correct = false ∧
      (shape_gate_f32 ref shape h err ok).err = ERR_MSE_NAN) ∧
    (0 ≤ idx → idx < 4 →
      (∃ off : Int, -4 ≤ off ∧ off ≤ 4 ∧
        (match_shape_f32 (refs idx) (shapes idx) PEAK_LEN (fun _ => none) MSE_RANGE).1
          (off + Int.tdiv MSE_RANGE 2) = none) →
      (gate_loop_f32 refs shapes 4 0
        { mse_history := hist, err := NORMAL, is_data_correct := true }).is_data_correct = false ∧
      ((gate_loop_f32 refs shapes 4 0
          { mse_history := hist, err := NORMAL, is_data_correct := true }).err = ERR_MSE_NAN ∨
        (gate_loop_f32 refs shapes 4 0
          { mse_history := hist, err := NORMAL, is_data_correct := true }).err
            = ERR_SHAPE_MISMATCH)) := by
  constructor
  · intro hex
    have h0 := match_shape_f32_nan_first ref shape hex
    obtain ⟨a, b, -⟩ := shape_gate_f32_nan ref shape h err ok h0
    exact ⟨h0, a, b⟩
  · intro i0 i4 hex
    exact gate_loop_f32_nan refs shapes 4 0 _
      ⟨idx, i0, by push_cast; omega, match_shape_f32_nan_first _ _ hex⟩

/-- C13 as amended, at the frame set `silentThenDim` with the reference
`mainOnlyShape`: channel 0 has no counted pair. -/
theorem C13_witness :
    ((match_shape_f32 mainOnlyShape zeroPeaks PEAK_LEN (fun _ => none) MSE_RANGE).1 0 = none ∧
      (shape_gate_f32 mainOnlyShape zeroPeaks (some 0) NORMAL true).is_data_correct = false ∧
      (shape_gate_f32 mainOnlyShape zeroPeaks (some 0) NORMAL true).err = ERR_MSE_NAN) ∧
    ((gate_loop_f32 (fun _ => mainOnlyShape) silentThenDim 4 0
        { mse_history := fun _ => some 0, err := NORMAL, is_data_correct := true
          }).is_data_correct = false ∧
      ((gate_loop_f32 (fun _ => mainOnlyShape) silentThenDim 4 0
          { mse_history := fun _ => some 0, err := NORMAL, is_data_correct := true }).err
            = ERR_MSE_NAN ∨
        (gate_loop_f32 (fun _ => mainOnlyShape) silentThenDim 4 0
          { mse_history := fun _ => some 0, err := NORMAL, is_data_correct := true }).err
            = ERR_SHAPE_MISMATCH)) :=
  ⟨(C13_nan_gate_f32 mainOnlyShape zeroPeaks (some 0) NORMAL true (fun _ => mainOnlyShape)
      silentThenDim (fun _ => some 0) 0).1
      ⟨3, by decide, by decide, match_shape_f32_zero_cur mainOnlyShape 3 (by decide) (by decide)⟩,
    (C13_nan_gate_f32 mainOnlyShape zeroPeaks (some 0) NORMAL true (fun _ => mainOnlyShape)
      silentThenDim (fun _ => some 0) 0).2 (le_refl _) (by decide)
      ⟨3, by decide, by decide, match_shape_f32_zero_cur mainOnlyShape 3 (by decide) (by decide)⟩⟩

/-- C13 fails as stated.  With the reference `mainOnlyShape` on every channel,
a first cycle (smoothed MSEs 0) whose channel 0 recorded no position and whose
other channels hold `dimShape`: every MSE entry of channel 0 is NaN and its gate
sets `ERR_MSE_NAN`, but the mismatch test of the later channels is true in
`float` arithmetic and the loop over the channels ends with
`err = ERR_SHAPE_MISMATCH`, not `ERR_MSE_NAN`. -/
theorem C13_counterexample :
    (match_shape_f32 mainOnlyShape (silentThenDim 0) PEAK_LEN (fun _ => none) MSE_RANGE).1 0
      = none ∧
    (shape_gate_f32 mainOnlyShape (silentThenDim 0) (some 0) NORMAL true).err = ERR_MSE_NAN ∧
    (gate_loop_f32 (fun _ => mainOnlyShape) silentThenDim 4 0
      { mse_history := fun _ => some 0, err := NORMAL, is_data_correct := true }).err
        = ERR_SHAPE_MISMATCH ∧
    (gate_loop_f32 (fun _ => mainOnlyShape) silentThenDim 4 0
      { mse_history := fun _ => some 0, err := NORMAL, is_data_correct := true }).err
        ≠ ERR_MSE_NAN := by
  have h0 : (match_shape_f32 mainOnlyShape zeroPeaks PEAK_LEN (fun _ => none) MSE_RANGE).1 0
      = none := by
    have := match_shape_f32_zero_cur mainOnlyShape (-4) (by decide) (by decide)
    exact this
  have hl := gate_loop_f32_last_dim (fun _ => mainOnlyShape) silentThenDim
    { mse_history := fun _ => some 0, err := NORMAL, is_data_correct := true } rfl rfl rfl
  have s0 : silentThenDim 0 = zeroPeaks := rfl
  rw [s0]
  refine ⟨h0, (shape_gate_f32_nan mainOnlyShape zeroPeaks (some 0) NORMAL true h0).2.1, hl.1, ?_⟩
  rw [hl.1]
  decide

/-- The mismatch test in `float` arithmetic is false when the previous smoothed
MSE `a` is at least `m / 2^20`, for `m` at least `2^-100`: the stored update is
at least `(0.9*a + 0.1*m)` less the rounding errors, which are below
`m * 2^-22`, and its product by 10 rounds to at least `m`. -/
theorem smooth_f32_bound (a m : ℚ) (ha : 0 ≤ a) (hm : 1 / 2 ^ 100 ≤ m)
    (h : m ≤ a * 2 ^ 20) :
    m ≤ f32 (f32 (f64 (f64 (f64 (9 / 10) * a) + f64 (f64 (1 / 10) * m))) * 10) := by
  rw [f64_tenth, f64_nine_tenths]
  have m0 : 0 ≤ m := le_trans (by positivity) hm
  have x1 : (0 : ℚ) ≤ 8106479329266893 / 9007199254740992 * a := by positivity
  have x2 : (0 : ℚ) ≤ 3602879701896397 / 36028797018963968 * m := by positivity
  have p1 := f64_nonneg _ x1
  have p2 := f64_nonneg _ x2
  have e1 := f64_error (8106479329266893 / 9007199254740992 * a)
  have e2 := f64_error (3602879701896397 / 36028797018963968 * m)
  rw [abs_of_nonneg x1, abs_le] at e1
  rw [abs_of_nonneg x2, abs_le] at e2
  have s0 : 0 ≤ f64 (8106479329266893 / 9007199254740992 * a)
      + f64 (3602879701896397 / 36028797018963968 * m) := add_nonneg p1 p2
  have s1 := f64_nonneg _ s0
  have e3 := f64_error (f64 (8106479329266893 / 9007199254740992 * a)
      + f64 (3602879701896397 / 36028797018963968 * m))
  rw [abs_of_nonneg s0, abs_le] at e3
  have h1 := f32_nonneg _ s1
  have e4 := f32_error (f64 (f64 (8106479329266893 / 9007199254740992 * a)
      + f64 (3602879701896397 / 36028797018963968 * m)))
  rw [abs_of_nonneg s1, abs_le] at e4
  have t0 : 0 ≤ f32 (f64 (f64 (8106479329266893 / 9007199254740992 * a)
      + f64 (3602879701896397 / 36028797018963968 * m))) * 10 := by positivity
  have e5 := f32_error (f32 (f64 (f64 (8106479329266893 / 9007199254740992 * a)
      + f64 (3602879701896397 / 36028797018963968 * m))) * 10)
  rw [abs_of_nonneg t0, abs_le] at e5
  have c1 : (1 : ℚ) / 2 ^ 1075 ≤ 1 / 2 ^ 150 := by
    apply one_div_le_one_div_of_le (by positivity)
    exact pow_le_pow_right₀ (by norm_num) (by norm_num)
  have c2 : (1 : ℚ) / 2 ^ 150 ≤ m / 2 ^ 50 := by
    have : (1 : ℚ) / 2 ^ 150 = 1 / 2 ^ 100 / 2 ^ 50 := by
      rw [div_div, ← pow_add]
    rw [this]
    exact div_le_div_of_nonneg_right hm (by positivity)
  generalize f64 (8106479329266893 / 9007199254740992 * a) = P1 at *
  generalize f64 (3602879701896397 / 36028797018963968 * m) = P2 at *
  generalize f64 (P1 + P2) = S at *
  generalize f32 S = H at *
  generalize f32 (H * 10) = T at *
  generalize (1 : ℚ) / 2 ^ 1075 = E64 at *
  generalize (1 : ℚ) / 2 ^ 150 = E32 at *
  norm_num at e1 e2 e3 e4 e5 h c2
  linarith [e1.1, e2.1, e3.1, e4.1, e5.1]

/-- The shape gate in `float` arithmetic keeps the smoothed MSE NaN or
non-negative. -/
theorem shape_gate_f32_hist (ref shape : Int → Peak) (h : Option ℚ) (err : Int) (ok : Bool)
    (hh : HistOK h) : HistOK (shape_gate_f32 ref shape h err ok).mse_history := by
  have e9 : MSE_RANGE = 9 := rfl
  have hist : (shape_gate_f32 ref shape h err ok).mse_history
      = smooth_mse_f32 h ((match_shape_f32 ref shape PEAK_LEN (fun _ => none) MSE_RANGE).1
          (match_shape_f32 ref shape PEAK_LEN (fun _ => none) MSE_RANGE).2) := by
    unfold shape_gate_f32
    dsimp only
    split_ifs <;> rfl
  rw [hist]
  rcases hh with hn | ⟨a, ha, hs⟩
  · left; rw [hn]; rfl
  · cases hm : (match_shape_f32 ref shape PEAK_LEN (fun _ => none) MSE_RANGE).1
        (match_shape_f32 ref shape PEAK_LEN (fun _ => none) MSE_RANGE).2 with
    | none => left; rw [hs]; rfl
    | some m =>
      right
      rw [hs]
      have hm0 : 0 ≤ m := by
        obtain ⟨r1, r2⟩ := arg_minf_nine_range
          (match_shape_f32 ref shape PEAK_LEN (fun _ => none) 9).1
        rw [match_shape_f32_index, e9] at hm
        have := match_shape_f32_mse ref shape PEAK_LEN (fun _ => none)
          (arg_minf (match_shape_f32 ref shape PEAK_LEN (fun _ => none) 9).1 9 - 4)
          (by omega) (by omega)
        rw [sub_add_cancel, hm] at this
        exact match_shape_entry_f32_nonneg ref shape PEAK_LEN _ m this.symm
      refine ⟨_, ?_, rfl⟩
      apply f32_nonneg
      apply f64_nonneg
      apply add_nonneg
      · apply f64_nonneg
        exact mul_nonneg (f64_nonneg _ (by norm_num)) ha
      · apply f64_nonneg
        exact mul_nonneg (f64_nonneg _ (by norm_num)) hm0

/-- The shape gate in `float` arithmetic sets `ERR_SHAPE_MISMATCH` only when
its test fires, and the test fires only on a finite MSE `m` and a finite
smoothed history `a` with `a * 2^20 < m` or `m < 2^-100`. -/
theorem shape_gate_f32_mismatch (ref shape : Int → Peak) (h : Option ℚ) (err : Int) (ok : Bool)
    (hh : HistOK h)
    (hraise : (shape_gate_f32 ref shape h err ok).err = ERR_SHAPE_MISMATCH) :
    err = ERR_SHAPE_MISMATCH ∨
    ∃ a m : ℚ, h = some a ∧
      (match_shape_f32 ref shape PEAK_LEN (fun _ => none) MSE_RANGE).1
        (match_shape_f32 ref shape PEAK_LEN (fun _ => none) MSE_RANGE).2 = some m ∧
      0 ≤ a ∧ (a * 2 ^ 20 < m ∨ m < 1 / 2 ^ 100) := by
  unfold shape_gate_f32 at hraise
  dsimp only at hraise
  by_cases hf : flt (Option.map (fun a => f32 (a * 10))
      (smooth_mse_f32 h ((match_shape_f32 ref shape PEAK_LEN (fun _ => none) MSE_RANGE).1
        (match_shape_f32 ref shape PEAK_LEN (fun _ => none) MSE_RANGE).2)))
      ((match_shape_f32 ref shape PEAK_LEN (fun _ => none) MSE_RANGE).1
        (match_shape_f32 ref shape PEAK_LEN (fun _ => none) MSE_RANGE).2) = true
  · right
    rcases hh with hn | ⟨a, ha, hs⟩
    · rw [hn] at hf
      exact absurd hf (by simp [smooth_mse_f32, flt])
    · cases hm : (match_shape_f32 ref shape PEAK_LEN (fun _ => none) MSE_RANGE).1
          (match_shape_f32 ref shape PEAK_LEN (fun _ => none) MSE_RANGE).2 with
      | none =>
        rw [hm, hs] at hf
        exact absurd hf (by simp [smooth_mse_f32, flt])
      | some m =>
        refine ⟨a, m, hs, rfl, ha, ?_⟩
        rw [hm, hs] at hf
        simp only [smooth_mse_f32, Option.map_some', flt, decide_eq_true_eq] at hf
        by_contra hcon
        rw [not_or, not_lt, not_lt] at hcon
        have := smooth_f32_bound a m ha hcon.2 hcon.1
        linarith
  · left
    rw [if_neg hf] at hraise
    dsimp only at hraise
    split_ifs at hraise with h0
    · exact absurd hraise (by decide)
    · exact hraise

/-- The loop over the channels keeps every smoothed MSE NaN or non-negative, in
`float` arithmetic. -/
theorem gate_loop_f32_hist (ref shapes : Int → Int → Peak) :
    ∀ (n : Nat) (idx : Int) (st : Flags), (∀ k, HistOK (st.mse_history k)) →
      ∀ k, HistOK ((gate_loop_f32 ref shapes n idx st).mse_history k) := by
  intro n
  induction n with
  | zero => intro idx st h; exact h
  | succ n ih =>
    intro idx st h
    rw [gate_loop_f32]
    apply ih
    intro k
    dsimp only
    by_cases hk : k = idx
    · rw [hk, Function.update_same]
      exact shape_gate_f32_hist _ _ _ _ _ (h idx)
    · rw [Function.update_noteq hk]
      exact h k

/-- The loop over the channels ends with `ERR_SHAPE_MISMATCH` only if `err` held
it before or the test of one of its channels fires, on a finite MSE `m` and a
finite smoothed history `a` with `a * 2^20 < m` or `m < 2^-100`. -/
theorem gate_loop_f32_mismatch (ref shapes : Int → Int → Peak) :
    ∀ (n : Nat) (idx : Int) (st : Flags), (∀ k, HistOK (st.mse_history k)) →
      (gate_loop_f32 ref shapes n idx st).err = ERR_SHAPE_MISMATCH →
      st.err = ERR_SHAPE_MISMATCH ∨
      ∃ (j : Int) (a m : ℚ), idx ≤ j ∧ j < idx + n ∧ st.mse_history j = some a ∧
        (match_shape_f32 (ref j) (shapes j) PEAK_LEN (fun _ => none) MSE_RANGE).1
          (match_shape_f32 (ref j) (shapes j) PEAK_LEN (fun _ => none) MSE_RANGE).2 = some m ∧
        0 ≤ a ∧ (a * 2 ^ 20 < m ∨ m < 1 / 2 ^ 100) := by
  intro n
  induction n with
  | zero => intro idx st _ h; left; exact h
  | succ n ih =>
    intro idx st hh h
    rw [gate_loop_f32] at h
    have hh2 : ∀ k, HistOK ((Function.update st.mse_history idx
        (shape_gate_f32 (ref idx) (shapes idx) (st.mse_history idx) st.err
          st.is_data_correct).mse_history) k) := by
      intro k
      by_cases hk : k = idx
      · rw [hk, Function.update_same]
        exact shape_gate_f32_hist _ _ _ _ _ (hh idx)
      · rw [Function.update_noteq hk]
        exact hh k
    rcases ih (idx + 1) _ hh2 h with h1 | ⟨j, a, m, j1, j2, j3, j4, j5, j6⟩
    · rcases shape_gate_f32_mismatch (ref idx) (shapes idx) (st.mse_history idx) st.err
          st.is_data_correct (hh idx) h1 with h2 | ⟨a, m, a1, a2, a3, a4⟩
      · left; exact h2
      · right
        exact ⟨idx, a, m, le_refl _, by push_cast; omega, a1, a2, a3, a4⟩
    · right
      dsimp only at j3
      rw [Function.update_noteq (by omega)] at j3
      exact ⟨j, a, m, by omega, by push_cast; omega, j3, j4, j5, j6⟩

/-- C25. `ERR_SHAPE_MISMATCH` in `float` arithmetic.  For every frame set and
every state of the smoothed MSEs that are NaN or non-negative (as they are from
the zero start), the loop over the four channels leaves them NaN or
non-negative, and it ends with `err = ERR_SHAPE_MISMATCH` only if the test of
line 1042 fires for some channel `j`, whose smoothed history `a` and MSE `m` are
then finite with `a * 2^20 < m` or `m < 2^-100`: the test compares `m` with ten
times the rounded update `0.9*a + 0.1*m`, which can fall below `m` by rounding
alone. -/
theorem C25_shape_mismatch_by_rounding (ref shapes : Int → Int → Peak)
    (hist : Int → Option ℚ) (hh : ∀ k, HistOK (hist k)) :
    (∀ k, HistOK ((gate_loop_f32 ref shapes 4 0
      { mse_history := hist, err := NORMAL, is_data_correct := true }).mse_history k)) ∧
    ((gate_loop_f32 ref shapes 4 0
        { mse_history := hist, err := NORMAL, is_data_correct := true }).err
          = ERR_SHAPE_MISMATCH →
      ∃ (j : Int) (a m : ℚ), 0 ≤ j ∧ j < 4 ∧ hist j = some a ∧
        (match_shape_f32 (ref j) (shapes j) PEAK_LEN (fun _ => none) MSE_RANGE).1
          (match_shape_f32 (ref j) (shapes j) PEAK_LEN (fun _ => none) MSE_RANGE).2 = some m ∧
        0 ≤ a ∧ (a * 2 ^ 20 < m ∨ m < 1 / 2 ^ 100)) := by
  refine ⟨gate_loop_f32_hist ref shapes 4 0 _ hh, ?_⟩
  intro h
  rcases gate_loop_f32_mismatch ref shapes 4 0 _ hh h with h1 | ⟨j, a, m, j1, j2, j3, j4, j5, j6⟩
  · have h2 : NORMAL = ERR_SHAPE_MISMATCH := h1
    exact absurd h2 (by decide)
  · exact ⟨j, a, m, j1, by push_cast at j2; omega, j3, j4, j5, j6⟩

/-- C25 as amended, at the first cycle (smoothed MSEs 0) on four channels that
hold `dimShape` against the reference `mainOnlyShape`: the smoothed MSEs stay
NaN or non-negative, the loop ends with `ERR_SHAPE_MISMATCH`, and a channel
whose test fired has a finite history and a finite MSE. -/
theorem C25_witness :
    (∀ k : Int, HistOK ((fun _ => some 0 : Int → Option ℚ) k)) ∧
    (∀ k, HistOK ((gate_loop_f32 (fun _ => mainOnlyShape) (fun _ => dimShape) 4 0
      { mse_history := fun _ => some 0, err := NORMAL, is_data_correct := true
        }).mse_history k)) ∧
    (∃ (j : Int) (a m : ℚ), 0 ≤ j ∧ j < 4 ∧ some 0 = some a ∧
      (match_shape_f32 mainOnlyShape dimShape PEAK_LEN (fun _ => none) MSE_RANGE).1
        (match_shape_f32 mainOnlyShape dimShape PEAK_LEN (fun _ => none) MSE_RANGE).2 = some m ∧
      0 ≤ a ∧ (a * 2 ^ 20 < m ∨ m < 1 / 2 ^ 100)) :=
  ⟨fun _ => Or.inr ⟨0, le_refl _, rfl⟩,
    (C25_shape_mismatch_by_rounding (fun _ => mainOnlyShape) (fun _ => dimShape)
      (fun _ => some 0) (fun _ => Or.inr ⟨0, le_refl _, rfl⟩)).1,
    (C25_shape_mismatch_by_rounding (fun _ => mainOnlyShape) (fun _ => dimShape)
      (fun _ => some 0) (fun _ => Or.inr ⟨0, le_refl _, rfl⟩)).2
      (gate_loop_f32_last_dim (fun _ => mainOnlyShape) (fun _ => dimShape)
        { mse_history := fun _ => some 0, err := NORMAL, is_data_correct := true }
        rfl rfl rfl).1⟩

/-- C25 fails as stated.  At the first cycle (smoothed MSEs 0) with the
reference `mainOnlyShape` (amplitude 1) and the constellation `dimShape`
(amplitude `0.9f`) on the four channels, all nine MSE entries are finite (`1`,
and `0.010000004` for offset 0), the update of line 1037 stores
`0.0010000002`, its product by 10 rounds to `0.0099999998`, and the test of
line 1042 is true: the gate sets `ERR_SHAPE_MISMATCH` and the loop over the
channels ends with it. -/
theorem C25_counterexample :
    (∀ off : Int, -4 ≤ off → off ≤ 4 →
      (match_shape_f32 mainOnlyShape dimShape PEAK_LEN (fun _ => none) MSE_RANGE).1 (off + 4)
        = if off = 0 then some (10737423 / 1073741824) else some 1) ∧
    (shape_gate_f32 mainOnlyShape dimShape (some 0) NORMAL true).err = ERR_SHAPE_MISMATCH ∧
    (shape_gate_f32 mainOnlyShape dimShape (some 0) NORMAL true).is_data_correct = false ∧
    (gate_loop_f32 (fun _ => mainOnlyShape) (fun _ => dimShape) 4 0
      { mse_history := fun _ => some 0, err := NORMAL, is_data_correct := true }).err
        = ERR_SHAPE_MISMATCH := by
  refine ⟨dim_entries, ?_, ?_, ?_⟩
  · rw [dim_gate]
  · rw [dim_gate]
  · exact (gate_loop_f32_last_dim (fun _ => mainOnlyShape) (fun _ => dimShape)
      { mse_history := fun _ => some 0, err := NORMAL, is_data_correct := true }
      rfl rfl rfl).1

/-! ### Rounded values of the sound-speed gate

The value of each rounded operation of the sound-speed gate at
`c_history = 337.44443f`, `c = 343.0f`, each from its exponent and its
significand. -/

theorem edge_h : f32 (11057379 / 32768) = 11057379 / 32768 :=
  f32_eval _ _ 8 11057379 (by norm_num) (by norm_num) (by norm_num) (by norm_num)
    (by rw [abs_lt]; constructor <;> norm_num)

theorem edge_p1 : f64 (11057379 / 32768 * (8106479329266893 / 9007199254740992)) = 5342746633253683 / 17592186044416 :=
  f64_eval _ _ 8 5342746633253683 (by norm_num) (by norm_num) (by norm_num) (by norm_num)
    (by rw [abs_lt]; constructor <;> norm_num)

theorem edge_p2 : f64 (343 * (3602879701896397 / 36028797018963968)) = 4827295850587751 / 140737488355328 :=
  f64_eval _ _ 5 4827295850587751 (by norm_num) (by norm_num) (by norm_num) (by norm_num)
    (by rw [abs_lt]; constructor <;> norm_num)

theorem edge_s : f64 (5342746633253683 / 17592186044416 + 4827295850587751 / 140737488355328) = 22151167 / 65536 :=
  f64_eval _ _ 8 5946158614577152 (by norm_num) (by norm_num) (by norm_num) (by norm_num)
    (by rw [abs_lt]; constructor <;> norm_num)

theorem edge_hist : f32 (22151167 / 65536) = 338 :=
  f32_eval_tie_up _ _ 8 11075584 (by norm_num) (by norm_num) (by norm_num) (by decide)
    (by norm_num) (by norm_num)

theorem f32_quarter : f32 (1 / 4) = 1 / 4 :=
  f32_eval _ _ (-2) 8388608 (by norm_num) (by norm_num) (by norm_num) (by norm_num)
    (by rw [abs_lt]; constructor <;> norm_num)

theorem f32_below_270 : f32 (270 - 1 / 1000000000) = 270 :=
  f32_eval _ _ 8 8847360 (by norm_num) (by norm_num) (by norm_num) (by norm_num)
    (by rw [abs_lt]; constructor <;> norm_num)

theorem f32_above_365 : f32 (365 + 1 / 1000000000) = 365 :=
  f32_eval _ _ 8 11960320 (by norm_num) (by norm_num) (by norm_num) (by norm_num)
    (by rw [abs_lt]; constructor <;> norm_num)

/-- The history stored by line 1113 in `float` arithmetic, for a history `h0`
and a sound speed `c` in `[270, 365]`: within `1/30000` of `0.9*h0 + 0.1*c`, and
in `[270, 365]` again. -/
theorem sound_hist_f32 (h0 c : ℚ) (h1 : 270 ≤ h0) (h2 : h0 ≤ 365) (c1 : 270 ≤ c)
    (c2 : c ≤ 365) :
    |f32 (f64 (f64 (h0 * f64 (9 / 10)) + f64 (c * f64 (1 / 10)))) - (9 / 10 * h0 + 1 / 10 * c)|
        ≤ 1 / 30000 ∧
    270 ≤ f32 (f64 (f64 (h0 * f64 (9 / 10)) + f64 (c * f64 (1 / 10)))) ∧
    f32 (f64 (f64 (h0 * f64 (9 / 10)) + f64 (c * f64 (1 / 10)))) ≤ 365 := by
  rw [f64_tenth, f64_nine_tenths]
  have x1 : (0 : ℚ) ≤ h0 * (8106479329266893 / 9007199254740992) := by positivity
  have x2 : (0 : ℚ) ≤ c * (3602879701896397 / 36028797018963968) := by positivity
  have p1 := f64_nonneg _ x1
  have p2 := f64_nonneg _ x2
  have e1 := f64_error (h0 * (8106479329266893 / 9007199254740992))
  have e2 := f64_error (c * (3602879701896397 / 36028797018963968))
  rw [abs_of_nonneg x1, abs_le] at e1
  rw [abs_of_nonneg x2, abs_le] at e2
  have s0 : 0 ≤ f64 (h0 * (8106479329266893 / 9007199254740992))
      + f64 (c * (3602879701896397 / 36028797018963968)) := add_nonneg p1 p2
  have s1 := f64_nonneg _ s0
  have e3 := f64_error (f64 (h0 * (8106479329266893 / 9007199254740992))
      + f64 (c * (3602879701896397 / 36028797018963968)))
  rw [abs_of_nonneg s0, abs_le] at e3
  have e4 := f32_error (f64 (f64 (h0 * (8106479329266893 / 9007199254740992))
      + f64 (c * (3602879701896397 / 36028797018963968))))
  rw [abs_of_nonneg s1, abs_le] at e4
  have c1075 : (1 : ℚ) / 2 ^ 1075 ≤ 1 / 2 ^ 150 := by
    apply one_div_le_one_div_of_le (by positivity)
    exact pow_le_pow_right₀ (by norm_num) (by norm_num)
  have c150 : (1 : ℚ) / 2 ^ 150 ≤ 1 / 2 ^ 60 := by
    apply one_div_le_one_div_of_le (by positivity)
    exact pow_le_pow_right₀ (by norm_num) (by norm_num)
  have c0 : (0 : ℚ) ≤ 1 / 2 ^ 1075 := by positivity
  have lo : 270 - 1 / 1000000000 ≤ f64 (f64 (h0 * (8106479329266893 / 9007199254740992))
      + f64 (c * (3602879701896397 / 36028797018963968))) := by
    generalize f64 (h0 * (8106479329266893 / 9007199254740992)) = P1 at *
    generalize f64 (c * (3602879701896397 / 36028797018963968)) = P2 at *
    generalize f64 (P1 + P2) = S at *
    generalize (1 : ℚ) / 2 ^ 1075 = E64 at *
    generalize (1 : ℚ) / 2 ^ 150 = E32 at *
    norm_num at e1 e2 e3 c150
    linarith [e1.1, e2.1, e3.1]
  have hi : f64 (f64 (h0 * (8106479329266893 / 9007199254740992))
      + f64 (c * (3602879701896397 / 36028797018963968))) ≤ 365 + 1 / 1000000000 := by
    generalize f64 (h0 * (8106479329266893 / 9007199254740992)) = P1 at *
    generalize f64 (c * (3602879701896397 / 36028797018963968)) = P2 at *
    generalize f64 (P1 + P2) = S at *
    generalize (1 : ℚ) / 2 ^ 1075 = E64 at *
    generalize (1 : ℚ) / 2 ^ 150 = E32 at *
    norm_num at e1 e2 e3 c150
    linarith [e1.2, e2.2, e3.2]
  have hlo := f32_mono _ _ lo
  have hhi := f32_mono _ _ hi
  rw [f32_below_270] at hlo
  rw [f32_above_365] at hhi
  refine ⟨?_, hlo, hhi⟩
  rw [abs_le]
  generalize f64 (h0 * (8106479329266893 / 9007199254740992)) = P1 at *
  generalize f64 (c * (3602879701896397 / 36028797018963968)) = P2 at *
  generalize f64 (P1 + P2) = S at *
  generalize f32 S = H at *
  generalize (1 : ℚ) / 2 ^ 1075 = E64 at *
  generalize (1 : ℚ) / 2 ^ 150 = E32 at *
  norm_num at e1 e2 e3 e4 c150 lo hi ⊢
  constructor
  · linarith [e1.1, e2.1, e3.1, e4.1]
  · linarith [e1.2, e2.2, e3.2, e4.2]

/-- A `float` difference whose exact value exceeds `b * (1 + 2^-20)` in absolute
value exceeds `b`, for `b ≥ 1`. -/
theorem f32_abs_gt (x b : ℚ) (hb : 1 ≤ b) (hx : b * (1 + 1 / 2 ^ 20) < |x|) : b < |f32 x| := by
  have e := f32_error x
  have h1 := abs_abs_sub_abs_le_abs_sub (f32 x) x
  rw [abs_le] at h1
  have c150 : (1 : ℚ) / 2 ^ 150 ≤ 1 / 2 ^ 60 := by
    apply one_div_le_one_div_of_le (by positivity)
    exact pow_le_pow_right₀ (by norm_num) (by norm_num)
  generalize |f32 x| = A at *
  generalize |f32 x - x| = D at *
  generalize |x| = X at *
  generalize (1 : ℚ) / 2 ^ 150 = E32 at *
  norm_num at e hx c150
  linarith [h1.1]

/-- A `float` difference whose exact value is at most `b * (1 - 2^-20)` in
absolute value is at most `b`, for `b ≥ 1`. -/
theorem f32_abs_le (x b : ℚ) (hb : 1 ≤ b) (hx : |x| ≤ b * (1 - 1 / 2 ^ 20)) : |f32 x| ≤ b := by
  have e := f32_error x
  have h1 := abs_abs_sub_abs_le_abs_sub (f32 x) x
  rw [abs_le] at h1
  have x0 := abs_nonneg x
  have c150 : (1 : ℚ) / 2 ^ 150 ≤ 1 / 2 ^ 60 := by
    apply one_div_le_one_div_of_le (by positivity)
    exact pow_le_pow_right₀ (by norm_num) (by norm_num)
  generalize |f32 x| = A at *
  generalize |f32 x - x| = D at *
  generalize |x| = X at *
  generalize (1 : ℚ) / 2 ^ 150 = E32 at *
  norm_num at e hx c150
  linarith [h1.2]

/-- C28. Smoothed sound-speed gate in `float` arithmetic (lines 1111-1127), for
a cycle that passed the hard check (`270 ≤ c ≤ 365`) and a history that is 0 or
in `[270, 365]`, as it is from the zero start: the stored history is in
`[270, 365]` again; the cycle is rejected when `|est_c - c| > 10.0001`, and, for
`h_prev ≠ 0`, when `0.9*|c - h_prev| > 5.0001`; for `h_prev ≠ 0` it is not
rejected when `|est_c - c| < 9.9999` and `0.9*|c - h_prev| < 4.9999`; the stored
history is within `1/30000` of `0.9*h_prev + 0.1*c` (of `c` when `h_prev = 0`)
whether the cycle is rejected or not; and when `h_prev = 0` the history test
never rejects.  Between the two margins the outcome depends on the rounding of
the stored history. -/
theorem C28_smoothed_gate_f32 (h_prev c est_c : ℚ) (hc1 : 270 ≤ c) (hc2 : c ≤ 365)
    (hh : h_prev = 0 ∨ (270 ≤ h_prev ∧ h_prev ≤ 365)) :
    (270 ≤ (sound_gate_f32 h_prev c est_c).1 ∧ (sound_gate_f32 h_prev c est_c).1 ≤ 365) ∧
    (|est_c - c| > 10 + 1 / 10000 → (sound_gate_f32 h_prev c est_c).2 = true) ∧
    (h_prev ≠ 0 → 9 / 10 * |c - h_prev| > 5 + 1 / 10000 →
      (sound_gate_f32 h_prev c est_c).2 = true) ∧
    (h_prev ≠ 0 → |est_c - c| < 10 - 1 / 10000 → 9 / 10 * |c - h_prev| < 5 - 1 / 10000 →
      (sound_gate_f32 h_prev c est_c).2 = false) ∧
    (h_prev ≠ 0 →
      |(sound_gate_f32 h_prev c est_c).1 - (9 / 10 * h_prev + 1 / 10 * c)| ≤ 1 / 30000) ∧
    (h_prev = 0 →
      |(sound_gate_f32 h_prev c est_c).1 - c| ≤ 1 / 30000 ∧
      ((sound_gate_f32 h_prev c est_c).2 = true ↔ |f32 (est_c - c)| > 10)) := by
  have hb : 270 ≤ (if h_prev = 0 then c else h_prev) ∧ (if h_prev = 0 then c else h_prev) ≤ 365 := by
    split_ifs with h0
    · exact ⟨hc1, hc2⟩
    · rcases hh with h | h
      · exact absurd h h0
      · exact h
  obtain ⟨a, b1, b2⟩ := sound_hist_f32 (if h_prev = 0 then c else h_prev) c hb.1 hb.2 hc1 hc2
  have e1 : (sound_gate_f32 h_prev c est_c).1
      = f32 (f64 (f64 ((if h_prev = 0 then c else h_prev) * f64 (9 / 10))
          + f64 (c * f64 (1 / 10)))) := rfl
  have e2 : (sound_gate_f32 h_prev c est_c).2
      = decide (|f32 (est_c - c)| > 10 ∨
          |f32 (c - f32 (f64 (f64 ((if h_prev = 0 then c else h_prev) * f64 (9 / 10))
            + f64 (c * f64 (1 / 10)))))| > 5) := rfl
  rw [e1, e2]
  generalize f32 (f64 (f64 ((if h_prev = 0 then c else h_prev) * f64 (9 / 10))
    + f64 (c * f64 (1 / 10)))) = H at a b1 b2 ⊢
  -- the exact difference `c - H` against `0.9 * (c - h0)`
  have hx : |(c - H) - 9 / 10 * (c - (if h_prev = 0 then c else h_prev))| ≤ 1 / 30000 := by
    have : (c - H) - 9 / 10 * (c - (if h_prev = 0 then c else h_prev))
        = -(H - (9 / 10 * (if h_prev = 0 then c else h_prev) + 1 / 10 * c)) := by ring
    rw [this, abs_neg]
    exact a
  have hmul : ∀ y : ℚ, |9 / 10 * y| = 9 / 10 * |y| := by
    intro y
    rw [abs_mul, abs_of_pos (by norm_num : (0 : ℚ) < 9 / 10)]
  have t1 : 9 / 10 * |c - (if h_prev = 0 then c else h_prev)| - |c - H|
      ≤ |(c - H) - 9 / 10 * (c - (if h_prev = 0 then c else h_prev))| := by
    rw [← hmul, abs_sub_comm (c - H)]
    exact abs_sub_abs_le_abs_sub _ _
  have t2 : |c - H| - 9 / 10 * |c - (if h_prev = 0 then c else h_prev)|
      ≤ |(c - H) - 9 / 10 * (c - (if h_prev = 0 then c else h_prev))| := by
    rw [← hmul]
    exact abs_sub_abs_le_abs_sub _ _
  refine ⟨⟨b1, b2⟩, ?_, ?_, ?_, ?_, ?_⟩
  · intro he
    have := f32_abs_gt (est_c - c) 10 (by norm_num) (by norm_num at he ⊢; linarith)
    exact decide_eq_true (Or.inl this)
  · intro h0 hd
    rw [if_neg h0] at hx t1 t2
    have := f32_abs_gt (c - H) 5 (by norm_num) (by norm_num at hd ⊢; linarith)
    exact decide_eq_true (Or.inr this)
  · intro h0 he hd
    rw [if_neg h0] at hx t1 t2
    have g1 := f32_abs_le (est_c - c) 10 (by norm_num) (by norm_num at he ⊢; linarith)
    have g2 := f32_abs_le (c - H) 5 (by norm_num) (by norm_num at hd ⊢; linarith)
    apply decide_eq_false
    rintro (h | h)
    · exact absurd h (not_lt.mpr g1)
    · exact absurd h (not_lt.mpr g2)
  · intro h0
    rw [if_neg h0] at a
    exact a
  · intro h0
    rw [if_pos h0] at a hx t1 t2
    constructor
    · have : 9 / 10 * c + 1 / 10 * c = c := by ring
      rw [this] at a
      exact a
    · have hx2 : |c - H| ≤ 1 / 30000 := by
        rw [sub_self, mul_zero, sub_zero] at hx
        exact hx
      have g2 := f32_abs_le (c - H) 5 (by norm_num) (by norm_num; linarith)
      rw [decide_eq_true_iff]
      constructor
      · rintro (h | h)
        · exact h
        · exact absurd h (not_lt.mpr g2)
      · exact fun h => Or.inl h

/-- C28 as amended, at `h_prev = 350`, `c = 343`, `est_c = 343.25`:
`0.9 * 7 = 6.3` exceeds `5.0001` and the cycle is rejected. -/
theorem C28_witness :
    ((270 : ℚ) ≤ 343 ∧ (343 : ℚ) ≤ 365 ∧ (270 : ℚ) ≤ 350 ∧ (350 : ℚ) ≤ 365 ∧ (350 : ℚ) ≠ 0 ∧
      9 / 10 * |(343 : ℚ) - 350| > 5 + 1 / 10000) ∧
    (sound_gate_f32 350 343 (1373 / 4)).2 = true :=
  ⟨⟨by norm_num, by norm_num, by norm_num, by norm_num, by norm_num,
      by rw [abs_of_neg (by norm_num)]; norm_num⟩,
    (C28_smoothed_gate_f32 350 343 (1373 / 4) (by norm_num) (by norm_num)
      (Or.inr ⟨by norm_num, by norm_num⟩)).2.2.1 (by norm_num)
      (by rw [abs_of_neg (by norm_num)]; norm_num)⟩

/-- C28 fails as stated.  With `c = 343.0f`, the history `h_prev = 337.44443f`
(a `float`, `11057379 * 2^-15`) and `est_c = 343.25`, `0.9*|c - h_prev|` is
`5.0000153 > 5`, but line 1113 stores `c_history = 338.0f` (the `double` sum
`337.99998474...` lies halfway between two `float`s and rounds to the even
one), `c - c_history` is `5.0`, not above 5, and `|est_c - c| = 0.25`: the cycle
is not rejected. -/
theorem C28_counterexample :
    f32 (11057379 / 32768) = 11057379 / 32768 ∧
    sound_gate_f32 (11057379 / 32768) 343 (1373 / 4) = (338, false) ∧
    9 / 10 * |(343 : ℚ) - 11057379 / 32768| > 5 ∧
    ¬ (|(1373 / 4 : ℚ) - 343| > 10) := by
  refine ⟨edge_h, ?_, ?_, ?_⟩
  · unfold sound_gate_f32
    dsimp only
    rw [if_neg (by norm_num), f64_nine_tenths, f64_tenth, edge_p1, edge_p2, edge_s, edge_hist,
      show ((343 : ℚ) - 338) = ((5 : Nat) : ℚ) by norm_num, f32_natCast 5 (by decide),
      show ((1373 / 4 : ℚ) - 343) = 1 / 4 by norm_num, f32_quarter,
      abs_of_pos (by norm_num : (0 : ℚ) < 1 / 4),
      abs_of_pos (by norm_num : (0 : ℚ) < ((5 : Nat) : ℚ))]
    norm_num
  · rw [abs_of_pos (by norm_num)]
    norm_num
  · rw [abs_of_pos (by norm_num)]
    norm_num

end Anemometer
